import Mathlib

/-! Asteria: checksum library and reference dictionary.

A shallow embedding of `asteria/src/library/checksum.cpp`,
`asteria/src/rocket/hash_table_utilities.hpp` and
`asteria/src/llds/reference_dictionary.cpp`, with theorems about the checksum
vectors, the composition of `update`, the probing origin, lookup, deletion and
the order of the list of the dictionary.

Conventions of the embedding:

* `uint32_t`, `uint64_t` and `size_t` values are natural numbers, reduced
  `% 2 ^ 32` resp. `% 2 ^ 64` wherever the C++ arithmetic wraps.
* A byte string (`V_string` used as input, `const uint8_t*` ranges) is a
  `List Nat`; reading a byte through a `uint8_t` lvalue is `b % 256`.
* A pointer into a byte range is the list of bytes starting at that address.
* The hexadecimal checksum that `finish` builds is a Lean `String`.
* A member function takes the object as its first argument and returns the
  changed object, next to its result when it has one.
* A pointer to a bucket of a hash table is the index of the bucket, counted
  from `m_stor.bptr`; `none` is the null pointer.
* A `double` that holds an integer is that integer; conversions and products
  round to 53 significant bits (`round_double`).
-/

namespace Asteria

/-! ## CRC-32 -/

/-- `CRC32_Generator<valueT, divisorT, roundT>::value`: the template recursion
runs until `roundT` reaches 8; the first argument counts the rounds left. -/
def CRC32_Generator (divisorT : Nat) : Nat → Nat → Nat
  | 0, valueT => valueT
  | n + 1, valueT =>
      CRC32_Generator divisorT n
        ((valueT >>> 1) ^^^ (((2 ^ 32 - (valueT &&& 1)) % 2 ^ 32) &&& divisorT))

/-- `do_CRC32_table<divisorT>()`: entry `S` is
`CRC32_Generator<uint8_t(S), divisorT, 0>::value` for `S` in `0..255`. -/
def do_CRC32_table (divisorT : Nat) : List Nat :=
  (List.range 256).map fun S => CRC32_Generator divisorT 8 (S % 256)

/-- The constant `s_iso3309_CRC32_table`. -/
def s_iso3309_CRC32_table : List Nat := do_CRC32_table 0xEDB88320

/-- State of a `CRC32_Hasher`: the register `m_reg`, initially `UINT32_MAX`. -/
structure CRC32_Hasher where
  m_reg : Nat := 2 ^ 32 - 1
deriving DecidableEq, Repr

/-- `CRC32_Hasher::update`. -/
def CRC32_Hasher.update (h : CRC32_Hasher) (data : List Nat) : CRC32_Hasher :=
  { m_reg := data.foldl
      (fun r b => s_iso3309_CRC32_table.getD ((r ^^^ (b % 256)) &&& 0xFF) 0 ^^^ (r >>> 8))
      h.m_reg }

/-- `CRC32_Hasher::finish`: returns the checksum `~m_reg` and the reset hasher. -/
def CRC32_Hasher.finish (h : CRC32_Hasher) : Nat × CRC32_Hasher :=
  let ck := (2 ^ 32 - 1) ^^^ h.m_reg
  (ck, { m_reg := 2 ^ 32 - 1 })

/-- `std_checksum_crc32`. -/
def std_checksum_crc32 (data : List Nat) : Nat :=
  let h : CRC32_Hasher := {}
  let h := h.update data
  h.finish.1

/-! ## FNV-1a (32-bit) -/

/-- `FNV1a32_Hasher::prime`. -/
def FNV1a32_Hasher.prime : Nat := 16777619

/-- `FNV1a32_Hasher::offset`. -/
def FNV1a32_Hasher.offset : Nat := 2166136261

/-- State of a `FNV1a32_Hasher`: the register `m_reg`, initially `offset`. -/
structure FNV1a32_Hasher where
  m_reg : Nat := FNV1a32_Hasher.offset
deriving DecidableEq, Repr

/-- `FNV1a32_Hasher::update`. -/
def FNV1a32_Hasher.update (h : FNV1a32_Hasher) (data : List Nat) : FNV1a32_Hasher :=
  { m_reg := data.foldl
      (fun r b => ((r ^^^ (b % 256)) * FNV1a32_Hasher.prime) % 2 ^ 32) h.m_reg }

/-- `FNV1a32_Hasher::finish`: returns the checksum `m_reg` and the reset hasher. -/
def FNV1a32_Hasher.finish (h : FNV1a32_Hasher) : Nat × FNV1a32_Hasher :=
  let ck := h.m_reg
  (ck, { m_reg := FNV1a32_Hasher.offset })

/-- `std_checksum_fnv1a32`. -/
def std_checksum_fnv1a32 (data : List Nat) : Nat :=
  let h : FNV1a32_Hasher := {}
  let h := h.update data
  h.finish.1

/-! ## Helpers of the chunked hashers -/

/-- `Hex_Digit<valueT>::value`: `char('0' + valueT + ((9 - valueT) >> 29))`
in `uint32_t` arithmetic. -/
def Hex_Digit (valueT : Nat) : Char :=
  Char.ofNat ((48 + valueT + (((2 ^ 32 + 9 - valueT) % 2 ^ 32) >>> 29)) % 2 ^ 32 % 256)

/-- `do_generate_hex_digits_for_byte<valueT>()`. -/
def do_generate_hex_digits_for_byte (valueT : Nat) : List Char :=
  [Hex_Digit (valueT / 16), Hex_Digit (valueT % 16)]

/-- The constant `s_hex_digits`: entry `S` holds the two digits of `uint8_t(S)`. -/
def s_hex_digits : List (List Char) :=
  (List.range 256).map fun S => do_generate_hex_digits_for_byte (S % 256)

/-- The first loop of `do_pdigits_impl`: `size` bytes of `word`, least
significant byte first. -/
def do_pdigits_impl.stor_le : Nat → Nat → List Nat
  | 0, _ => []
  | size + 1, word => (word &&& 0xFF) :: do_pdigits_impl.stor_le size (word >>> 8)

/-- `do_pdigits_impl<bigendT, uint32_t>`: appends the hexadecimal digits of the
four bytes of `ref` to `str`. -/
def do_pdigits_impl (bigendT : Bool) (str : String) (ref : Nat) : String :=
  let stor_le := do_pdigits_impl.stor_le 4 (ref % 2 ^ 64)
  if bigendT then
    stor_le.reverse.foldl (fun s b => s ++ String.mk (s_hex_digits.getD b [])) str
  else
    stor_le.foldl (fun s b => s ++ String.mk (s_hex_digits.getD b [])) str

/-- `do_pdigits_be`. -/
def do_pdigits_be (str : String) (ref : Nat) : String := do_pdigits_impl true str ref

/-- `do_pdigits_le`. -/
def do_pdigits_le (str : String) (ref : Nat) : String := do_pdigits_impl false str ref

/-- `do_load_impl<bigendT, uint32_t>`: assembles a word from the four bytes at
`ptr`. -/
def do_load_impl (bigendT : Bool) (ptr : List Nat) : Nat :=
  let stor_be := if bigendT then ptr.take 4 else (ptr.take 4).reverse
  let word := stor_be.foldl (fun word byte => ((word <<< 8) % 2 ^ 64) ||| (byte % 256)) 0
  word % 2 ^ 32

/-- `do_load_be`. -/
def do_load_be (ptr : List Nat) : Nat := do_load_impl true ptr

/-- `do_load_le`. -/
def do_load_le (ptr : List Nat) : Nat := do_load_impl false ptr

/-- `do_rotl<uint32_t>`: `bits` is a `size_t`, so `-bits` wraps modulo `2 ^ 64`. -/
def do_rotl (ref bits : Nat) : Nat :=
  (((ref <<< (bits % 32)) % 2 ^ 32) ||| (ref >>> (((2 ^ 64 - bits) % 2 ^ 64) % 32))) % 2 ^ 32

/-- `do_padd`: element-wise `lhs[i] += rhs[i]` on `uint32_t`. -/
def do_padd (lhs rhs : List Nat) : List Nat :=
  List.zipWith (fun a b => (a + b) % 2 ^ 32) lhs rhs

/-- The data members that `MD5_Hasher`, `SHA1_Hasher` and `SHA256_Hasher`
declare alike: `m_regs`, `m_size` and the 64-byte buffer `m_chunk`. -/
structure Chunk_Hasher where
  m_regs : List Nat
  m_size : Nat
  m_chunk : List Nat
deriving DecidableEq, Repr

/-- `std::copy_n(bp, n, bc)` into the buffer, with `bc` at offset `off`. -/
def copy_n (chunk : List Nat) (off : Nat) (bp : List Nat) (n : Nat) : List Nat :=
  chunk.take off ++ bp.take n ++ chunk.drop (off + n)

/-- `std::fill_n(bc, n, 0)` on the buffer, with `bc` at offset `off`. -/
def fill_n (chunk : List Nat) (off n : Nat) : List Nat :=
  chunk.take off ++ List.replicate n 0 ++ chunk.drop (off + n)

/-- The loop `while(ep - bp >= 64)` of `update`. The first argument bounds the
number of iterations; `update` passes the number of input bytes. Returns the
hasher and the advanced `bp`. -/
def Chunk_Hasher.update.loop (do_consume_chunk : List Nat → List Nat → List Nat) :
    Nat → Chunk_Hasher → List Nat → Chunk_Hasher × List Nat
  | 0, h, bp => (h, bp)
  | fuel + 1, h, bp =>
      if 64 ≤ bp.length then
        let h := { h with m_regs := do_consume_chunk h.m_regs (bp.take 64) }
        Chunk_Hasher.update.loop do_consume_chunk fuel
          { h with m_size := (h.m_size + 64) % 2 ^ 64 } (bp.drop 64)
      else (h, bp)

/-- The rest of `update` after the buffered chunk has been dealt with: the
`while` loop, then the copy of the remaining bytes to offset `bc` of the buffer. -/
def Chunk_Hasher.update.rest (do_consume_chunk : List Nat → List Nat → List Nat)
    (h : Chunk_Hasher) (bp : List Nat) (bc : Nat) : Chunk_Hasher :=
  -- Consume as many chunks as possible; don't bother copying them.
  let (h, bp) := Chunk_Hasher.update.loop do_consume_chunk bp.length h bp
  -- Append any bytes remaining to the last chunk.
  let n := bp.length
  if n ≠ 0 then
    let h := { h with m_chunk := copy_n h.m_chunk bc bp n }
    { h with m_size := (h.m_size + n) % 2 ^ 64 }
  else h

/-- The text of `update`, which is the same in `MD5_Hasher`, `SHA1_Hasher` and
`SHA256_Hasher` up to the `do_consume_chunk` that is called. -/
def Chunk_Hasher.update (do_consume_chunk : List Nat → List Nat → List Nat)
    (h : Chunk_Hasher) (data : List Nat) : Chunk_Hasher :=
  let bp := data
  let bc := h.m_size % 64
  let ec := 64
  -- If the last chunk was not empty, ...
  if bc ≠ 0 then
    -- ... append data to the last chunk, ...
    let n := min bp.length (ec - bc)
    let h := { h with m_chunk := copy_n h.m_chunk bc bp n }
    let h := { h with m_size := (h.m_size + n) % 2 ^ 64 }
    let bp := bp.drop n
    let bc := bc + n
    -- ... and if is still not full, there aren't going to be any more data.
    if bc ≠ ec then h
    else
      -- Consume the last chunk.
      let h := { h with m_regs := do_consume_chunk h.m_regs h.m_chunk }
      Chunk_Hasher.update.rest do_consume_chunk h bp 0
  else Chunk_Hasher.update.rest do_consume_chunk h bp bc

/-- The eight bytes of the bit count that `finish` writes at `bc[0..7]`:
least significant byte first for MD5 (`bigendT = false`), most significant
byte first for SHA-1 and SHA-256 (`bigendT = true`). -/
def Chunk_Hasher.finish.bits (bigendT : Bool) (bits : Nat) : List Nat :=
  let le := do_pdigits_impl.stor_le 8 bits
  if bigendT then le.reverse else le

/-- The text of `finish`, which is the same in the three classes up to
`do_consume_chunk`, the byte order of the bit count and of the digits
(`do_pdigits_le` for MD5, `do_pdigits_be` for SHA-1 and SHA-256) and `init()`.
Returns the checksum and the reset hasher. -/
def Chunk_Hasher.finish (do_consume_chunk : List Nat → List Nat → List Nat)
    (bigendT : Bool) (init : List Nat) (h : Chunk_Hasher) : String × Chunk_Hasher :=
  let bc := h.m_size % 64
  let ec := 64
  -- Append a `0x80` byte followed by zeroes.
  let h := { h with m_chunk := h.m_chunk.set bc 0x80 }
  let bc := bc + 1
  let n := ec - bc
  let (h, bc) :=
    if n < 8 then
      -- Wrap.
      let h := { h with m_chunk := fill_n h.m_chunk bc n }
      let h := { h with m_regs := do_consume_chunk h.m_regs h.m_chunk }
      (h, 0)
    else (h, bc)
  let n := ec - bc - 8
  let (h, bc) :=
    if n > 0 then
      -- Fill zeroes.
      ({ h with m_chunk := fill_n h.m_chunk bc n }, bc + n)
    else (h, bc)
  -- Write the number of bits.
  let bits := (h.m_size * 8) % 2 ^ 64
  let h := { h with m_chunk := copy_n h.m_chunk bc (Chunk_Hasher.finish.bits bigendT bits) 8 }
  let h := { h with m_regs := do_consume_chunk h.m_regs h.m_chunk }
  -- Get the checksum.
  let ck := h.m_regs.foldl (do_pdigits_impl bigendT) ""
  -- Reset internal states.
  (ck, { h with m_regs := init, m_size := 0 })

/-! ## MD5 -/

/-- `MD5_Hasher::init()`. -/
def MD5_Hasher.init : List Nat := [0x67452301, 0xEFCDAB89, 0x98BADCFE, 0x10325476]

/-- The lambda `spec0` of `MD5_Hasher::do_consume_chunk`; returns `(f, g)`. -/
def MD5_Hasher.do_consume_chunk.spec0 (i b c d : Nat) : Nat × Nat :=
  (d ^^^ (b &&& (c ^^^ d)), i)

/-- The lambda `spec1`; returns `(f, g)`. -/
def MD5_Hasher.do_consume_chunk.spec1 (i b c d : Nat) : Nat × Nat :=
  (c ^^^ (d &&& (b ^^^ c)), (5 * i + 1) % 16)

/-- The lambda `spec2`; returns `(f, g)`. -/
def MD5_Hasher.do_consume_chunk.spec2 (i b c d : Nat) : Nat × Nat :=
  (b ^^^ c ^^^ d, (3 * i + 5) % 16)

/-- The lambda `spec3`; returns `(f, g)`. `~d` is `d ^ 0xFFFFFFFF`. -/
def MD5_Hasher.do_consume_chunk.spec3 (i b c d : Nat) : Nat × Nat :=
  (c ^^^ (b ||| (d ^^^ (2 ^ 32 - 1))), (7 * i) % 16)

/-- The lambda `update` of `MD5_Hasher::do_consume_chunk`. The references
`a`, `b`, `c`, `d` are given as the indices `ia`, `ib`, `ic`, `id` into `r`. -/
def MD5_Hasher.do_consume_chunk.update (p : List Nat) (i : Nat)
    (specx : Nat → Nat → Nat → Nat → Nat × Nat) (r : List Nat)
    (ia ib ic id : Nat) (k rb : Nat) : List Nat :=
  let a := r.getD ia 0
  let b := r.getD ib 0
  let c := r.getD ic 0
  let d := r.getD id 0
  let (f, g) := specx i b c d
  let w := do_load_le (p.drop (g * 4))
  let w := (a + f + k + w) % 2 ^ 32
  r.set ia ((b + do_rotl w rb) % 2 ^ 32)

/-- `MD5_Hasher::do_consume_chunk`: the new `m_regs` from the old ones and the
64 bytes at `p`. -/
def MD5_Hasher.do_consume_chunk (m_regs : List Nat) (p : List Nat) : List Nat :=
  let update := MD5_Hasher.do_consume_chunk.update p
  let spec0 := MD5_Hasher.do_consume_chunk.spec0
  let spec1 := MD5_Hasher.do_consume_chunk.spec1
  let spec2 := MD5_Hasher.do_consume_chunk.spec2
  let spec3 := MD5_Hasher.do_consume_chunk.spec3
  -- Unroll loops by hand.
  let r := m_regs
  let r := update 0 spec0 r 0 1 2 3 0xD76AA478 7
  let r := update 1 spec0 r 3 0 1 2 0xE8C7B756 12
  let r := update 2 spec0 r 2 3 0 1 0x242070DB 17
  let r := update 3 spec0 r 1 2 3 0 0xC1BDCEEE 22
  let r := update 4 spec0 r 0 1 2 3 0xF57C0FAF 7
  let r := update 5 spec0 r 3 0 1 2 0x4787C62A 12
  let r := update 6 spec0 r 2 3 0 1 0xA8304613 17
  let r := update 7 spec0 r 1 2 3 0 0xFD469501 22
  let r := update 8 spec0 r 0 1 2 3 0x698098D8 7
  let r := update 9 spec0 r 3 0 1 2 0x8B44F7AF 12
  let r := update 10 spec0 r 2 3 0 1 0xFFFF5BB1 17
  let r := update 11 spec0 r 1 2 3 0 0x895CD7BE 22
  let r := update 12 spec0 r 0 1 2 3 0x6B901122 7
  let r := update 13 spec0 r 3 0 1 2 0xFD987193 12
  let r := update 14 spec0 r 2 3 0 1 0xA679438E 17
  let r := update 15 spec0 r 1 2 3 0 0x49B40821 22
  let r := update 16 spec1 r 0 1 2 3 0xF61E2562 5
  let r := update 17 spec1 r 3 0 1 2 0xC040B340 9
  let r := update 18 spec1 r 2 3 0 1 0x265E5A51 14
  let r := update 19 spec1 r 1 2 3 0 0xE9B6C7AA 20
  let r := update 20 spec1 r 0 1 2 3 0xD62F105D 5
  let r := update 21 spec1 r 3 0 1 2 0x02441453 9
  let r := update 22 spec1 r 2 3 0 1 0xD8A1E681 14
  let r := update 23 spec1 r 1 2 3 0 0xE7D3FBC8 20
  let r := update 24 spec1 r 0 1 2 3 0x21E1CDE6 5
  let r := update 25 spec1 r 3 0 1 2 0xC33707D6 9
  let r := update 26 spec1 r 2 3 0 1 0xF4D50D87 14
  let r := update 27 spec1 r 1 2 3 0 0x455A14ED 20
  let r := update 28 spec1 r 0 1 2 3 0xA9E3E905 5
  let r := update 29 spec1 r 3 0 1 2 0xFCEFA3F8 9
  let r := update 30 spec1 r 2 3 0 1 0x676F02D9 14
  let r := update 31 spec1 r 1 2 3 0 0x8D2A4C8A 20
  let r := update 32 spec2 r 0 1 2 3 0xFFFA3942 4
  let r := update 33 spec2 r 3 0 1 2 0x8771F681 11
  let r := update 34 spec2 r 2 3 0 1 0x6D9D6122 16
  let r := update 35 spec2 r 1 2 3 0 0xFDE5380C 23
  let r := update 36 spec2 r 0 1 2 3 0xA4BEEA44 4
  let r := update 37 spec2 r 3 0 1 2 0x4BDECFA9 11
  let r := update 38 spec2 r 2 3 0 1 0xF6BB4B60 16
  let r := update 39 spec2 r 1 2 3 0 0xBEBFBC70 23
  let r := update 40 spec2 r 0 1 2 3 0x289B7EC6 4
  let r := update 41 spec2 r 3 0 1 2 0xEAA127FA 11
  let r := update 42 spec2 r 2 3 0 1 0xD4EF3085 16
  let r := update 43 spec2 r 1 2 3 0 0x04881D05 23
  let r := update 44 spec2 r 0 1 2 3 0xD9D4D039 4
  let r := update 45 spec2 r 3 0 1 2 0xE6DB99E5 11
  let r := update 46 spec2 r 2 3 0 1 0x1FA27CF8 16
  let r := update 47 spec2 r 1 2 3 0 0xC4AC5665 23
  let r := update 48 spec3 r 0 1 2 3 0xF4292244 6
  let r := update 49 spec3 r 3 0 1 2 0x432AFF97 10
  let r := update 50 spec3 r 2 3 0 1 0xAB9423A7 15
  let r := update 51 spec3 r 1 2 3 0 0xFC93A039 21
  let r := update 52 spec3 r 0 1 2 3 0x655B59C3 6
  let r := update 53 spec3 r 3 0 1 2 0x8F0CCC92 10
  let r := update 54 spec3 r 2 3 0 1 0xFFEFF47D 15
  let r := update 55 spec3 r 1 2 3 0 0x85845DD1 21
  let r := update 56 spec3 r 0 1 2 3 0x6FA87E4F 6
  let r := update 57 spec3 r 3 0 1 2 0xFE2CE6E0 10
  let r := update 58 spec3 r 2 3 0 1 0xA3014314 15
  let r := update 59 spec3 r 1 2 3 0 0x4E0811A1 21
  let r := update 60 spec3 r 0 1 2 3 0xF7537E82 6
  let r := update 61 spec3 r 3 0 1 2 0xBD3AF235 10
  let r := update 62 spec3 r 2 3 0 1 0x2AD7D2BB 15
  let r := update 63 spec3 r 1 2 3 0 0xEB86D391 21
  do_padd m_regs r

/-- A newly constructed `MD5_Hasher`; the member `m_chunk` has no initializer,
so its contents are whatever the 64 bytes of storage held. -/
def MD5_Hasher.new (m_chunk : List Nat) : Chunk_Hasher :=
  { m_regs := MD5_Hasher.init, m_size := 0, m_chunk := m_chunk }

/-- `MD5_Hasher::update`. -/
def MD5_Hasher.update (h : Chunk_Hasher) (data : List Nat) : Chunk_Hasher :=
  Chunk_Hasher.update MD5_Hasher.do_consume_chunk h data

/-- `MD5_Hasher::finish`. -/
def MD5_Hasher.finish (h : Chunk_Hasher) : String × Chunk_Hasher :=
  Chunk_Hasher.finish MD5_Hasher.do_consume_chunk false MD5_Hasher.init h

/-- `std_checksum_md5`; `m_chunk` is the uninitialized buffer of the local hasher. -/
def std_checksum_md5 (m_chunk : List Nat) (data : List Nat) : String :=
  let h := MD5_Hasher.new m_chunk
  let h := MD5_Hasher.update h data
  (MD5_Hasher.finish h).1

/-! ## SHA-1 -/

/-- `SHA1_Hasher::init()`. -/
def SHA1_Hasher.init : List Nat :=
  [0x67452301, 0xEFCDAB89, 0x98BADCFE, 0x10325476, 0xC3D2E1F0]

/-- The lambda `spec0` of `SHA1_Hasher::do_consume_chunk`; returns `(f, k)`. -/
def SHA1_Hasher.do_consume_chunk.spec0 (b c d : Nat) : Nat × Nat :=
  (d ^^^ (b &&& (c ^^^ d)), 0x5A827999)

/-- The lambda `spec1`; returns `(f, k)`. -/
def SHA1_Hasher.do_consume_chunk.spec1 (b c d : Nat) : Nat × Nat :=
  (b ^^^ c ^^^ d, 0x6ED9EBA1)

/-- The lambda `spec2`; returns `(f, k)`. -/
def SHA1_Hasher.do_consume_chunk.spec2 (b c d : Nat) : Nat × Nat :=
  ((b &&& (c ||| d)) ||| (c &&& d), 0x8F1BBCDC)

/-- The lambda `spec3`; returns `(f, k)`. -/
def SHA1_Hasher.do_consume_chunk.spec3 (b c d : Nat) : Nat × Nat :=
  (b ^^^ c ^^^ d, 0xCA62C1D6)

/-- The lambda `update` of `SHA1_Hasher::do_consume_chunk`. The references
`a` .. `e` are given as indices into `r`; `e` and `b` are assigned. -/
def SHA1_Hasher.do_consume_chunk.update (w : List Nat) (i : Nat)
    (specx : Nat → Nat → Nat → Nat × Nat) (r : List Nat)
    (ia ib ic id ie : Nat) : List Nat :=
  let a := r.getD ia 0
  let b := r.getD ib 0
  let c := r.getD ic 0
  let d := r.getD id 0
  let e := r.getD ie 0
  let (f, k) := specx b c d
  let r := r.set ie ((e + (do_rotl a 5 + f + k + w.getD i 0) % 2 ^ 32) % 2 ^ 32)
  r.set ib (do_rotl b 30)

/-- The three loops of `SHA1_Hasher::do_consume_chunk` that initialize the
array `w` of 80 words from the 64 bytes at `p`. -/
def SHA1_Hasher.do_consume_chunk.w (p : List Nat) : List Nat :=
  let w := List.replicate 80 0
  let w := (List.range' 0 16).foldl (fun w i => w.set i (do_load_be (p.drop (i * 4)))) w
  let w := (List.range' 16 16).foldl (fun w i => w.set i
    (do_rotl (w.getD (i - 3) 0 ^^^ w.getD (i - 8) 0 ^^^ w.getD (i - 14) 0 ^^^ w.getD (i - 16) 0) 1)) w
  let w := (List.range' 32 48).foldl (fun w i => w.set i
    (do_rotl (w.getD (i - 6) 0 ^^^ w.getD (i - 16) 0 ^^^ w.getD (i - 28) 0 ^^^ w.getD (i - 32) 0) 2)) w
  w

/-- `SHA1_Hasher::do_consume_chunk`: the new `m_regs` from the old ones and the
64 bytes at `p`. -/
def SHA1_Hasher.do_consume_chunk (m_regs : List Nat) (p : List Nat) : List Nat :=
  let spec0 := SHA1_Hasher.do_consume_chunk.spec0
  let spec1 := SHA1_Hasher.do_consume_chunk.spec1
  let spec2 := SHA1_Hasher.do_consume_chunk.spec2
  let spec3 := SHA1_Hasher.do_consume_chunk.spec3
  -- Unroll loops by hand.
  let r := m_regs
  -- Initialize `w`.
  let update := SHA1_Hasher.do_consume_chunk.update (SHA1_Hasher.do_consume_chunk.w p)
  let r := update 0 spec0 r 0 1 2 3 4
  let r := update 1 spec0 r 4 0 1 2 3
  let r := update 2 spec0 r 3 4 0 1 2
  let r := update 3 spec0 r 2 3 4 0 1
  let r := update 4 spec0 r 1 2 3 4 0
  let r := update 5 spec0 r 0 1 2 3 4
  let r := update 6 spec0 r 4 0 1 2 3
  let r := update 7 spec0 r 3 4 0 1 2
  let r := update 8 spec0 r 2 3 4 0 1
  let r := update 9 spec0 r 1 2 3 4 0
  let r := update 10 spec0 r 0 1 2 3 4
  let r := update 11 spec0 r 4 0 1 2 3
  let r := update 12 spec0 r 3 4 0 1 2
  let r := update 13 spec0 r 2 3 4 0 1
  let r := update 14 spec0 r 1 2 3 4 0
  let r := update 15 spec0 r 0 1 2 3 4
  let r := update 16 spec0 r 4 0 1 2 3
  let r := update 17 spec0 r 3 4 0 1 2
  let r := update 18 spec0 r 2 3 4 0 1
  let r := update 19 spec0 r 1 2 3 4 0
  let r := update 20 spec1 r 0 1 2 3 4
  let r := update 21 spec1 r 4 0 1 2 3
  let r := update 22 spec1 r 3 4 0 1 2
  let r := update 23 spec1 r 2 3 4 0 1
  let r := update 24 spec1 r 1 2 3 4 0
  let r := update 25 spec1 r 0 1 2 3 4
  let r := update 26 spec1 r 4 0 1 2 3
  let r := update 27 spec1 r 3 4 0 1 2
  let r := update 28 spec1 r 2 3 4 0 1
  let r := update 29 spec1 r 1 2 3 4 0
  let r := update 30 spec1 r 0 1 2 3 4
  let r := update 31 spec1 r 4 0 1 2 3
  let r := update 32 spec1 r 3 4 0 1 2
  let r := update 33 spec1 r 2 3 4 0 1
  let r := update 34 spec1 r 1 2 3 4 0
  let r := update 35 spec1 r 0 1 2 3 4
  let r := update 36 spec1 r 4 0 1 2 3
  let r := update 37 spec1 r 3 4 0 1 2
  let r := update 38 spec1 r 2 3 4 0 1
  let r := update 39 spec1 r 1 2 3 4 0
  let r := update 40 spec2 r 0 1 2 3 4
  let r := update 41 spec2 r 4 0 1 2 3
  let r := update 42 spec2 r 3 4 0 1 2
  let r := update 43 spec2 r 2 3 4 0 1
  let r := update 44 spec2 r 1 2 3 4 0
  let r := update 45 spec2 r 0 1 2 3 4
  let r := update 46 spec2 r 4 0 1 2 3
  let r := update 47 spec2 r 3 4 0 1 2
  let r := update 48 spec2 r 2 3 4 0 1
  let r := update 49 spec2 r 1 2 3 4 0
  let r := update 50 spec2 r 0 1 2 3 4
  let r := update 51 spec2 r 4 0 1 2 3
  let r := update 52 spec2 r 3 4 0 1 2
  let r := update 53 spec2 r 2 3 4 0 1
  let r := update 54 spec2 r 1 2 3 4 0
  let r := update 55 spec2 r 0 1 2 3 4
  let r := update 56 spec2 r 4 0 1 2 3
  let r := update 57 spec2 r 3 4 0 1 2
  let r := update 58 spec2 r 2 3 4 0 1
  let r := update 59 spec2 r 1 2 3 4 0
  let r := update 60 spec3 r 0 1 2 3 4
  let r := update 61 spec3 r 4 0 1 2 3
  let r := update 62 spec3 r 3 4 0 1 2
  let r := update 63 spec3 r 2 3 4 0 1
  let r := update 64 spec3 r 1 2 3 4 0
  let r := update 65 spec3 r 0 1 2 3 4
  let r := update 66 spec3 r 4 0 1 2 3
  let r := update 67 spec3 r 3 4 0 1 2
  let r := update 68 spec3 r 2 3 4 0 1
  let r := update 69 spec3 r 1 2 3 4 0
  let r := update 70 spec3 r 0 1 2 3 4
  let r := update 71 spec3 r 4 0 1 2 3
  let r := update 72 spec3 r 3 4 0 1 2
  let r := update 73 spec3 r 2 3 4 0 1
  let r := update 74 spec3 r 1 2 3 4 0
  let r := update 75 spec3 r 0 1 2 3 4
  let r := update 76 spec3 r 4 0 1 2 3
  let r := update 77 spec3 r 3 4 0 1 2
  let r := update 78 spec3 r 2 3 4 0 1
  let r := update 79 spec3 r 1 2 3 4 0
  do_padd m_regs r

/-- A newly constructed `SHA1_Hasher`; `m_chunk` has no initializer. -/
def SHA1_Hasher.new (m_chunk : List Nat) : Chunk_Hasher :=
  { m_regs := SHA1_Hasher.init, m_size := 0, m_chunk := m_chunk }

/-- `SHA1_Hasher::update`. -/
def SHA1_Hasher.update (h : Chunk_Hasher) (data : List Nat) : Chunk_Hasher :=
  Chunk_Hasher.update SHA1_Hasher.do_consume_chunk h data

/-- `SHA1_Hasher::finish`. -/
def SHA1_Hasher.finish (h : Chunk_Hasher) : String × Chunk_Hasher :=
  Chunk_Hasher.finish SHA1_Hasher.do_consume_chunk true SHA1_Hasher.init h

/-- `std_checksum_sha1`; `m_chunk` is the uninitialized buffer of the local hasher. -/
def std_checksum_sha1 (m_chunk : List Nat) (data : List Nat) : String :=
  let h := SHA1_Hasher.new m_chunk
  let h := SHA1_Hasher.update h data
  (SHA1_Hasher.finish h).1

/-! ## SHA-256 -/

/-- `SHA256_Hasher::init()`. -/
def SHA256_Hasher.init : List Nat :=
  [0x6A09E667, 0xBB67AE85, 0x3C6EF372, 0xA54FF53A,
   0x510E527F, 0x9B05688C, 0x1F83D9AB, 0x5BE0CD19]

/-- The lambda `update` of `SHA256_Hasher::do_consume_chunk`. The references
`a` .. `h` are given as indices into `r`; `d` and `h` are assigned. -/
def SHA256_Hasher.do_consume_chunk.update (w : List Nat) (i : Nat) (r : List Nat)
    (ia ib ic id ie if_ ig ih : Nat) (k : Nat) : List Nat :=
  let a := r.getD ia 0
  let b := r.getD ib 0
  let c := r.getD ic 0
  let d := r.getD id 0
  let e := r.getD ie 0
  let f := r.getD if_ 0
  let g := r.getD ig 0
  let h := r.getD ih 0
  let s0 := do_rotl a 10 ^^^ do_rotl a 19 ^^^ do_rotl a 30
  let maj := (a &&& b) ||| (c &&& (a ^^^ b))
  let t2 := (s0 + maj) % 2 ^ 32
  let s1 := do_rotl e 7 ^^^ do_rotl e 21 ^^^ do_rotl e 26
  let ch := g ^^^ (e &&& (f ^^^ g))
  let t1 := (h + s1 + ch + k + w.getD i 0) % 2 ^ 32
  let r := r.set id ((d + t1) % 2 ^ 32)
  r.set ih ((t1 + t2) % 2 ^ 32)

/-- The two loops of `SHA256_Hasher::do_consume_chunk` that initialize the
array `w` of 64 words from the 64 bytes at `p`. -/
def SHA256_Hasher.do_consume_chunk.w (p : List Nat) : List Nat :=
  let w := List.replicate 64 0
  let w := (List.range' 0 16).foldl (fun w i => w.set i (do_load_be (p.drop (i * 4)))) w
  let w := (List.range' 16 48).foldl (fun w i =>
    let t1 := w.getD (i - 15) 0
    let s0 := do_rotl t1 14 ^^^ do_rotl t1 25 ^^^ (t1 >>> 3)
    let t2 := w.getD (i - 2) 0
    let s1 := do_rotl t2 13 ^^^ do_rotl t2 15 ^^^ (t2 >>> 10)
    w.set i ((w.getD (i - 16) 0 + w.getD (i - 7) 0 + s0 + s1) % 2 ^ 32)) w
  w

/-- `SHA256_Hasher::do_consume_chunk`: the new `m_regs` from the old ones and
the 64 bytes at `p`. -/
def SHA256_Hasher.do_consume_chunk (m_regs : List Nat) (p : List Nat) : List Nat :=
  -- Unroll loops by hand.
  let r := m_regs
  -- Initialize `w`.
  let update := SHA256_Hasher.do_consume_chunk.update (SHA256_Hasher.do_consume_chunk.w p)
  let r := update 0 r 0 1 2 3 4 5 6 7 0x428A2F98
  let r := update 1 r 7 0 1 2 3 4 5 6 0x71374491
  let r := update 2 r 6 7 0 1 2 3 4 5 0xB5C0FBCF
  let r := update 3 r 5 6 7 0 1 2 3 4 0xE9B5DBA5
  let r := update 4 r 4 5 6 7 0 1 2 3 0x3956C25B
  let r := update 5 r 3 4 5 6 7 0 1 2 0x59F111F1
  let r := update 6 r 2 3 4 5 6 7 0 1 0x923F82A4
  let r := update 7 r 1 2 3 4 5 6 7 0 0xAB1C5ED5
  let r := update 8 r 0 1 2 3 4 5 6 7 0xD807AA98
  let r := update 9 r 7 0 1 2 3 4 5 6 0x12835B01
  let r := update 10 r 6 7 0 1 2 3 4 5 0x243185BE
  let r := update 11 r 5 6 7 0 1 2 3 4 0x550C7DC3
  let r := update 12 r 4 5 6 7 0 1 2 3 0x72BE5D74
  let r := update 13 r 3 4 5 6 7 0 1 2 0x80DEB1FE
  let r := update 14 r 2 3 4 5 6 7 0 1 0x9BDC06A7
  let r := update 15 r 1 2 3 4 5 6 7 0 0xC19BF174
  let r := update 16 r 0 1 2 3 4 5 6 7 0xE49B69C1
  let r := update 17 r 7 0 1 2 3 4 5 6 0xEFBE4786
  let r := update 18 r 6 7 0 1 2 3 4 5 0x0FC19DC6
  let r := update 19 r 5 6 7 0 1 2 3 4 0x240CA1CC
  let r := update 20 r 4 5 6 7 0 1 2 3 0x2DE92C6F
  let r := update 21 r 3 4 5 6 7 0 1 2 0x4A7484AA
  let r := update 22 r 2 3 4 5 6 7 0 1 0x5CB0A9DC
  let r := update 23 r 1 2 3 4 5 6 7 0 0x76F988DA
  let r := update 24 r 0 1 2 3 4 5 6 7 0x983E5152
  let r := update 25 r 7 0 1 2 3 4 5 6 0xA831C66D
  let r := update 26 r 6 7 0 1 2 3 4 5 0xB00327C8
  let r := update 27 r 5 6 7 0 1 2 3 4 0xBF597FC7
  let r := update 28 r 4 5 6 7 0 1 2 3 0xC6E00BF3
  let r := update 29 r 3 4 5 6 7 0 1 2 0xD5A79147
  let r := update 30 r 2 3 4 5 6 7 0 1 0x06CA6351
  let r := update 31 r 1 2 3 4 5 6 7 0 0x14292967
  let r := update 32 r 0 1 2 3 4 5 6 7 0x27B70A85
  let r := update 33 r 7 0 1 2 3 4 5 6 0x2E1B2138
  let r := update 34 r 6 7 0 1 2 3 4 5 0x4D2C6DFC
  let r := update 35 r 5 6 7 0 1 2 3 4 0x53380D13
  let r := update 36 r 4 5 6 7 0 1 2 3 0x650A7354
  let r := update 37 r 3 4 5 6 7 0 1 2 0x766A0ABB
  let r := update 38 r 2 3 4 5 6 7 0 1 0x81C2C92E
  let r := update 39 r 1 2 3 4 5 6 7 0 0x92722C85
  let r := update 40 r 0 1 2 3 4 5 6 7 0xA2BFE8A1
  let r := update 41 r 7 0 1 2 3 4 5 6 0xA81A664B
  let r := update 42 r 6 7 0 1 2 3 4 5 0xC24B8B70
  let r := update 43 r 5 6 7 0 1 2 3 4 0xC76C51A3
  let r := update 44 r 4 5 6 7 0 1 2 3 0xD192E819
  let r := update 45 r 3 4 5 6 7 0 1 2 0xD6990624
  let r := update 46 r 2 3 4 5 6 7 0 1 0xF40E3585
  let r := update 47 r 1 2 3 4 5 6 7 0 0x106AA070
  let r := update 48 r 0 1 2 3 4 5 6 7 0x19A4C116
  let r := update 49 r 7 0 1 2 3 4 5 6 0x1E376C08
  let r := update 50 r 6 7 0 1 2 3 4 5 0x2748774C
  let r := update 51 r 5 6 7 0 1 2 3 4 0x34B0BCB5
  let r := update 52 r 4 5 6 7 0 1 2 3 0x391C0CB3
  let r := update 53 r 3 4 5 6 7 0 1 2 0x4ED8AA4A
  let r := update 54 r 2 3 4 5 6 7 0 1 0x5B9CCA4F
  let r := update 55 r 1 2 3 4 5 6 7 0 0x682E6FF3
  let r := update 56 r 0 1 2 3 4 5 6 7 0x748F82EE
  let r := update 57 r 7 0 1 2 3 4 5 6 0x78A5636F
  let r := update 58 r 6 7 0 1 2 3 4 5 0x84C87814
  let r := update 59 r 5 6 7 0 1 2 3 4 0x8CC70208
  let r := update 60 r 4 5 6 7 0 1 2 3 0x90BEFFFA
  let r := update 61 r 3 4 5 6 7 0 1 2 0xA4506CEB
  let r := update 62 r 2 3 4 5 6 7 0 1 0xBEF9A3F7
  let r := update 63 r 1 2 3 4 5 6 7 0 0xC67178F2
  do_padd m_regs r

/-- A newly constructed `SHA256_Hasher`; `m_chunk` has no initializer. -/
def SHA256_Hasher.new (m_chunk : List Nat) : Chunk_Hasher :=
  { m_regs := SHA256_Hasher.init, m_size := 0, m_chunk := m_chunk }

/-- `SHA256_Hasher::update`. -/
def SHA256_Hasher.update (h : Chunk_Hasher) (data : List Nat) : Chunk_Hasher :=
  Chunk_Hasher.update SHA256_Hasher.do_consume_chunk h data

/-- `SHA256_Hasher::finish`. -/
def SHA256_Hasher.finish (h : Chunk_Hasher) : String × Chunk_Hasher :=
  Chunk_Hasher.finish SHA256_Hasher.do_consume_chunk true SHA256_Hasher.init h

/-- `std_checksum_sha256`; `m_chunk` is the uninitialized buffer of the local hasher. -/
def std_checksum_sha256 (m_chunk : List Nat) (data : List Nat) : String :=
  let h := SHA256_Hasher.new m_chunk
  let h := SHA256_Hasher.update h data
  (SHA256_Hasher.finish h).1

/-! ## rocket/hash_table_utilities.hpp -/

/-- Number of low-order bits that do not fit the 53-bit significand of a
`double`: `0` below `2 ^ 53`, otherwise the `e` with
`2 ^ (52 + e) ≤ x < 2 ^ (53 + e)`. The first argument bounds the recursion;
`round_double` passes `x` itself. -/
def double_exponent : Nat → Nat → Nat
  | 0, _ => 0
  | fuel + 1, x => if x < 2 ^ 53 then 0 else double_exponent fuel (x / 2) + 1

/-- Conversion of a non-negative integer to the nearest `double` (IEEE 754
binary64, round to nearest, ties to even); the `double`, which is an integer
again, is given as a natural number. -/
def round_double (x : Nat) : Nat :=
  let e := double_exponent x x
  if e = 0 then x
  else
    let q := x / 2 ^ e
    let r := x % 2 ^ e
    let half := 2 ^ (e - 1)
    if half < r ∨ (r = half ∧ q % 2 = 1) then (q + 1) * 2 ^ e else q * 2 ^ e

/-- `get_probing_origin(begin, end, hval)`, with pointers given as bucket
indices. `size_t` is 64 bits wide. The `double` arithmetic is IEEE 754:
* `ratio` is `k / 2 ^ 31` for the integer `k = long(seed) & 0x7FFFFFFF`; `k` has
  31 bits, so it and its quotient by a power of two are `double`s exactly;
* `static_cast<double>(end - begin)` is `round_double (end - begin)`;
* the product of the `double`s `a` and `k / 2 ^ 31` is the `double` nearest to
  the exact product, that is `round_double (a * k) / 2 ^ 31`, since scaling by
  a power of two commutes with rounding;
* `static_cast<ptrdiff_t>` truncates. -/
def get_probing_origin (begin end_ : Nat) (hval : Nat) : Nat :=
  let seed := (hval * 0x9E3779B9) % 2 ^ 64 / 2
  let k := seed &&& 0x7FFFFFFF
  let off := round_double (round_double (end_ - begin) * k) / 2 ^ 31
  begin + off

/-- One of the two `for` loops of `linear_probe`: `cnt` buckets starting at
`bkt`. The state `s` is what the predicate may change; `live s bkt` is
`bool(*bkt)`. -/
def linear_probe.phase {σ : Type} (live : σ → Nat → Bool) (pred : Nat → σ → Bool × σ) :
    Nat → Nat → σ → Option Nat × σ
  | 0, _, s => (none, s)
  | cnt + 1, bkt, s =>
      if !live s bkt then (some bkt, s)
      else
        match pred bkt s with
        | (true, s) => (some bkt, s)
        | (false, s) => linear_probe.phase live pred cnt (bkt + 1) s

/-- `linear_probe(begin, to, from, end, pred)`, with pointers given as bucket
indices; `none` is the null pointer. -/
def linear_probe {σ : Type} (live : σ → Nat → Bool) (pred : Nat → σ → Bool × σ)
    (begin to_ from_ end_ : Nat) (s : σ) : Option Nat × σ :=
  -- Phase 1: Probe from `from` to `end`.
  match linear_probe.phase live pred (end_ - from_) from_ s with
  | (some bkt, s) => (some bkt, s)
  | (none, s) =>
      -- Phase 2: Probe from `begin` to `to`.
      linear_probe.phase live pred (to_ - begin) begin s

/-! ## llds/reference_dictionary.cpp -/

/-- Modelled from the spec: the class `PreHashed_String` is declared in a
header that is not among the sources; it is a string that carries the hash
value which `rdhash()` returns. -/
structure PreHashed_String where
  m_sth : List Nat
  m_hval : Nat
deriving DecidableEq, Repr

/-- `PreHashed_String::rdhash`. -/
def PreHashed_String.rdhash (name : PreHashed_String) : Nat := name.m_hval

/-- Modelled from the spec: `Reference_Dictionary::Bucket` is declared in
`reference_dictionary.hpp`, which is not among the sources. A bucket has the
list pointers `next` and `prev` and the storage `kstor` and `vstor` of a name
and a reference (`none` while no object is constructed there). Pointers are
bucket indices, `none` is the null pointer. `R` is the type of references. -/
structure Bucket (R : Type) where
  next : Option Nat := none
  prev : Option Nat := none
  kstor : Option PreHashed_String := none
  vstor : Option R := none

/-- Modelled from the spec: `explicit operator bool` of `Bucket`; a bucket is
in use when its `next` pointer is not null (`do_list_detach` nulls `next` and
`do_detach` then asserts `!*qbkt`). -/
def Bucket.live {R : Type} (b : Bucket R) : Bool := b.next.isSome

/-- The member `m_stor` of a `Reference_Dictionary`: `bptr i` is the bucket
`m_stor.bptr[i]`, `eptr` the index of `m_stor.eptr` (the number of buckets),
`aptr` the head of the list and `size` the number of names. -/
structure Reference_Dictionary (R : Type) where
  bptr : Nat → Bucket R
  eptr : Nat
  aptr : Option Nat
  size : Nat

/-- A table of `nbkt` buckets as `do_allocate_table` returns it (`calloc`),
with no list. -/
def Reference_Dictionary.allocated (R : Type) (nbkt : Nat) : Reference_Dictionary R :=
  { bptr := fun _ => {}, eptr := nbkt, aptr := none, size := 0 }

/-- `bool(*bkt)` for the bucket with index `bkt`. -/
def Reference_Dictionary.live {R : Type} (d : Reference_Dictionary R) (bkt : Nat) : Bool :=
  (d.bptr bkt).live

/-- An assignment through a bucket pointer, `p->field = value`; a store through
the null pointer is dropped. -/
def Reference_Dictionary.assign {R : Type} (d : Reference_Dictionary R) (p : Option Nat)
    (f : Bucket R → Bucket R) : Reference_Dictionary R :=
  match p with
  | some i => { d with bptr := Function.update d.bptr i (f (d.bptr i)) }
  | none => d

/-- `Reference_Dictionary::do_xprobe`. -/
def Reference_Dictionary.do_xprobe {R : Type} (d : Reference_Dictionary R)
    (name : PreHashed_String) : Option Nat :=
  let bptr := 0
  let eptr := d.eptr
  -- Find a bucket using linear probing.
  let mptr := get_probing_origin bptr eptr name.rdhash
  let qbkt := linear_probe Reference_Dictionary.live
    (fun r s => (decide ((s.bptr r).kstor = some name), s)) bptr mptr mptr eptr d
  qbkt.1

/-- `Reference_Dictionary::do_list_attach`. -/
def Reference_Dictionary.do_list_attach {R : Type} (d : Reference_Dictionary R) (qbkt : Nat) :
    Reference_Dictionary R :=
  let next := d.aptr
  let d := { d with aptr := some qbkt }
  -- Note the circular list.
  match next with
  | some next =>
      let prev := (d.bptr next).prev
      -- Insert the node between `prev` and `next`.
      let d := d.assign prev (fun b => { b with next := some qbkt })
      let d := d.assign (some next) (fun b => { b with prev := some qbkt })
      -- Set up pointers in `qbkt`.
      let d := d.assign (some qbkt) (fun b => { b with next := some next })
      d.assign (some qbkt) (fun b => { b with prev := prev })
  | none =>
      -- Set up the first node.
      let d := d.assign (some qbkt) (fun b => { b with next := some qbkt })
      d.assign (some qbkt) (fun b => { b with prev := some qbkt })

/-- `Reference_Dictionary::do_list_detach`. -/
def Reference_Dictionary.do_list_detach {R : Type} (d : Reference_Dictionary R) (qbkt : Nat) :
    Reference_Dictionary R :=
  let next := (d.bptr qbkt).next
  let d := d.assign (some qbkt) (fun b => { b with next := none })
  -- Note the circular list.
  if next ≠ some qbkt then
    let prev := (d.bptr qbkt).prev
    -- Remove the node from `prev` and `next`.
    let d := d.assign prev (fun b => { b with next := next })
    let d := d.assign next (fun b => { b with prev := prev })
    -- Make `aptr` point to some valid bucket, should it equal `qbkt`.
    { d with aptr := next }
  else
    -- Remove the last node.
    { d with aptr := none }

/-- The lambda that `do_xrelocate_but` passes to `linear_probe`: relocates the
bucket `qbkt` and returns `false`. -/
def Reference_Dictionary.do_xrelocate_but.relocate {R : Type} (qbkt : Nat)
    (d : Reference_Dictionary R) : Bool × Reference_Dictionary R :=
  let bptr := 0
  let eptr := d.eptr
  -- Move the old name and reference out, then destroy the bucket.
  match (d.bptr qbkt).kstor, (d.bptr qbkt).vstor with
  | some name, some refr =>
      let d := d.assign (some qbkt) (fun b => { b with kstor := none })
      let d := d.assign (some qbkt) (fun b => { b with vstor := none })
      let d := d.do_list_detach qbkt
      -- Find a new bucket for the name using linear probing.
      let mptr := get_probing_origin bptr eptr name.rdhash
      let qbkt := (linear_probe Reference_Dictionary.live (fun _ s => (false, s))
        bptr mptr mptr eptr d).1
      match qbkt with
      | some qbkt =>
          -- Insert the reference into the new bucket.
          let d := d.do_list_attach qbkt
          let d := d.assign (some qbkt) (fun b => { b with kstor := some name })
          let d := d.assign (some qbkt) (fun b => { b with vstor := some refr })
          -- Keep probing until an empty bucket is found.
          (false, d)
      | none => (false, d)
  | _, _ => (false, d)

/-- `Reference_Dictionary::do_xrelocate_but`. -/
def Reference_Dictionary.do_xrelocate_but {R : Type} (d : Reference_Dictionary R)
    (qxcld : Nat) : Reference_Dictionary R :=
  let bptr := 0
  let eptr := d.eptr
  -- Reallocate buckets that follow `*qbkt`.
  (linear_probe Reference_Dictionary.live Reference_Dictionary.do_xrelocate_but.relocate
    bptr qxcld (qxcld + 1) eptr d).2

/-- `Reference_Dictionary::do_attach`; the reference is default-constructed. -/
def Reference_Dictionary.do_attach {R : Type} [Inhabited R] (d : Reference_Dictionary R)
    (qbkt : Nat) (name : PreHashed_String) : Reference_Dictionary R :=
  -- Construct the node, then attach it.
  let d := d.do_list_attach qbkt
  let d := d.assign (some qbkt) (fun b => { b with kstor := some name })
  let d := d.assign (some qbkt) (fun b => { b with vstor := some default })
  { d with size := d.size + 1 }

/-- `Reference_Dictionary::do_detach`. -/
def Reference_Dictionary.do_detach {R : Type} (d : Reference_Dictionary R) (qbkt : Nat) :
    Reference_Dictionary R :=
  -- Destroy the old name and reference, then detach the bucket.
  let d := { d with size := d.size - 1 }
  let d := d.assign (some qbkt) (fun b => { b with kstor := none })
  let d := d.assign (some qbkt) (fun b => { b with vstor := none })
  let d := d.do_list_detach qbkt
  -- Relocate nodes that follow `qbkt`, if any.
  d.do_xrelocate_but qbkt

/-- The `do ... while(next != origin)` loop of `enumerate_variables`; `acc`
lists the buckets whose reference has been enumerated so far. The first
argument bounds the number of iterations; `none` is returned when it does not
suffice or when a null pointer would be followed. -/
def Reference_Dictionary.enumerate_variables.loop {R : Type} (d : Reference_Dictionary R)
    (origin : Nat) : Nat → Option Nat → List Nat → Option (List Nat)
  | 0, _, _ => none
  | _ + 1, none, _ => none
  | fuel + 1, some qbkt, acc =>
      let next := (d.bptr qbkt).next
      -- Enumerate child variables.
      let acc := acc ++ [qbkt]
      -- Stop if the head is encountered a second time, as the linked list is circular.
      if next ≠ some origin then
        Reference_Dictionary.enumerate_variables.loop d origin fuel next acc
      else some acc

/-- `Reference_Dictionary::enumerate_variables`: the buckets whose references
are passed to the callback, in the order of the calls. -/
def Reference_Dictionary.enumerate_variables {R : Type} (d : Reference_Dictionary R)
    (fuel : Nat) : Option (List Nat) :=
  match d.aptr with
  | some origin => Reference_Dictionary.enumerate_variables.loop d origin fuel (some origin) []
  | none => some []

/-! ## Exceptions with a backtrace -/

/-- Modelled from the spec: `Source_Location` is declared in
`syntax/source_location.hpp`, which is not among the sources; the constructor
call `m_loc("<native code>", 0)` gives it a file name and a line. -/
structure Source_Location where
  m_file : String
  m_line : Nat
deriving DecidableEq, Repr

/-- `Traceable_Exception`: the data members `m_loc`, `m_value` and
`m_backtrace`. The class `Value` is a parameter. -/
structure Traceable_Exception (Value : Type) where
  m_loc : Source_Location
  m_value : Value
  m_backtrace : List Source_Location

/-- `Traceable_Exception(const Source_Location &loc, XvalueT &&value)`: the
member `m_backtrace` has no initializer and starts empty. -/
def Traceable_Exception.new {Value : Type} (loc : Source_Location) (value : Value) :
    Traceable_Exception Value :=
  { m_loc := loc, m_value := value, m_backtrace := [] }

/-- `Traceable_Exception(const std::exception &stdex)`; `D_string` is the
conversion of a string to a `Value` and `what` is `stdex.what()`. -/
def Traceable_Exception.of_exception {Value : Type} (D_string : String → Value)
    (what : String) : Traceable_Exception Value :=
  { m_loc := { m_file := "<native code>", m_line := 0 }, m_value := D_string what,
    m_backtrace := [] }

/-- `Traceable_Exception::get_location`. -/
def Traceable_Exception.get_location {Value : Type} (e : Traceable_Exception Value) :
    Source_Location := e.m_loc

/-- `Traceable_Exception::get_value`. -/
def Traceable_Exception.get_value {Value : Type} (e : Traceable_Exception Value) : Value :=
  e.m_value

/-- `Traceable_Exception::get_backtrace`. -/
def Traceable_Exception.get_backtrace {Value : Type} (e : Traceable_Exception Value) :
    List Source_Location := e.m_backtrace

/-- `Traceable_Exception::append_backtrace`: `m_backtrace.emplace_back(loc)`. -/
def Traceable_Exception.append_backtrace {Value : Type} (e : Traceable_Exception Value)
    (loc : Source_Location) : Traceable_Exception Value :=
  { e with m_backtrace := e.m_backtrace ++ [loc] }

/-! ## The collector of three generations -/

/-- The data members of a `Genius_Collector`, which the pointers handed to the
three collectors refer to. -/
inductive Genius_Collector.Member
  | m_pool | m_oldest | m_middle | m_newest
deriving DecidableEq, Repr

/-- Modelled from the spec: `Collector` is declared in `collector.hpp`, which is
not among the sources. Its constructor is called with the pool that it outputs
to, the collector that it is tied to (null for none) and its threshold. The
pointers are given as the members of the enclosing object that they address. -/
structure Collector where
  m_output_opt : Option Genius_Collector.Member
  m_tied_opt : Option Genius_Collector.Member
  m_threshold : Nat
deriving DecidableEq, Repr

/-- `Genius_Collector`: the pool (here the list of the variables in it) and the
three collectors. -/
structure Genius_Collector where
  m_pool : List Nat
  m_oldest : Collector
  m_middle : Collector
  m_newest : Collector
deriving DecidableEq, Repr

/-- `Genius_Collector::Genius_Collector()`. -/
def Genius_Collector.new : Genius_Collector :=
  { m_pool := [],
    m_oldest := { m_output_opt := some .m_pool, m_tied_opt := none, m_threshold := 10 },
    m_middle := { m_output_opt := some .m_pool, m_tied_opt := some .m_oldest, m_threshold := 60 },
    m_newest := { m_output_opt := some .m_pool, m_tied_opt := some .m_middle,
                  m_threshold := 800 } }


/-! ## Tokens and the token stream -/

/-- Modelled from the spec: `Token::Keyword` is declared in `token.hpp`, which is
not among the sources; these are the keywords that the specification lists,
under the names that `parser.cpp` uses. -/
inductive Token.Keyword
  | keyword_var | keyword_const | keyword_func | keyword_if | keyword_else
  | keyword_switch | keyword_case | keyword_default | keyword_do | keyword_while
  | keyword_for | keyword_each | keyword_break | keyword_continue
  | keyword_throw | keyword_return | keyword_try | keyword_catch
  | keyword_import | keyword_export
deriving DecidableEq, Repr

/-- Modelled from the spec: `Token::Punctuator` (`token.hpp`). The punctuators
that `parser.cpp` names, and `punctuator_other` for any of the rest. -/
inductive Token.Punctuator
  | punctuator_semicol | punctuator_brace_op | punctuator_brace_cl | punctuator_comma
  | punctuator_assign | punctuator_parenth_op | punctuator_parenth_cl | punctuator_colon
  | punctuator_other (code : Nat)
deriving DecidableEq, Repr

/-- Modelled from the spec: the alternatives of a `Token` (`token.hpp`):
`S_keyword`, `S_punctuator`, `S_identifier` and `S_string_literal` as
`parser.cpp` reads them, and the two numeric literals. -/
inductive Token.Variant
  | S_keyword (keyword : Token.Keyword)
  | S_punctuator (punct : Token.Punctuator)
  | S_identifier (name : String)
  | S_integer_literal (value : Int)
  | S_real_literal (value : Nat)
  | S_string_literal (value : String)
deriving DecidableEq, Repr

/-- Modelled from the spec: a `Token` (`token.hpp`) knows its file, line,
offset and length, which `get_file()`, `get_line()`, `get_offset()` and
`get_length()` return. -/
structure Token where
  m_file : String
  m_line : Nat
  m_offset : Nat
  m_length : Nat
  m_stor : Token.Variant
deriving DecidableEq, Repr

/-- `Token::get_file`. -/
def Token.get_file (t : Token) : String := t.m_file

/-- `Token::get_line`. -/
def Token.get_line (t : Token) : Nat := t.m_line

/-- `Token::get_offset`. -/
def Token.get_offset (t : Token) : Nat := t.m_offset

/-- `Token::get_length`. -/
def Token.get_length (t : Token) : Nat := t.m_length

/-- Modelled from the spec: a `Token_stream` (declared in `token_stream.hpp`,
whose member functions are defined outside the sources) holds the tokens that
have not been consumed, the next one first. -/
abbrev Token_stream : Type := List Token

/-- `Token_stream::empty`. -/
def Token_stream.empty (toks : Token_stream) : Bool := toks.isEmpty

/-- `Token_stream::peek_opt`: the next token, or null. -/
def Token_stream.peek_opt (toks : Token_stream) : Option Token := toks.head?

/-- `Token_stream::shift`: drops the next token. -/
def Token_stream.shift (toks : Token_stream) : Token_stream := toks.tail

/-! ## Results of the parser -/

/-- Modelled from the spec: `Parser_result::Error` (`parser_result.hpp`, not
among the sources): `error_success` and the errors that `parser.cpp` raises. -/
inductive Parser_result.Error
  | error_success
  | error_identifier_expected
  | error_semicolon_expected
  | error_string_literal_expected
  | error_close_brace_or_statement_expected
  | error_expression_expected
  | error_equals_sign_expected
  | error_open_parenthesis_expected
  | error_close_parenthesis_expected
  | error_statement_expected
  | error_open_brace_expected
  | error_colon_expected
  | error_close_brace_or_switch_clause_expected
  | error_keyword_while_expected
  | error_comma_expected
  | error_for_statement_initializer_expected
  | error_keyword_catch_expected
deriving DecidableEq, Repr

/-- Modelled from the spec: `Parser_result(line, offset, length, error)`. -/
structure Parser_result where
  m_line : Nat
  m_offset : Nat
  m_length : Nat
  m_error : Parser_result.Error
deriving DecidableEq, Repr

/-- `Parser_result::get_error`. -/
def Parser_result.get_error (r : Parser_result) : Parser_result.Error := r.m_error

/-! ## The syntax tree -/

/-- Modelled from the spec: `Statement::Target` (`statement.hpp`). -/
inductive Statement.Target
  | target_unspec | target_switch | target_while | target_for
deriving DecidableEq, Repr

/-- Modelled from the spec: an `Expression` is a sequence of nodes; the parser
at hand never fills one in, so the nodes are left as numbers. -/
structure Expression where
  m_nodes : List Nat := []
deriving DecidableEq, Repr

/-- Modelled from the spec: the alternatives of a `Statement`
(`statement.hpp`), with the fields in the order in which `parser.cpp`
initializes them. A `Block` is a vector of statements. -/
inductive Statement
  | S_export (name : String)
  | S_import (path : String)
  | S_block (block : List Statement)
  | S_null
  | S_var_def (name : String) (immutable : Bool) (init : Expression)
  | S_func_def (file : String) (line : Nat) (name : String) (params : List String)
      (body : List Statement)
  | S_expr (expr : Expression)
  | S_if (cond : Expression) (branch_true : List Statement) (branch_false : List Statement)
  | S_switch (ctrl : Expression) (clauses : List (Expression × List Statement))
  | S_while (has_do : Bool) (cond : Expression) (body : List Statement)
  | S_for (init : List Statement) (cond : Expression) (step : Expression)
      (body : List Statement)
  | S_for_each (key_name : String) (mapped_name : String) (range_init : Expression)
      (body : List Statement)
  | S_break (target : Statement.Target)
  | S_continue (target : Statement.Target)
  | S_throw (expr : Expression)
  | S_return (expr : Expression)
  | S_try (body_try : List Statement) (except_name : String) (body_catch : List Statement)

/-- `Block`. -/
abbrev Block : Type := List Statement

/-- Modelled from the spec: a default-constructed `Statement` (as in
`Statement init_stmt;`), taken to be the null statement. The parser stores it
only for a ranged `for` whose key name is the empty string. -/
def Statement.default_constructed : Statement := Statement.S_null

/-! ## Outcomes of an acceptor -/

/-- What a `do_match_*` or `do_accept_*` function does: it returns `true` with
its output argument set, returns `false`, or throws a `Parser_result`; each
time `toks_io` is the token stream that it leaves. `fuel_out` says that the
bound given to a loop or to the recursion was reached. -/
inductive Accept (α : Type)
  | accepted (out : α) (toks_io : Token_stream)
  | rejected (toks_io : Token_stream)
  | thrown (e : Parser_result) (toks_io : Token_stream)
  | fuel_out

/-- `do_make_parser_result`. -/
def do_make_parser_result (toks_io : Token_stream) (error : Parser_result.Error) :
    Parser_result :=
  match toks_io.peek_opt with
  | none => { m_line := 0, m_offset := 0, m_length := 0, m_error := error }
  | some qtok =>
      { m_line := qtok.get_line, m_offset := qtok.get_offset, m_length := qtok.get_length,
        m_error := error }

/-- What follows a call that returned `true`: `k` gets the output argument and
the token stream. A `false` or an exception ends the calling function. -/
def Accept.andThen {α β : Type} (r : Accept α) (k : α → Token_stream → Accept β) : Accept β :=
  match r with
  | .accepted out toks_io => k out toks_io
  | .rejected toks_io => .rejected toks_io
  | .thrown e toks_io => .thrown e toks_io
  | .fuel_out => .fuel_out

/-- The statement
`if(f(..., toks_io) == false) { throw do_make_parser_result(toks_io, error); }`
after the call `r` of `f`. -/
def Accept.orThrow {α : Type} (r : Accept α) (error : Parser_result.Error) : Accept α :=
  match r with
  | .accepted out toks_io => .accepted out toks_io
  | .rejected toks_io => .thrown (do_make_parser_result toks_io error) toks_io
  | .thrown e toks_io => .thrown e toks_io
  | .fuel_out => .fuel_out

/-- The expression `f(..., toks_io) || g(..., toks_io)` after the call `r` of `f`. -/
def Accept.orElse {α : Type} (r : Accept α) (g : Token_stream → Accept α) : Accept α :=
  match r with
  | .accepted out toks_io => .accepted out toks_io
  | .rejected toks_io => g toks_io
  | .thrown e toks_io => .thrown e toks_io
  | .fuel_out => .fuel_out

/-- The statement `if(f(..., toks_io)) { ... } else { ... }` after the call `r`
of `f`, with the two branches. -/
def Accept.ifElse {α β : Type} (r : Accept α) (k_true k_false : Token_stream → Accept β) :
    Accept β :=
  match r with
  | .accepted _ toks_io => k_true toks_io
  | .rejected toks_io => k_false toks_io
  | .thrown e toks_io => .thrown e toks_io
  | .fuel_out => .fuel_out

/-- A call whose result is not looked at, as in
`do_accept_expression(step, toks_io);`: after a `false` the calling function
goes on with `out`, which is what the output argument held before the call. -/
def Accept.ignored {α : Type} (r : Accept α) (out : α) : Accept α :=
  match r with
  | .accepted out1 toks_io => .accepted out1 toks_io
  | .rejected toks_io => .accepted out toks_io
  | .thrown e toks_io => .thrown e toks_io
  | .fuel_out => .fuel_out

/-- A loop `for(;;) { if(body(out, toks_io) == false) { break; } outs.emplace_back(out); }`
(or `while(body(out, toks_io)) { outs.emplace_back(out); }`): `body` is run
until it returns `false`. The first argument bounds the number of iterations;
the callers pass one more than the number of tokens left. -/
def Accept.loop {α : Type} (body : Token_stream → Accept α) :
    Nat → List α → Token_stream → Accept (List α)
  | 0, _, _ => .fuel_out
  | fuel + 1, outs, toks_io =>
      match body toks_io with
      | .accepted out toks_io => Accept.loop body fuel (outs ++ [out]) toks_io
      | .rejected toks_io => .accepted outs toks_io
      | .thrown e toks_io => .thrown e toks_io
      | .fuel_out => .fuel_out

/-! ## The parser -/

/-- `do_match_keyword`. -/
def do_match_keyword (toks_io : Token_stream) (keyword : Token.Keyword) : Accept Unit :=
  match toks_io.peek_opt with
  | none => .rejected toks_io
  | some qtok =>
      match qtok.m_stor with
      | .S_keyword kw =>
          if kw ≠ keyword then .rejected toks_io
          else .accepted () toks_io.shift
      | _ => .rejected toks_io

/-- `do_match_punctuator`. -/
def do_match_punctuator (toks_io : Token_stream) (punct : Token.Punctuator) : Accept Unit :=
  match toks_io.peek_opt with
  | none => .rejected toks_io
  | some qtok =>
      match qtok.m_stor with
      | .S_punctuator p =>
          if p ≠ punct then .rejected toks_io
          else .accepted () toks_io.shift
      | _ => .rejected toks_io

/-- `do_accept_identifier`. -/
def do_accept_identifier (toks_io : Token_stream) : Accept String :=
  match toks_io.peek_opt with
  | none => .rejected toks_io
  | some qtok =>
      match qtok.m_stor with
      | .S_identifier name => .accepted name toks_io.shift
      | _ => .rejected toks_io

/-- `do_match_string_literal`. -/
def do_match_string_literal (toks_io : Token_stream) : Accept String :=
  match toks_io.peek_opt with
  | none => .rejected toks_io
  | some qtok =>
      match qtok.m_stor with
      | .S_string_literal value => .accepted value toks_io.shift
      | _ => .rejected toks_io

/-- `do_accept_export_directive`. -/
def do_accept_export_directive (toks_io : Token_stream) : Accept Statement :=
  (do_match_keyword toks_io .keyword_export).andThen fun _ toks_io =>
  ((do_accept_identifier toks_io).orThrow .error_identifier_expected).andThen fun name toks_io =>
  ((do_match_punctuator toks_io .punctuator_semicol).orThrow
    .error_semicolon_expected).andThen fun _ toks_io =>
  .accepted (.S_export name) toks_io

/-- `do_accept_import_directive`. -/
def do_accept_import_directive (toks_io : Token_stream) : Accept Statement :=
  (do_match_keyword toks_io .keyword_import).andThen fun _ toks_io =>
  ((do_match_string_literal toks_io).orThrow
    .error_string_literal_expected).andThen fun path toks_io =>
  ((do_match_punctuator toks_io .punctuator_semicol).orThrow
    .error_semicolon_expected).andThen fun _ toks_io =>
  .accepted (.S_import path) toks_io

/-- The two instances of the template `do_accept_statement`, which is declared
ahead of its definition: with a `Statement` and with a `Block` as the sink.
The functions that call it take the pair as `accept`. -/
structure Statement_Acceptors where
  to_statement : Token_stream → Accept Statement
  to_block : Token_stream → Accept Block

/-- `do_accept_block(Block &block_out, Token_stream &toks_io)`. -/
def do_accept_block (accept : Statement_Acceptors) (toks_io : Token_stream) : Accept Block :=
  (do_match_punctuator toks_io .punctuator_brace_op).andThen fun _ toks_io =>
  (Accept.loop accept.to_statement (toks_io.length + 1) [] toks_io).andThen fun stmts toks_io =>
  ((do_match_punctuator toks_io .punctuator_brace_cl).orThrow
    .error_close_brace_or_statement_expected).andThen fun _ toks_io =>
  .accepted stmts toks_io

/-- `do_accept_block(Statement &stmt_out, Token_stream &toks_io)`. -/
def do_accept_block_statement (accept : Statement_Acceptors) (toks_io : Token_stream) :
    Accept Statement :=
  (do_accept_block accept toks_io).andThen fun block toks_io =>
  .accepted (.S_block block) toks_io

/-- `do_accept_null_statement`. -/
def do_accept_null_statement (toks_io : Token_stream) : Accept Statement :=
  (do_match_punctuator toks_io .punctuator_semicol).andThen fun _ toks_io =>
  .accepted .S_null toks_io

/-- `do_tell_source_location`; returns `(file_out, line_out)`. -/
def do_tell_source_location (file_out : String) (line_out : Nat) (toks_io : Token_stream) :
    String × Nat :=
  match toks_io.peek_opt with
  | none => (file_out, line_out)
  | some qtok => (qtok.get_file, qtok.get_line)

/-- `do_accept_identifier_list`. -/
def do_accept_identifier_list (toks_io : Token_stream) : Accept (List String) :=
  (do_accept_identifier toks_io).andThen fun name toks_io =>
  Accept.loop
    (fun toks_io =>
      (do_match_punctuator toks_io .punctuator_comma).andThen fun _ toks_io =>
      (do_accept_identifier toks_io).orThrow .error_identifier_expected)
    (toks_io.length + 1) [name] toks_io

/-- `do_accept_expression` (which the source marks `TODO`): it takes one token
that is neither a keyword nor a punctuator and leaves `expr_out` as it is. -/
def do_accept_expression (expr_out : Expression) (toks_io : Token_stream) : Accept Expression :=
  match toks_io.peek_opt with
  | none => .rejected toks_io
  | some qk =>
      match qk.m_stor with
      | .S_keyword _ => .rejected toks_io
      | .S_punctuator _ => .rejected toks_io
      | _ => .accepted expr_out toks_io.shift

/-- `do_accept_variable_definition`. -/
def do_accept_variable_definition (toks_io : Token_stream) : Accept Statement :=
  (do_match_keyword toks_io .keyword_var).andThen fun _ toks_io =>
  ((do_accept_identifier toks_io).orThrow .error_identifier_expected).andThen fun name toks_io =>
  let init : Expression := {}
  ((do_match_punctuator toks_io .punctuator_assign).ifElse
    (fun toks_io => (do_accept_expression init toks_io).orThrow .error_expression_expected)
    (fun toks_io => .accepted init toks_io)).andThen fun init toks_io =>
  ((do_match_punctuator toks_io .punctuator_semicol).orThrow
    .error_semicolon_expected).andThen fun _ toks_io =>
  .accepted (.S_var_def name false init) toks_io

/-- `do_accept_immutable_variable_definition`. -/
def do_accept_immutable_variable_definition (toks_io : Token_stream) : Accept Statement :=
  (do_match_keyword toks_io .keyword_const).andThen fun _ toks_io =>
  ((do_accept_identifier toks_io).orThrow .error_identifier_expected).andThen fun name toks_io =>
  ((do_match_punctuator toks_io .punctuator_assign).orThrow
    .error_equals_sign_expected).andThen fun _ toks_io =>
  let init : Expression := {}
  ((do_accept_expression init toks_io).orThrow
    .error_expression_expected).andThen fun init toks_io =>
  ((do_match_punctuator toks_io .punctuator_semicol).orThrow
    .error_semicolon_expected).andThen fun _ toks_io =>
  .accepted (.S_var_def name true init) toks_io

/-- `do_accept_function_definition`. -/
def do_accept_function_definition (accept : Statement_Acceptors) (toks_io : Token_stream) :
    Accept Statement :=
  -- Copy these parameters before reading from the stream which is destructive.
  let (file, line) := do_tell_source_location "" 0 toks_io
  (do_match_keyword toks_io .keyword_func).andThen fun _ toks_io =>
  ((do_accept_identifier toks_io).orThrow .error_identifier_expected).andThen fun name toks_io =>
  ((do_match_punctuator toks_io .punctuator_parenth_op).orThrow
    .error_open_parenthesis_expected).andThen fun _ toks_io =>
  ((do_accept_identifier_list toks_io).ignored []).andThen fun params toks_io =>
  ((do_match_punctuator toks_io .punctuator_parenth_cl).orThrow
    .error_close_parenthesis_expected).andThen fun _ toks_io =>
  ((accept.to_block toks_io).orThrow .error_statement_expected).andThen fun body toks_io =>
  .accepted (.S_func_def file line name params body) toks_io

/-- `do_accept_expression_statement`. -/
def do_accept_expression_statement (toks_io : Token_stream) : Accept Statement :=
  let expr : Expression := {}
  (do_accept_expression expr toks_io).andThen fun expr toks_io =>
  ((do_match_punctuator toks_io .punctuator_semicol).orThrow
    .error_semicolon_expected).andThen fun _ toks_io =>
  .accepted (.S_expr expr) toks_io

/-- `do_accept_if_statement`. -/
def do_accept_if_statement (accept : Statement_Acceptors) (toks_io : Token_stream) :
    Accept Statement :=
  (do_match_keyword toks_io .keyword_if).andThen fun _ toks_io =>
  let cond : Expression := {}
  ((do_match_punctuator toks_io .punctuator_parenth_op).orThrow
    .error_open_parenthesis_expected).andThen fun _ toks_io =>
  ((do_accept_expression cond toks_io).orThrow
    .error_expression_expected).andThen fun cond toks_io =>
  ((do_match_punctuator toks_io .punctuator_parenth_cl).orThrow
    .error_close_parenthesis_expected).andThen fun _ toks_io =>
  ((accept.to_block toks_io).orThrow .error_statement_expected).andThen fun branch_true toks_io =>
  let branch_false : Block := []
  ((do_match_keyword toks_io .keyword_else).ifElse
    (fun toks_io => (accept.to_block toks_io).orThrow .error_statement_expected)
    (fun toks_io => .accepted branch_false toks_io)).andThen fun branch_false toks_io =>
  .accepted (.S_if cond branch_true branch_false) toks_io

/-- One turn of the outer loop `for(;;)` of `do_accept_switch_statement`: it
returns `false` where the loop is left by `break`, and the clause otherwise. -/
def do_accept_switch_statement.clause (accept : Statement_Acceptors) (toks_io : Token_stream) :
    Accept (Expression × Block) :=
  let cond : Expression := {}
  ((do_match_keyword toks_io .keyword_default).ifElse
    (fun toks_io => .accepted cond toks_io)
    (fun toks_io =>
      (do_match_keyword toks_io .keyword_case).andThen fun _ toks_io =>
      (do_accept_expression cond toks_io).orThrow .error_expression_expected)).andThen
    fun cond toks_io =>
  ((do_match_punctuator toks_io .punctuator_colon).orThrow
    .error_colon_expected).andThen fun _ toks_io =>
  (Accept.loop accept.to_statement (toks_io.length + 1) [] toks_io).andThen fun stmts toks_io =>
  .accepted (cond, stmts) toks_io

/-- `do_accept_switch_statement`. -/
def do_accept_switch_statement (accept : Statement_Acceptors) (toks_io : Token_stream) :
    Accept Statement :=
  (do_match_keyword toks_io .keyword_switch).andThen fun _ toks_io =>
  let ctrl : Expression := {}
  ((do_match_punctuator toks_io .punctuator_parenth_op).orThrow
    .error_open_parenthesis_expected).andThen fun _ toks_io =>
  ((do_accept_expression ctrl toks_io).orThrow
    .error_expression_expected).andThen fun ctrl toks_io =>
  ((do_match_punctuator toks_io .punctuator_parenth_cl).orThrow
    .error_close_parenthesis_expected).andThen fun _ toks_io =>
  ((do_match_punctuator toks_io .punctuator_brace_op).orThrow
    .error_open_brace_expected).andThen fun _ toks_io =>
  (Accept.loop (do_accept_switch_statement.clause accept) (toks_io.length + 1) []
    toks_io).andThen fun clauses toks_io =>
  ((do_match_punctuator toks_io .punctuator_brace_cl).orThrow
    .error_close_brace_or_switch_clause_expected).andThen fun _ toks_io =>
  .accepted (.S_switch ctrl clauses) toks_io

/-- `do_accept_do_while_statement`. -/
def do_accept_do_while_statement (accept : Statement_Acceptors) (toks_io : Token_stream) :
    Accept Statement :=
  (do_match_keyword toks_io .keyword_do).andThen fun _ toks_io =>
  ((accept.to_block toks_io).orThrow .error_statement_expected).andThen fun body toks_io =>
  ((do_match_keyword toks_io .keyword_while).orThrow
    .error_keyword_while_expected).andThen fun _ toks_io =>
  let cond : Expression := {}
  ((do_match_punctuator toks_io .punctuator_parenth_op).orThrow
    .error_open_parenthesis_expected).andThen fun _ toks_io =>
  ((do_accept_expression cond toks_io).orThrow
    .error_expression_expected).andThen fun cond toks_io =>
  ((do_match_punctuator toks_io .punctuator_parenth_cl).orThrow
    .error_close_parenthesis_expected).andThen fun _ toks_io =>
  ((do_match_punctuator toks_io .punctuator_semicol).orThrow
    .error_semicolon_expected).andThen fun _ toks_io =>
  .accepted (.S_while true cond body) toks_io

/-- `do_accept_while_statement`. -/
def do_accept_while_statement (accept : Statement_Acceptors) (toks_io : Token_stream) :
    Accept Statement :=
  (do_match_keyword toks_io .keyword_while).andThen fun _ toks_io =>
  let cond : Expression := {}
  ((do_match_punctuator toks_io .punctuator_parenth_op).orThrow
    .error_open_parenthesis_expected).andThen fun _ toks_io =>
  ((do_accept_expression cond toks_io).orThrow
    .error_expression_expected).andThen fun cond toks_io =>
  ((do_match_punctuator toks_io .punctuator_parenth_cl).orThrow
    .error_close_parenthesis_expected).andThen fun _ toks_io =>
  ((accept.to_block toks_io).orThrow .error_statement_expected).andThen fun body toks_io =>
  .accepted (.S_while false cond body) toks_io

/-- The part of `do_accept_for_statement` between `(` and the step expression:
the `if` on the keyword `each` with its two branches. Returns `key_name`,
`mapped_name`, `init_stmt` and `cond`. -/
def do_accept_for_statement.head (toks_io : Token_stream) :
    Accept (String × String × Statement × Expression) :=
  let key_name : String := ""
  let mapped_name : String := ""
  let init_stmt : Statement := Statement.default_constructed
  let cond : Expression := {}
  (do_match_keyword toks_io .keyword_each).ifElse
    (fun toks_io =>
      ((do_accept_identifier toks_io).orThrow
        .error_identifier_expected).andThen fun key_name toks_io =>
      ((do_match_punctuator toks_io .punctuator_comma).orThrow
        .error_comma_expected).andThen fun _ toks_io =>
      ((do_accept_identifier toks_io).orThrow
        .error_identifier_expected).andThen fun mapped_name toks_io =>
      ((do_match_punctuator toks_io .punctuator_colon).orThrow
        .error_colon_expected).andThen fun _ toks_io =>
      .accepted (key_name, mapped_name, init_stmt, cond) toks_io)
    (fun toks_io =>
      ((((do_accept_variable_definition toks_io).orElse
          do_accept_null_statement).orElse
          do_accept_expression_statement).orThrow
        .error_for_statement_initializer_expected).andThen fun init_stmt toks_io =>
      ((do_accept_expression cond toks_io).ignored cond).andThen fun cond toks_io =>
      ((do_match_punctuator toks_io .punctuator_semicol).orThrow
        .error_semicolon_expected).andThen fun _ toks_io =>
      .accepted (key_name, mapped_name, init_stmt, cond) toks_io)

/-- `do_accept_for_statement`. -/
def do_accept_for_statement (accept : Statement_Acceptors) (toks_io : Token_stream) :
    Accept Statement :=
  (do_match_keyword toks_io .keyword_for).andThen fun _ toks_io =>
  -- This for-statement is ranged if and only if `key_name` is non-empty, where
  -- `step` is used as the range initializer.
  let step : Expression := {}
  ((do_match_punctuator toks_io .punctuator_parenth_op).orThrow
    .error_open_parenthesis_expected).andThen fun _ toks_io =>
  (do_accept_for_statement.head toks_io).andThen fun vars toks_io =>
  let key_name := vars.1
  let mapped_name := vars.2.1
  let init_stmt := vars.2.2.1
  let cond := vars.2.2.2
  ((do_accept_expression step toks_io).ignored step).andThen fun step toks_io =>
  ((do_match_punctuator toks_io .punctuator_parenth_cl).orThrow
    .error_close_parenthesis_expected).andThen fun _ toks_io =>
  ((accept.to_block toks_io).orThrow .error_statement_expected).andThen fun body toks_io =>
  if key_name.isEmpty then
    Accept.accepted (Statement.S_for [init_stmt] cond step body) toks_io
  else
    Accept.accepted (Statement.S_for_each key_name mapped_name step body) toks_io

/-- `do_accept_break_statement`. Each `if` on a target keyword ends in
`goto z`; the label `z` is reached as well when none of them matches. -/
def do_accept_break_statement (toks_io : Token_stream) : Accept Statement :=
  (do_match_keyword toks_io .keyword_break).andThen fun _ toks_io =>
  let target : Statement.Target := .target_unspec
  (((do_match_keyword toks_io .keyword_switch).andThen fun _ toks_io =>
      .accepted Statement.Target.target_switch toks_io).orElse fun toks_io =>
    ((do_match_keyword toks_io .keyword_while).andThen fun _ toks_io =>
      .accepted Statement.Target.target_while toks_io).orElse fun toks_io =>
    ((do_match_keyword toks_io .keyword_for).andThen fun _ toks_io =>
      .accepted Statement.Target.target_for toks_io).orElse fun toks_io =>
    .accepted target toks_io).andThen fun target toks_io =>
  -- z:
  ((do_match_punctuator toks_io .punctuator_semicol).orThrow
    .error_semicolon_expected).andThen fun _ toks_io =>
  .accepted (.S_break target) toks_io

/-- `do_accept_continue_statement`. -/
def do_accept_continue_statement (toks_io : Token_stream) : Accept Statement :=
  (do_match_keyword toks_io .keyword_continue).andThen fun _ toks_io =>
  let target : Statement.Target := .target_unspec
  (((do_match_keyword toks_io .keyword_while).andThen fun _ toks_io =>
      .accepted Statement.Target.target_while toks_io).orElse fun toks_io =>
    ((do_match_keyword toks_io .keyword_for).andThen fun _ toks_io =>
      .accepted Statement.Target.target_for toks_io).orElse fun toks_io =>
    .accepted target toks_io).andThen fun target toks_io =>
  -- z:
  ((do_match_punctuator toks_io .punctuator_semicol).orThrow
    .error_semicolon_expected).andThen fun _ toks_io =>
  .accepted (.S_continue target) toks_io

/-- `do_accept_throw_statement`. -/
def do_accept_throw_statement (toks_io : Token_stream) : Accept Statement :=
  (do_match_keyword toks_io .keyword_throw).andThen fun _ toks_io =>
  let expr : Expression := {}
  ((do_accept_expression expr toks_io).orThrow
    .error_expression_expected).andThen fun expr toks_io =>
  ((do_match_punctuator toks_io .punctuator_semicol).orThrow
    .error_semicolon_expected).andThen fun _ toks_io =>
  .accepted (.S_throw expr) toks_io

/-- `do_accept_return_statement`. -/
def do_accept_return_statement (toks_io : Token_stream) : Accept Statement :=
  (do_match_keyword toks_io .keyword_return).andThen fun _ toks_io =>
  let expr : Expression := {}
  ((do_accept_expression expr toks_io).ignored expr).andThen fun expr toks_io =>
  ((do_match_punctuator toks_io .punctuator_semicol).orThrow
    .error_semicolon_expected).andThen fun _ toks_io =>
  .accepted (.S_return expr) toks_io

/-- `do_accept_try_statement`. -/
def do_accept_try_statement (accept : Statement_Acceptors) (toks_io : Token_stream) :
    Accept Statement :=
  (do_match_keyword toks_io .keyword_try).andThen fun _ toks_io =>
  ((accept.to_block toks_io).orThrow .error_statement_expected).andThen fun body_try toks_io =>
  ((do_match_keyword toks_io .keyword_catch).orThrow
    .error_keyword_catch_expected).andThen fun _ toks_io =>
  ((do_match_punctuator toks_io .punctuator_parenth_op).orThrow
    .error_open_parenthesis_expected).andThen fun _ toks_io =>
  ((do_accept_identifier toks_io).orThrow
    .error_identifier_expected).andThen fun except_name toks_io =>
  ((do_match_punctuator toks_io .punctuator_parenth_cl).orThrow
    .error_close_parenthesis_expected).andThen fun _ toks_io =>
  ((accept.to_block toks_io).orThrow .error_statement_expected).andThen fun body_catch toks_io =>
  .accepted (.S_try body_try except_name body_catch) toks_io

/-- `do_accept_nonblock_statement(Statement &stmt_out, Token_stream &toks_io)`. -/
def do_accept_nonblock_statement (accept : Statement_Acceptors) (toks_io : Token_stream) :
    Accept Statement :=
  ((((((((((((((do_accept_null_statement toks_io).orElse
    do_accept_variable_definition).orElse
    do_accept_immutable_variable_definition).orElse
    (do_accept_function_definition accept)).orElse
    do_accept_expression_statement).orElse
    (do_accept_if_statement accept)).orElse
    (do_accept_switch_statement accept)).orElse
    (do_accept_do_while_statement accept)).orElse
    (do_accept_while_statement accept)).orElse
    (do_accept_for_statement accept)).orElse
    do_accept_break_statement).orElse
    do_accept_continue_statement).orElse
    do_accept_throw_statement).orElse
    do_accept_return_statement).orElse
    (do_accept_try_statement accept)

/-- `do_accept_nonblock_statement(Block &block_out, Token_stream &toks_io)`. -/
def do_accept_nonblock_statement_block (accept : Statement_Acceptors)
    (toks_io : Token_stream) : Accept Block :=
  (do_accept_nonblock_statement accept toks_io).andThen fun stmt toks_io =>
  .accepted [stmt] toks_io

/-- The template `do_accept_statement` with its two sinks. The functions that
it calls call it in turn; the argument bounds the depth of these calls, and the
callers pass one more than the number of tokens left. -/
def do_accept_statement : Nat → Statement_Acceptors
  | 0 => { to_statement := fun _ => .fuel_out, to_block := fun _ => .fuel_out }
  | fuel + 1 =>
      -- statement ::=
      --   block | non-block-statement
      { to_statement := fun toks_io =>
          (do_accept_block_statement (do_accept_statement fuel) toks_io).orElse
            (do_accept_nonblock_statement (do_accept_statement fuel))
        to_block := fun toks_io =>
          (do_accept_block (do_accept_statement fuel) toks_io).orElse
            (do_accept_nonblock_statement_block (do_accept_statement fuel)) }

/-- `do_accept_directive_or_statement`. -/
def do_accept_directive_or_statement (toks_io : Token_stream) : Accept Statement :=
  ((do_accept_export_directive toks_io).orElse
    do_accept_import_directive).orElse
    (do_accept_statement (toks_io.length + 1)).to_statement

/-! ## The class `Parser` -/

/-- The member `m_stor` of a `Parser`: null, the `Parser_result` of a failed
load, or the `Block` of a successful one. -/
inductive Parser.Stor
  | null
  | result (e : Parser_result)
  | block (b : Block)

/-- `Parser`. -/
structure Parser where
  m_stor : Parser.Stor

/-- `Parser::State`. -/
inductive Parser.State
  | state_empty | state_error | state_success
deriving DecidableEq, Repr

/-- Modelled from the spec: `Parser::state()` (`parser.hpp`, not among the
sources) tells which alternative `m_stor` holds, as `Token_Stream::state()`
does in `token_stream.hpp`. -/
def Parser.state (p : Parser) : Parser.State :=
  match p.m_stor with
  | .null => .state_empty
  | .result _ => .state_error
  | .block _ => .state_success

/-- The loop `while(toks_io.empty() == false)` of `Parser::load`. -/
def Parser.load.loop (toks_io : Token_stream) : Accept (List Statement) :=
  Accept.loop
    (fun toks_io =>
      if toks_io.empty = false then
        (do_accept_directive_or_statement toks_io).orThrow .error_identifier_expected
      else .rejected toks_io)
    (toks_io.length + 1) [] toks_io

/-- `Parser::load`: returns the `Parser_result`, the parser and `toks_io` as
the call leaves them; `none` if a bound of the loops was reached. -/
def Parser.load (_p : Parser) (toks_io : Token_stream) :
    Option (Parser_result × Parser × Token_stream) :=
  -- This has to be done before anything else because of possibility of exceptions.
  let p : Parser := { m_stor := .null }
  match Parser.load.loop toks_io with
  | .accepted stmts toks_io =>
      -- Accept the result.
      some ({ m_line := 0, m_offset := 0, m_length := 0, m_error := .error_success },
        { p with m_stor := .block stmts }, toks_io)
  | .thrown e toks_io => some (e, { p with m_stor := .result e }, toks_io)
  | .rejected _ => none
  | .fuel_out => none

/-- `Parser::clear`. -/
def Parser.clear (_p : Parser) : Parser := { m_stor := .null }

/-- `Parser::get_result`; an error is the message of the exception thrown. -/
def Parser.get_result (p : Parser) : Except String Parser_result :=
  match p.m_stor with
  | .null => .error "No data have been loaded so far."
  | .result e => .ok e
  | .block _ => .ok { m_line := 0, m_offset := 0, m_length := 0, m_error := .error_success }

/-- `Parser::get_document`. -/
def Parser.get_document (p : Parser) : Except String Block :=
  match p.m_stor with
  | .null => .error "No data have been loaded so far."
  | .result _ => .error "The previous load operation has failed."
  | .block b => .ok b

/-- `Parser::extract_document`: returns the block and the parser. -/
def Parser.extract_document (p : Parser) : Except String (Block × Parser) :=
  match p.m_stor with
  | .null => .error "No data have been loaded so far."
  | .result _ => .error "The previous load operation has failed."
  | .block b => .ok (b, { p with m_stor := .null })


/-! ## Functions and type names (`fwd.cpp`) -/

/-- Modelled from the spec: the class `cow_function` is declared in `fwd.hpp`,
which is not among the sources. It holds a description, a native function
pointer `m_fptr` and a reference-counted callable `m_sptr`, either of which
may be null. The types of references and of the global context are
parameters; `Outcome` is all that a call of the native function or of the
callable does. -/
structure cow_function (Reference Global_Context Outcome : Type) where
  m_desc : String
  m_fptr : Option (Reference → List Reference → Global_Context → Outcome)
  m_sptr : Option (Reference → Global_Context → List Reference → Outcome)

/-- `cow_function::do_throw_null_pointer`: the message of the exception that
`ASTERIA_THROW` throws. -/
def cow_function.do_throw_null_pointer {Reference Global_Context Outcome : Type}
    (_f : cow_function Reference Global_Context Outcome) : String :=
  "attempt to dereference a null function pointer"

/-- `cow_function::invoke_ptc_aware`: an error is the exception thrown by
`do_throw_null_pointer`. -/
def cow_function.invoke_ptc_aware {Reference Global_Context Outcome : Type}
    (f : cow_function Reference Global_Context Outcome) (self : Reference)
    (global : Global_Context) (args : List Reference) : Except String Outcome :=
  let fptr := f.m_fptr
  match fptr with
  | some fptr => .ok (fptr self args global)  -- static
  | none =>
      let ptr := f.m_sptr
      match ptr with
      | none => .error f.do_throw_null_pointer
      | some ptr => .ok (ptr self global args)  -- dynamic

/-- Modelled from the spec: the enumeration `Vtype` (`fwd.hpp`, not among the
sources) has an underlying type of 8 bits and gives the nine scripting types
the tags 0 to 8 in the order in which the specification lists them. -/
abbrev Vtype : Type := Nat

/-- `vtype_null`. -/
def vtype_null : Vtype := 0

/-- `vtype_boolean`. -/
def vtype_boolean : Vtype := 1

/-- `vtype_integer`. -/
def vtype_integer : Vtype := 2

/-- `vtype_real`. -/
def vtype_real : Vtype := 3

/-- `vtype_string`. -/
def vtype_string : Vtype := 4

/-- `vtype_opaque`. -/
def vtype_opaque : Vtype := 5

/-- `vtype_function`. -/
def vtype_function : Vtype := 6

/-- `vtype_array`. -/
def vtype_array : Vtype := 7

/-- `vtype_object`. -/
def vtype_object : Vtype := 8

/-- `describe_vtype`. -/
def describe_vtype (vtype : Vtype) : String :=
  if vtype = vtype_null then "null"
  else if vtype = vtype_boolean then "boolean"
  else if vtype = vtype_integer then "integer"
  else if vtype = vtype_real then "real"
  else if vtype = vtype_string then "string"
  else if vtype = vtype_opaque then "opaque"
  else if vtype = vtype_function then "function"
  else if vtype = vtype_array then "array"
  else if vtype = vtype_object then "object"
  else "<unknown data type>"


/-! ## The chunked hashers with their assertions -/

/-- The rest of `update` (see `Chunk_Hasher.update.rest`) with the bounds of
the buffer and the closing `ROCKET_ASSERT(bp == ep)` checked: `none` says that
a write would leave the 64 bytes of `m_chunk` or that the assertion fails. -/
def Chunk_Hasher.update.rest_checked (do_consume_chunk : List Nat → List Nat → List Nat)
    (h : Chunk_Hasher) (bp : List Nat) (bc : Nat) : Option Chunk_Hasher :=
  -- Consume as many chunks as possible; don't bother copying them.
  let (h, bp) := Chunk_Hasher.update.loop do_consume_chunk bp.length h bp
  -- Append any bytes remaining to the last chunk.
  let n := bp.length
  if n ≠ 0 then
    -- `std::copy_n(bp, n, bc)` writes `bc[0]` to `bc[n - 1]`.
    if bc + n ≤ 64 then
      let h := { h with m_chunk := copy_n h.m_chunk bc bp n }
      let h := { h with m_size := (h.m_size + n) % 2 ^ 64 }
      let bp := bp.drop n
      -- ROCKET_ASSERT(bp == ep);
      if bp.length = 0 then some h else none
    else none
  else
    -- ROCKET_ASSERT(bp == ep);
    if bp.length = 0 then some h else none

/-- `update` (see `Chunk_Hasher.update`) with the bounds of the buffer and the
assertions `ROCKET_ASSERT(bp == ep)` and `ROCKET_ASSERT(this->m_size % 64 == 0)`
checked. -/
def Chunk_Hasher.update_checked (do_consume_chunk : List Nat → List Nat → List Nat)
    (h : Chunk_Hasher) (data : List Nat) : Option Chunk_Hasher :=
  let bp := data
  let bc := h.m_size % 64
  let ec := 64
  -- If the last chunk was not empty, ...
  if bc ≠ 0 then
    -- ... append data to the last chunk, ...
    let n := min bp.length (ec - bc)
    -- `std::copy_n(bp, n, bc)` writes `bc[0]` to `bc[n - 1]`.
    if bc + n ≤ 64 then
      let h := { h with m_chunk := copy_n h.m_chunk bc bp n }
      let h := { h with m_size := (h.m_size + n) % 2 ^ 64 }
      let bp := bp.drop n
      let bc := bc + n
      -- ... and if is still not full, there aren't going to be any more data.
      if bc ≠ ec then
        -- ROCKET_ASSERT(bp == ep);
        if bp.length = 0 then some h else none
      else
        -- Consume the last chunk.
        -- ROCKET_ASSERT(this->m_size % 64 == 0);
        if h.m_size % 64 = 0 then
          let h := { h with m_regs := do_consume_chunk h.m_regs h.m_chunk }
          Chunk_Hasher.update.rest_checked do_consume_chunk h bp 0
        else none
    else none
  else Chunk_Hasher.update.rest_checked do_consume_chunk h bp bc

/-- `finish` (see `Chunk_Hasher.finish`) with the bounds of the buffer and the
assertion `ROCKET_ASSERT(ec - bc == 8)` checked. -/
def Chunk_Hasher.finish_checked (do_consume_chunk : List Nat → List Nat → List Nat)
    (bigendT : Bool) (init : List Nat) (h : Chunk_Hasher) : Option (String × Chunk_Hasher) :=
  let bc := h.m_size % 64
  let ec := 64
  -- Append a `0x80` byte followed by zeroes: `*(bc++) = 0x80` writes `bc[0]`.
  if bc < 64 then
    let h := { h with m_chunk := h.m_chunk.set bc 0x80 }
    let bc := bc + 1
    let n := ec - bc
    (if n < 8 then
      -- Wrap: `std::fill_n(bc, n, 0)` writes `bc[0]` to `bc[n - 1]`.
      if bc + n ≤ 64 then
        let h := { h with m_chunk := fill_n h.m_chunk bc n }
        let h := { h with m_regs := do_consume_chunk h.m_regs h.m_chunk }
        some (h, 0)
      else none
    else some (h, bc)).bind fun (h, bc) =>
    let n := ec - bc - 8
    (if n > 0 then
      -- Fill zeroes.
      if bc + n ≤ 64 then some ({ h with m_chunk := fill_n h.m_chunk bc n }, bc + n)
      else none
    else some (h, bc)).bind fun (h, bc) =>
    -- ROCKET_ASSERT(ec - bc == 8);
    if ec - bc = 8 then
      -- Write the number of bits: `bc[i]` for `i` from 0 to 7.
      if bc + 8 ≤ 64 then
        let bits := (h.m_size * 8) % 2 ^ 64
        let bytes := Chunk_Hasher.finish.bits bigendT bits
        let h := { h with m_chunk := copy_n h.m_chunk bc bytes 8 }
        let h := { h with m_regs := do_consume_chunk h.m_regs h.m_chunk }
        -- Get the checksum.
        let ck := h.m_regs.foldl (do_pdigits_impl bigendT) ""
        -- Reset internal states.
        some (ck, { h with m_regs := init, m_size := 0 })
      else none
    else none
  else none

/-- A sequence of `update` calls with the checks. -/
def Chunk_Hasher.updates_checked (do_consume_chunk : List Nat → List Nat → List Nat) :
    Chunk_Hasher → List (List Nat) → Option Chunk_Hasher
  | h, [] => some h
  | h, data :: rest =>
      (Chunk_Hasher.update_checked do_consume_chunk h data).bind fun h =>
        Chunk_Hasher.updates_checked do_consume_chunk h rest


/-! ## The queue of nodes (`llds/avmc_queue.hpp`) -/

/-- Modelled from the spec: the struct `AVMC_Queue::Header` is declared but not
defined in `avmc_queue.hpp`. A node carries a destructor pointer, which is null
for a trivial payload, 48 bits of inline payload (`paramu`) and a trailing
payload (`paramv`); pointers and payloads are given as numbers. -/
structure AVMC_Queue.Header where
  dtor : Option Nat
  paramu : Nat
  paramv : Nat
deriving DecidableEq, Repr

/-- `AVMC_Queue`: `m_bptr` is null or points to the storage, which is given by
the nodes in it in the order in which they were appended; `m_rsrv` and `m_used`
are its sizes. -/
structure AVMC_Queue where
  m_bptr : Option (List AVMC_Queue.Header) := none
  m_rsrv : Nat := 0
  m_used : Nat := 0
deriving DecidableEq, Repr

/-- Modelled from the spec: `AVMC_Queue::do_deallocate_storage` is declared in
`avmc_queue.hpp` and defined outside the sources. "The queue walks nodes in
reverse and invokes each non-null destructor. Trivial nodes are skipped. The
buffer is then freed." Returns the calls made in order, each with the
destructor and the two payloads that it is given. -/
def AVMC_Queue.do_deallocate_storage (q : AVMC_Queue) : List (Nat × Nat × Nat) :=
  match q.m_bptr with
  | none => []
  | some nodes =>
      nodes.reverse.filterMap fun node => node.dtor.map fun dtor =>
        (dtor, node.paramu, node.paramv)

/-- `AVMC_Queue::~AVMC_Queue`: returns the destructor calls made. -/
def AVMC_Queue.destroy (q : AVMC_Queue) : List (Nat × Nat × Nat) :=
  if q.m_bptr.isSome then q.do_deallocate_storage else []

/-- `AVMC_Queue::clear`: returns the destructor calls made and the queue. -/
def AVMC_Queue.clear (q : AVMC_Queue) : List (Nat × Nat × Nat) × AVMC_Queue :=
  let calls := if q.m_bptr.isSome then q.do_deallocate_storage else []
  -- Clean invalid data up.
  (calls, { q with m_bptr := none, m_rsrv := 0, m_used := 0 })

/-- `AVMC_Queue::empty`. -/
def AVMC_Queue.empty (q : AVMC_Queue) : Bool := q.m_rsrv == 0

/-- The nodes of a queue in append order. -/
def AVMC_Queue.nodes (q : AVMC_Queue) : List AVMC_Queue.Header := q.m_bptr.getD []

/-- Modelled from the spec: `AVMC_Queue::do_append_trivial` is declared in
`avmc_queue.hpp` and defined outside the sources. "For trivial payloads the
bytes are memcpy'd and no destructor is recorded." The node goes to the end of
the storage and takes `nhdrs` headers of it; "the queue guarantees the
reservation suffices". -/
def AVMC_Queue.do_append_trivial (q : AVMC_Queue) (paramu paramv nhdrs : Nat) : AVMC_Queue :=
  { m_bptr := some (q.nodes ++ [{ dtor := none, paramu := paramu, paramv := paramv }]),
    m_rsrv := max q.m_rsrv (q.m_used + nhdrs),
    m_used := q.m_used + nhdrs }

/-- Modelled from the spec: `AVMC_Queue::do_append_nontrivial` is declared in
`avmc_queue.hpp` and defined outside the sources. "For non-trivial payloads a
per-type vtable (constructor / destructor / executor / enumerator) with static
storage duration is recorded": `dtor` is the destructor of the vtable, which
`do_dispatch_append` sets to `Funcs::destroy`. -/
def AVMC_Queue.do_append_nontrivial (q : AVMC_Queue) (dtor paramu paramv nhdrs : Nat) :
    AVMC_Queue :=
  { m_bptr := some (q.nodes ++ [{ dtor := some dtor, paramu := paramu, paramv := paramv }]),
    m_rsrv := max q.m_rsrv (q.m_used + nhdrs),
    m_used := q.m_used + nhdrs }

/-- The appends of a list of nodes in order, each with the function for its
kind of payload. -/
def AVMC_Queue.append_all (q : AVMC_Queue) (nodes : List AVMC_Queue.Header) : AVMC_Queue :=
  nodes.foldl
    (fun q node =>
      match node.dtor with
      | none => q.do_append_trivial node.paramu node.paramv 1
      | some dtor => q.do_append_nontrivial dtor node.paramu node.paramv 1)
    q


/-! ## Values and references (`runtime/reference_root.hpp`, `test/reference.cpp`) -/

/-- Modelled from the spec: the class `Value` is not in the sources. "Exactly
one of: null, boolean, integer (64-bit signed), real (IEEE-754 binary64),
string, opaque, function, array (ordered sequence of Values), object (mapping
from string to Value, insertion order irrelevant to semantics but preserved for
iteration)". A real is given by its 64 bits, an opaque and a function by a
handle, an object by its entries in iteration order. -/
inductive Value
  | null
  | boolean (b : Bool)
  | integer (i : Int)
  | real (bits : Nat)
  | string (s : String)
  | opaque_t (handle : Nat)
  | function (handle : Nat)
  | array (elems : List Value)
  | object (entries : List (String × Value))

/-- Modelled from the spec: the class `Reference_Modifier` is not in the
sources. "Modifiers: array-index (signed; negative indexes from the tail),
object-key (string), array-head, array-tail"; the two markers, of which the
specification says no more, are left out. -/
inductive Reference_Modifier
  | S_array_index (index : Int)
  | S_object_key (key : String)
deriving DecidableEq, Repr

/-- `Reference_Root::Xvariant`: the four alternatives of the root; a variable
is given by its handle into the pool, `none` being the null handle. -/
inductive Reference_Root
  | S_null
  | S_constant (source : Value)
  | S_temporary (value : Value)
  | S_variable (var_opt : Option Nat)

/-- Modelled from the spec: the class `Reference` is not in the sources. "An
access path: a root plus a sequence of modifiers that locate a sub-value",
"applied left-to-right from the root". -/
structure Reference where
  m_root : Reference_Root
  m_mods : List Reference_Modifier

/-- Modelled from the spec: the entry of an object with a key, if there is
one ("mapping from string to Value"). -/
def Value.object_find (key : String) (entries : List (String × Value)) : Option Value :=
  (entries.find? fun e => e.1 == key).map fun e => e.2

/-- Modelled from the spec: sets the entry of an object with a key, which is
added after the others if it is missing. -/
def Value.object_insert (key : String) (value : Value) (entries : List (String × Value)) :
    List (String × Value) :=
  if entries.any (fun e => e.1 == key) then
    entries.map fun e => if e.1 == key then (key, value) else e
  else
    entries ++ [(key, value)]

/-- Modelled from the spec: "removes an object key". -/
def Value.object_erase (key : String) (entries : List (String × Value)) :
    List (String × Value) :=
  entries.filter fun e => e.1 != key

/-- Modelled from the spec: "array-index (signed; negative indexes from the
tail)": the position that an index denotes in an array of `n` elements, if it
is in range. -/
def Reference_Modifier.wrap_index (index : Int) (n : Nat) : Option Nat :=
  if 0 ≤ index then
    if index < n then some index.toNat else none
  else
    if 0 ≤ index + n then some (index + n).toNat else none

/-- Modelled from the spec: an array made ready for a write through an index:
"negative indices that precede head extend the array with nulls", at the front,
and an index behind the last element extends the array at the back. Returns
the array and the position that the index denotes in it. -/
def Reference_Modifier.reserve_index (index : Int) (elems : List Value) : List Value × Nat :=
  if 0 ≤ index then
    (elems ++ List.replicate (index.toNat + 1 - elems.length) Value.null, index.toNat)
  else if 0 ≤ index + elems.length then
    (elems, (index + elems.length).toNat)
  else
    (List.replicate (-(index + elems.length)).toNat Value.null ++ elems, 0)

/-- Modelled from the spec: a modifier applied for a read: "missing keys /
out-of-range indices yield null; non-container intermediates yield a type
error", "applying a modifier to null during read yields null". -/
def Reference_Modifier.apply_const (m : Reference_Modifier) (parent : Value) :
    Except String Value :=
  match m, parent with
  | _, Value.null => Except.ok Value.null
  | Reference_Modifier.S_array_index index, Value.array elems =>
      match Reference_Modifier.wrap_index index elems.length with
      | some pos => Except.ok (elems.getD pos Value.null)
      | none => Except.ok Value.null
  | Reference_Modifier.S_object_key key, Value.object entries =>
      Except.ok ((Value.object_find key entries).getD Value.null)
  | Reference_Modifier.S_array_index _, _ =>
      Except.error "type error: an index was applied to a value that is not an array"
  | Reference_Modifier.S_object_key _, _ =>
      Except.error "type error: a key was applied to a value that is not an object"

/-- Modelled from the spec: "Read: apply modifiers". -/
def Value.read_at : List Reference_Modifier → Value → Except String Value
  | [], parent => Except.ok parent
  | m :: mods, parent =>
      match m.apply_const parent with
      | Except.ok child => Value.read_at mods child
      | Except.error e => Except.error e

/-- Modelled from the spec: "Write: apply modifiers; missing intermediates are
created (object keys materialize empty objects; array indices materialize
arrays; negative indices that precede head extend the array with nulls)".
Returns the value of the root after the write. -/
def Value.write_at : List Reference_Modifier → Value → Value → Except String Value
  | [], value, _ => Except.ok value
  | Reference_Modifier.S_array_index index :: mods, value, parent =>
      match parent with
      | Value.null =>
          let sized := Reference_Modifier.reserve_index index []
          match Value.write_at mods value (sized.1.getD sized.2 Value.null) with
          | Except.ok child => Except.ok (Value.array (sized.1.set sized.2 child))
          | Except.error e => Except.error e
      | Value.array elems =>
          let sized := Reference_Modifier.reserve_index index elems
          match Value.write_at mods value (sized.1.getD sized.2 Value.null) with
          | Except.ok child => Except.ok (Value.array (sized.1.set sized.2 child))
          | Except.error e => Except.error e
      | _ => Except.error "type error: an index was applied to a value that is not an array"
  | Reference_Modifier.S_object_key key :: mods, value, parent =>
      match parent with
      | Value.null =>
          match Value.write_at mods value Value.null with
          | Except.ok child => Except.ok (Value.object (Value.object_insert key child []))
          | Except.error e => Except.error e
      | Value.object entries =>
          match Value.write_at mods value ((Value.object_find key entries).getD Value.null) with
          | Except.ok child => Except.ok (Value.object (Value.object_insert key child entries))
          | Except.error e => Except.error e
      | _ => Except.error "type error: a key was applied to a value that is not an object"

/-- Modelled from the spec: the last modifier applied for an unset: "removes an
object key", "returns the previously stored Value"; an array element is erased,
as `test/operators.cpp` has it (`unset a[1]` leaves `[1,3]` of `[1,2,3]`).
Returns the previous value and the parent after the removal. -/
def Reference_Modifier.apply_unset (m : Reference_Modifier) (parent : Value) :
    Except String (Value × Value) :=
  match m, parent with
  | _, Value.null => Except.ok (Value.null, Value.null)
  | Reference_Modifier.S_array_index index, Value.array elems =>
      match Reference_Modifier.wrap_index index elems.length with
      | some pos => Except.ok (elems.getD pos Value.null, Value.array (elems.eraseIdx pos))
      | none => Except.ok (Value.null, Value.array elems)
  | Reference_Modifier.S_object_key key, Value.object entries =>
      Except.ok ((Value.object_find key entries).getD Value.null,
        Value.object (Value.object_erase key entries))
  | Reference_Modifier.S_array_index _, _ =>
      Except.error "type error: an index was applied to a value that is not an array"
  | Reference_Modifier.S_object_key _, _ =>
      Except.error "type error: a key was applied to a value that is not an object"

/-- Modelled from the spec: "Unset: removes an object key or replaces an array
slot"; "returns the previously stored Value". The modifiers before the last
one are applied as for a read, and nothing is removed where an intermediate is
missing. Returns the previous value and the value of the root afterwards. -/
def Value.unset_at : List Reference_Modifier → Reference_Modifier → Value →
    Except String (Value × Value)
  | [], last, parent => last.apply_unset parent
  | Reference_Modifier.S_array_index index :: mods, last, parent =>
      match parent with
      | Value.null => Except.ok (Value.null, Value.null)
      | Value.array elems =>
          match Reference_Modifier.wrap_index index elems.length with
          | some pos =>
              match Value.unset_at mods last (elems.getD pos Value.null) with
              | Except.ok res => Except.ok (res.1, Value.array (elems.set pos res.2))
              | Except.error e => Except.error e
          | none => Except.ok (Value.null, Value.array elems)
      | _ => Except.error "type error: an index was applied to a value that is not an array"
  | Reference_Modifier.S_object_key key :: mods, last, parent =>
      match parent with
      | Value.null => Except.ok (Value.null, Value.null)
      | Value.object entries =>
          match Value.object_find key entries with
          | some child =>
              match Value.unset_at mods last child with
              | Except.ok res =>
                  Except.ok (res.1, Value.object (Value.object_insert key res.2 entries))
              | Except.error e => Except.error e
          | none => Except.ok (Value.null, Value.object entries)
      | _ => Except.error "type error: a key was applied to a value that is not an object"

/-- Modelled from the spec: `Reference_Root::dereference_const` is declared in
`reference_root.hpp` and defined outside the sources. The value that the root
denotes: null for "null (no target)", the value of a constant or a temporary,
the current value of the variable of a handle into the pool. -/
def Reference_Root.dereference_const (root : Reference_Root) (pool : List Value) :
    Except String Value :=
  match root with
  | Reference_Root.S_null => Except.ok Value.null
  | Reference_Root.S_constant source => Except.ok source
  | Reference_Root.S_temporary value => Except.ok value
  | Reference_Root.S_variable none => Except.error "the handle of the variable is null"
  | Reference_Root.S_variable (some var) =>
      match pool.get? var with
      | some value => Except.ok value
      | none => Except.error "the handle of the variable is null"

/-- Modelled from the spec: `Reference_Root::dereference_mutable` is declared
in `reference_root.hpp` and defined outside the sources. "Writing through
constant is a type error; writing through temporary requires prior
materialization". Returns the handle of the variable that can be modified. -/
def Reference_Root.dereference_mutable (root : Reference_Root) (pool : List Value) :
    Except String Nat :=
  match root with
  | Reference_Root.S_null => Except.error "the null reference cannot be modified"
  | Reference_Root.S_constant _ => Except.error "type error: a constant cannot be modified"
  | Reference_Root.S_temporary _ => Except.error "a temporary cannot be modified"
  | Reference_Root.S_variable none => Except.error "the handle of the variable is null"
  | Reference_Root.S_variable (some var) =>
      if var < pool.length then Except.ok var
      else Except.error "the handle of the variable is null"

/-- Modelled from the spec: `Reference::read`. -/
def Reference.read (r : Reference) (pool : List Value) : Except String Value :=
  match r.m_root.dereference_const pool with
  | Except.ok value => Value.read_at r.m_mods value
  | Except.error e => Except.error e

/-- Modelled from the spec: `Reference::write`; returns the pool after it. -/
def Reference.write (r : Reference) (value : Value) (pool : List Value) :
    Except String (List Value) :=
  match r.m_root.dereference_mutable pool with
  | Except.ok var =>
      match Value.write_at r.m_mods value (pool.getD var Value.null) with
      | Except.ok stored => Except.ok (pool.set var stored)
      | Except.error e => Except.error e
  | Except.error e => Except.error e

/-- Modelled from the spec: `Reference::unset`; returns "the previously stored
Value" and the pool after it. A reference with no modifier denotes no element
and cannot be unset. -/
def Reference.unset (r : Reference) (pool : List Value) : Except String (Value × List Value) :=
  match r.m_mods.getLast? with
  | none => Except.error "only an element of an array or an object can be unset"
  | some last =>
      match r.m_root.dereference_mutable pool with
      | Except.ok var =>
          match Value.unset_at r.m_mods.dropLast last (pool.getD var Value.null) with
          | Except.ok res => Except.ok (res.1, pool.set var res.2)
          | Except.error e => Except.error e
      | Except.error e => Except.error e

/-- Modelled from the spec: `Reference::materialize`: "promote a
temporary-rooted Reference's inline Value into a fresh anonymous Variable so
subsequent writes persist". Returns the reference and the pool after it. -/
def Reference.materialize (r : Reference) (pool : List Value) : Reference × List Value :=
  match r.m_root with
  | Reference_Root.S_temporary value =>
      ({ r with m_root := Reference_Root.S_variable (some pool.length) }, pool ++ [value])
  | _ => (r, pool)

/-- Modelled from the spec: `Reference::zoom_in`: "push a modifier onto a
Reference's access path". -/
def Reference.zoom_in (r : Reference) (m : Reference_Modifier) : Reference :=
  { r with m_mods := r.m_mods ++ [m] }

/-- Modelled from the spec: `Reference::zoom_out`: "pop a modifier". -/
def Reference.zoom_out (r : Reference) : Reference :=
  { r with m_mods := r.m_mods.dropLast }



/-- Modelled from the spec: the enumeration `Frame_Type` (`fwd.hpp`, not among
the sources) has an underlying type of 8 bits and gives the seven kinds of
frames the tags 0 to 6 in the order in which the specification lists them:
"native, throw, catch, plain, function, defer, assert". -/
abbrev Frame_Type : Type := Nat

/-- `frame_type_native`. -/
def frame_type_native : Frame_Type := 0

/-- `frame_type_throw`. -/
def frame_type_throw : Frame_Type := 1

/-- `frame_type_catch`. -/
def frame_type_catch : Frame_Type := 2

/-- `frame_type_plain`. -/
def frame_type_plain : Frame_Type := 3

/-- `frame_type_func`. -/
def frame_type_func : Frame_Type := 4

/-- `frame_type_defer`. -/
def frame_type_defer : Frame_Type := 5

/-- `frame_type_assert`. -/
def frame_type_assert : Frame_Type := 6

/-- `describe_frame_type`. -/
def describe_frame_type (type : Frame_Type) : String :=
  if type = frame_type_native then "native code"
  else if type = frame_type_throw then "throw statement"
  else if type = frame_type_catch then "catch clause"
  else if type = frame_type_plain then "frame"
  else if type = frame_type_func then "function"
  else if type = frame_type_defer then "defer statement"
  else if type = frame_type_assert then "assertion failure"
  else "<unknown frame type>"

/-! ## Rehashing (`llds/reference_dictionary.cpp`) -/

/-- `Reference_Dictionary::do_allocate_table`: `calloc` gives `nbkt` buckets of
zero bytes. The failure of the allocation, which throws `std::bad_alloc`, is
left out. -/
def Reference_Dictionary.do_allocate_table (R : Type) (_nbkt : Nat) : Nat → Bucket R :=
  fun _ => {}

/-- The `do ... while(next != origin)` loop of `do_rehash`: `bold` is the old
table, whose buckets are destroyed one by one, `next` the pointer into it and
`d` the dictionary with the new table. The first argument bounds the number of
iterations; `none` is returned when it does not suffice, when a null pointer
would be followed and when a `ROCKET_ASSERT` fails. -/
def Reference_Dictionary.do_rehash.loop {R : Type} (origin : Nat) :
    Nat → (Nat → Bucket R) → Option Nat → Reference_Dictionary R →
      Option (Reference_Dictionary R)
  | 0, _, _, _ => none
  | _ + 1, _, none, _ => none
  | fuel + 1, bold, some qbkt, d =>
      let next := (bold qbkt).next
      -- Move the old name and reference out, then destroy the bucket.
      if (bold qbkt).live then
        match (bold qbkt).kstor, (bold qbkt).vstor with
        | some name, some refr =>
            let bold := Function.update bold qbkt
              { (bold qbkt) with kstor := none, vstor := none, next := none }
            -- Find a new bucket for the name using linear probing.
            let mptr := get_probing_origin 0 d.eptr name.rdhash
            match (linear_probe Reference_Dictionary.live (fun _ s => (false, s))
              0 mptr mptr d.eptr d).1 with
            | some qbkt =>
                -- Insert the reference into the new bucket.
                if d.live qbkt then none
                else
                  let d := d.do_list_attach qbkt
                  let d := d.assign (some qbkt) (fun b => { b with kstor := some name })
                  let d := d.assign (some qbkt) (fun b => { b with vstor := some refr })
                  -- Stop if the head is encountered a second time, as the linked list is
                  -- circular.
                  if next ≠ some origin then
                    Reference_Dictionary.do_rehash.loop origin fuel bold next d
                  else some d
            | none => none
        | _, _ => none
      else none

/-- `Reference_Dictionary::do_rehash`; the second argument bounds the number of
iterations of its loop. `none` is returned when that does not suffice and when
a `ROCKET_ASSERT` fails. The old table is freed at the end. -/
def Reference_Dictionary.do_rehash {R : Type} (d : Reference_Dictionary R) (nbkt fuel : Nat) :
    Option (Reference_Dictionary R) :=
  if nbkt / 2 > d.size then
    -- Allocate a new table.
    let bptr := Reference_Dictionary.do_allocate_table R nbkt
    let eptr := nbkt
    -- Set up an empty table.
    let bold := d.bptr
    let d := { d with bptr := bptr }
    let d := { d with eptr := eptr }
    let next := d.aptr
    let d := { d with aptr := none }
    -- Move buckets into the new table.
    match next with
    | some origin => Reference_Dictionary.do_rehash.loop origin fuel bold (some origin) d
    | none => some d
  else none

/-! ## Auxiliary notions for the chunked hashers -/

/-- Consumes 64-byte blocks of `d` with `f` for as long as a whole block is
left (at most `fuel` of them); returns the registers and the bytes left. -/
def absorb (f : List Nat → List Nat → List Nat) : Nat → List Nat → List Nat → List Nat × List Nat
  | 0, r, d => (r, d)
  | fuel + 1, r, d =>
      if 64 ≤ d.length then absorb f fuel (f r (d.take 64)) (d.drop 64) else (r, d)

/-- `absorb` with as much fuel as there are bytes. -/
def absorbAll (f : List Nat → List Nat → List Nat) (r d : List Nat) : List Nat × List Nat :=
  absorb f d.length r d

/-- The bytes of the buffer that belong to the message: the first
`m_size % 64` bytes of `m_chunk`. -/
def Chunk_Hasher.pending (h : Chunk_Hasher) : List Nat := h.m_chunk.take (h.m_size % 64)

/-- Representation invariant of the chunked hashers: the buffer has 64 bytes
and `m_size` fits `uint64_t`. -/
def Chunk_Hasher.Valid (h : Chunk_Hasher) : Prop := h.m_chunk.length = 64 ∧ h.m_size < 2 ^ 64

/-- The chunks that `finish` passes to `do_consume_chunk`, written out from the
buffered message bytes `pend` and the byte count `size`. -/
def Chunk_Hasher.final_chunks (bigendT : Bool) (pend : List Nat) (size : Nat) :
    List (List Nat) :=
  let bits := Chunk_Hasher.finish.bits bigendT ((size * 8) % 2 ^ 64)
  if 64 - (pend.length + 1) < 8 then
    [pend ++ [0x80] ++ List.replicate (64 - (pend.length + 1)) 0, List.replicate 56 0 ++ bits]
  else
    [pend ++ [0x80] ++ List.replicate (64 - (pend.length + 1) - 8) 0 ++ bits]

/-! ## Auxiliary notions for the hash table -/

/-- Number of steps from bucket `o` forward to bucket `j` in a table of `n`
buckets, wrapping at the end. -/
def cdist (n o j : Nat) : Nat := if o ≤ j then j - o else j + n - o

/-- The probing origin of a name in the table of `d`. -/
def Reference_Dictionary.origin {R : Type} (d : Reference_Dictionary R)
    (name : PreHashed_String) : Nat :=
  get_probing_origin 0 d.eptr name.rdhash

/-- Bucket `i` is in use and holds `name`. -/
def Reference_Dictionary.holds {R : Type} (d : Reference_Dictionary R) (i : Nat)
    (name : PreHashed_String) : Prop :=
  d.live i = true ∧ (d.bptr i).kstor = some name

/-- The probe-path invariant: every stored name lies on the probe path from
its own probing origin before any empty bucket, that is, all buckets from the
origin of the name up to the bucket that holds it are in use. -/
def Reference_Dictionary.Probe_Inv {R : Type} (d : Reference_Dictionary R) : Prop :=
  ∀ i name, i < d.eptr → d.holds i name →
    ∀ j, j < d.eptr → cdist d.eptr (d.origin name) j < cdist d.eptr (d.origin name) i →
      d.live j = true

/-- The table has at least one empty bucket. -/
def Reference_Dictionary.Has_Empty {R : Type} (d : Reference_Dictionary R) : Prop :=
  ∃ e, e < d.eptr ∧ d.live e = false

/-- The `next` and `prev` pointers are inverse to each other on the buckets in
use: a bucket in use has a successor and a predecessor in use that point back
to it. -/
def Ring_Links (nx pv : Nat → Option Nat) : Prop :=
  ∀ i x, nx i = some x →
    pv x = some i ∧ (∃ y, nx x = some y) ∧ ∃ p, pv i = some p ∧ nx p = some i

/-- The list pointers of the dictionary are well formed: `next` and `prev` are
inverse to each other on the buckets in use, and the head of the list is in
use. -/
def Reference_Dictionary.Ring_OK {R : Type} (d : Reference_Dictionary R) : Prop :=
  Ring_Links (fun i => (d.bptr i).next) (fun i => (d.bptr i).prev) ∧
  ∀ a, d.aptr = some a → d.live a = true

/-- Well-formedness of a dictionary: the list pointers are well formed, the
buckets in use lie inside the table and hold a name and a reference, and no
name is stored twice. -/
def Reference_Dictionary.WF {R : Type} (d : Reference_Dictionary R) : Prop :=
  d.Ring_OK ∧
  (∀ i, d.live i = true → i < d.eptr) ∧
  (∀ i, d.live i = true →
    ∃ name refr, (d.bptr i).kstor = some name ∧ (d.bptr i).vstor = some refr) ∧
  (∀ i j name, d.holds i name → d.holds j name → i = j)

/-- The state of the relocation loop of `do_detach d q` when it is about to
look at the bucket `c` steps after `q`; `M` is the number of steps from `q` to
the first empty bucket of `d`. The table has not changed size, it is well
formed, the buckets from step `c` up to step `M` are still in use and the
bucket at step `M` is empty, the names and references are those of `d` without
bucket `q`, and the buckets on the probe path of a stored name are in use
except, for a name that the loop has yet to look at, buckets the loop has
already passed. -/
def Reloc_Inv {R : Type} (d : Reference_Dictionary R) (q M : Nat)
    (s : Reference_Dictionary R) (c : Nat) : Prop :=
  s.eptr = d.eptr ∧ s.WF ∧
  (∀ i, i < d.eptr → c ≤ cdist d.eptr q i → cdist d.eptr q i < M → s.live i = true) ∧
  (∀ i, i < d.eptr → cdist d.eptr q i = M → s.live i = false) ∧
  (∀ name refr,
    (∃ i, s.live i = true ∧ (s.bptr i).kstor = some name ∧ (s.bptr i).vstor = some refr) ↔
    (∃ i, i ≠ q ∧ d.live i = true ∧ (d.bptr i).kstor = some name ∧
      (d.bptr i).vstor = some refr)) ∧
  (∀ i name, s.holds i name → ∀ j, j < d.eptr →
    cdist d.eptr (d.origin name) j < cdist d.eptr (d.origin name) i →
      s.live j = true ∨
        (cdist d.eptr q j < c ∧ c ≤ cdist d.eptr q i ∧ cdist d.eptr q i < M))

/-- The `next` pointers lead through the buckets of the list in order and from
the last one to `t`. -/
def Next_Chain (nx : Nat → Option Nat) : List Nat → Nat → Prop
  | [], _ => True
  | x :: r, t => nx x = some (r.headD t) ∧ Next_Chain nx r t

/-- The circular list of the dictionary, read from its head `aptr` along the
`next` pointers, consists of the buckets `L`, which are all the buckets in use;
the `prev` pointer of the head leads to the last of them. -/
def Reference_Dictionary.List_Is {R : Type} (d : Reference_Dictionary R) (L : List Nat) : Prop :=
  L.Nodup ∧ (∀ x, d.live x = true → x ∈ L) ∧ d.aptr = L.head? ∧
  Next_Chain (fun i => (d.bptr i).next) L (L.headD 0) ∧
  ∀ x, L.head? = some x → (d.bptr x).prev = L.getLast?

/-- A name with hash value 0, whose probing origin in a table of four buckets
is bucket 0. -/
def witness_name_a : PreHashed_String := { m_sth := [0x61], m_hval := 0 }

/-- A name with hash value 2, whose probing origin in a table of four buckets
is bucket 0 as well. -/
def witness_name_b : PreHashed_String := { m_sth := [0x62], m_hval := 2 }

/-- A table of four buckets: bucket 0 holds `witness_name_a`, bucket 1 holds
`witness_name_b`, which collided with it, and buckets 2 and 3 are empty. The
list is 1, 0. -/
def witness_table : Reference_Dictionary Nat :=
  { bptr := fun i =>
      if i = 0 then
        { next := some 1, prev := some 1, kstor := some witness_name_a, vstor := some 10 }
      else if i = 1 then
        { next := some 0, prev := some 0, kstor := some witness_name_b, vstor := some 11 }
      else {},
    eptr := 4, aptr := some 1, size := 2 }

/-- A table of three buckets that are all in use: bucket 0 holds a name with
origin 0, bucket 1 a name with origin 2 and bucket 2 a name with origin 0. -/
def full_table : Reference_Dictionary Nat :=
  { bptr := fun i =>
      if i = 0 then
        { next := some 1, prev := some 2, kstor := some { m_sth := [0x61], m_hval := 5 },
          vstor := some 10 }
      else if i = 1 then
        { next := some 2, prev := some 0, kstor := some { m_sth := [0x62], m_hval := 3 },
          vstor := some 11 }
      else if i = 2 then
        { next := some 0, prev := some 1, kstor := some { m_sth := [0x63], m_hval := 0 },
          vstor := some 12 }
      else {},
    eptr := 3, aptr := some 0, size := 3 }

/-! ## The checksums in the words of the specification -/

/-- One round of the bitwise CRC-32 with the reversed divisor `0xEDB88320`, in
the words of the specification. -/
def crc32_bitwise.round (r : Nat) : Nat :=
  (r >>> 1) ^^^ (if r % 2 = 1 then 0xEDB88320 else 0)

/-- The round applied `n` times. -/
def crc32_bitwise.rounds : Nat → Nat → Nat
  | 0, r => r
  | n + 1, r => crc32_bitwise.rounds n (crc32_bitwise.round r)

/-- The bitwise CRC-32 in the words of the specification: the register starts
at `0xFFFFFFFF`, each byte is xored into its low 8 bits and followed by 8
rounds, and the register is complemented at the end. -/
def crc32_bitwise (data : List Nat) : Nat :=
  2 ^ 32 - 1 - data.foldl (fun r byte => crc32_bitwise.rounds 8 (r ^^^ byte)) 0xFFFFFFFF

/-- The FNV-1a fold in the words of the specification: from `2166136261`, each
byte takes `h` to `((h xor byte) * 16777619) mod 2^32`. -/
def fnv1a32_fold (data : List Nat) : Nat :=
  data.foldl (fun h byte => ((h ^^^ byte) * 16777619) % 2 ^ 32) 2166136261

/-- The sixteen uppercase hexadecimal digits. -/
def hex_uppercase : List Char := "0123456789ABCDEF".toList


/-! ## What a sound acceptor does to the token stream -/

/-- What every exception of the parser looks like when the stream is left at
`toks`: made by `do_make_parser_result` from that stream and an error other
than `error_success`. -/
def Thrown_OK (e : Parser_result) (toks : Token_stream) : Prop :=
  ∃ error, error ≠ Parser_result.Error.error_success ∧ e = do_make_parser_result toks error

/-- The outcome of an acceptor called on `inp`: a `true` has taken tokens off
the front of `inp`, at least one; a `false` has left `inp` as it was; an
exception is as `Thrown_OK` says; no bound was reached. -/
def Accept.Sound_call {α : Type} (inp : Token_stream) : Accept α → Prop
  | .accepted _ toks => toks <:+ inp ∧ toks.length < inp.length
  | .rejected toks => toks = inp
  | .thrown e toks => toks <:+ inp ∧ Thrown_OK e toks
  | .fuel_out => False

/-- The outcome of the rest of an acceptor that has taken a token of `inp`:
as `Sound_call`, but it does not return `false` any more. -/
def Accept.Sound_rest {α : Type} (inp : Token_stream) : Accept α → Prop
  | .accepted _ toks => toks <:+ inp ∧ toks.length < inp.length
  | .rejected _ => False
  | .thrown e toks => toks <:+ inp ∧ Thrown_OK e toks
  | .fuel_out => False

/-- The outcome of a step that may take no token and does not return `false`. -/
def Accept.Sound_opt {α : Type} (inp : Token_stream) : Accept α → Prop
  | .accepted _ toks => toks <:+ inp
  | .rejected _ => False
  | .thrown e toks => toks <:+ inp ∧ Thrown_OK e toks
  | .fuel_out => False

/-- Both instances of `do_accept_statement` are sound on the streams of fewer
than `n` tokens. -/
def Statement_Acceptors.Sound (accept : Statement_Acceptors) (n : Nat) : Prop :=
  ∀ toks : Token_stream, toks.length < n →
    (accept.to_statement toks).Sound_call toks ∧ (accept.to_block toks).Sound_call toks

/-- A token of the file `a.txt`, line 1, at the given offset and of the given
length. -/
def witness_token (offset length : Nat) (v : Token.Variant) : Token :=
  { m_file := "a.txt", m_line := 1, m_offset := offset, m_length := length, m_stor := v }


/-! ## The order of probing -/

/-- The buckets that `linear_probe(begin, to, from, end, pred)` looks at, in
its order: `from`, ..., `end - 1`, then `begin`, ..., `to - 1`. -/
def linear_probe.order (begin to_ from_ end_ : Nat) : List Nat :=
  List.range' from_ (end_ - from_) ++ List.range' begin (to_ - begin)

/-- `linear_probe` on a table whose bucket `i` is non-empty when `live i` and
satisfies the predicate when `p i`, with a predicate that records the buckets
on which it is called: returns the bucket found and the calls in order. -/
def linear_probe.logged (live p : Nat → Bool) (begin to_ from_ end_ : Nat) :
    Option Nat × List Nat :=
  linear_probe (fun _ i => live i) (fun bkt calls => (p bkt, calls ++ [bkt]))
    begin to_ from_ end_ []

/-- What the specification says of the calls of the predicate: each is on a
bucket that precedes the returned one in the order of probing (on any bucket
of the order if null is returned). -/
def linear_probe.Calls_Precede (order : List Nat) (result : Option Nat) (calls : List Nat) :
    Prop :=
  ∀ b ∈ calls,
    b ∈ (match result with
      | some r => order.takeWhile (fun i => i != r)
      | none => order)


/-! ## Padding of the chunked hashers, in the words of the specification -/

/-- The least number of zero bytes that makes a message of `L` bytes, the byte
`0x80`, the zero bytes and the 8 bytes of the length a multiple of 64 bytes. -/
def md_pad.zeros (L : Nat) : Nat := (64 - (L + 9) % 64) % 64

/-- The 64-bit encoding of `bits` in 8 bytes: least significant byte first, or
most significant byte first if `bigendT`. -/
def md_pad.encode (bigendT : Bool) (bits : Nat) : List Nat :=
  let le := (List.range 8).map fun i => (bits / 256 ^ i) % 256
  if bigendT then le.reverse else le

/-- The padded message: `m`, the byte `0x80`, the zero bytes and the encoding
of the number of bits `8 * L`. -/
def md_pad (bigendT : Bool) (m : List Nat) : List Nat :=
  m ++ [0x80] ++ List.replicate (md_pad.zeros m.length) 0 ++ md_pad.encode bigendT (8 * m.length)

/-- The whole 64-byte chunks of `d` in order (at most `fuel` of them). -/
def split_chunks.go : Nat → List Nat → List (List Nat)
  | 0, _ => []
  | fuel + 1, d =>
      if 64 ≤ d.length then d.take 64 :: split_chunks.go fuel (d.drop 64) else []

/-- The split of `d` into 64-byte chunks. -/
def split_chunks (d : List Nat) : List (List Nat) := split_chunks.go d.length d


/-! ## The invariant of the list of a dictionary -/

/-- Number of buckets of the table that are in use. -/
def Reference_Dictionary.count_live {R : Type} (d : Reference_Dictionary R) : Nat :=
  ((List.range d.eptr).filter fun i => d.live i).length

/-- The pair of `name` and `refr` is stored in a bucket in use. -/
def Reference_Dictionary.has_pair {R : Type} (d : Reference_Dictionary R)
    (name : PreHashed_String) (refr : R) : Prop :=
  ∃ i, d.live i = true ∧ (d.bptr i).kstor = some name ∧ (d.bptr i).vstor = some refr

/-- The buckets in use are those of `L` and make up the list of the
dictionary: the `next` and `prev` pointers are inverse to each other on the
buckets in use, which lie inside the table and hold a name and a reference, and
they form one circular list that is `L` when read from `aptr` along `next`. -/
def Reference_Dictionary.Listed {R : Type} (d : Reference_Dictionary R) (L : List Nat) : Prop :=
  d.Ring_OK ∧
  (∀ i, d.live i = true → i < d.eptr) ∧
  (∀ i, d.live i = true →
    ∃ name refr, (d.bptr i).kstor = some name ∧ (d.bptr i).vstor = some refr) ∧
  d.List_Is L

/-- The invariant of the list of a dictionary: the buckets in use make up one
circular list, and `size` is their number. -/
def Reference_Dictionary.Linked {R : Type} (d : Reference_Dictionary R) : Prop :=
  ∃ L, d.Listed L ∧ d.size = L.length

/-- The steps that `do_attach`, the relocation of a bucket and `do_rehash` have
in common: the bucket `qbkt` is attached to the list and a name and a reference
are constructed in it. -/
def Reference_Dictionary.emplace {R : Type} (d : Reference_Dictionary R) (qbkt : Nat)
    (name : PreHashed_String) (refr : R) : Reference_Dictionary R :=
  ((d.do_list_attach qbkt).assign (some qbkt) (fun b => { b with kstor := some name })).assign
    (some qbkt) (fun b => { b with vstor := some refr })
/-! ## Auxiliary notions for rehashing -/

/-- The part of a turn of the loop of `do_rehash` that acts on the new table:
the pair of a name and a reference goes to the first empty bucket on the probe
path of the name. -/
def Reference_Dictionary.do_rehash.place {R : Type} (d : Reference_Dictionary R)
    (pr : PreHashed_String × R) : Option (Reference_Dictionary R) :=
  match (linear_probe Reference_Dictionary.live
    (fun (_ : Nat) (s : Reference_Dictionary R) => (false, s)) 0
    (get_probing_origin 0 d.eptr pr.1.rdhash) (get_probing_origin 0 d.eptr pr.1.rdhash)
    d.eptr d).1 with
  | some qbkt => if d.live qbkt then none else some (d.emplace qbkt pr.1 pr.2)
  | none => none

/-- The pairs of a list placed in the new table one after the other. -/
def Reference_Dictionary.do_rehash.place_all {R : Type} :
    List (PreHashed_String × R) → Reference_Dictionary R → Option (Reference_Dictionary R)
  | [], d => some d
  | pr :: rest, d =>
      match Reference_Dictionary.do_rehash.place d pr with
      | some d => Reference_Dictionary.do_rehash.place_all rest d
      | none => none

/-- No name is stored in two buckets. -/
def Reference_Dictionary.Unique_Names {R : Type} (d : Reference_Dictionary R) : Prop :=
  ∀ i j name, d.holds i name → d.holds j name → i = j

/-- The dictionaries that a sequence of calls of `do_attach`, `do_detach` and
`do_rehash` makes of an empty dictionary. The calls are those that the
assertions of the three functions admit: `do_attach` on an empty bucket of the
table, `do_detach` on a bucket in use, `do_rehash` with `nbkt / 2 > size` (it
returns nothing otherwise) and with a bound for its loop that is not less than
`size`. -/
inductive Reference_Dictionary.Reachable {R : Type} [Inhabited R] :
    Reference_Dictionary R → Prop
  | empty (nbkt : Nat) : Reference_Dictionary.Reachable (Reference_Dictionary.allocated R nbkt)
  | attach (d : Reference_Dictionary R) (qbkt : Nat) (name : PreHashed_String) :
      Reference_Dictionary.Reachable d → qbkt < d.eptr → d.live qbkt = false →
      Reference_Dictionary.Reachable (d.do_attach qbkt name)
  | detach (d : Reference_Dictionary R) (qbkt : Nat) :
      Reference_Dictionary.Reachable d → d.live qbkt = true →
      Reference_Dictionary.Reachable (d.do_detach qbkt)
  | rehash (d d1 : Reference_Dictionary R) (nbkt fuel : Nat) :
      Reference_Dictionary.Reachable d → d.size ≤ fuel → d.do_rehash nbkt fuel = some d1 →
      Reference_Dictionary.Reachable d1

/-- A table of four buckets in which bucket 0 holds `witness_name_a` with the
default reference, made by `do_attach` from an empty table. -/
def witness_single : Reference_Dictionary Nat :=
  (Reference_Dictionary.allocated Nat 4).do_attach 0 witness_name_a

/-! ## The chunked hashers: `update` and `finish` in terms of whole messages -/

theorem absorb_fuel (f : List Nat → List Nat → List Nat) :
    ∀ (fuel1 fuel2 : Nat) (r d : List Nat), d.length / 64 ≤ fuel1 → d.length / 64 ≤ fuel2 →
      absorb f fuel1 r d = absorb f fuel2 r d := by
  intro fuel1
  induction fuel1 with
  | zero =>
      intro fuel2 r d h1 _
      have hlt : ¬ 64 ≤ d.length := by omega
      cases fuel2 with
      | zero => rfl
      | succ m => simp [absorb, hlt]
  | succ k ih =>
      intro fuel2 r d h1 h2
      by_cases hlen : 64 ≤ d.length
      · cases fuel2 with
        | zero => omega
        | succ m =>
            simp only [absorb, hlen, if_true]
            apply ih
            · simp only [List.length_drop]; omega
            · simp only [List.length_drop]; omega
      · cases fuel2 with
        | zero => simp [absorb, hlen]
        | succ m => simp [absorb, hlen]

theorem absorb_eq_absorbAll (f : List Nat → List Nat → List Nat) (fuel : Nat) (r d : List Nat)
    (h : d.length / 64 ≤ fuel) : absorb f fuel r d = absorbAll f r d := by
  unfold absorbAll
  apply absorb_fuel
  · exact h
  · exact Nat.div_le_self _ _

theorem absorbAll_short (f : List Nat → List Nat → List Nat) (r d : List Nat)
    (h : d.length < 64) : absorbAll f r d = (r, d) := by
  rw [← absorb_eq_absorbAll f 0 r d (by omega)]
  rfl

theorem absorbAll_step (f : List Nat → List Nat → List Nat) (r d : List Nat)
    (h : 64 ≤ d.length) : absorbAll f r d = absorbAll f (f r (d.take 64)) (d.drop 64) := by
  rw [← absorb_eq_absorbAll f (d.length / 64 + 1) r d (by omega)]
  simp only [absorb, h, if_true]
  apply absorb_eq_absorbAll
  simp only [List.length_drop]; omega

theorem absorbAll_length (f : List Nat → List Nat → List Nat) :
    ∀ (n : Nat) (r d : List Nat), d.length ≤ n →
      (absorbAll f r d).2.length = d.length % 64 := by
  intro n
  induction n using Nat.strong_induction_on with
  | _ n ih =>
      intro r d hn
      by_cases hlen : 64 ≤ d.length
      · rw [absorbAll_step f r d hlen]
        rw [ih (d.length - 64) (by omega) _ _ (by simp)]
        simp only [List.length_drop]; omega
      · rw [absorbAll_short f r d (by omega)]
        simp only; omega

theorem absorbAll_append (f : List Nat → List Nat → List Nat) :
    ∀ (n : Nat) (r x y : List Nat), x.length ≤ n →
      absorbAll f r (x ++ y) = absorbAll f (absorbAll f r x).1 ((absorbAll f r x).2 ++ y) := by
  intro n
  induction n using Nat.strong_induction_on with
  | _ n ih =>
      intro r x y hn
      by_cases hlen : 64 ≤ x.length
      · rw [absorbAll_step f r x hlen, absorbAll_step f r (x ++ y) (by simp; omega)]
        rw [List.take_append_of_le_length hlen, List.drop_append_of_le_length hlen]
        exact ih (x.length - 64) (by omega) _ _ _ (by simp)
      · rw [absorbAll_short f r x (by omega)]

theorem Chunk_Hasher.update.loop_spec (f : List Nat → List Nat → List Nat) :
    ∀ (fuel : Nat) (h : Chunk_Hasher) (bp : List Nat), h.m_size < 2 ^ 64 →
      (Chunk_Hasher.update.loop f fuel h bp).1.m_regs = (absorb f fuel h.m_regs bp).1 ∧
      (Chunk_Hasher.update.loop f fuel h bp).2 = (absorb f fuel h.m_regs bp).2 ∧
      (Chunk_Hasher.update.loop f fuel h bp).1.m_chunk = h.m_chunk ∧
      (Chunk_Hasher.update.loop f fuel h bp).2.length ≤ bp.length ∧
      (Chunk_Hasher.update.loop f fuel h bp).1.m_size =
        (h.m_size + (bp.length - (Chunk_Hasher.update.loop f fuel h bp).2.length)) % 2 ^ 64 := by
  intro fuel
  induction fuel with
  | zero =>
      intro h bp hs
      simp only [Chunk_Hasher.update.loop, absorb, true_and, le_refl, Nat.sub_self, Nat.add_zero]
      exact (Nat.mod_eq_of_lt hs).symm
  | succ k ih =>
      intro h bp hs
      by_cases hlen : 64 ≤ bp.length
      · simp only [Chunk_Hasher.update.loop, absorb, hlen, if_true]
        have hs' : (h.m_size + 64) % 2 ^ 64 < 2 ^ 64 := Nat.mod_lt _ (by norm_num)
        obtain ⟨h1, h2, h3, h4, h5⟩ := ih
          { m_regs := f h.m_regs (bp.take 64), m_size := (h.m_size + 64) % 2 ^ 64,
            m_chunk := h.m_chunk } (bp.drop 64) hs'
        refine ⟨h1, h2, h3, ?_, ?_⟩
        · have := List.length_drop 64 bp
          omega
        · rw [h5]
          have := List.length_drop 64 bp
          simp only at h4 ⊢
          omega
      · simp only [Chunk_Hasher.update.loop, absorb, hlen, if_false, true_and, le_refl,
          Nat.sub_self, Nat.add_zero]
        exact (Nat.mod_eq_of_lt hs).symm

theorem Chunk_Hasher.update.rest_spec (f : List Nat → List Nat → List Nat)
    (h : Chunk_Hasher) (bp : List Nat) (hv : h.Valid) (h0 : h.m_size % 64 = 0) :
    (Chunk_Hasher.update.rest f h bp 0).Valid ∧
    (Chunk_Hasher.update.rest f h bp 0).m_size = (h.m_size + bp.length) % 2 ^ 64 ∧
    (Chunk_Hasher.update.rest f h bp 0).m_regs = (absorbAll f h.m_regs bp).1 ∧
    (Chunk_Hasher.update.rest f h bp 0).pending = (absorbAll f h.m_regs bp).2 := by
  obtain ⟨hc, hs⟩ := hv
  obtain ⟨h1, h2, h3, h4, h5⟩ := Chunk_Hasher.update.loop_spec f bp.length h bp hs
  rw [absorb_eq_absorbAll f bp.length _ bp (Nat.div_le_self _ _)] at h1 h2
  have hlen := absorbAll_length f bp.length h.m_regs bp le_rfl
  rw [← h2] at hlen
  unfold Chunk_Hasher.update.rest
  generalize Chunk_Hasher.update.loop f bp.length h bp = res at h1 h2 h3 h4 h5 hlen
  obtain ⟨h', bp'⟩ := res
  simp only at h1 h2 h3 h4 h5 hlen ⊢
  have hlt : bp'.length < 64 := by rw [hlen]; exact Nat.mod_lt _ (by norm_num)
  by_cases hn : bp'.length = 0
  · simp only [hn, ne_eq, not_true_eq_false, if_false]
    refine ⟨⟨by rw [h3]; exact hc, by rw [h5]; exact Nat.mod_lt _ (by norm_num)⟩, ?_, h1, ?_⟩
    · rw [h5, hn, Nat.sub_zero]
    · unfold Chunk_Hasher.pending
      rw [h5, ← h2]
      have : (h.m_size + (bp.length - bp'.length)) % 2 ^ 64 % 64 = 0 := by omega
      rw [this]
      simp only [List.take_zero]
      exact (List.length_eq_zero.mp hn).symm
  · simp only [hn, ne_eq, not_false_eq_true, if_true]
    have hcopy : (copy_n h'.m_chunk 0 bp' bp'.length).length = 64 := by
      simp only [copy_n, List.take_zero, List.nil_append, List.length_append, List.length_take,
        List.length_drop, h3, hc]
      omega
    refine ⟨⟨hcopy, Nat.mod_lt _ (by norm_num)⟩, ?_, h1, ?_⟩
    · rw [h5]; omega
    · unfold Chunk_Hasher.pending
      simp only
      rw [h5, ← h2]
      have : ((h.m_size + (bp.length - bp'.length)) % 2 ^ 64 + bp'.length) % 2 ^ 64 % 64
          = bp'.length := by omega
      rw [this]
      simp only [copy_n, List.take_zero, List.nil_append, List.take_length, Nat.zero_add]
      rw [List.take_append_of_le_length (by simp)]
      simp

theorem Chunk_Hasher.update_spec (f : List Nat → List Nat → List Nat)
    (h : Chunk_Hasher) (data : List Nat) (hv : h.Valid) :
    (Chunk_Hasher.update f h data).Valid ∧
    (Chunk_Hasher.update f h data).m_size = (h.m_size + data.length) % 2 ^ 64 ∧
    (Chunk_Hasher.update f h data).m_regs = (absorbAll f h.m_regs (h.pending ++ data)).1 ∧
    (Chunk_Hasher.update f h data).pending = (absorbAll f h.m_regs (h.pending ++ data)).2 := by
  have hv' := hv
  obtain ⟨hc, hs⟩ := hv'
  have hoff : h.m_size % 64 < 64 := Nat.mod_lt _ (by norm_num)
  have hplen : h.pending.length = h.m_size % 64 := by
    unfold Chunk_Hasher.pending
    rw [List.length_take, hc]; omega
  unfold Chunk_Hasher.update
  by_cases h0 : h.m_size % 64 = 0
  · have hp : h.pending = [] := List.length_eq_zero.mp (by rw [hplen, h0])
    simp only [h0, ne_eq, not_true_eq_false, if_false, hp, List.nil_append]
    exact Chunk_Hasher.update.rest_spec f h data hv h0
  · simp only [h0, ne_eq, not_false_eq_true, if_true]
    by_cases hfull : h.m_size % 64 + min data.length (64 - h.m_size % 64) = 64
    · -- the buffered chunk is completed and consumed
      simp only [hfull, not_true_eq_false, if_false]
      have hn : min data.length (64 - h.m_size % 64) = 64 - h.m_size % 64 := by omega
      have hdl : 64 - h.m_size % 64 ≤ data.length := by omega
      have hchunk : copy_n h.m_chunk (h.m_size % 64) data (min data.length (64 - h.m_size % 64))
          = (h.pending ++ data).take 64 := by
        unfold copy_n
        rw [hfull, hn, List.drop_of_length_le (by omega), List.append_nil]
        rw [List.take_append_eq_append_take, hplen]
        rw [List.take_of_length_le (by omega : h.pending.length ≤ 64)]
        rfl
      have hdrop : data.drop (min data.length (64 - h.m_size % 64))
          = (h.pending ++ data).drop 64 := by
        rw [hn, List.drop_append_eq_append_drop, hplen,
          List.drop_of_length_le (by omega : h.pending.length ≤ 64), List.nil_append]
      have hlen64 : 64 ≤ (h.pending ++ data).length := by
        rw [List.length_append, hplen]; omega
      rw [absorbAll_step f h.m_regs _ hlen64, hchunk, hdrop]
      set h1 : Chunk_Hasher :=
        { m_regs := f h.m_regs ((h.pending ++ data).take 64),
          m_size := (h.m_size + min data.length (64 - h.m_size % 64)) % 2 ^ 64,
          m_chunk := (h.pending ++ data).take 64 } with hh1
      have hv1 : h1.Valid := by
        refine ⟨?_, Nat.mod_lt _ (by norm_num)⟩
        simp only [hh1, List.length_take]; omega
      have h10 : h1.m_size % 64 = 0 := by simp only [hh1]; omega
      obtain ⟨r1, r2, r3, r4⟩ :=
        Chunk_Hasher.update.rest_spec f h1 ((h.pending ++ data).drop 64) hv1 h10
      refine ⟨r1, ?_, r3, r4⟩
      rw [r2]
      simp only [hh1, List.length_drop, List.length_append, hplen]
      omega
    · -- the buffer is still not full: early return
      simp only [hfull, not_false_eq_true, if_true]
      have hn : min data.length (64 - h.m_size % 64) = data.length := by omega
      have hshort : (h.pending ++ data).length < 64 := by
        rw [List.length_append, hplen]; omega
      rw [absorbAll_short f _ _ hshort, hn]
      refine ⟨⟨?_, Nat.mod_lt _ (by norm_num)⟩, rfl, rfl, ?_⟩
      · simp only [copy_n, List.length_append, List.length_take, List.length_drop, hc]
        omega
      · unfold Chunk_Hasher.pending
        simp only
        have : (h.m_size + data.length) % 2 ^ 64 % 64 = h.m_size % 64 + data.length := by omega
        rw [this]
        simp only [copy_n, List.take_length]
        rw [List.take_append_of_le_length (by
          simp only [List.length_append, List.length_take, hc]; omega)]
        rw [List.take_of_length_le (by
          simp only [List.length_append, List.length_take, hc]; omega)]

theorem Chunk_Hasher.chunk_update_append (f : List Nat → List Nat → List Nat)
    (h : Chunk_Hasher) (a b : List Nat) (hv : h.Valid) :
    (Chunk_Hasher.update f (Chunk_Hasher.update f h a) b).m_size =
      (Chunk_Hasher.update f h (a ++ b)).m_size ∧
    (Chunk_Hasher.update f (Chunk_Hasher.update f h a) b).m_regs =
      (Chunk_Hasher.update f h (a ++ b)).m_regs ∧
    (Chunk_Hasher.update f (Chunk_Hasher.update f h a) b).pending =
      (Chunk_Hasher.update f h (a ++ b)).pending := by
  obtain ⟨v1, s1, r1, p1⟩ := Chunk_Hasher.update_spec f h a hv
  obtain ⟨_, s2, r2, p2⟩ := Chunk_Hasher.update_spec f (Chunk_Hasher.update f h a) b v1
  obtain ⟨_, s3, r3, p3⟩ := Chunk_Hasher.update_spec f h (a ++ b) hv
  have happ := absorbAll_append f (h.pending ++ a).length h.m_regs (h.pending ++ a) b le_rfl
  rw [List.append_assoc] at happ
  refine ⟨?_, ?_, ?_⟩
  · rw [s2, s3, s1, List.length_append]; omega
  · rw [r2, r3, r1, p1, happ]
  · rw [p2, p3, r1, p1, happ]

theorem do_pdigits_impl.stor_le_length : ∀ (n w : Nat), (do_pdigits_impl.stor_le n w).length = n := by
  intro n
  induction n with
  | zero => intro w; rfl
  | succ k ih => intro w; simp [do_pdigits_impl.stor_le, ih]

theorem Chunk_Hasher.finish.bits_length (b : Bool) (w : Nat) :
    (Chunk_Hasher.finish.bits b w).length = 8 := by
  unfold Chunk_Hasher.finish.bits
  cases b <;> simp [do_pdigits_impl.stor_le_length]

theorem take_succ_set {α : Type} (c : List α) (i : Nat) (x : α) (hi : i < c.length) :
    (c.set i x).take (i + 1) = c.take i ++ [x] := by
  induction c generalizing i with
  | nil => simp at hi
  | cons a t ih =>
      cases i with
      | zero => simp
      | succ j =>
          simp only [List.length_cons, Nat.add_lt_add_iff_right] at hi
          simp [List.set, ih j hi]

theorem drop_succ_set {α : Type} (c : List α) (i k : Nat) (x : α) (hik : i < k) :
    (c.set i x).drop k = c.drop k := by
  induction c generalizing i k with
  | nil => simp
  | cons a t ih =>
      cases k with
      | zero => omega
      | succ k' =>
        cases i with
        | zero => simp
        | succ j => simp [List.set, ih j k' (by omega)]

theorem Chunk_Hasher.finish_spec (f : List Nat → List Nat → List Nat) (bigendT : Bool)
    (init : List Nat) (h : Chunk_Hasher) (hv : h.Valid) :
    (Chunk_Hasher.finish f bigendT init h).1 =
      ((Chunk_Hasher.final_chunks bigendT h.pending h.m_size).foldl f h.m_regs).foldl
        (do_pdigits_impl bigendT) "" := by
  obtain ⟨hc, hs⟩ := hv
  have hoff : h.m_size % 64 < 64 := Nat.mod_lt _ (by norm_num)
  have hplen : h.pending.length = h.m_size % 64 := by
    unfold Chunk_Hasher.pending
    rw [List.length_take, hc]; omega
  have hset : (h.m_chunk.set (h.m_size % 64) 0x80).take (h.m_size % 64 + 1)
      = h.pending ++ [0x80] := take_succ_set _ _ _ (by omega)
  have hsetlen : (h.m_chunk.set (h.m_size % 64) 0x80).length = 64 := by
    rw [List.length_set]; exact hc
  have hbits := Chunk_Hasher.finish.bits_length bigendT (h.m_size * 8 % 2 ^ 64)
  unfold Chunk_Hasher.finish Chunk_Hasher.final_chunks
  rw [hplen]
  by_cases hwrap : 64 - (h.m_size % 64 + 1) < 8
  · have h1 : fill_n (h.m_chunk.set (h.m_size % 64) 0x80) (h.m_size % 64 + 1)
        (64 - (h.m_size % 64 + 1))
        = h.pending ++ [0x80] ++ List.replicate (64 - (h.m_size % 64 + 1)) 0 := by
      unfold fill_n
      rw [hset, List.drop_of_length_le (by omega), List.append_nil]
    have h1len : (h.pending ++ [0x80] ++ List.replicate (64 - (h.m_size % 64 + 1)) 0).length
        = 64 := by
      simp only [List.length_append, List.length_replicate, hplen, List.length_singleton]; omega
    simp only [hwrap, if_true, h1, Nat.sub_zero, Nat.zero_add]
    have h56 : (64 : Nat) - 8 > 0 := by norm_num
    simp only [h56, if_true]
    have h2 : copy_n (fill_n (h.pending ++ [0x80] ++
          List.replicate (64 - (h.m_size % 64 + 1)) 0) 0 (64 - 8)) (64 - 8)
          (Chunk_Hasher.finish.bits bigendT (h.m_size * 8 % 2 ^ 64)) 8
        = List.replicate 56 0 ++ Chunk_Hasher.finish.bits bigendT (h.m_size * 8 % 2 ^ 64) := by
      unfold copy_n fill_n
      simp only [List.take_zero, List.nil_append, Nat.zero_add]
      rw [List.take_append_of_le_length (by simp), List.take_replicate]
      rw [List.take_of_length_le (by omega)]
      rw [List.drop_of_length_le (by
        simp only [List.length_append, List.length_replicate, List.length_drop, h1len]
        omega)]
      simp
    rw [h2]
    rfl
  · simp only [hwrap, if_false]
    by_cases hn : 64 - (h.m_size % 64 + 1) - 8 > 0
    · simp only [hn, if_true]
      have h2 : copy_n (fill_n (h.m_chunk.set (h.m_size % 64) 0x80) (h.m_size % 64 + 1)
            (64 - (h.m_size % 64 + 1) - 8)) (h.m_size % 64 + 1 + (64 - (h.m_size % 64 + 1) - 8))
            (Chunk_Hasher.finish.bits bigendT (h.m_size * 8 % 2 ^ 64)) 8
          = h.pending ++ [0x80] ++ List.replicate (64 - (h.m_size % 64 + 1) - 8) 0 ++
              Chunk_Hasher.finish.bits bigendT (h.m_size * 8 % 2 ^ 64) := by
        unfold copy_n fill_n
        rw [hset]
        have e56 : h.m_size % 64 + 1 + (64 - (h.m_size % 64 + 1) - 8) = 56 := by omega
        rw [e56]
        rw [List.take_append_of_le_length (by
          simp only [List.length_append, List.length_replicate, hplen, List.length_singleton]
          omega)]
        rw [List.take_of_length_le (by
          simp only [List.length_append, List.length_replicate, hplen, List.length_singleton]
          omega)]
        rw [List.take_of_length_le (by omega)]
        rw [List.drop_of_length_le (by
          simp only [List.length_append, List.length_replicate, hplen, List.length_singleton,
            List.length_drop, hsetlen]
          omega)]
        simp
      rw [h2]
      rfl
    · simp only [hn, if_false]
      have e55 : h.m_size % 64 = 55 := by omega
      have h2 : copy_n (h.m_chunk.set (h.m_size % 64) 0x80) (h.m_size % 64 + 1)
            (Chunk_Hasher.finish.bits bigendT (h.m_size * 8 % 2 ^ 64)) 8
          = h.pending ++ [0x80] ++ List.replicate (64 - (h.m_size % 64 + 1) - 8) 0 ++
              Chunk_Hasher.finish.bits bigendT (h.m_size * 8 % 2 ^ 64) := by
        unfold copy_n
        rw [hset]
        rw [List.take_of_length_le (by omega)]
        rw [List.drop_of_length_le (by omega)]
        have : 64 - (h.m_size % 64 + 1) - 8 = 0 := by omega
        rw [this]
        simp
      rw [h2]
      rfl

theorem Chunk_Hasher.finish_congr (f : List Nat → List Nat → List Nat) (bigendT : Bool)
    (init : List Nat) (h1 h2 : Chunk_Hasher) (hv1 : h1.Valid) (hv2 : h2.Valid)
    (hs : h1.m_size = h2.m_size) (hr : h1.m_regs = h2.m_regs) (hp : h1.pending = h2.pending) :
    (Chunk_Hasher.finish f bigendT init h1).1 = (Chunk_Hasher.finish f bigendT init h2).1 := by
  rw [Chunk_Hasher.finish_spec f bigendT init h1 hv1, Chunk_Hasher.finish_spec f bigendT init h2 hv2,
    hs, hr, hp]

/-- The checksum of a hasher that starts with nothing buffered does not depend
on what its buffer holds. -/
theorem Chunk_Hasher.finish_update_chunk_irrelevant (f : List Nat → List Nat → List Nat)
    (bigendT : Bool) (init regs c1 c2 data : List Nat) (h1 : c1.length = 64)
    (h2 : c2.length = 64) :
    (Chunk_Hasher.finish f bigendT init
        (Chunk_Hasher.update f { m_regs := regs, m_size := 0, m_chunk := c1 } data)).1 =
    (Chunk_Hasher.finish f bigendT init
        (Chunk_Hasher.update f { m_regs := regs, m_size := 0, m_chunk := c2 } data)).1 := by
  have v1 : Chunk_Hasher.Valid { m_regs := regs, m_size := 0, m_chunk := c1 } :=
    ⟨h1, by norm_num⟩
  have v2 : Chunk_Hasher.Valid { m_regs := regs, m_size := 0, m_chunk := c2 } :=
    ⟨h2, by norm_num⟩
  obtain ⟨w1, s1, r1, p1⟩ := Chunk_Hasher.update_spec f _ data v1
  obtain ⟨w2, s2, r2, p2⟩ := Chunk_Hasher.update_spec f _ data v2
  apply Chunk_Hasher.finish_congr f bigendT init _ _ w1 w2
  · rw [s1, s2]
  · rw [r1, r2]; rfl
  · rw [p1, p2]; rfl

/-- Two updates on a new hasher give the checksum of one update with the
concatenation on any other new hasher. -/
theorem Chunk_Hasher.finish_update_update (f : List Nat → List Nat → List Nat)
    (bigendT : Bool) (init regs c1 c2 a b : List Nat) (h1 : c1.length = 64)
    (h2 : c2.length = 64) :
    (Chunk_Hasher.finish f bigendT init (Chunk_Hasher.update f
        (Chunk_Hasher.update f { m_regs := regs, m_size := 0, m_chunk := c1 } a) b)).1 =
    (Chunk_Hasher.finish f bigendT init
        (Chunk_Hasher.update f { m_regs := regs, m_size := 0, m_chunk := c2 } (a ++ b))).1 := by
  have v1 : Chunk_Hasher.Valid { m_regs := regs, m_size := 0, m_chunk := c1 } :=
    ⟨h1, by norm_num⟩
  rw [← Chunk_Hasher.finish_update_chunk_irrelevant f bigendT init regs c1 c2 (a ++ b) h1 h2]
  obtain ⟨wa, _, _, _⟩ := Chunk_Hasher.update_spec f _ a v1
  obtain ⟨wab, _, _, _⟩ := Chunk_Hasher.update_spec f _ b wa
  obtain ⟨w, _, _, _⟩ := Chunk_Hasher.update_spec f _ (a ++ b) v1
  obtain ⟨e1, e2, e3⟩ := Chunk_Hasher.chunk_update_append f _ a b v1
  exact Chunk_Hasher.finish_congr f bigendT init _ _ wab w e1 e2 e3

theorem std_checksum_md5_chunk_irrelevant (c1 c2 data : List Nat) (h1 : c1.length = 64)
    (h2 : c2.length = 64) : std_checksum_md5 c1 data = std_checksum_md5 c2 data :=
  Chunk_Hasher.finish_update_chunk_irrelevant _ _ _ _ c1 c2 data h1 h2

theorem std_checksum_sha1_chunk_irrelevant (c1 c2 data : List Nat) (h1 : c1.length = 64)
    (h2 : c2.length = 64) : std_checksum_sha1 c1 data = std_checksum_sha1 c2 data :=
  Chunk_Hasher.finish_update_chunk_irrelevant _ _ _ _ c1 c2 data h1 h2

theorem std_checksum_sha256_chunk_irrelevant (c1 c2 data : List Nat) (h1 : c1.length = 64)
    (h2 : c2.length = 64) : std_checksum_sha256 c1 data = std_checksum_sha256 c2 data :=
  Chunk_Hasher.finish_update_chunk_irrelevant _ _ _ _ c1 c2 data h1 h2

/-! ## Rounding to `double` and the probing origin -/

theorem double_exponent_bound :
    ∀ (fuel x : Nat), double_exponent fuel x = 0 ∨ 2 ^ (52 + double_exponent fuel x) ≤ x := by
  intro fuel
  induction fuel with
  | zero => intro x; left; rfl
  | succ k ih =>
      intro x
      by_cases hx : x < 2 ^ 53
      · left; simp only [double_exponent, hx, if_true]
      · right
        simp only [double_exponent, hx, if_false]
        rcases ih (x / 2) with h0 | hle
        · rw [h0]
          simp only [Nat.zero_add]
          omega
        · have h2 : 2 ^ (52 + (double_exponent k (x / 2) + 1))
              = 2 * 2 ^ (52 + double_exponent k (x / 2)) := by
            rw [← Nat.add_assoc, Nat.pow_succ, Nat.mul_comm]
          rw [h2]
          omega

theorem double_exponent_small (fuel x : Nat) (hx : x < 2 ^ 53) : double_exponent fuel x = 0 := by
  cases fuel with
  | zero => rfl
  | succ k => simp only [double_exponent, hx, if_true]

theorem round_double_exact (x : Nat) (hx : x < 2 ^ 53) : round_double x = x := by
  simp [round_double, double_exponent_small x x hx]

theorem double_exponent_fits :
    ∀ (fuel x : Nat), x < 2 ^ 53 * 2 ^ fuel → x / 2 ^ double_exponent fuel x < 2 ^ 53 := by
  intro fuel
  induction fuel with
  | zero =>
      intro x hx
      simp only [double_exponent, Nat.pow_zero, Nat.div_one]
      omega
  | succ k ih =>
      intro x hx
      by_cases hlt : x < 2 ^ 53
      · simp only [double_exponent, hlt, if_true, Nat.pow_zero, Nat.div_one]
      · simp only [double_exponent, hlt, if_false]
        have h2 : x / 2 < 2 ^ 53 * 2 ^ k := by
          rw [Nat.pow_succ] at hx
          omega
        have := ih (x / 2) h2
        rw [Nat.pow_succ, Nat.mul_comm, ← Nat.div_div_eq_div_mul]
        exact this

/-- The significand that `round_double` keeps has at most 53 bits. -/
theorem round_double_significand (x : Nat) : x / 2 ^ double_exponent x x < 2 ^ 53 := by
  apply double_exponent_fits
  have h1 : x < 2 ^ x := Nat.lt_two_pow x
  have h2 : 2 ^ x ≤ 2 ^ 53 * 2 ^ x := Nat.le_mul_of_pos_left _ (by norm_num)
  omega

/-- Rounding to `double` adds at most the fraction `2 ^ (-53)` of the value. -/
theorem round_double_le (x : Nat) : round_double x * 2 ^ 53 ≤ x * (2 ^ 53 + 1) := by
  unfold round_double
  rcases double_exponent_bound x x with h0 | hle
  · simp only [h0, if_true]
    nlinarith
  · generalize double_exponent x x = e at hle
    by_cases he : e = 0
    · simp only [he, if_true]
      nlinarith
    · simp only [he, if_false]
      have hdm : 2 ^ e * (x / 2 ^ e) + x % 2 ^ e = x := Nat.div_add_mod x (2 ^ e)
      have hpe : 2 ^ e = 2 * 2 ^ (e - 1) := by
        obtain ⟨m, rfl⟩ : ∃ m, e = m + 1 := ⟨e - 1, by omega⟩
        rw [Nat.pow_succ, Nat.mul_comm]; rfl
      have h52 : 2 ^ (52 + e) = 2 ^ 53 * 2 ^ (e - 1) := by
        obtain ⟨m, rfl⟩ : ∃ m, e = m + 1 := ⟨e - 1, by omega⟩
        rw [show 52 + (m + 1) = 53 + m by omega, Nat.pow_add]; rfl
      rw [h52] at hle
      generalize 2 ^ (e - 1) = half at *
      generalize x / 2 ^ e = q at *
      generalize x % 2 ^ e = r at *
      rw [hpe] at hdm ⊢
      split
      · rename_i hup
        have hr : half ≤ r := by
          rcases hup with h | ⟨h, _⟩
          · exact Nat.le_of_lt h
          · exact Nat.le_of_eq h.symm
        nlinarith
      · nlinarith

theorem get_probing_origin_off_lt (n k : Nat) (hn : 0 < n) (hk : k < 2 ^ 31) :
    round_double (round_double n * k) / 2 ^ 31 < n := by
  rw [Nat.div_lt_iff_lt_mul (by norm_num)]
  have h1 := round_double_le n
  have h2 := round_double_le (round_double n * k)
  have hk' : k + 1 ≤ 2 ^ 31 := hk
  generalize round_double (round_double n * k) = R at *
  generalize round_double n = a at *
  -- R * 2^106 ≤ (2^53+1)^2 * k * n < 2^137 * n
  have h3 : R * 2 ^ 53 * 2 ^ 53 ≤ a * 2 ^ 53 * k * (2 ^ 53 + 1) := by nlinarith
  have h4 : a * 2 ^ 53 * k * (2 ^ 53 + 1) ≤ n * (2 ^ 53 + 1) * k * (2 ^ 53 + 1) := by
    have := Nat.mul_le_mul_right (k * (2 ^ 53 + 1)) h1
    nlinarith
  have h5 : n * (2 ^ 53 + 1) * k * (2 ^ 53 + 1) < n * 2 ^ 31 * 2 ^ 53 * 2 ^ 53 := by
    have hc : (2 ^ 53 + 1) * k * (2 ^ 53 + 1) < 2 ^ 31 * 2 ^ 53 * 2 ^ 53 := by
      have : (2 ^ 53 + 1) * k * (2 ^ 53 + 1) ≤ (2 ^ 53 + 1) * (2 ^ 31 - 1) * (2 ^ 53 + 1) := by
        have hk2 : k ≤ 2 ^ 31 - 1 := by omega
        exact Nat.mul_le_mul_right _ (Nat.mul_le_mul_left _ hk2)
      have hnum : (2 ^ 53 + 1) * (2 ^ 31 - 1) * (2 ^ 53 + 1) < 2 ^ 31 * 2 ^ 53 * 2 ^ 53 := by
        norm_num
      omega
    calc n * (2 ^ 53 + 1) * k * (2 ^ 53 + 1) = n * ((2 ^ 53 + 1) * k * (2 ^ 53 + 1)) := by ring
      _ < n * (2 ^ 31 * 2 ^ 53 * 2 ^ 53) := Nat.mul_lt_mul_of_pos_left hc hn
      _ = n * 2 ^ 31 * 2 ^ 53 * 2 ^ 53 := by ring
  have h6 : R * 2 ^ 53 * 2 ^ 53 < n * 2 ^ 31 * 2 ^ 53 * 2 ^ 53 := by omega
  have h7 : R * (2 ^ 53 * 2 ^ 53) < n * 2 ^ 31 * (2 ^ 53 * 2 ^ 53) := by
    rw [← Nat.mul_assoc, ← Nat.mul_assoc]; exact h6
  exact Nat.lt_of_mul_lt_mul_right h7

theorem get_probing_origin_seed_lt (hval : Nat) :
    ((hval * 0x9E3779B9) % 2 ^ 64 / 2) &&& 0x7FFFFFFF < 2 ^ 31 := by
  have := @Nat.and_le_right ((hval * 0x9E3779B9) % 2 ^ 64 / 2) 0x7FFFFFFF
  omega

/-- The closing assertion of `get_probing_origin`. -/
theorem get_probing_origin_lt (begin end_ hval : Nat) (h : begin < end_) :
    get_probing_origin begin end_ hval < end_ := by
  unfold get_probing_origin
  have := get_probing_origin_off_lt (end_ - begin) _ (by omega) (get_probing_origin_seed_lt hval)
  simp only
  omega

/-! ## Linear probing, the list and the relocation loop -/

theorem linear_probe.phase_pure {σ : Type} (live : σ → Nat → Bool) (p : σ → Nat → Bool) (s : σ) :
    ∀ (cnt bkt : Nat),
      (linear_probe.phase live (fun r s => (p s r, s)) cnt bkt s).2 = s ∧
      ((∃ i, (linear_probe.phase live (fun r s => (p s r, s)) cnt bkt s).1 = some i ∧
          bkt ≤ i ∧ i < bkt + cnt ∧ (live s i = false ∨ p s i = true) ∧
          ∀ j, bkt ≤ j → j < i → live s j = true ∧ p s j = false) ∨
       ((linear_probe.phase live (fun r s => (p s r, s)) cnt bkt s).1 = none ∧
          ∀ j, bkt ≤ j → j < bkt + cnt → live s j = true ∧ p s j = false)) := by
  intro cnt
  induction cnt with
  | zero =>
      intro bkt
      refine ⟨rfl, Or.inr ⟨rfl, ?_⟩⟩
      intro j h1 h2; omega
  | succ k ih =>
      intro bkt
      unfold linear_probe.phase
      by_cases hl : live s bkt = true
      · by_cases hp : p s bkt = true
        · simp only [hl, hp, Bool.not_true, Bool.false_eq_true, if_false]
          refine ⟨trivial, Or.inl ⟨bkt, rfl, le_rfl, by omega, Or.inr hp, ?_⟩⟩
          intro j h1 h2; omega
        · have hp' : p s bkt = false := by simpa using hp
          simp only [hl, hp', Bool.not_true, Bool.false_eq_true, if_false]
          obtain ⟨e1, e2⟩ := ih (bkt + 1)
          refine ⟨e1, ?_⟩
          rcases e2 with ⟨i, h1, h2, h3, h4, h5⟩ | ⟨h1, h2⟩
          · refine Or.inl ⟨i, h1, by omega, by omega, h4, ?_⟩
            intro j hj1 hj2
            by_cases hj : j = bkt
            · subst hj; exact ⟨hl, hp'⟩
            · exact h5 j (by omega) hj2
          · refine Or.inr ⟨h1, ?_⟩
            intro j hj1 hj2
            by_cases hj : j = bkt
            · subst hj; exact ⟨hl, hp'⟩
            · exact h2 j (by omega) (by omega)
      · have hl' : live s bkt = false := by simpa using hl
        simp only [hl', Bool.not_false, if_true]
        refine ⟨trivial, Or.inl ⟨bkt, rfl, le_rfl, by omega, Or.inl hl', ?_⟩⟩
        intro j h1 h2; omega

/-- What `linear_probe` returns when it starts at the origin `o` of a table of
`n` buckets with a predicate that leaves the state alone: the first bucket in
probe order that is empty or satisfies the predicate, if there is one. -/
theorem linear_probe_pure {σ : Type} (live : σ → Nat → Bool) (p : σ → Nat → Bool) (s : σ)
    (n o : Nat) (ho : o < n) :
    (linear_probe live (fun r s => (p s r, s)) 0 o o n s).2 = s ∧
    ((∃ i, (linear_probe live (fun r s => (p s r, s)) 0 o o n s).1 = some i ∧ i < n ∧
        (live s i = false ∨ p s i = true) ∧
        ∀ j, j < n → cdist n o j < cdist n o i → live s j = true ∧ p s j = false) ∨
     ((linear_probe live (fun r s => (p s r, s)) 0 o o n s).1 = none ∧
        ∀ j, j < n → live s j = true ∧ p s j = false)) := by
  unfold linear_probe
  obtain ⟨e1, e2⟩ := linear_probe.phase_pure live p s (n - o) o
  rcases e2 with ⟨i, h1, h2, h3, h4, h5⟩ | ⟨h1, h2⟩
  · generalize linear_probe.phase live (fun r s => (p s r, s)) (n - o) o s = res at e1 h1
    obtain ⟨r1, r2⟩ := res
    simp only at e1 h1
    subst e1 h1
    refine ⟨rfl, Or.inl ⟨i, rfl, by omega, h4, ?_⟩⟩
    intro j hj hd
    apply h5 j
    · unfold cdist at hd; split_ifs at hd <;> omega
    · unfold cdist at hd; split_ifs at hd <;> omega
  · generalize linear_probe.phase live (fun r s => (p s r, s)) (n - o) o s = res at e1 h1
    obtain ⟨r1, r2⟩ := res
    simp only at e1 h1
    subst e1 h1
    simp only [Nat.sub_zero]
    obtain ⟨f1, f2⟩ := linear_probe.phase_pure live p r2 o 0
    refine ⟨f1, ?_⟩
    rcases f2 with ⟨i, g1, g2, g3, g4, g5⟩ | ⟨g1, g2⟩
    · refine Or.inl ⟨i, g1, by omega, g4, ?_⟩
      intro j hj hd
      by_cases hjo : o ≤ j
      · exact h2 j hjo (by omega)
      · apply g5 j (by omega)
        unfold cdist at hd; split_ifs at hd <;> omega
    · refine Or.inr ⟨g1, ?_⟩
      intro j hj
      by_cases hjo : o ≤ j
      · exact h2 j hjo (by omega)
      · exact g2 j (by omega) (by omega)

theorem cdist_inj (n o i j : Nat) (ho : o < n) (hi : i < n) (hj : j < n)
    (h : cdist n o i = cdist n o j) : i = j := by
  unfold cdist at h; split_ifs at h <;> omega

theorem Reference_Dictionary.origin_lt {R : Type} (d : Reference_Dictionary R)
    (name : PreHashed_String) (h : 0 < d.eptr) : d.origin name < d.eptr :=
  get_probing_origin_lt 0 d.eptr name.rdhash h

/-- Lookup in a table with an empty bucket that satisfies the probe-path
invariant. -/
theorem Reference_Dictionary.do_xprobe_spec {R : Type} (d : Reference_Dictionary R)
    (name : PreHashed_String) (hempty : d.Has_Empty) (hinv : d.Probe_Inv) :
    ∃ q, d.do_xprobe name = some q ∧ q < d.eptr ∧
      (∀ i, i < d.eptr → d.holds i name → d.holds q name) ∧
      ((¬ ∃ i, i < d.eptr ∧ d.holds i name) → d.live q = false) := by
  obtain ⟨e, he, hel⟩ := hempty
  have hn : 0 < d.eptr := by omega
  have ho := d.origin_lt name hn
  obtain ⟨_, hres⟩ := linear_probe_pure Reference_Dictionary.live
    (fun (s : Reference_Dictionary R) r => decide ((s.bptr r).kstor = some name)) d d.eptr
    (d.origin name) ho
  rcases hres with ⟨q, h1, h2, h3, h4⟩ | ⟨_, h2⟩
  · refine ⟨q, ?_, h2, ?_, ?_⟩
    · exact h1
    · intro i hi hh
      rcases Nat.lt_trichotomy (cdist d.eptr (d.origin name) i) (cdist d.eptr (d.origin name) q)
        with hlt | heq | hgt
      · have := (h4 i hi hlt).2
        simp only [decide_eq_false_iff_not] at this
        exact absurd hh.2 this
      · have := cdist_inj d.eptr (d.origin name) i q ho hi h2 heq
        subst this; exact hh
      · have hlive := hinv i name hi hh q h2 hgt
        rcases h3 with h3 | h3
        · rw [hlive] at h3; exact absurd h3 (by simp)
        · simp only [decide_eq_true_eq] at h3
          exact ⟨hlive, h3⟩
    · intro hno
      rcases h3 with h3 | h3
      · exact h3
      · simp only [decide_eq_true_eq] at h3
        by_cases hl : d.live q = true
        · exact absurd ⟨q, h2, hl, h3⟩ hno
        · simpa using hl
  · have := (h2 e he).1
    rw [hel] at this
    exact absurd this (by simp)

theorem Reference_Dictionary.bptr_assign {R : Type} (d : Reference_Dictionary R) (i : Nat)
    (f : Bucket R → Bucket R) (x : Nat) :
    (d.assign (some i) f).bptr x = if x = i then f (d.bptr i) else d.bptr x := by
  simp only [Reference_Dictionary.assign, Function.update_apply]

/-- The effect of `do_list_attach` on a dictionary whose list is not empty. -/
theorem Reference_Dictionary.do_list_attach_some {R : Type} (d : Reference_Dictionary R)
    (p a pr : Nat) (ha : d.aptr = some a) (hpr : (d.bptr a).prev = some pr) :
    (d.do_list_attach p).aptr = some p ∧ (d.do_list_attach p).eptr = d.eptr ∧
    (d.do_list_attach p).size = d.size ∧
    ∀ x, ((d.do_list_attach p).bptr x).next
            = (if x = p then some a else if x = pr then some p else (d.bptr x).next) ∧
         ((d.do_list_attach p).bptr x).prev
            = (if x = p then some pr else if x = a then some p else (d.bptr x).prev) ∧
         ((d.do_list_attach p).bptr x).kstor = (d.bptr x).kstor ∧
         ((d.do_list_attach p).bptr x).vstor = (d.bptr x).vstor := by
  unfold Reference_Dictionary.do_list_attach
  simp only [ha, hpr]
  refine ⟨by trivial, by trivial, by trivial, ?_⟩
  intro x
  simp only [Reference_Dictionary.assign, Function.update_apply]
  refine ⟨?_, ?_, ?_, ?_⟩ <;> (split_ifs <;> simp_all)

/-- The effect of `do_list_attach` on a dictionary whose list is empty. -/
theorem Reference_Dictionary.do_list_attach_none {R : Type} (d : Reference_Dictionary R)
    (p : Nat) (ha : d.aptr = none) :
    (d.do_list_attach p).aptr = some p ∧ (d.do_list_attach p).eptr = d.eptr ∧
    (d.do_list_attach p).size = d.size ∧
    ∀ x, ((d.do_list_attach p).bptr x).next = (if x = p then some p else (d.bptr x).next) ∧
         ((d.do_list_attach p).bptr x).prev = (if x = p then some p else (d.bptr x).prev) ∧
         ((d.do_list_attach p).bptr x).kstor = (d.bptr x).kstor ∧
         ((d.do_list_attach p).bptr x).vstor = (d.bptr x).vstor := by
  unfold Reference_Dictionary.do_list_attach
  simp only [ha]
  refine ⟨by trivial, by trivial, by trivial, ?_⟩
  intro x
  simp only [Reference_Dictionary.assign, Function.update_apply]
  refine ⟨?_, ?_, ?_, ?_⟩ <;> (split_ifs <;> simp_all)

/-- The effect of `do_list_detach` on a bucket that is not alone in the list. -/
theorem Reference_Dictionary.do_list_detach_other {R : Type} (d : Reference_Dictionary R)
    (r nx pv : Nat) (hnx : (d.bptr r).next = some nx) (hpv : (d.bptr r).prev = some pv)
    (hne : nx ≠ r) :
    (d.do_list_detach r).aptr = some nx ∧ (d.do_list_detach r).eptr = d.eptr ∧
    (d.do_list_detach r).size = d.size ∧
    ∀ x, ((d.do_list_detach r).bptr x).next
            = (if x = pv then some nx else if x = r then none else (d.bptr x).next) ∧
         ((d.do_list_detach r).bptr x).prev
            = (if x = nx then some pv else (d.bptr x).prev) ∧
         ((d.do_list_detach r).bptr x).kstor = (d.bptr x).kstor ∧
         ((d.do_list_detach r).bptr x).vstor = (d.bptr x).vstor := by
  unfold Reference_Dictionary.do_list_detach
  have h1 : ¬ (some nx = some r) := by simpa using hne
  simp only [hnx, h1, ne_eq, not_false_eq_true, if_true, Reference_Dictionary.bptr_assign]
  simp only [hpv, if_true]
  refine ⟨by trivial, by trivial, by trivial, ?_⟩
  intro x
  simp only [Reference_Dictionary.assign, Function.update_apply]
  refine ⟨?_, ?_, ?_, ?_⟩ <;> (split_ifs <;> simp_all)

/-- The effect of `do_list_detach` on the only bucket of the list. -/
theorem Reference_Dictionary.do_list_detach_self {R : Type} (d : Reference_Dictionary R)
    (r : Nat) (hnx : (d.bptr r).next = some r) :
    (d.do_list_detach r).aptr = none ∧ (d.do_list_detach r).eptr = d.eptr ∧
    (d.do_list_detach r).size = d.size ∧
    ∀ x, ((d.do_list_detach r).bptr x).next = (if x = r then none else (d.bptr x).next) ∧
         ((d.do_list_detach r).bptr x).prev = (d.bptr x).prev ∧
         ((d.do_list_detach r).bptr x).kstor = (d.bptr x).kstor ∧
         ((d.do_list_detach r).bptr x).vstor = (d.bptr x).vstor := by
  unfold Reference_Dictionary.do_list_detach
  simp only [hnx, ne_eq, not_true_eq_false, if_false]
  refine ⟨by trivial, by trivial, by trivial, ?_⟩
  intro x
  simp only [Reference_Dictionary.assign, Function.update_apply]
  refine ⟨?_, ?_, ?_, ?_⟩ <;> (split_ifs <;> simp_all)

theorem Ring_Links.ring_attach {nx pv : Nat → Option Nat} (h : Ring_Links nx pv) (a pr p : Nat)
    (hp : nx p = none) (ha : ∃ y, nx a = some y) (hpr : pv a = some pr) :
    Ring_Links (fun x => if x = p then some a else if x = pr then some p else nx x)
      (fun x => if x = p then some pr else if x = a then some p else pv x) := by
  obtain ⟨ya, hya⟩ := ha
  obtain ⟨-, -, q, hq1, hq2⟩ := h a ya hya
  have hqpr : q = pr := by rw [hpr] at hq1; exact (Option.some.inj hq1).symm
  subst hqpr
  have hpa : a ≠ p := by intro e; subst e; rw [hp] at hya; cases hya
  have hpq : q ≠ p := by intro e; subst e; rw [hp] at hq2; cases hq2
  intro i x hix
  simp only at hix ⊢
  by_cases hip : i = p
  · subst hip
    simp only [if_true] at hix
    have hxa : x = a := (Option.some.inj hix).symm
    subst hxa
    refine ⟨by simp [hpa], ?_, q, by simp, by simp [hpq]⟩
    by_cases hxq : x = q
    · exact ⟨i, by simp [hpa, hxq]⟩
    · exact ⟨ya, by simp [hpa, hxq, hya]⟩
  · by_cases hiq : i = q
    · subst hiq
      simp only [hip, if_false, if_true] at hix
      have hxp : x = p := (Option.some.inj hix).symm
      subst hxp
      refine ⟨by simp, ⟨a, by simp⟩, ?_⟩
      by_cases hia : i = a
      · subst hia
        exact ⟨x, by simp [hip], by simp⟩
      · obtain ⟨-, -, y, hy1, hy2⟩ := h i a hq2
        have hyp : y ≠ x := by intro e; subst e; rw [hp] at hy2; cases hy2
        have hyi : y ≠ i := by
          intro e; subst e; rw [hq2] at hy2; exact hia (Option.some.inj hy2).symm
        exact ⟨y, by simp [hip, hia, hy1], by simp [hyp, hyi, hy2]⟩
    · simp only [hip, hiq, if_false] at hix
      obtain ⟨h1, ⟨y, hy⟩, q', hq'1, hq'2⟩ := h i x hix
      have hxp : x ≠ p := by intro e; subst e; rw [hp] at hy; cases hy
      have hxa : x ≠ a := by
        intro e; subst e; rw [hpr] at h1; exact hiq (Option.some.inj h1).symm
      refine ⟨by simp [hxp, hxa, h1], ?_, ?_⟩
      · by_cases hxq : x = q
        · subst hxq
          exact ⟨p, by simp [hxp]⟩
        · exact ⟨y, by simp [hxp, hxq, hy]⟩
      · by_cases hia : i = a
        · subst hia
          exact ⟨p, by simp [hip], by simp⟩
        · have hq'p : q' ≠ p := by intro e; subst e; rw [hp] at hq'2; cases hq'2
          have hq'q : q' ≠ q := by
            intro e; subst e; rw [hq2] at hq'2; exact hia (Option.some.inj hq'2).symm
          exact ⟨q', by simp [hip, hia, hq'1], by simp [hq'p, hq'q, hq'2]⟩

theorem Ring_Links.ring_attach_first {nx pv : Nat → Option Nat} (h : Ring_Links nx pv) (p : Nat)
    (hp : nx p = none) :
    Ring_Links (fun x => if x = p then some p else nx x)
      (fun x => if x = p then some p else pv x) := by
  intro i x hix
  simp only at hix ⊢
  by_cases hip : i = p
  · subst hip
    simp only [if_true] at hix
    have hxa : x = i := (Option.some.inj hix).symm
    subst hxa
    exact ⟨by simp, ⟨x, by simp⟩, x, by simp, by simp⟩
  · simp only [hip, if_false] at hix
    obtain ⟨h1, ⟨y, hy⟩, q', hq'1, hq'2⟩ := h i x hix
    have hxp : x ≠ p := by intro e; subst e; rw [hp] at hy; cases hy
    have hq'p : q' ≠ p := by intro e; subst e; rw [hp] at hq'2; cases hq'2
    exact ⟨by simp [hxp, h1], ⟨y, by simp [hxp, hy]⟩, q', by simp [hip, hq'1],
      by simp [hq'p, hq'2]⟩

theorem Ring_Links.ring_detach {nx pv : Nat → Option Nat} (h : Ring_Links nx pv) (r nxr pvr : Nat)
    (hnx : nx r = some nxr) (hpv : pv r = some pvr) (hne : nxr ≠ r) :
    Ring_Links (fun x => if x = pvr then some nxr else if x = r then none else nx x)
      (fun x => if x = nxr then some pvr else pv x) := by
  obtain ⟨hn1, ⟨yn, hyn⟩, q, hq1, hq2⟩ := h r nxr hnx
  have hqpr : q = pvr := by rw [hpv] at hq1; exact (Option.some.inj hq1).symm
  subst hqpr
  have hqr : q ≠ r := by
    intro e; subst e; rw [hnx] at hq2; exact hne (Option.some.inj hq2)
  intro i x hix
  simp only at hix ⊢
  by_cases hiq : i = q
  · subst hiq
    simp only [if_true] at hix
    have hxn : x = nxr := (Option.some.inj hix).symm
    subst hxn
    refine ⟨by simp, ?_, ?_⟩
    · by_cases hxi : x = i
      · exact ⟨x, by simp [hxi]⟩
      · exact ⟨yn, by simp [hxi, hne, hyn]⟩
    · by_cases hix' : i = x
      · subst hix'
        exact ⟨i, by simp, by simp⟩
      · obtain ⟨-, -, y, hy1, hy2⟩ := h i r hq2
        have hyi : y ≠ i := by
          intro e; subst e; rw [hq2] at hy2; exact hqr (Option.some.inj hy2).symm
        have hyr : y ≠ r := by
          intro e; subst e; rw [hnx] at hy2; exact hix' (Option.some.inj hy2).symm
        exact ⟨y, by simp [hix', hy1], by simp [hyi, hyr, hy2]⟩
  · have hir : i ≠ r := by
      intro e; subst e; simp [hiq] at hix
    simp only [hiq, hir, if_false] at hix
    obtain ⟨h1, ⟨y, hy⟩, q', hq'1, hq'2⟩ := h i x hix
    have hxr : x ≠ r := by
      intro e; subst e; rw [hpv] at h1; exact hiq (Option.some.inj h1).symm
    have hxn : x ≠ nxr := by
      intro e; subst e; rw [hn1] at h1; exact hir (Option.some.inj h1).symm
    refine ⟨by simp [hxn, h1], ?_, ?_⟩
    · by_cases hxq : x = q
      · exact ⟨nxr, by simp [hxq]⟩
      · exact ⟨y, by simp [hxq, hxr, hy]⟩
    · by_cases hin : i = nxr
      · subst hin
        exact ⟨q, by simp, by simp⟩
      · have hq'q : q' ≠ q := by
          intro e; subst e; rw [hq2] at hq'2; exact hir (Option.some.inj hq'2).symm
        have hq'r : q' ≠ r := by
          intro e; subst e; rw [hnx] at hq'2; exact hin (Option.some.inj hq'2).symm
        exact ⟨q', by simp [hin, hq'1], by simp [hq'q, hq'r, hq'2]⟩

theorem Ring_Links.ring_detach_last {nx pv : Nat → Option Nat} (h : Ring_Links nx pv) (r : Nat)
    (hnx : nx r = some r) :
    Ring_Links (fun x => if x = r then none else nx x) pv := by
  obtain ⟨hn1, -, -⟩ := h r r hnx
  intro i x hix
  simp only at hix ⊢
  have hir : i ≠ r := by
    intro e; subst e; simp at hix
  simp only [hir, if_false] at hix
  obtain ⟨h1, ⟨y, hy⟩, q', hq'1, hq'2⟩ := h i x hix
  have hxr : x ≠ r := by
    intro e; subst e; rw [hn1] at h1; exact hir (Option.some.inj h1).symm
  have hq'r : q' ≠ r := by
    intro e; subst e; rw [hnx] at hq'2; exact hir (Option.some.inj hq'2).symm
  exact ⟨h1, ⟨y, by simp [hxr, hy]⟩, q', hq'1, by simp [hq'r, hq'2]⟩

theorem Reference_Dictionary.live_iff {R : Type} (d : Reference_Dictionary R) (x : Nat) :
    d.live x = true ↔ ∃ y, (d.bptr x).next = some y := by
  unfold Reference_Dictionary.live Bucket.live
  exact Option.isSome_iff_exists

theorem Reference_Dictionary.not_live_iff {R : Type} (d : Reference_Dictionary R) (x : Nat) :
    d.live x = false ↔ (d.bptr x).next = none := by
  unfold Reference_Dictionary.live Bucket.live
  cases (d.bptr x).next <;> simp

theorem Reference_Dictionary.do_list_attach_spec {R : Type} (d : Reference_Dictionary R)
    (p : Nat) (hr : d.Ring_OK) (hp : d.live p = false) :
    (d.do_list_attach p).Ring_OK ∧ (d.do_list_attach p).eptr = d.eptr ∧
    (d.do_list_attach p).size = d.size ∧
    (∀ x, (d.do_list_attach p).live x = true ↔ (d.live x = true ∨ x = p)) ∧
    (∀ x, ((d.do_list_attach p).bptr x).kstor = (d.bptr x).kstor ∧
          ((d.do_list_attach p).bptr x).vstor = (d.bptr x).vstor) := by
  obtain ⟨hl, ha⟩ := hr
  have hpn := (d.not_live_iff p).mp hp
  cases hap : d.aptr with
  | none =>
      obtain ⟨e1, e2, e3, e4⟩ := d.do_list_attach_none p hap
      have hnx : (fun i => ((d.do_list_attach p).bptr i).next)
          = fun x => if x = p then some p else (d.bptr x).next := funext fun x => (e4 x).1
      have hpv : (fun i => ((d.do_list_attach p).bptr i).prev)
          = fun x => if x = p then some p else (d.bptr x).prev := funext fun x => (e4 x).2.1
      have hlive : ∀ x, (d.do_list_attach p).live x = true ↔ (d.live x = true ∨ x = p) := by
        intro x
        rw [Reference_Dictionary.live_iff, Reference_Dictionary.live_iff, (e4 x).1]
        by_cases hx : x = p
        · simp [hx]
        · simp [hx]
      refine ⟨⟨?_, ?_⟩, e2, e3, hlive, fun x => ⟨(e4 x).2.2.1, (e4 x).2.2.2⟩⟩
      · rw [hnx, hpv]
        exact Ring_Links.ring_attach_first hl p hpn
      · intro a' ha'
        rw [e1] at ha'
        have : a' = p := (Option.some.inj ha').symm
        exact (hlive a').mpr (Or.inr this)
  | some a =>
      have hla := ha a hap
      obtain ⟨ya, hya⟩ := (d.live_iff a).mp hla
      obtain ⟨-, -, pr, hpr, hpr2⟩ := hl a ya hya
      simp only at hpr hpr2
      obtain ⟨e1, e2, e3, e4⟩ := d.do_list_attach_some p a pr hap hpr
      have hnx : (fun i => ((d.do_list_attach p).bptr i).next)
          = fun x => if x = p then some a else if x = pr then some p else (d.bptr x).next :=
        funext fun x => (e4 x).1
      have hpv : (fun i => ((d.do_list_attach p).bptr i).prev)
          = fun x => if x = p then some pr else if x = a then some p else (d.bptr x).prev :=
        funext fun x => (e4 x).2.1
      have hlive : ∀ x, (d.do_list_attach p).live x = true ↔ (d.live x = true ∨ x = p) := by
        intro x
        rw [Reference_Dictionary.live_iff, Reference_Dictionary.live_iff, (e4 x).1]
        by_cases hx : x = p
        · simp [hx]
        · by_cases hx2 : x = pr
          · subst hx2
            simp [hx, hpr2]
          · simp [hx, hx2]
      refine ⟨⟨?_, ?_⟩, e2, e3, hlive, fun x => ⟨(e4 x).2.2.1, (e4 x).2.2.2⟩⟩
      · rw [hnx, hpv]
        exact Ring_Links.ring_attach hl a pr p hpn ⟨ya, hya⟩ hpr
      · intro a' ha'
        rw [e1] at ha'
        have : a' = p := (Option.some.inj ha').symm
        exact (hlive a').mpr (Or.inr this)

theorem Reference_Dictionary.do_list_detach_spec {R : Type} (d : Reference_Dictionary R)
    (r : Nat) (hr : d.Ring_OK) (hlr : d.live r = true) :
    (d.do_list_detach r).Ring_OK ∧ (d.do_list_detach r).eptr = d.eptr ∧
    (d.do_list_detach r).size = d.size ∧
    (∀ x, (d.do_list_detach r).live x = true ↔ (d.live x = true ∧ x ≠ r)) ∧
    (∀ x, ((d.do_list_detach r).bptr x).kstor = (d.bptr x).kstor ∧
          ((d.do_list_detach r).bptr x).vstor = (d.bptr x).vstor) := by
  obtain ⟨hl, ha⟩ := hr
  obtain ⟨nxr, hnxr⟩ := (d.live_iff r).mp hlr
  by_cases hself : nxr = r
  · subst hself
    obtain ⟨e1, e2, e3, e4⟩ := d.do_list_detach_self nxr hnxr
    have hnx : (fun i => ((d.do_list_detach nxr).bptr i).next)
        = fun x => if x = nxr then none else (d.bptr x).next := funext fun x => (e4 x).1
    have hpv : (fun i => ((d.do_list_detach nxr).bptr i).prev)
        = fun x => (d.bptr x).prev := funext fun x => (e4 x).2.1
    refine ⟨⟨?_, ?_⟩, e2, e3, ?_, fun x => ⟨(e4 x).2.2.1, (e4 x).2.2.2⟩⟩
    · rw [hnx, hpv]
      exact Ring_Links.ring_detach_last hl nxr hnxr
    · intro a' ha'
      rw [e1] at ha'
      cases ha'
    · intro x
      rw [Reference_Dictionary.live_iff, Reference_Dictionary.live_iff, (e4 x).1]
      by_cases hx : x = nxr
      · simp [hx]
      · simp [hx]
  · obtain ⟨hn1, ⟨yn, hyn⟩, pvr, hpvr, hpvr2⟩ := hl r nxr hnxr
    simp only at hn1 hyn hpvr hpvr2
    have hpvr_ne : pvr ≠ r := by
      intro e; subst e; rw [hnxr] at hpvr2; exact hself (Option.some.inj hpvr2)
    obtain ⟨e1, e2, e3, e4⟩ := d.do_list_detach_other r nxr pvr hnxr hpvr hself
    have hnx : (fun i => ((d.do_list_detach r).bptr i).next)
        = fun x => if x = pvr then some nxr else if x = r then none else (d.bptr x).next :=
      funext fun x => (e4 x).1
    have hpv : (fun i => ((d.do_list_detach r).bptr i).prev)
        = fun x => if x = nxr then some pvr else (d.bptr x).prev := funext fun x => (e4 x).2.1
    have hlive : ∀ x, (d.do_list_detach r).live x = true ↔ (d.live x = true ∧ x ≠ r) := by
      intro x
      rw [Reference_Dictionary.live_iff, Reference_Dictionary.live_iff, (e4 x).1]
      by_cases hx : x = pvr
      · subst hx
        simp [hpvr2, hpvr_ne]
      · by_cases hx2 : x = r
        · subst hx2
          simp [hx]
        · simp [hx, hx2]
    refine ⟨⟨?_, ?_⟩, e2, e3, hlive, fun x => ⟨(e4 x).2.2.1, (e4 x).2.2.2⟩⟩
    · rw [hnx, hpv]
      exact Ring_Links.ring_detach hl r nxr pvr hnxr hpvr hself
    · intro a' ha'
      rw [e1] at ha'
      have : a' = nxr := (Option.some.inj ha').symm
      subst this
      exact (hlive a').mpr ⟨(d.live_iff a').mpr ⟨yn, hyn⟩, hself⟩

/-- An assignment to `kstor` or `vstor` of a bucket leaves the list alone. -/
theorem Reference_Dictionary.assign_storage {R : Type} (d : Reference_Dictionary R) (i : Nat)
    (f : Bucket R → Bucket R) (hn : ∀ b, (f b).next = b.next) (hp : ∀ b, (f b).prev = b.prev) :
    ((d.assign (some i) f).Ring_OK ↔ d.Ring_OK) ∧
    (d.assign (some i) f).eptr = d.eptr ∧ (d.assign (some i) f).size = d.size ∧
    (d.assign (some i) f).aptr = d.aptr ∧
    (∀ x, (d.assign (some i) f).live x = d.live x) ∧
    (∀ x, x ≠ i → (d.assign (some i) f).bptr x = d.bptr x) ∧
    (d.assign (some i) f).bptr i = f (d.bptr i) := by
  have hnx : (fun x => ((d.assign (some i) f).bptr x).next) = fun x => (d.bptr x).next := by
    funext x
    rw [Reference_Dictionary.bptr_assign]
    split
    · rename_i h; subst h; exact hn _
    · rfl
  have hpv : (fun x => ((d.assign (some i) f).bptr x).prev) = fun x => (d.bptr x).prev := by
    funext x
    rw [Reference_Dictionary.bptr_assign]
    split
    · rename_i h; subst h; exact hp _
    · rfl
  have hlive : ∀ x, (d.assign (some i) f).live x = d.live x := by
    intro x
    unfold Reference_Dictionary.live Bucket.live
    rw [congrFun hnx x]
  refine ⟨?_, rfl, rfl, rfl, hlive, ?_, ?_⟩
  · unfold Reference_Dictionary.Ring_OK
    rw [hnx, hpv]
    simp only [hlive]
    rfl
  · intro x hx
    rw [Reference_Dictionary.bptr_assign]
    simp [hx]
  · rw [Reference_Dictionary.bptr_assign]
    simp

/-- What the relocation of one bucket `r` does: the name and the reference of
`r` end up in the first bucket `p`, in probe order from the origin of the name,
that is empty once `r` has been emptied; nothing else changes. -/
theorem Reference_Dictionary.do_xrelocate_but.relocate_spec {R : Type}
    (s : Reference_Dictionary R) (r : Nat) (hring : s.Ring_OK) (hrn : r < s.eptr)
    (hr : s.live r = true) (name : PreHashed_String) (refr : R)
    (hk : (s.bptr r).kstor = some name) (hv : (s.bptr r).vstor = some refr) :
    ∃ p s',
      Reference_Dictionary.do_xrelocate_but.relocate r s = (false, s') ∧
      s'.eptr = s.eptr ∧ s'.size = s.size ∧ s'.Ring_OK ∧
      p < s.eptr ∧ (p = r ∨ s.live p = false) ∧
      (∀ j, j < s.eptr → cdist s.eptr (s.origin name) j < cdist s.eptr (s.origin name) p →
        s.live j = true ∧ j ≠ r) ∧
      (∀ x, s'.live x = true ↔ (x = p ∨ (s.live x = true ∧ x ≠ r))) ∧
      (s'.bptr p).kstor = some name ∧ (s'.bptr p).vstor = some refr ∧
      (∀ x, x ≠ p → x ≠ r →
        (s'.bptr x).kstor = (s.bptr x).kstor ∧ (s'.bptr x).vstor = (s.bptr x).vstor) := by
  unfold Reference_Dictionary.do_xrelocate_but.relocate
  simp only [hk, hv]
  -- destroy the name and the reference
  obtain ⟨a1, a2, a3, a4, a5, a6, a7⟩ := s.assign_storage r (fun b => { b with kstor := none })
    (fun _ => rfl) (fun _ => rfl)
  generalize s.assign (some r) (fun b => { b with kstor := none }) = s1 at a1 a2 a3 a4 a5 a6 a7 ⊢
  obtain ⟨b1, b2, b3, b4, b5, b6, b7⟩ := s1.assign_storage r (fun b => { b with vstor := none })
    (fun _ => rfl) (fun _ => rfl)
  generalize s1.assign (some r) (fun b => { b with vstor := none }) = s2
    at b1 b2 b3 b4 b5 b6 b7 ⊢
  have hring2 : s2.Ring_OK := b1.mpr (a1.mpr hring)
  have hr2 : s2.live r = true := by rw [b5, a5]; exact hr
  -- detach the bucket
  obtain ⟨c1, c2, c3, c4, c5⟩ := s2.do_list_detach_spec r hring2 hr2
  generalize s2.do_list_detach r = s3 at c1 c2 c3 c4 c5 ⊢
  have hlive3 : ∀ x, s3.live x = true ↔ (s.live x = true ∧ x ≠ r) := by
    intro x; rw [c4, b5, a5]
  -- probe for an empty bucket
  have ho : get_probing_origin 0 s.eptr name.rdhash < s.eptr :=
    get_probing_origin_lt 0 s.eptr name.rdhash (by omega)
  obtain ⟨-, hres⟩ := linear_probe_pure Reference_Dictionary.live
    (fun (_ : Reference_Dictionary R) (_ : Nat) => false) s3 s.eptr
    (get_probing_origin 0 s.eptr name.rdhash) ho
  simp only at hres
  rcases hres with ⟨p, h1, h2, h3, h4⟩ | ⟨-, h2⟩
  swap
  · have := (h2 r hrn).1
    have hh := (hlive3 r).mp this
    exact absurd rfl hh.2
  simp only [h1]
  have hp3 : s3.live p = false := by
    rcases h3 with h3 | h3
    · exact h3
    · cases h3
  -- attach the new bucket
  obtain ⟨d1, d2, d3, d4, d5⟩ := s3.do_list_attach_spec p c1 hp3
  generalize s3.do_list_attach p = s4 at d1 d2 d3 d4 d5 ⊢
  obtain ⟨e1, e2, e3, e4, e5, e6, e7⟩ := s4.assign_storage p
    (fun b => { b with kstor := some name }) (fun _ => rfl) (fun _ => rfl)
  generalize s4.assign (some p) (fun b => { b with kstor := some name }) = s5
    at e1 e2 e3 e4 e5 e6 e7 ⊢
  obtain ⟨f1, f2, f3, f4, f5, f6, f7⟩ := s5.assign_storage p
    (fun b => { b with vstor := some refr }) (fun _ => rfl) (fun _ => rfl)
  generalize s5.assign (some p) (fun b => { b with vstor := some refr }) = s6
    at f1 f2 f3 f4 f5 f6 f7 ⊢
  refine ⟨p, s6, rfl, ?_, ?_, ?_, h2, ?_, ?_, ?_, ?_, ?_, ?_⟩
  · rw [f2, e2, d2, c2, b2, a2]
  · rw [f3, e3, d3, c3, b3, a3]
  · exact f1.mpr (e1.mpr d1)
  · by_cases hpr : p = r
    · exact Or.inl hpr
    · right
      by_cases hsp : s.live p = true
      · have := (hlive3 p).mpr ⟨hsp, hpr⟩
        rw [hp3] at this
        cases this
      · simpa using hsp
  · intro j hj hd
    have := (h4 j hj hd).1
    exact (hlive3 j).mp this
  · intro x
    rw [f5, e5, d4, hlive3]
    tauto
  · rw [f7, e7]
  · rw [f7]
  · intro x hxp hxr
    rw [f6 x hxp, e6 x hxp, (d5 x).1, (d5 x).2, (c5 x).1, (c5 x).2, b6 x hxr, a6 x hxr]
    exact ⟨rfl, rfl⟩

theorem cdist_between (n o q e i r : Nat) (ho : o < n) (hq : q < n) (he : e < n) (hi : i < n)
    (hr : r < n) (h1 : cdist n o r < cdist n o i) (h2 : cdist n q r < cdist n q e)
    (h3 : cdist n q i < cdist n q r ∨ cdist n q e < cdist n q i) :
    cdist n o e < cdist n o i := by
  unfold cdist at *
  split_ifs at * <;> omega

theorem cdist_after (n o q e i : Nat) (ho : o < n) (hq : q < n) (hi : i < n)
    (h1 : cdist n o q < cdist n o i) (h2 : cdist n q e < cdist n q i) :
    cdist n o e < cdist n o i := by
  unfold cdist at *
  split_ifs at * <;> omega

theorem cdist_lt (n o j : Nat) (ho : o < n) (hj : j < n) : cdist n o j < n := by
  unfold cdist; split_ifs <;> omega

theorem cdist_self (n o : Nat) : cdist n o o = 0 := by
  unfold cdist; simp

theorem cdist_eq_zero (n o j : Nat) (ho : o < n) (h : cdist n o j = 0) : j = o := by
  unfold cdist at h; split_ifs at h <;> omega

/-- The bucket `m` steps after `q`. -/
theorem cdist_exists (n q m : Nat) (hq : q < n) (hm : m < n) :
    ∃ e, e < n ∧ cdist n q e = m := by
  by_cases h : q + m < n
  · exact ⟨q + m, h, by unfold cdist; split_ifs <;> omega⟩
  · exact ⟨q + m - n, by omega, by unfold cdist; split_ifs <;> omega⟩

theorem Reference_Dictionary.origin_congr {R : Type} (s d : Reference_Dictionary R)
    (h : s.eptr = d.eptr) (name : PreHashed_String) : s.origin name = d.origin name := by
  unfold Reference_Dictionary.origin; rw [h]

/-- One iteration of the relocation loop keeps its invariant. -/
theorem Reloc_Inv.of_step {R : Type} (d : Reference_Dictionary R) (q M : Nat)
    (s : Reference_Dictionary R) (c r : Nat) (hq : q < d.eptr) (hM : M < d.eptr)
    (hinv : Reloc_Inv d q M s c) (hc : c < M) (hr : r < d.eptr)
    (hrc : cdist d.eptr q r = c) :
    ∃ s', Reference_Dictionary.do_xrelocate_but.relocate r s = (false, s') ∧
      Reloc_Inv d q M s' (c + 1) := by
  obtain ⟨i1, ⟨hring, hlt, hkv, huniq⟩, i3, i4, i5, i6⟩ := hinv
  have hlr : s.live r = true := i3 r hr (by omega) (by omega)
  obtain ⟨name, refr, hk, hv⟩ := hkv r hlr
  obtain ⟨p, s', r0, r1, -, r3, r4, r5, r6, r7, r8, r9, r10⟩ :=
    Reference_Dictionary.do_xrelocate_but.relocate_spec s r hring (by omega) hlr name refr hk hv
  rw [s.origin_congr d i1 name, i1] at r6
  rw [i1] at r4
  have hn : 0 < d.eptr := by omega
  have ho : ∀ nm, d.origin nm < d.eptr := fun nm => d.origin_lt nm hn
  have hholds_r : s.holds r name := ⟨hlr, hk⟩
  -- the new bucket is not after `r`
  have hpc : cdist d.eptr q p ≤ c := by
    by_cases hpr : p = r
    · rw [hpr, hrc]
    · have hsp : s.live p = false := by
        rcases r5 with h | h
        · exact absurd h hpr
        · exact h
      have hlt' : cdist d.eptr (d.origin name) p < cdist d.eptr (d.origin name) r := by
        rcases Nat.lt_trichotomy (cdist d.eptr (d.origin name) p)
          (cdist d.eptr (d.origin name) r) with h | h | h
        · exact h
        · exact absurd (cdist_inj _ _ _ _ (ho name) r4 hr h) hpr
        · exact absurd rfl (r6 r hr h).2
      rcases i6 r name hholds_r p r4 hlt' with h | ⟨h, -, -⟩
      · rw [hsp] at h; cases h
      · omega
  have hs'live_of : ∀ x, s.live x = true → x ≠ r → s'.live x = true :=
    fun x h1 h2 => (r7 x).mpr (Or.inr ⟨h1, h2⟩)
  have hold_of : ∀ i nm, i ≠ p → s'.holds i nm → s.holds i nm ∧ i ≠ r := by
    intro i nm hip ⟨h1, h2⟩
    rcases (r7 i).mp h1 with h | ⟨h3, h4⟩
    · exact absurd h hip
    · exact ⟨⟨h3, by rw [← (r10 i hip h4).1]; exact h2⟩, h4⟩
  have hname_of : ∀ nm, s'.holds p nm → nm = name := by
    intro nm ⟨_, h2⟩
    rw [r8] at h2
    exact (Option.some.inj h2).symm
  refine ⟨s', r0, ?_, ⟨r3, ?_, ?_, ?_⟩, ?_, ?_, ?_, ?_⟩
  · rw [r1, i1]
  · intro x hx
    rcases (r7 x).mp hx with h | ⟨h, -⟩
    · rw [h, r1, i1]; exact r4
    · rw [r1]; exact hlt x h
  · intro x hx
    by_cases hxp : x = p
    · subst hxp; exact ⟨name, refr, r8, r9⟩
    · rcases (r7 x).mp hx with h | ⟨h3, h4⟩
      · exact absurd h hxp
      · rw [(r10 x hxp h4).1, (r10 x hxp h4).2]
        exact hkv x h3
  · intro i j nm hi hj
    by_cases hip : i = p
    · by_cases hjp : j = p
      · rw [hip, hjp]
      · subst hip
        have e1 := hname_of nm hi
        subst e1
        obtain ⟨h1, h2⟩ := hold_of j nm hjp hj
        exact absurd (huniq j r nm h1 hholds_r) h2
    · by_cases hjp : j = p
      · subst hjp
        have e1 := hname_of nm hj
        subst e1
        obtain ⟨h1, h2⟩ := hold_of i nm hip hi
        exact absurd (huniq i r nm h1 hholds_r) h2
      · exact huniq i j nm (hold_of i nm hip hi).1 (hold_of j nm hjp hj).1
  · intro i hi h1 h2
    apply hs'live_of i (i3 i hi (by omega) h2)
    intro e; subst e; omega
  · intro i hi h1
    have h2 := i4 i hi h1
    by_cases hl : s'.live i = true
    · rcases (r7 i).mp hl with h | ⟨h, -⟩
      · subst h; omega
      · rw [h2] at h; cases h
    · simpa using hl
  · intro nm rf
    rw [← i5 nm rf]
    constructor
    · rintro ⟨i, h1, h2, h3⟩
      by_cases hip : i = p
      · subst hip
        rw [r8] at h2; rw [r9] at h3
        refine ⟨r, hlr, ?_, ?_⟩
        · rw [hk]; exact h2
        · rw [hv]; exact h3
      · rcases (r7 i).mp h1 with h | ⟨h4, h5⟩
        · exact absurd h hip
        · exact ⟨i, h4, by rw [← (r10 i hip h5).1]; exact h2,
            by rw [← (r10 i hip h5).2]; exact h3⟩
    · rintro ⟨i, h1, h2, h3⟩
      by_cases hir : i = r
      · subst hir
        refine ⟨p, (r7 p).mpr (Or.inl rfl), ?_, ?_⟩
        · rw [r8, ← hk]; exact h2
        · rw [r9, ← hv]; exact h3
      · have hip : i ≠ p := by
          intro e; subst e
          rcases r5 with h | h
          · exact hir h
          · rw [h] at h1; cases h1
        exact ⟨i, hs'live_of i h1 hir, by rw [(r10 i hip hir).1]; exact h2,
          by rw [(r10 i hip hir).2]; exact h3⟩
  · intro i nm hi j hj hd
    by_cases hip : i = p
    · subst hip
      have e1 := hname_of nm hi
      subst e1
      obtain ⟨h1, h2⟩ := r6 j hj hd
      exact Or.inl (hs'live_of j h1 h2)
    · obtain ⟨hsi, hir⟩ := hold_of i nm hip hi
      have hin : i < d.eptr := by rw [← i1]; exact hlt i hsi.1
      have hci : cdist d.eptr q i ≠ c := by
        intro e
        rw [← hrc] at e
        exact hir (cdist_inj _ _ _ _ hq hin hr e)
      rcases i6 i nm hsi j hj hd with h | ⟨h1, h2, h3⟩
      · by_cases hjr : j = r
        · by_cases hpr : p = r
          · left; rw [hjr, ← hpr]; exact (r7 p).mpr (Or.inl rfl)
          · right
            subst hjr
            by_contra hcon
            have hcase : cdist d.eptr q i < cdist d.eptr q j ∨ M < cdist d.eptr q i := by
              by_cases h5 : cdist d.eptr q i < M
              · left
                rw [hrc]
                by_contra h6
                exact hcon ⟨by omega, by omega, h5⟩
              · right
                have : cdist d.eptr q i ≠ M := by
                  intro e
                  have := i4 i hin e
                  rw [hsi.1] at this; cases this
                omega
            obtain ⟨e, he, hce⟩ := cdist_exists d.eptr q M hq hM
            have hbetween := cdist_between d.eptr (d.origin nm) q e i j (ho nm) hq he hin hj hd
              (by rw [hce, hrc]; exact hc) (by rw [hce]; exact hcase)
            rcases i6 i nm hsi e he hbetween with h7 | ⟨h7, -, -⟩
            · rw [i4 e he hce] at h7; cases h7
            · omega
        · exact Or.inl (hs'live_of j h hjr)
      · right
        exact ⟨by omega, by omega, h3⟩

/-- One `for` loop of the relocation keeps the invariant. The loop starts at
bucket `bkt`, which is `c` steps after `q`, and stops at the first empty
bucket, `M` steps after `q`, when that is among its `cnt` buckets. -/
theorem Reloc_Inv.of_phase {R : Type} (d : Reference_Dictionary R) (q M : Nat)
    (hq : q < d.eptr) (hM : M < d.eptr) :
    ∀ (cnt bkt : Nat) (s : Reference_Dictionary R) (c : Nat), Reloc_Inv d q M s c → c ≤ M →
      (∀ t, t < cnt → bkt + t < d.eptr ∧ cdist d.eptr q (bkt + t) = c + t) →
      (c + cnt ≤ M →
        (linear_probe.phase Reference_Dictionary.live
            Reference_Dictionary.do_xrelocate_but.relocate cnt bkt s).1 = none ∧
        Reloc_Inv d q M (linear_probe.phase Reference_Dictionary.live
            Reference_Dictionary.do_xrelocate_but.relocate cnt bkt s).2 (c + cnt)) ∧
      (M < c + cnt →
        (∃ b, (linear_probe.phase Reference_Dictionary.live
            Reference_Dictionary.do_xrelocate_but.relocate cnt bkt s).1 = some b) ∧
        Reloc_Inv d q M (linear_probe.phase Reference_Dictionary.live
            Reference_Dictionary.do_xrelocate_but.relocate cnt bkt s).2 M) := by
  intro cnt
  induction cnt with
  | zero =>
      intro bkt s c hinv hcM _
      refine ⟨fun _ => ⟨rfl, hinv⟩, fun h => ?_⟩
      omega
  | succ k ih =>
      intro bkt s c hinv hcM hco
      obtain ⟨hb, hbc⟩ := hco 0 (by omega)
      simp only [Nat.add_zero] at hb hbc
      unfold linear_probe.phase
      by_cases hc : c = M
      · subst hc
        have hl : s.live bkt = false := hinv.2.2.2.1 bkt hb hbc
        simp only [hl, Bool.not_false, if_true]
        refine ⟨fun h => ?_, fun _ => ⟨⟨bkt, rfl⟩, hinv⟩⟩
        omega
      · have hlt : c < M := by omega
        have hl : s.live bkt = true := hinv.2.2.1 bkt hb (by omega) (by omega)
        obtain ⟨s', hs', hinv'⟩ := Reloc_Inv.of_step d q M s c bkt hq hM hinv hlt hb hbc
        simp only [hl, Bool.not_true, Bool.false_eq_true, if_false, hs']
        have hco' : ∀ t, t < k → bkt + 1 + t < d.eptr ∧ cdist d.eptr q (bkt + 1 + t) = c + 1 + t := by
          intro t ht
          have := hco (t + 1) (by omega)
          rw [show bkt + 1 + t = bkt + (t + 1) by omega, show c + 1 + t = c + (t + 1) by omega]
          exact this
        have := ih (bkt + 1) s' (c + 1) hinv' (by omega) hco'
        rw [show c + 1 + k = c + (k + 1) by omega] at this
        exact this

/-- The state in which `do_detach` enters the relocation loop. -/
theorem Reloc_Inv.at_start {R : Type} (d : Reference_Dictionary R) (q M : Nat) (hwf : d.WF)
    (hpi : d.Probe_Inv) (hq : d.live q = true) (hM : M < d.eptr)
    (hfirst : ∀ i, i < d.eptr → 0 < cdist d.eptr q i → cdist d.eptr q i < M → d.live i = true)
    (hMe : ∀ i, i < d.eptr → cdist d.eptr q i = M → d.live i = false) :
    Reloc_Inv d q M
      (((({ d with size := d.size - 1 } : Reference_Dictionary R).assign (some q)
        (fun b => { b with kstor := none })).assign (some q)
        (fun b => { b with vstor := none })).do_list_detach q) 1 := by
  obtain ⟨hring, hlt, hkv, huniq⟩ := hwf
  have hqn : q < d.eptr := hlt q hq
  have hn : 0 < d.eptr := by omega
  have ho : ∀ nm, d.origin nm < d.eptr := fun nm => d.origin_lt nm hn
  have hring0 : ({ d with size := d.size - 1 } : Reference_Dictionary R).Ring_OK := hring
  obtain ⟨a1, a2, a3, a4, a5, a6, a7⟩ :=
    ({ d with size := d.size - 1 } : Reference_Dictionary R).assign_storage q
      (fun b => { b with kstor := none }) (fun _ => rfl) (fun _ => rfl)
  generalize ({ d with size := d.size - 1 } : Reference_Dictionary R).assign (some q)
    (fun b => { b with kstor := none }) = s1 at a1 a2 a3 a4 a5 a6 a7 ⊢
  obtain ⟨b1, b2, b3, b4, b5, b6, b7⟩ := s1.assign_storage q (fun b => { b with vstor := none })
    (fun _ => rfl) (fun _ => rfl)
  generalize s1.assign (some q) (fun b => { b with vstor := none }) = s2
    at b1 b2 b3 b4 b5 b6 b7 ⊢
  have hring2 : s2.Ring_OK := b1.mpr (a1.mpr hring0)
  have hlive2 : ∀ x, s2.live x = d.live x := by
    intro x; rw [b5, a5]; rfl
  obtain ⟨c1, c2, c3, c4, c5⟩ := s2.do_list_detach_spec q hring2 (by rw [hlive2]; exact hq)
  generalize s2.do_list_detach q = s3 at c1 c2 c3 c4 c5 ⊢
  have heptr : s3.eptr = d.eptr := by rw [c2, b2, a2]
  have hlive3 : ∀ x, s3.live x = true ↔ (d.live x = true ∧ x ≠ q) := by
    intro x; rw [c4, hlive2]
  have hstor : ∀ x, x ≠ q → (s3.bptr x).kstor = (d.bptr x).kstor ∧
      (s3.bptr x).vstor = (d.bptr x).vstor := by
    intro x hx
    rw [(c5 x).1, (c5 x).2, b6 x hx, a6 x hx]
    exact ⟨rfl, rfl⟩
  have hholds : ∀ i nm, s3.holds i nm → d.holds i nm ∧ i ≠ q := by
    intro i nm ⟨h1, h2⟩
    obtain ⟨h3, h4⟩ := (hlive3 i).mp h1
    exact ⟨⟨h3, by rw [← (hstor i h4).1]; exact h2⟩, h4⟩
  refine ⟨heptr, ⟨c1, ?_, ?_, ?_⟩, ?_, ?_, ?_, ?_⟩
  · intro i hi
    rw [heptr]; exact hlt i ((hlive3 i).mp hi).1
  · intro i hi
    obtain ⟨h3, h4⟩ := (hlive3 i).mp hi
    rw [(hstor i h4).1, (hstor i h4).2]
    exact hkv i h3
  · intro i j nm hi hj
    exact huniq i j nm (hholds i nm hi).1 (hholds j nm hj).1
  · intro i hi h1 h2
    refine (hlive3 i).mpr ⟨hfirst i hi (by omega) h2, ?_⟩
    intro e; subst e
    rw [cdist_self] at h1; omega
  · intro i hi h1
    by_cases hl : s3.live i = true
    · have := ((hlive3 i).mp hl).1
      rw [hMe i hi h1] at this; cases this
    · simpa using hl
  · intro nm rf
    constructor
    · rintro ⟨i, h1, h2, h3⟩
      obtain ⟨h4, h5⟩ := (hlive3 i).mp h1
      exact ⟨i, h5, h4, by rw [← (hstor i h5).1]; exact h2, by rw [← (hstor i h5).2]; exact h3⟩
    · rintro ⟨i, h1, h2, h3, h4⟩
      exact ⟨i, (hlive3 i).mpr ⟨h2, h1⟩, by rw [(hstor i h1).1]; exact h3,
        by rw [(hstor i h1).2]; exact h4⟩
  · intro i nm hi j hj hd
    obtain ⟨hdi, hiq⟩ := hholds i nm hi
    have hin : i < d.eptr := hlt i hdi.1
    have hlj := hpi i nm hin hdi j hj hd
    by_cases hjq : j = q
    · right
      subst hjq
      have h0 : cdist d.eptr j i ≠ 0 := fun e => hiq (cdist_eq_zero _ _ _ hqn e)
      have hM' : cdist d.eptr j i ≠ M := by
        intro e
        have := hMe i hin e
        rw [hdi.1] at this; cases this
      refine ⟨by rw [cdist_self]; omega, by omega, ?_⟩
      by_contra hcon
      obtain ⟨e, he, hce⟩ := cdist_exists d.eptr j M hqn hM
      have := cdist_after d.eptr (d.origin nm) j e i (ho nm) hqn hin hd (by omega)
      have hle := hpi i nm hin hdi e he this
      rw [hMe e he hce] at hle; cases hle
    · exact Or.inl ((hlive3 j).mpr ⟨hlj, hjq⟩)

/-- The number of steps from a bucket in use to the first empty bucket after
it. -/
theorem Reference_Dictionary.first_empty_after {R : Type} (d : Reference_Dictionary R)
    (q : Nat) (hqn : q < d.eptr) (hempty : d.Has_Empty) :
    ∃ M, M < d.eptr ∧
      (∀ i, i < d.eptr → 0 < cdist d.eptr q i → cdist d.eptr q i < M → d.live i = true) ∧
      (∀ i, i < d.eptr → cdist d.eptr q i = M → d.live i = false) := by
  classical
  have hex : ∃ m, ∃ e, e < d.eptr ∧ d.live e = false ∧ cdist d.eptr q e = m := by
    obtain ⟨e, he, hl⟩ := hempty
    exact ⟨_, e, he, hl, rfl⟩
  obtain ⟨e, he, hel, hce⟩ := Nat.find_spec hex
  refine ⟨Nat.find hex, ?_, ?_, ?_⟩
  · rw [← hce]; exact cdist_lt _ _ _ hqn he
  · intro i hi _ h2
    by_cases hl : d.live i = true
    · exact hl
    · exact absurd ⟨i, hi, by simpa using hl, rfl⟩ (Nat.find_min hex h2)
  · intro i hi h1
    have : i = e := cdist_inj _ _ _ _ hqn hi he (by rw [h1, hce])
    rw [this]; exact hel

/-- The relocation loop of `do_detach d q` ends in a state that satisfies the
invariant at the first empty bucket after `q`. -/
theorem Reloc_Inv.of_do_detach {R : Type} (d : Reference_Dictionary R) (q : Nat) (hwf : d.WF)
    (hempty : d.Has_Empty) (hpi : d.Probe_Inv) (hq : d.live q = true) :
    ∃ M, M < d.eptr ∧ Reloc_Inv d q M (d.do_detach q) M := by
  have hqn : q < d.eptr := hwf.2.1 q hq
  obtain ⟨M, hM, hfirst, hMe⟩ := d.first_empty_after q hqn hempty
  refine ⟨M, hM, ?_⟩
  have hM1 : 1 ≤ M := by
    by_contra h
    have h0 : M = 0 := by omega
    have := hMe q hqn (by rw [cdist_self, h0])
    rw [hq] at this; cases this
  have hinit := Reloc_Inv.at_start d q M hwf hpi hq hM hfirst hMe
  unfold Reference_Dictionary.do_detach Reference_Dictionary.do_xrelocate_but
  simp only
  generalize ((({ d with size := d.size - 1 } : Reference_Dictionary R).assign (some q)
      (fun b => { b with kstor := none })).assign (some q)
      (fun b => { b with vstor := none })).do_list_detach q = s0 at hinit ⊢
  have heptr : s0.eptr = d.eptr := hinit.1
  rw [heptr]
  unfold linear_probe
  have hco1 : ∀ t, t < d.eptr - (q + 1) →
      q + 1 + t < d.eptr ∧ cdist d.eptr q (q + 1 + t) = 1 + t := by
    intro t ht
    refine ⟨by omega, ?_⟩
    unfold cdist; split_ifs <;> omega
  obtain ⟨p1, p2⟩ := Reloc_Inv.of_phase d q M hqn hM (d.eptr - (q + 1)) (q + 1) s0 1 hinit hM1 hco1
  by_cases hcase : 1 + (d.eptr - (q + 1)) ≤ M
  · obtain ⟨e1, e2⟩ := p1 hcase
    generalize linear_probe.phase Reference_Dictionary.live
      Reference_Dictionary.do_xrelocate_but.relocate (d.eptr - (q + 1)) (q + 1) s0 = res
      at e1 e2 ⊢
    obtain ⟨r1, s1⟩ := res
    simp only at e1 e2
    subst e1
    simp only [Nat.sub_zero]
    have hco2 : ∀ t, t < q →
        0 + t < d.eptr ∧ cdist d.eptr q (0 + t) = 1 + (d.eptr - (q + 1)) + t := by
      intro t ht
      refine ⟨by omega, ?_⟩
      unfold cdist; split_ifs <;> omega
    exact ((Reloc_Inv.of_phase d q M hqn hM q 0 s1 _ e2 hcase hco2).2 (by omega)).2
  · obtain ⟨⟨b, e1⟩, e2⟩ := p2 (by omega)
    generalize linear_probe.phase Reference_Dictionary.live
      Reference_Dictionary.do_xrelocate_but.relocate (d.eptr - (q + 1)) (q + 1) s0 = res
      at e1 e2 ⊢
    obtain ⟨r1, s1⟩ := res
    simp only at e1 e2
    subst e1
    exact e2

/-- What the invariant of the relocation loop says when the loop has ended. -/
theorem Reloc_Inv.at_end {R : Type} (d : Reference_Dictionary R) (q M : Nat)
    (s : Reference_Dictionary R) (hqn : q < d.eptr) (hM : M < d.eptr)
    (hinv : Reloc_Inv d q M s M) : s.Probe_Inv ∧ s.Has_Empty := by
  obtain ⟨i1, -, -, i4, -, i6⟩ := hinv
  constructor
  · intro i name _ hh j hj hd
    rw [i1, s.origin_congr d i1 name] at hd
    rw [i1] at hj
    rcases i6 i name hh j hj hd with h | ⟨-, h2, h3⟩
    · exact h
    · omega
  · obtain ⟨e, he, hce⟩ := cdist_exists d.eptr q M hqn hM
    exact ⟨e, by rw [i1]; exact he, i4 e he hce⟩

theorem Next_Chain.chain_attach (nx : Nat → Option Nat) (a pr p : Nat) :
    ∀ (L : List Nat) (t : Nat), Next_Chain nx L t → p ∉ L → L.Nodup → L.getLast? = some pr →
      Next_Chain (fun y => if y = p then some a else if y = pr then some p else nx y) L p := by
  intro L
  induction L with
  | nil => intro t _ _ _ _; trivial
  | cons x r ih =>
      intro t hc hp hnd hlast
      obtain ⟨h1, h2⟩ := hc
      have hxp : x ≠ p := by
        intro e; subst e; exact hp (List.mem_cons_self _ _)
      cases r with
      | nil =>
          simp only [List.getLast?_singleton, Option.some.injEq] at hlast
          subst hlast
          exact ⟨by simp [hxp], trivial⟩
      | cons z r' =>
          have hlast' : (z :: r').getLast? = some pr := by
            rw [List.getLast?_cons_cons] at hlast; exact hlast
          have hxpr : x ≠ pr := by
            intro e; subst e
            have hmem : x ∈ z :: r' := List.mem_of_getLast?_eq_some hlast'
            exact (List.nodup_cons.mp hnd).1 hmem
          refine ⟨?_, ih t h2 (fun hm => hp (List.mem_cons_of_mem _ hm))
            (List.nodup_cons.mp hnd).2 hlast'⟩
          simp only [hxp, hxpr, if_false]
          exact h1

theorem Reference_Dictionary.List_Is.list_attach {R : Type} (d : Reference_Dictionary R)
    (L : List Nat) (p : Nat) (h : d.List_Is L) (hp : p ∉ L) :
    (d.do_list_attach p).List_Is (p :: L) := by
  obtain ⟨hnd, hlive, hap, hchain, hprev⟩ := h
  cases L with
  | nil =>
      simp only [List.head?_nil] at hap
      obtain ⟨e1, -, -, e4⟩ := d.do_list_attach_none p hap
      refine ⟨List.nodup_singleton p, ?_, e1, ⟨?_, trivial⟩, ?_⟩
      · intro x hx
        rw [Reference_Dictionary.live_iff, (e4 x).1] at hx
        by_cases hxp : x = p
        · simp [hxp]
        · simp only [hxp, if_false] at hx
          exact absurd ((d.live_iff x).mpr hx) (fun h => by simpa using hlive x h)
      · simp only [(e4 p).1, if_true, List.headD_nil, List.headD_cons]
      · intro x hx
        simp only [List.head?_cons, Option.some.injEq] at hx
        subst hx
        simp only [(e4 p).2.1, if_true, List.getLast?_singleton]
  | cons a r =>
      simp only [List.head?_cons] at hap
      have hpr := hprev a rfl
      obtain ⟨pr, hpr'⟩ : ∃ pr, (a :: r).getLast? = some pr :=
        ⟨(a :: r).getLast (by simp), List.getLast?_eq_getLast _ _⟩
      rw [hpr'] at hpr
      obtain ⟨e1, -, -, e4⟩ := d.do_list_attach_some p a pr hap hpr
      have hnx : (fun i => ((d.do_list_attach p).bptr i).next)
          = fun x => if x = p then some a else if x = pr then some p else (d.bptr x).next :=
        funext fun x => (e4 x).1
      refine ⟨List.nodup_cons.mpr ⟨hp, hnd⟩, ?_, e1, ⟨?_, ?_⟩, ?_⟩
      · intro x hx
        rw [Reference_Dictionary.live_iff, (e4 x).1] at hx
        by_cases hxp : x = p
        · simp [hxp]
        · by_cases hxpr : x = pr
          · subst hxpr
            exact List.mem_cons_of_mem _ (List.mem_of_getLast?_eq_some hpr')
          · simp only [hxp, hxpr, if_false] at hx
            exact List.mem_cons_of_mem _ (hlive x ((d.live_iff x).mpr hx))
      · simp only [(e4 p).1, if_true, List.headD_cons]
      · rw [hnx]
        simp only [List.headD_cons]
        exact Next_Chain.chain_attach _ a pr p (a :: r) a hchain hp hnd hpr'
      · intro x hx
        simp only [List.head?_cons, Option.some.injEq] at hx
        subst hx
        simp only [(e4 p).2.1, if_true]
        rw [List.getLast?_cons_cons, hpr']

theorem Reference_Dictionary.List_Is.of_same_links {R : Type} (d d' : Reference_Dictionary R)
    (L : List Nat) (h : d.List_Is L) (ha : d'.aptr = d.aptr)
    (hn : ∀ x, (d'.bptr x).next = (d.bptr x).next)
    (hp : ∀ x, (d'.bptr x).prev = (d.bptr x).prev) : d'.List_Is L := by
  obtain ⟨hnd, hlive, hap, hchain, hprev⟩ := h
  have hnx : (fun i => (d'.bptr i).next) = fun i => (d.bptr i).next := funext hn
  refine ⟨hnd, ?_, by rw [ha]; exact hap, by rw [hnx]; exact hchain, ?_⟩
  · intro x hx
    apply hlive x
    rw [Reference_Dictionary.live_iff] at hx ⊢
    rw [← hn x]; exact hx
  · intro x hx
    rw [hp x]; exact hprev x hx

theorem Reference_Dictionary.List_Is.do_attach_one {R : Type} [Inhabited R]
    (d : Reference_Dictionary R) (L : List Nat) (p : Nat) (name : PreHashed_String)
    (h : d.List_Is L) (hp : p ∉ L) : (d.do_attach p name).List_Is (p :: L) := by
  have h1 := Reference_Dictionary.List_Is.list_attach d L p h hp
  unfold Reference_Dictionary.do_attach
  apply Reference_Dictionary.List_Is.of_same_links _ _ _ h1
  · rfl
  · intro x
    simp only [Reference_Dictionary.assign, Function.update_apply]
    split_ifs <;> simp_all
  · intro x
    simp only [Reference_Dictionary.assign, Function.update_apply]
    split_ifs <;> simp_all

theorem Reference_Dictionary.enumerate_variables.loop_chain {R : Type}
    (d : Reference_Dictionary R) (origin : Nat) :
    ∀ (r : List Nat) (y : Nat) (acc : List Nat) (fuel : Nat),
      Next_Chain (fun i => (d.bptr i).next) (y :: r) origin → origin ∉ r → r.length < fuel →
      Reference_Dictionary.enumerate_variables.loop d origin fuel (some y) acc
        = some (acc ++ y :: r) := by
  intro r
  induction r with
  | nil =>
      intro y acc fuel hc _ hf
      obtain ⟨k, rfl⟩ : ∃ k, fuel = k + 1 := ⟨fuel - 1, by simp at hf; omega⟩
      obtain ⟨h1, -⟩ := hc
      simp only [List.headD_nil] at h1
      simp only [Reference_Dictionary.enumerate_variables.loop, h1, ne_eq, not_true_eq_false,
        if_false]
  | cons z r' ih =>
      intro y acc fuel hc ho hf
      obtain ⟨k, rfl⟩ : ∃ k, fuel = k + 1 := ⟨fuel - 1, by simp at hf; omega⟩
      obtain ⟨h1, h2⟩ := hc
      simp only [List.headD_cons] at h1
      have hzo : ¬ (some z = some origin) := by
        intro e
        exact ho (by rw [← Option.some.inj e]; exact List.mem_cons_self _ _)
      simp only [Reference_Dictionary.enumerate_variables.loop, h1, ne_eq, hzo,
        not_false_eq_true, if_true]
      rw [ih z (acc ++ [y]) k h2 (fun hm => ho (List.mem_cons_of_mem _ hm))
        (by simp at hf; omega)]
      simp

/-- The traversal of `enumerate_variables` visits the buckets of the list in
list order, once each. -/
theorem Reference_Dictionary.List_Is.enumerate {R : Type} (d : Reference_Dictionary R)
    (L : List Nat) (fuel : Nat) (h : d.List_Is L) (hf : L.length ≤ fuel) :
    d.enumerate_variables fuel = some L := by
  obtain ⟨hnd, -, hap, hchain, -⟩ := h
  unfold Reference_Dictionary.enumerate_variables
  cases L with
  | nil =>
      simp only [List.head?_nil] at hap
      simp only [hap]
  | cons x r =>
      simp only [List.head?_cons] at hap
      simp only [hap]
      simp only [List.headD_cons] at hchain
      rw [Reference_Dictionary.enumerate_variables.loop_chain d x r x [] fuel hchain
        (List.nodup_cons.mp hnd).1 (by simpa using hf)]
      simp

theorem Reference_Dictionary.List_Is.of_allocated (R : Type) (nbkt : Nat) :
    (Reference_Dictionary.allocated R nbkt).List_Is [] := by
  refine ⟨List.nodup_nil, ?_, rfl, trivial, ?_⟩
  · intro x hx
    simp [Reference_Dictionary.allocated, Reference_Dictionary.live, Bucket.live] at hx
  · intro x hx
    simp at hx

theorem Reference_Dictionary.List_Is.do_attach_all {R : Type} [Inhabited R] :
    ∀ (bs : List (Nat × PreHashed_String)) (d : Reference_Dictionary R) (L : List Nat),
      d.List_Is L → (∀ b, b ∈ bs → b.1 ∉ L) → (bs.map Prod.fst).Nodup →
      (bs.foldl (fun d b => d.do_attach b.1 b.2) d).List_Is ((bs.map Prod.fst).reverse ++ L) := by
  intro bs
  induction bs with
  | nil => intro d L h _ _; simpa using h
  | cons b r ih =>
      intro d L h hnot hnd
      simp only [List.map_cons, List.nodup_cons] at hnd
      simp only [List.foldl_cons, List.map_cons, List.reverse_cons, List.append_assoc,
        List.singleton_append]
      apply ih (d.do_attach b.1 b.2) (b.1 :: L)
      · exact Reference_Dictionary.List_Is.do_attach_one d L b.1 b.2 h (hnot b (List.mem_cons_self _ _))
      · intro b' hb' hmem
        rcases List.mem_cons.mp hmem with e | e
        · exact hnd.1 (by rw [← e]; exact List.mem_map_of_mem _ hb')
        · exact hnot b' (List.mem_cons_of_mem _ hb') e
      · exact hnd.2

/-- What `do_xprobe` returns, without any assumption on the table: a bucket of
the table that is empty or holds the name, before which in probe order every
bucket is in use and holds another name. -/
theorem Reference_Dictionary.do_xprobe_first {R : Type} (d : Reference_Dictionary R)
    (name : PreHashed_String) (q : Nat) (hn : 0 < d.eptr) (h : d.do_xprobe name = some q) :
    q < d.eptr ∧ (d.live q = false ∨ (d.bptr q).kstor = some name) ∧
    ∀ j, j < d.eptr → cdist d.eptr (d.origin name) j < cdist d.eptr (d.origin name) q →
      d.live j = true ∧ (d.bptr j).kstor ≠ some name := by
  have ho := d.origin_lt name hn
  obtain ⟨_, hres⟩ := linear_probe_pure Reference_Dictionary.live
    (fun (s : Reference_Dictionary R) r => decide ((s.bptr r).kstor = some name)) d d.eptr
    (d.origin name) ho
  have h' : (linear_probe Reference_Dictionary.live
      (fun r (s : Reference_Dictionary R) => (decide ((s.bptr r).kstor = some name), s))
      0 (d.origin name) (d.origin name) d.eptr d).1 = some q := h
  rcases hres with ⟨q', h1, h2, h3, h4⟩ | ⟨h1, -⟩
  · rw [h1] at h'
    have e : q' = q := Option.some.inj h'
    subst e
    refine ⟨h2, ?_, ?_⟩
    · rcases h3 with h3 | h3
      · exact Or.inl h3
      · exact Or.inr (by simpa using h3)
    · intro j hj hd
      obtain ⟨g1, g2⟩ := h4 j hj hd
      exact ⟨g1, by simpa using g2⟩
  · rw [h1] at h'
    cases h'

/-- A newly allocated table is well formed and satisfies the probe-path
invariant. -/
theorem Reference_Dictionary.allocated_wf (R : Type) (nbkt : Nat) :
    (Reference_Dictionary.allocated R nbkt).WF ∧
    (Reference_Dictionary.allocated R nbkt).Probe_Inv := by
  have hl : ∀ x, (Reference_Dictionary.allocated R nbkt).live x = false := fun _ => rfl
  refine ⟨⟨⟨?_, ?_⟩, ?_, ?_, ?_⟩, ?_⟩
  · intro i x hix
    simp [Reference_Dictionary.allocated] at hix
  · intro a ha
    simp [Reference_Dictionary.allocated] at ha
  · intro i hi
    rw [hl i] at hi; cases hi
  · intro i hi
    rw [hl i] at hi; cases hi
  · intro i j name hi _
    have := hi.1
    rw [hl i] at this; cases this
  · intro i name _ hi
    have := hi.1
    rw [hl i] at this; cases this

/-- Insertion keeps the invariants: when `do_xprobe(name)` returns the empty
bucket `q` of a well-formed table that satisfies the probe-path invariant,
`do_attach(q, name)` gives a table that is well formed and satisfies the
probe-path invariant again. -/
theorem Reference_Dictionary.do_attach_keeps_invariants {R : Type} [Inhabited R]
    (d : Reference_Dictionary R) (name : PreHashed_String) (q : Nat) (hwf : d.WF)
    (hpi : d.Probe_Inv) (hprobe : d.do_xprobe name = some q) (hq : d.live q = false) :
    (d.do_attach q name).WF ∧ (d.do_attach q name).Probe_Inv ∧
    (d.do_attach q name).eptr = d.eptr ∧ (d.do_attach q name).size = d.size + 1 ∧
    (∀ x, (d.do_attach q name).live x = true ↔ (d.live x = true ∨ x = q)) ∧
    ((d.do_attach q name).bptr q).kstor = some name ∧
    ((d.do_attach q name).bptr q).vstor = some default ∧
    (∀ x, x ≠ q → ((d.do_attach q name).bptr x).kstor = (d.bptr x).kstor ∧
      ((d.do_attach q name).bptr x).vstor = (d.bptr x).vstor) := by
  obtain ⟨hring, hlt, hkv, huniq⟩ := hwf
  have hn : 0 < d.eptr := by
    by_contra h0
    have hz : d.eptr = 0 := by omega
    have : d.do_xprobe name = none := by
      unfold Reference_Dictionary.do_xprobe linear_probe
      simp [hz, get_probing_origin, round_double, double_exponent, linear_probe.phase]
    rw [this] at hprobe; cases hprobe
  obtain ⟨hqn, -, hfirst⟩ := d.do_xprobe_first name q hn hprobe
  -- the name is not stored yet
  have hnew : ∀ i, ¬ d.holds i name := by
    intro i hi
    have hin : i < d.eptr := hlt i hi.1
    rcases Nat.lt_trichotomy (cdist d.eptr (d.origin name) i) (cdist d.eptr (d.origin name) q)
      with h | h | h
    · exact (hfirst i hin h).2 hi.2
    · have := cdist_inj _ _ _ _ (d.origin_lt name hn) hin hqn h
      subst this
      have := hi.1
      rw [hq] at this; cases this
    · have := hpi i name hin hi q hqn h
      rw [hq] at this; cases this
  unfold Reference_Dictionary.do_attach
  dsimp only
  obtain ⟨a1, a2, a3, a4, a5⟩ := d.do_list_attach_spec q hring hq
  generalize d.do_list_attach q = s1 at a1 a2 a3 a4 a5 ⊢
  obtain ⟨b1, b2, b3, -, b5, b6, b7⟩ := s1.assign_storage q
    (fun b => { b with kstor := some name }) (fun _ => rfl) (fun _ => rfl)
  generalize s1.assign (some q) (fun b => { b with kstor := some name }) = s2
    at b1 b2 b3 b5 b6 b7 ⊢
  obtain ⟨c1, c2, c3, -, c5, c6, c7⟩ := s2.assign_storage q
    (fun b => { b with vstor := some (default : R) }) (fun _ => rfl) (fun _ => rfl)
  generalize s2.assign (some q) (fun b => { b with vstor := some (default : R) }) = s3
    at c1 c2 c3 c5 c6 c7 ⊢
  have hring3 : s3.Ring_OK := c1.mpr (b1.mpr a1)
  have heptr : s3.eptr = d.eptr := by rw [c2, b2, a2]
  have hlive : ∀ x, s3.live x = true ↔ (d.live x = true ∨ x = q) := by
    intro x; rw [c5, b5, a4]
  have hkq : (s3.bptr q).kstor = some name := by rw [c7, b7]
  have hvq : (s3.bptr q).vstor = some default := by rw [c7]
  have hother : ∀ x, x ≠ q → (s3.bptr x).kstor = (d.bptr x).kstor ∧
      (s3.bptr x).vstor = (d.bptr x).vstor := by
    intro x hx
    rw [c6 x hx, b6 x hx, (a5 x).1, (a5 x).2]
    exact ⟨rfl, rfl⟩
  have hholds : ∀ i nm, i ≠ q → s3.holds i nm → d.holds i nm := by
    intro i nm hiq ⟨h1, h2⟩
    rcases (hlive i).mp h1 with h | h
    · exact ⟨h, by rw [← (hother i hiq).1]; exact h2⟩
    · exact absurd h hiq
  have hnameq : ∀ nm, s3.holds q nm → nm = name := by
    intro nm ⟨_, h2⟩
    rw [hkq] at h2
    exact (Option.some.inj h2).symm
  have hsize : s3.size + 1 = d.size + 1 := by rw [c3, b3, a3]
  refine ⟨⟨hring3, ?_, ?_, ?_⟩, ?_, heptr, hsize, hlive, hkq, hvq, hother⟩
  · intro x hx
    have hx : s3.live x = true := hx
    show x < s3.eptr
    rw [heptr]
    rcases (hlive x).mp hx with h | h
    · exact hlt x h
    · rw [h]; exact hqn
  · intro x hx
    have hx : s3.live x = true := hx
    show ∃ nm refr, (s3.bptr x).kstor = some nm ∧ (s3.bptr x).vstor = some refr
    by_cases hxq : x = q
    · subst hxq; exact ⟨name, default, hkq, hvq⟩
    · rcases (hlive x).mp hx with h | h
      · rw [(hother x hxq).1, (hother x hxq).2]; exact hkv x h
      · exact absurd h hxq
  · intro i j nm hi hj
    have hi : s3.holds i nm := hi
    have hj : s3.holds j nm := hj
    by_cases hiq : i = q
    · by_cases hjq : j = q
      · rw [hiq, hjq]
      · subst hiq
        have e := hnameq nm hi
        subst e
        exact absurd (hholds j nm hjq hj) (hnew j)
    · by_cases hjq : j = q
      · subst hjq
        have e := hnameq nm hj
        subst e
        exact absurd (hholds i nm hiq hi) (hnew i)
      · exact huniq i j nm (hholds i nm hiq hi) (hholds j nm hjq hj)
  · intro i nm hi hh j hj hd
    have hi : i < s3.eptr := hi
    have hh : s3.holds i nm := hh
    have hj : j < s3.eptr := hj
    have hd : cdist s3.eptr (s3.origin nm) j < cdist s3.eptr (s3.origin nm) i := hd
    show s3.live j = true
    rw [heptr] at hi hj
    rw [heptr, s3.origin_congr d heptr nm] at hd
    by_cases hiq : i = q
    · subst hiq
      have e := hnameq nm hh
      subst e
      exact (hlive j).mpr (Or.inl (hfirst j hj hd).1)
    · exact (hlive j).mpr (Or.inl (hpi i nm hi (hholds i nm hiq hh) j hj hd))

/-! ## Reset, tables and digits of the hashers -/

/-- What `finish` leaves behind: the registers of a new hasher, no bytes
counted, and a buffer of 64 bytes (whose contents are not cleared). -/
theorem Chunk_Hasher.finish_reset (f : List Nat → List Nat → List Nat) (bigendT : Bool)
    (init : List Nat) (h : Chunk_Hasher) (hv : h.Valid) :
    (Chunk_Hasher.finish f bigendT init h).2.m_regs = init ∧
    (Chunk_Hasher.finish f bigendT init h).2.m_size = 0 ∧
    (Chunk_Hasher.finish f bigendT init h).2.m_chunk.length = 64 := by
  obtain ⟨hc, hs⟩ := hv
  have hoff : h.m_size % 64 < 64 := Nat.mod_lt _ (by norm_num)
  have hbits := Chunk_Hasher.finish.bits_length bigendT (h.m_size * 8 % 2 ^ 64)
  unfold Chunk_Hasher.finish
  refine ⟨rfl, rfl, ?_⟩
  dsimp only
  split_ifs with h1 h2 h3
  all_goals dsimp only at *
  all_goals
    simp only [fill_n, copy_n, List.length_append, List.length_take, List.length_replicate,
      List.length_drop, List.length_set, hc, hbits]
    omega

/-- After `finish`, a hasher continues as a new one does. -/
theorem Chunk_Hasher.finish_then_update (f : List Nat → List Nat → List Nat) (bigendT : Bool)
    (init c d1 d2 : List Nat) (h : Chunk_Hasher) (hv : h.Valid) (hc : c.length = 64) :
    (Chunk_Hasher.finish f bigendT init (Chunk_Hasher.update f
        (Chunk_Hasher.finish f bigendT init (Chunk_Hasher.update f h d1)).2 d2)).1 =
    (Chunk_Hasher.finish f bigendT init
        (Chunk_Hasher.update f { m_regs := init, m_size := 0, m_chunk := c } d2)).1 := by
  obtain ⟨w1, _, _, _⟩ := Chunk_Hasher.update_spec f h d1 hv
  obtain ⟨e1, e2, e3⟩ := Chunk_Hasher.finish_reset f bigendT init _ w1
  have e : (Chunk_Hasher.finish f bigendT init (Chunk_Hasher.update f h d1)).2 =
      { m_regs := init, m_size := 0,
        m_chunk := (Chunk_Hasher.finish f bigendT init (Chunk_Hasher.update f h d1)).2.m_chunk } := by
    cases hh : (Chunk_Hasher.finish f bigendT init (Chunk_Hasher.update f h d1)).2 with
    | mk r s ch => rw [hh] at e1 e2; simp only at e1 e2; subst e1; subst e2; rfl
  rw [e]
  exact Chunk_Hasher.finish_update_chunk_irrelevant f bigendT init init _ c d2 e3 hc

theorem CRC32_Generator_round (v : Nat) :
    (v >>> 1) ^^^ (((2 ^ 32 - (v &&& 1)) % 2 ^ 32) &&& 0xEDB88320) = crc32_bitwise.round v := by
  unfold crc32_bitwise.round
  rw [Nat.and_one_is_mod]
  rcases Nat.mod_two_eq_zero_or_one v with h | h
  · rw [h]; simp
  · rw [h]
    have : (2 ^ 32 - 1) % 2 ^ 32 &&& 3988292384 = 3988292384 := by decide
    simp only [this, if_true]

theorem shiftRight_xor (x y k : Nat) : (x ^^^ y) >>> k = x >>> k ^^^ y >>> k := by
  apply Nat.eq_of_testBit_eq
  intro i
  simp only [Nat.testBit_shiftRight, Nat.testBit_xor]

theorem CRC32_Generator_eq_rounds : ∀ (n v : Nat),
    CRC32_Generator 0xEDB88320 n v = crc32_bitwise.rounds n v := by
  intro n
  induction n with
  | zero => intro v; rfl
  | succ n ih =>
    intro v
    rw [CRC32_Generator, crc32_bitwise.rounds, CRC32_Generator_round, ih]

theorem xor_xor_xor_cancel (a b d : Nat) : (a ^^^ d) ^^^ (b ^^^ d) = a ^^^ b := by
  rw [Nat.xor_assoc, Nat.xor_comm b d, ← Nat.xor_assoc d, Nat.xor_self, Nat.zero_xor]

theorem crc32_bitwise.round_xor (x y : Nat) :
    crc32_bitwise.round (x ^^^ y) = crc32_bitwise.round x ^^^ crc32_bitwise.round y := by
  unfold crc32_bitwise.round
  rw [shiftRight_xor, Nat.xor_mod_two_eq]
  rcases Nat.mod_two_eq_zero_or_one x with hx | hx <;>
  rcases Nat.mod_two_eq_zero_or_one y with hy | hy
  · have : (x + y) % 2 = 0 := by omega
    simp [hx, hy, this]
  · have : (x + y) % 2 = 1 := by omega
    simp only [hx, hy, this, if_true, Nat.zero_ne_one, if_false, Nat.xor_zero]
    rw [Nat.xor_assoc]
  · have : (x + y) % 2 = 1 := by omega
    simp only [hx, hy, this, if_true, Nat.zero_ne_one, if_false, Nat.xor_zero]
    rw [Nat.xor_assoc, Nat.xor_comm (y >>> 1), ← Nat.xor_assoc]
  · have : (x + y) % 2 = 0 := by omega
    simp only [hx, hy, this, if_true, Nat.zero_ne_one, if_false, Nat.xor_zero]
    rw [xor_xor_xor_cancel]

theorem crc32_bitwise.rounds_xor : ∀ (n x y : Nat),
    crc32_bitwise.rounds n (x ^^^ y) = crc32_bitwise.rounds n x ^^^ crc32_bitwise.rounds n y := by
  intro n
  induction n with
  | zero => intro x y; rfl
  | succ n ih =>
    intro x y
    rw [crc32_bitwise.rounds, crc32_bitwise.rounds, crc32_bitwise.rounds,
      crc32_bitwise.round_xor, ih]

theorem crc32_bitwise.rounds_shiftLeft : ∀ (n x : Nat),
    crc32_bitwise.rounds n (x <<< n) = x := by
  intro n
  induction n with
  | zero => intro x; rfl
  | succ n ih =>
    intro x
    have h2 : x <<< (n + 1) = 2 * (x <<< n) := by
      rw [Nat.shiftLeft_succ]
    have hr : crc32_bitwise.round (x <<< (n + 1)) = x <<< n := by
      unfold crc32_bitwise.round
      rw [h2]
      have : (2 * (x <<< n)) % 2 = 0 := by omega
      simp [this, Nat.shiftRight_one]
    rw [crc32_bitwise.rounds, hr, ih]

theorem crc32_bitwise.round_lt (r : Nat) (h : r < 2 ^ 32) : crc32_bitwise.round r < 2 ^ 32 := by
  unfold crc32_bitwise.round
  apply Nat.xor_lt_two_pow
  · rw [Nat.shiftRight_one]; omega
  · split_ifs <;> norm_num

theorem crc32_bitwise.rounds_lt : ∀ (n r : Nat), r < 2 ^ 32 →
    crc32_bitwise.rounds n r < 2 ^ 32 := by
  intro n
  induction n with
  | zero => intro r h; exact h
  | succ n ih => intro r h; exact ih _ (crc32_bitwise.round_lt r h)

theorem s_iso3309_CRC32_table_getD (i : Nat) (hi : i < 256) :
    s_iso3309_CRC32_table.getD i 0 = crc32_bitwise.rounds 8 i := by
  unfold s_iso3309_CRC32_table do_CRC32_table
  rw [List.getD_eq_getElem?_getD, List.getElem?_map, List.getElem?_range hi]
  simp only [Option.map_some', Option.getD_some]
  rw [Nat.mod_eq_of_lt hi, CRC32_Generator_eq_rounds]

theorem split_low_byte (x : Nat) : x = (x % 256) ^^^ ((x >>> 8) <<< 8) := by
  apply Nat.eq_of_testBit_eq
  intro i
  have h256 : (256 : Nat) = 2 ^ 8 := by norm_num
  rw [Nat.testBit_xor, h256, Nat.testBit_mod_two_pow, Nat.testBit_shiftLeft,
    Nat.testBit_shiftRight]
  by_cases hi : i < 8
  · have : ¬ i ≥ 8 := by omega
    simp [hi, this]
  · have h8 : i ≥ 8 := by omega
    have : 8 + (i - 8) = i := by omega
    simp [hi, h8, this]

/-- One step of the table-driven loop is eight rounds of the bitwise one. -/
theorem CRC32_Hasher.update_step (r b : Nat) (hb : b < 256) :
    s_iso3309_CRC32_table.getD ((r ^^^ b) &&& 0xFF) 0 ^^^ (r >>> 8) =
      crc32_bitwise.rounds 8 (r ^^^ b) := by
  have hand : (r ^^^ b) &&& 0xFF = (r ^^^ b) % 256 :=
    Nat.and_pow_two_sub_one_eq_mod (r ^^^ b) 8
  have hsh : (r ^^^ b) >>> 8 = r >>> 8 := by
    rw [shiftRight_xor]
    have : b >>> 8 = 0 := by
      rw [Nat.shiftRight_eq_div_pow]; exact Nat.div_eq_of_lt (by norm_num; exact hb)
    rw [this, Nat.xor_zero]
  rw [hand, s_iso3309_CRC32_table_getD _ (Nat.mod_lt _ (by norm_num))]
  conv_rhs => rw [split_low_byte (r ^^^ b)]
  rw [crc32_bitwise.rounds_xor, crc32_bitwise.rounds_shiftLeft, hsh]

theorem xor_ones (r : Nat) (h : r < 2 ^ 32) : (2 ^ 32 - 1) ^^^ r = 2 ^ 32 - 1 - r := by
  apply Nat.eq_of_testBit_eq
  intro i
  have e : 2 ^ 32 - 1 - r = 2 ^ 32 - (r + 1) := by omega
  rw [e, Nat.testBit_xor, Nat.testBit_two_pow_sub_one, Nat.testBit_two_pow_sub_succ h]
  by_cases hi : i < 32
  · simp [hi]
  · have : r.testBit i = false := by
      apply Nat.testBit_lt_two_pow
      calc r < 2 ^ 32 := h
        _ ≤ 2 ^ i := Nat.pow_le_pow_right (by norm_num) (by omega)
    simp [hi, this]

theorem CRC32_Hasher.update_eq_bitwise (data : List Nat) (hb : ∀ b ∈ data, b < 256) :
    ∀ r, data.foldl
      (fun r b => s_iso3309_CRC32_table.getD ((r ^^^ (b % 256)) &&& 0xFF) 0 ^^^ (r >>> 8)) r =
    data.foldl (fun r byte => crc32_bitwise.rounds 8 (r ^^^ byte)) r := by
  intro r
  apply List.foldl_ext
  intro a b hbm
  rw [Nat.mod_eq_of_lt (hb b hbm)]
  exact CRC32_Hasher.update_step a b (hb b hbm)

theorem crc32_bitwise.fold_lt (data : List Nat) (hb : ∀ b ∈ data, b < 256) :
    ∀ r, r < 2 ^ 32 →
      data.foldl (fun r byte => crc32_bitwise.rounds 8 (r ^^^ byte)) r < 2 ^ 32 := by
  induction data with
  | nil => intro r h; exact h
  | cons b t ih =>
    intro r h
    rw [List.foldl_cons]
    apply ih (fun x hx => hb x (List.mem_cons_of_mem _ hx))
    apply crc32_bitwise.rounds_lt
    apply Nat.xor_lt_two_pow h
    have := hb b (List.mem_cons_self _ _)
    omega

theorem CRC32_Hasher.crc32_update_lt (data : List Nat) : ∀ r, r < 2 ^ 32 →
    data.foldl
      (fun r b => s_iso3309_CRC32_table.getD ((r ^^^ (b % 256)) &&& 0xFF) 0 ^^^ (r >>> 8)) r
      < 2 ^ 32 := by
  induction data with
  | nil => intro r h; exact h
  | cons b t ih =>
    intro r h
    rw [List.foldl_cons]
    apply ih
    have hand : (r ^^^ (b % 256)) &&& 0xFF = (r ^^^ (b % 256)) % 256 :=
      Nat.and_pow_two_sub_one_eq_mod (r ^^^ (b % 256)) 8
    have hlt : (r ^^^ (b % 256)) % 256 < 256 := Nat.mod_lt _ (by norm_num)
    rw [hand, s_iso3309_CRC32_table_getD _ hlt]
    apply Nat.xor_lt_two_pow
    · exact crc32_bitwise.rounds_lt 8 _ (by omega)
    · rw [Nat.shiftRight_eq_div_pow]
      exact lt_of_le_of_lt (Nat.div_le_self r (2 ^ 8)) h

theorem FNV1a32_Hasher.fnv1a32_update_lt (data : List Nat) : ∀ r, r < 2 ^ 32 →
    data.foldl (fun r b => ((r ^^^ (b % 256)) * FNV1a32_Hasher.prime) % 2 ^ 32) r < 2 ^ 32 := by
  induction data with
  | nil => intro r h; exact h
  | cons b t ih =>
    intro r _
    rw [List.foldl_cons]
    exact ih _ (Nat.mod_lt _ (by norm_num))

theorem s_hex_digits_entry : ∀ b, b < 256 →
    (s_hex_digits.getD b []).length = 2 ∧ ∀ c ∈ s_hex_digits.getD b [], c ∈ hex_uppercase := by
  decide!

theorem do_pdigits_impl.stor_le_lt : ∀ (n w : Nat), ∀ b ∈ do_pdigits_impl.stor_le n w, b < 256 := by
  intro n
  induction n with
  | zero => intro w b hb; simp [do_pdigits_impl.stor_le] at hb
  | succ n ih =>
    intro w b hb
    rw [do_pdigits_impl.stor_le, List.mem_cons] at hb
    rcases hb with rfl | hb
    · have : w &&& 0xFF = w % 256 := Nat.and_pow_two_sub_one_eq_mod w 8
      rw [this]; exact Nat.mod_lt _ (by norm_num)
    · exact ih _ b hb

theorem hex_fold (l : List Nat) (hl : ∀ b ∈ l, b < 256) : ∀ (s : String),
    (l.foldl (fun s b => s ++ String.mk (s_hex_digits.getD b [])) s).length
      = s.length + 2 * l.length ∧
    ((∀ c ∈ s.toList, c ∈ hex_uppercase) →
      ∀ c ∈ (l.foldl (fun s b => s ++ String.mk (s_hex_digits.getD b [])) s).toList,
        c ∈ hex_uppercase) := by
  induction l with
  | nil => intro s; exact ⟨by simp, fun h => h⟩
  | cons b t ih =>
    intro s
    have hb := s_hex_digits_entry b (hl b (List.mem_cons_self _ _))
    obtain ⟨i1, i2⟩ := ih (fun x hx => hl x (List.mem_cons_of_mem _ hx))
      (s ++ String.mk (s_hex_digits.getD b []))
    rw [List.foldl_cons]
    refine ⟨?_, ?_⟩
    · rw [i1, String.length_append, List.length_cons]
      have : (String.mk (s_hex_digits.getD b [])).length = 2 := hb.1
      omega
    · intro hs
      apply i2
      intro c hc
      rw [String.toList, String.data_append, List.mem_append] at hc
      rcases hc with hc | hc
      · exact hs c hc
      · exact hb.2 c hc

theorem do_pdigits_impl_spec (be : Bool) (s : String) (w : Nat) :
    (do_pdigits_impl be s w).length = s.length + 8 ∧
    ((∀ c ∈ s.toList, c ∈ hex_uppercase) →
      ∀ c ∈ (do_pdigits_impl be s w).toList, c ∈ hex_uppercase) := by
  unfold do_pdigits_impl
  dsimp only
  have hlt := do_pdigits_impl.stor_le_lt 4 (w % 2 ^ 64)
  have hlen := do_pdigits_impl.stor_le_length 4 (w % 2 ^ 64)
  split_ifs
  · have := hex_fold (do_pdigits_impl.stor_le 4 (w % 2 ^ 64)).reverse
      (fun b hb => hlt b (List.mem_reverse.mp hb)) s
    rw [List.length_reverse, hlen] at this
    exact this
  · have := hex_fold (do_pdigits_impl.stor_le 4 (w % 2 ^ 64)) hlt s
    rw [hlen] at this
    exact this

theorem do_pdigits_fold (be : Bool) (regs : List Nat) : ∀ (s : String),
    (regs.foldl (do_pdigits_impl be) s).length = s.length + 8 * regs.length ∧
    ((∀ c ∈ s.toList, c ∈ hex_uppercase) →
      ∀ c ∈ (regs.foldl (do_pdigits_impl be) s).toList, c ∈ hex_uppercase) := by
  induction regs with
  | nil => intro s; exact ⟨by simp, fun h => h⟩
  | cons w t ih =>
    intro s
    obtain ⟨a1, a2⟩ := do_pdigits_impl_spec be s w
    obtain ⟨i1, i2⟩ := ih (do_pdigits_impl be s w)
    rw [List.foldl_cons]
    refine ⟨?_, fun hs => i2 (a2 hs)⟩
    rw [i1, a1, List.length_cons]; omega

theorem MD5_Hasher.do_consume_chunk.md5_update_length (p : List Nat) (i : Nat)
    (specx : Nat → Nat → Nat → Nat → Nat × Nat) (r : List Nat) (ia ib ic id k rb : Nat) :
    (MD5_Hasher.do_consume_chunk.update p i specx r ia ib ic id k rb).length = r.length := by
  unfold MD5_Hasher.do_consume_chunk.update
  simp only [List.length_set]

theorem SHA1_Hasher.do_consume_chunk.sha1_update_length (w : List Nat) (i : Nat)
    (specx : Nat → Nat → Nat → Nat × Nat) (r : List Nat) (ia ib ic id ie : Nat) :
    (SHA1_Hasher.do_consume_chunk.update w i specx r ia ib ic id ie).length = r.length := by
  unfold SHA1_Hasher.do_consume_chunk.update
  simp only [List.length_set]

theorem SHA256_Hasher.do_consume_chunk.sha256_update_length (w : List Nat) (i : Nat) (r : List Nat)
    (ia ib ic id ie if_ ig ih k : Nat) :
    (SHA256_Hasher.do_consume_chunk.update w i r ia ib ic id ie if_ ig ih k).length
      = r.length := by
  unfold SHA256_Hasher.do_consume_chunk.update
  simp only [List.length_set]

theorem MD5_Hasher.md5_consume_chunk_length (m_regs p : List Nat) :
    (MD5_Hasher.do_consume_chunk m_regs p).length = m_regs.length := by
  unfold MD5_Hasher.do_consume_chunk do_padd
  simp only [List.length_zipWith, MD5_Hasher.do_consume_chunk.md5_update_length, min_self]

theorem SHA1_Hasher.sha1_consume_chunk_length (m_regs p : List Nat) :
    (SHA1_Hasher.do_consume_chunk m_regs p).length = m_regs.length := by
  unfold SHA1_Hasher.do_consume_chunk do_padd
  simp only [List.length_zipWith, SHA1_Hasher.do_consume_chunk.sha1_update_length, min_self]

theorem SHA256_Hasher.sha256_consume_chunk_length (m_regs p : List Nat) :
    (SHA256_Hasher.do_consume_chunk m_regs p).length = m_regs.length := by
  unfold SHA256_Hasher.do_consume_chunk do_padd
  simp only [List.length_zipWith, SHA256_Hasher.do_consume_chunk.sha256_update_length, min_self]

theorem absorb_length (f : List Nat → List Nat → List Nat)
    (hf : ∀ r p, (f r p).length = r.length) : ∀ (fuel : Nat) (r d : List Nat),
    (absorb f fuel r d).1.length = r.length := by
  intro fuel
  induction fuel with
  | zero => intro r d; rfl
  | succ n ih =>
    intro r d
    rw [absorb]
    split_ifs
    · rw [ih, hf]
    · rfl

theorem foldl_chunks_length (f : List Nat → List Nat → List Nat)
    (hf : ∀ r p, (f r p).length = r.length) (cs : List (List Nat)) : ∀ (r : List Nat),
    (cs.foldl f r).length = r.length := by
  induction cs with
  | nil => intro r; rfl
  | cons c t ih => intro r; rw [List.foldl_cons, ih, hf]

/-- The checksum of a chunked hasher has eight uppercase hexadecimal digits for
each register. -/
theorem Chunk_Hasher.finish_hex (f : List Nat → List Nat → List Nat)
    (hf : ∀ r p, (f r p).length = r.length) (bigendT : Bool) (init regs c data : List Nat)
    (hc : c.length = 64) :
    (Chunk_Hasher.finish f bigendT init
        (Chunk_Hasher.update f { m_regs := regs, m_size := 0, m_chunk := c } data)).1.length
      = 8 * regs.length ∧
    ∀ ch ∈ (Chunk_Hasher.finish f bigendT init
        (Chunk_Hasher.update f { m_regs := regs, m_size := 0, m_chunk := c } data)).1.toList,
      ch ∈ hex_uppercase := by
  have v : Chunk_Hasher.Valid { m_regs := regs, m_size := 0, m_chunk := c } :=
    ⟨hc, by norm_num⟩
  obtain ⟨w, _, hr, _⟩ := Chunk_Hasher.update_spec f _ data v
  rw [Chunk_Hasher.finish_spec f bigendT init _ w]
  obtain ⟨a1, a2⟩ := do_pdigits_fold bigendT
    ((Chunk_Hasher.final_chunks bigendT
        (Chunk_Hasher.update f { m_regs := regs, m_size := 0, m_chunk := c } data).pending
        (Chunk_Hasher.update f { m_regs := regs, m_size := 0, m_chunk := c } data).m_size).foldl f
      (Chunk_Hasher.update f { m_regs := regs, m_size := 0, m_chunk := c } data).m_regs) ""
  refine ⟨?_, a2 (by intro c hc; simp at hc)⟩
  rw [a1, foldl_chunks_length f hf, hr]
  unfold absorbAll
  rw [absorb_length f hf]
  simp


/-! ## Soundness of the acceptors -/

theorem Accept.Sound_call.call_andThen {α β : Type} {inp : Token_stream} {r : Accept α}
    {k : α → Token_stream → Accept β} (hr : r.Sound_call inp)
    (hk : ∀ a t, t <:+ inp → t.length < inp.length → (k a t).Sound_rest inp) :
    (r.andThen k).Sound_call inp := by
  cases r with
  | accepted a t =>
    have h := hk a t hr.1 hr.2
    simp only [Accept.andThen]
    cases hkr : k a t with
    | accepted b t2 => rw [hkr] at h; exact h
    | rejected t2 => rw [hkr] at h; exact h.elim
    | thrown e t2 => rw [hkr] at h; exact h
    | fuel_out => rw [hkr] at h; exact h.elim
  | rejected t => exact hr
  | thrown e t => exact hr
  | fuel_out => exact hr.elim

theorem Accept.Sound_rest.rest_andThen {α β : Type} {inp : Token_stream} {r : Accept α}
    {k : α → Token_stream → Accept β} (hr : r.Sound_rest inp)
    (hk : ∀ a t, t <:+ inp → t.length < inp.length → (k a t).Sound_rest inp) :
    (r.andThen k).Sound_rest inp := by
  cases r with
  | accepted a t => exact hk a t hr.1 hr.2
  | rejected t => exact hr.elim
  | thrown e t => exact hr
  | fuel_out => exact hr.elim

theorem Accept.Sound_rest.rest_orThrow {α : Type} {inp toks : Token_stream} {r : Accept α}
    {error : Parser_result.Error} (hr : r.Sound_call toks) (hs : toks <:+ inp)
    (hl : toks.length < inp.length) (he : error ≠ Parser_result.Error.error_success) :
    (r.orThrow error).Sound_rest inp := by
  cases r with
  | accepted a t => exact ⟨hr.1.trans hs, lt_trans hr.2 hl⟩
  | rejected t =>
    have ht : t = toks := hr
    subst ht
    exact ⟨hs, error, he, rfl⟩
  | thrown e t => exact ⟨hr.1.trans hs, hr.2⟩
  | fuel_out => exact hr.elim

theorem Accept.Sound_call.call_orThrow {α : Type} {inp : Token_stream} {r : Accept α}
    {error : Parser_result.Error} (hr : r.Sound_call inp)
    (he : error ≠ Parser_result.Error.error_success) :
    (r.orThrow error).Sound_call inp := by
  cases r with
  | accepted a t => exact hr
  | rejected t =>
    have ht : t = inp := hr
    subst ht
    exact ⟨List.suffix_refl _, error, he, rfl⟩
  | thrown e t => exact hr
  | fuel_out => exact hr.elim

theorem Accept.Sound_rest.rest_ignored {α : Type} {inp toks : Token_stream} {r : Accept α}
    {out : α} (hr : r.Sound_call toks) (hs : toks <:+ inp)
    (hl : toks.length < inp.length) : (r.ignored out).Sound_rest inp := by
  cases r with
  | accepted a t => exact ⟨hr.1.trans hs, lt_trans hr.2 hl⟩
  | rejected t =>
    have ht : t = toks := hr
    subst ht
    exact ⟨hs, hl⟩
  | thrown e t => exact ⟨hr.1.trans hs, hr.2⟩
  | fuel_out => exact hr.elim

theorem Accept.Sound_rest.rest_of_accepted {α : Type} {inp toks : Token_stream} {a : α}
    (hs : toks <:+ inp) (hl : toks.length < inp.length) :
    (Accept.accepted a toks).Sound_rest inp := ⟨hs, hl⟩

theorem Accept.Sound_call.call_orElse {α : Type} {inp : Token_stream} {r : Accept α}
    {g : Token_stream → Accept α} (hr : r.Sound_call inp) (hg : (g inp).Sound_call inp) :
    (r.orElse g).Sound_call inp := by
  cases r with
  | accepted a t => exact hr
  | rejected t =>
    have ht : t = inp := hr
    subst ht
    exact hg
  | thrown e t => exact hr
  | fuel_out => exact hr.elim

theorem Accept.Sound_opt.opt_orElse {α : Type} {inp : Token_stream} {r : Accept α}
    {g : Token_stream → Accept α} (hr : r.Sound_call inp) (hg : (g inp).Sound_opt inp) :
    (r.orElse g).Sound_opt inp := by
  cases r with
  | accepted a t => exact hr.1
  | rejected t =>
    have ht : t = inp := hr
    subst ht
    exact hg
  | thrown e t => exact hr
  | fuel_out => exact hr.elim

theorem Accept.Sound_rest.rest_of_opt {α : Type} {inp toks : Token_stream} {r : Accept α}
    (hr : r.Sound_opt toks) (hs : toks <:+ inp) (hl : toks.length < inp.length) :
    r.Sound_rest inp := by
  cases r with
  | accepted a t => exact ⟨hr.trans hs, lt_of_le_of_lt hr.length_le hl⟩
  | rejected t => exact hr.elim
  | thrown e t => exact ⟨hr.1.trans hs, hr.2⟩
  | fuel_out => exact hr.elim

theorem Accept.Sound_rest.rest_ifElse {α β : Type} {inp toks : Token_stream} {r : Accept α}
    {k_true k_false : Token_stream → Accept β} (hr : r.Sound_call toks) (hs : toks <:+ inp)
    (hl : toks.length < inp.length)
    (ht : ∀ t, t <:+ inp → t.length < inp.length → (k_true t).Sound_rest inp)
    (hf : (k_false toks).Sound_rest inp) : (r.ifElse k_true k_false).Sound_rest inp := by
  cases r with
  | accepted a t => exact ht t (hr.1.trans hs) (lt_trans hr.2 hl)
  | rejected t =>
    have e : t = toks := hr
    subst e
    exact hf
  | thrown e t => exact ⟨hr.1.trans hs, hr.2⟩
  | fuel_out => exact hr.elim

theorem Accept.Sound_call.call_ifElse {α β : Type} {inp : Token_stream} {r : Accept α}
    {k_true k_false : Token_stream → Accept β} (hr : r.Sound_call inp)
    (ht : ∀ t, t <:+ inp → t.length < inp.length → (k_true t).Sound_rest inp)
    (hf : (k_false inp).Sound_call inp) : (r.ifElse k_true k_false).Sound_call inp := by
  cases r with
  | accepted a t =>
    have h := ht t hr.1 hr.2
    simp only [Accept.ifElse]
    cases hk : k_true t with
    | accepted b t2 => rw [hk] at h; exact h
    | rejected t2 => rw [hk] at h; exact h.elim
    | thrown e t2 => rw [hk] at h; exact h
    | fuel_out => rw [hk] at h; exact h.elim
  | rejected t =>
    have e : t = inp := hr
    subst e
    exact hf
  | thrown e t => exact hr
  | fuel_out => exact hr.elim

theorem Accept.Sound_opt.opt_of_accepted {α : Type} {inp : Token_stream} {a : α} :
    (Accept.accepted a inp).Sound_opt inp := List.suffix_refl _

/-- A loop whose body is sound comes to its end within one more turn than
there are tokens. -/
theorem Accept.loop_sound {α : Type} (body : Token_stream → Accept α) :
    ∀ (fuel : Nat) (outs : List α) (toks : Token_stream),
      (∀ t, t <:+ toks → (body t).Sound_call t) → toks.length < fuel →
      (Accept.loop body fuel outs toks).Sound_opt toks := by
  intro fuel
  induction fuel with
  | zero => intro outs toks _ hl; omega
  | succ n ih =>
    intro outs toks hb hl
    have h0 := hb toks (List.suffix_refl _)
    rw [Accept.loop]
    cases hr : body toks with
    | accepted a t =>
      rw [hr] at h0
      have h1 := ih (outs ++ [a]) t (fun t2 h2 => hb t2 (h2.trans h0.1))
        (by have := h0.2; omega)
      simp only
      cases hl2 : Accept.loop body n (outs ++ [a]) t with
      | accepted b t2 => rw [hl2] at h1; exact h1.trans h0.1
      | rejected t2 => rw [hl2] at h1; exact h1.elim
      | thrown e t2 => rw [hl2] at h1; exact ⟨h1.1.trans h0.1, h1.2⟩
      | fuel_out => rw [hl2] at h1; exact h1.elim
    | rejected t =>
      rw [hr] at h0
      have ht : t = toks := h0
      subst ht
      exact List.suffix_refl _
    | thrown e t => rw [hr] at h0; exact h0
    | fuel_out => rw [hr] at h0; exact h0.elim

theorem do_match_keyword_sound (toks : Token_stream) (keyword : Token.Keyword) :
    (do_match_keyword toks keyword).Sound_call toks := by
  unfold do_match_keyword Token_stream.peek_opt Token_stream.shift
  cases toks with
  | nil => rfl
  | cons q t =>
    simp only [List.head?_cons, List.tail_cons]
    cases q.m_stor with
    | S_keyword kw =>
      simp only
      split_ifs
      · rfl
      · exact ⟨List.suffix_cons _ _, by simp⟩
    | _ => rfl

theorem do_match_punctuator_sound (toks : Token_stream) (punct : Token.Punctuator) :
    (do_match_punctuator toks punct).Sound_call toks := by
  unfold do_match_punctuator Token_stream.peek_opt Token_stream.shift
  cases toks with
  | nil => rfl
  | cons q t =>
    simp only [List.head?_cons, List.tail_cons]
    cases q.m_stor with
    | S_punctuator p =>
      simp only
      split_ifs
      · rfl
      · exact ⟨List.suffix_cons _ _, by simp⟩
    | _ => rfl

theorem do_accept_identifier_sound (toks : Token_stream) :
    (do_accept_identifier toks).Sound_call toks := by
  unfold do_accept_identifier Token_stream.peek_opt Token_stream.shift
  cases toks with
  | nil => rfl
  | cons q t =>
    simp only [List.head?_cons, List.tail_cons]
    cases q.m_stor with
    | S_identifier name => exact ⟨List.suffix_cons _ _, by simp⟩
    | _ => rfl

theorem do_match_string_literal_sound (toks : Token_stream) :
    (do_match_string_literal toks).Sound_call toks := by
  unfold do_match_string_literal Token_stream.peek_opt Token_stream.shift
  cases toks with
  | nil => rfl
  | cons q t =>
    simp only [List.head?_cons, List.tail_cons]
    cases q.m_stor with
    | S_string_literal value => exact ⟨List.suffix_cons _ _, by simp⟩
    | _ => rfl

theorem do_accept_expression_sound (expr_out : Expression) (toks : Token_stream) :
    (do_accept_expression expr_out toks).Sound_call toks := by
  unfold do_accept_expression Token_stream.peek_opt Token_stream.shift
  cases toks with
  | nil => rfl
  | cons q t =>
    simp only [List.head?_cons, List.tail_cons]
    cases q.m_stor with
    | S_keyword kw => rfl
    | S_punctuator p => rfl
    | _ => exact ⟨List.suffix_cons _ _, by simp⟩


theorem do_accept_export_directive_sound (inp : Token_stream) :
    (do_accept_export_directive inp).Sound_call inp := by
  unfold do_accept_export_directive
  refine Accept.Sound_call.call_andThen (do_match_keyword_sound _ _) fun _ t1 s1 l1 => ?_
  refine Accept.Sound_rest.rest_andThen (Accept.Sound_rest.rest_orThrow (do_accept_identifier_sound t1)
    s1 l1 (by decide)) fun _ t2 s2 l2 => ?_
  refine Accept.Sound_rest.rest_andThen (Accept.Sound_rest.rest_orThrow (do_match_punctuator_sound t2 _)
    s2 l2 (by decide)) fun _ t3 s3 l3 => ?_
  exact Accept.Sound_rest.rest_of_accepted s3 l3

theorem do_accept_import_directive_sound (inp : Token_stream) :
    (do_accept_import_directive inp).Sound_call inp := by
  unfold do_accept_import_directive
  refine Accept.Sound_call.call_andThen (do_match_keyword_sound _ _) fun _ t1 s1 l1 => ?_
  refine Accept.Sound_rest.rest_andThen (Accept.Sound_rest.rest_orThrow (do_match_string_literal_sound t1)
    s1 l1 (by decide)) fun _ t2 s2 l2 => ?_
  refine Accept.Sound_rest.rest_andThen (Accept.Sound_rest.rest_orThrow (do_match_punctuator_sound t2 _)
    s2 l2 (by decide)) fun _ t3 s3 l3 => ?_
  exact Accept.Sound_rest.rest_of_accepted s3 l3

/-- The loop over statements, run on a stream on which `accept` is sound. -/
theorem Statement_Acceptors.Sound.statements_loop_sound {accept : Statement_Acceptors} {n : Nat}
    (ha : accept.Sound n) (outs : List Statement) (toks : Token_stream) (hl : toks.length < n) :
    (Accept.loop accept.to_statement (toks.length + 1) outs toks).Sound_opt toks :=
  Accept.loop_sound _ _ _ _
    (fun t ht => (ha t (lt_of_le_of_lt ht.length_le hl)).1) (Nat.lt_succ_self _)

theorem do_accept_block_sound (accept : Statement_Acceptors) (n : Nat) (ha : accept.Sound n)
    (inp : Token_stream) (hn : inp.length ≤ n) : (do_accept_block accept inp).Sound_call inp := by
  unfold do_accept_block
  refine Accept.Sound_call.call_andThen (do_match_punctuator_sound _ _) fun _ t1 s1 l1 => ?_
  refine Accept.Sound_rest.rest_andThen (Accept.Sound_rest.rest_of_opt
    (ha.statements_loop_sound [] t1 (by omega)) s1 l1) fun _ t2 s2 l2 => ?_
  refine Accept.Sound_rest.rest_andThen (Accept.Sound_rest.rest_orThrow (do_match_punctuator_sound t2 _)
    s2 l2 (by decide)) fun _ t3 s3 l3 => ?_
  exact Accept.Sound_rest.rest_of_accepted s3 l3

theorem do_accept_block_statement_sound (accept : Statement_Acceptors) (n : Nat)
    (ha : accept.Sound n) (inp : Token_stream) (hn : inp.length ≤ n) :
    (do_accept_block_statement accept inp).Sound_call inp := by
  unfold do_accept_block_statement
  refine Accept.Sound_call.call_andThen (do_accept_block_sound accept n ha inp hn)
    fun _ t1 s1 l1 => ?_
  exact Accept.Sound_rest.rest_of_accepted s1 l1

theorem do_accept_null_statement_sound (inp : Token_stream) :
    (do_accept_null_statement inp).Sound_call inp := by
  unfold do_accept_null_statement
  refine Accept.Sound_call.call_andThen (do_match_punctuator_sound _ _) fun _ t1 s1 l1 => ?_
  exact Accept.Sound_rest.rest_of_accepted s1 l1

theorem do_accept_identifier_list_sound (inp : Token_stream) :
    (do_accept_identifier_list inp).Sound_call inp := by
  unfold do_accept_identifier_list
  refine Accept.Sound_call.call_andThen (do_accept_identifier_sound _) fun name t1 s1 l1 => ?_
  refine Accept.Sound_rest.rest_of_opt (Accept.loop_sound _ _ _ _ (fun t _ => ?_)
    (Nat.lt_succ_self _)) s1 l1
  refine Accept.Sound_call.call_andThen (do_match_punctuator_sound _ _) fun _ t2 s2 l2 => ?_
  exact Accept.Sound_rest.rest_orThrow (do_accept_identifier_sound t2) s2 l2 (by decide)

theorem do_accept_variable_definition_sound (inp : Token_stream) :
    (do_accept_variable_definition inp).Sound_call inp := by
  unfold do_accept_variable_definition
  refine Accept.Sound_call.call_andThen (do_match_keyword_sound _ _) fun _ t1 s1 l1 => ?_
  refine Accept.Sound_rest.rest_andThen (Accept.Sound_rest.rest_orThrow (do_accept_identifier_sound t1)
    s1 l1 (by decide)) fun _ t2 s2 l2 => ?_
  refine Accept.Sound_rest.rest_andThen (Accept.Sound_rest.rest_ifElse (do_match_punctuator_sound t2 _)
    s2 l2 (fun t3 s3 l3 => Accept.Sound_rest.rest_orThrow (do_accept_expression_sound _ t3)
      s3 l3 (by decide)) (Accept.Sound_rest.rest_of_accepted s2 l2)) fun _ t4 s4 l4 => ?_
  refine Accept.Sound_rest.rest_andThen (Accept.Sound_rest.rest_orThrow (do_match_punctuator_sound t4 _)
    s4 l4 (by decide)) fun _ t5 s5 l5 => ?_
  exact Accept.Sound_rest.rest_of_accepted s5 l5

theorem do_accept_immutable_variable_definition_sound (inp : Token_stream) :
    (do_accept_immutable_variable_definition inp).Sound_call inp := by
  unfold do_accept_immutable_variable_definition
  refine Accept.Sound_call.call_andThen (do_match_keyword_sound _ _) fun _ t1 s1 l1 => ?_
  refine Accept.Sound_rest.rest_andThen (Accept.Sound_rest.rest_orThrow (do_accept_identifier_sound t1)
    s1 l1 (by decide)) fun _ t2 s2 l2 => ?_
  refine Accept.Sound_rest.rest_andThen (Accept.Sound_rest.rest_orThrow (do_match_punctuator_sound t2 _)
    s2 l2 (by decide)) fun _ t3 s3 l3 => ?_
  refine Accept.Sound_rest.rest_andThen (Accept.Sound_rest.rest_orThrow (do_accept_expression_sound _ t3)
    s3 l3 (by decide)) fun _ t4 s4 l4 => ?_
  refine Accept.Sound_rest.rest_andThen (Accept.Sound_rest.rest_orThrow (do_match_punctuator_sound t4 _)
    s4 l4 (by decide)) fun _ t5 s5 l5 => ?_
  exact Accept.Sound_rest.rest_of_accepted s5 l5

theorem do_accept_function_definition_sound (accept : Statement_Acceptors) (n : Nat)
    (ha : accept.Sound n) (inp : Token_stream) (hn : inp.length ≤ n) :
    (do_accept_function_definition accept inp).Sound_call inp := by
  unfold do_accept_function_definition
  refine Accept.Sound_call.call_andThen (do_match_keyword_sound _ _) fun _ t1 s1 l1 => ?_
  refine Accept.Sound_rest.rest_andThen (Accept.Sound_rest.rest_orThrow (do_accept_identifier_sound t1)
    s1 l1 (by decide)) fun _ t2 s2 l2 => ?_
  refine Accept.Sound_rest.rest_andThen (Accept.Sound_rest.rest_orThrow (do_match_punctuator_sound t2 _)
    s2 l2 (by decide)) fun _ t3 s3 l3 => ?_
  refine Accept.Sound_rest.rest_andThen (Accept.Sound_rest.rest_ignored
    (do_accept_identifier_list_sound t3) s3 l3) fun _ t4 s4 l4 => ?_
  refine Accept.Sound_rest.rest_andThen (Accept.Sound_rest.rest_orThrow (do_match_punctuator_sound t4 _)
    s4 l4 (by decide)) fun _ t5 s5 l5 => ?_
  refine Accept.Sound_rest.rest_andThen (Accept.Sound_rest.rest_orThrow (ha t5 (by omega)).2
    s5 l5 (by decide)) fun _ t6 s6 l6 => ?_
  exact Accept.Sound_rest.rest_of_accepted s6 l6

theorem do_accept_expression_statement_sound (inp : Token_stream) :
    (do_accept_expression_statement inp).Sound_call inp := by
  unfold do_accept_expression_statement
  refine Accept.Sound_call.call_andThen (do_accept_expression_sound _ _) fun _ t1 s1 l1 => ?_
  refine Accept.Sound_rest.rest_andThen (Accept.Sound_rest.rest_orThrow (do_match_punctuator_sound t1 _)
    s1 l1 (by decide)) fun _ t2 s2 l2 => ?_
  exact Accept.Sound_rest.rest_of_accepted s2 l2

theorem do_accept_if_statement_sound (accept : Statement_Acceptors) (n : Nat)
    (ha : accept.Sound n) (inp : Token_stream) (hn : inp.length ≤ n) :
    (do_accept_if_statement accept inp).Sound_call inp := by
  unfold do_accept_if_statement
  refine Accept.Sound_call.call_andThen (do_match_keyword_sound _ _) fun _ t1 s1 l1 => ?_
  refine Accept.Sound_rest.rest_andThen (Accept.Sound_rest.rest_orThrow (do_match_punctuator_sound t1 _)
    s1 l1 (by decide)) fun _ t2 s2 l2 => ?_
  refine Accept.Sound_rest.rest_andThen (Accept.Sound_rest.rest_orThrow (do_accept_expression_sound _ t2)
    s2 l2 (by decide)) fun _ t3 s3 l3 => ?_
  refine Accept.Sound_rest.rest_andThen (Accept.Sound_rest.rest_orThrow (do_match_punctuator_sound t3 _)
    s3 l3 (by decide)) fun _ t4 s4 l4 => ?_
  refine Accept.Sound_rest.rest_andThen (Accept.Sound_rest.rest_orThrow (ha t4 (by omega)).2
    s4 l4 (by decide)) fun _ t5 s5 l5 => ?_
  refine Accept.Sound_rest.rest_andThen (Accept.Sound_rest.rest_ifElse (do_match_keyword_sound t5 _)
    s5 l5 (fun t6 s6 l6 => Accept.Sound_rest.rest_orThrow (ha t6 (by omega)).2
      s6 l6 (by decide)) (Accept.Sound_rest.rest_of_accepted s5 l5)) fun _ t7 s7 l7 => ?_
  exact Accept.Sound_rest.rest_of_accepted s7 l7


theorem do_accept_switch_statement.clause_sound (accept : Statement_Acceptors) (n : Nat)
    (ha : accept.Sound n) (inp : Token_stream) (hn : inp.length ≤ n) :
    (do_accept_switch_statement.clause accept inp).Sound_call inp := by
  unfold do_accept_switch_statement.clause
  refine Accept.Sound_call.call_andThen (Accept.Sound_call.call_ifElse (do_match_keyword_sound _ _)
    (fun t1 s1 l1 => Accept.Sound_rest.rest_of_accepted s1 l1)
    (Accept.Sound_call.call_andThen (do_match_keyword_sound _ _) fun _ t1 s1 l1 =>
      Accept.Sound_rest.rest_orThrow (do_accept_expression_sound _ t1) s1 l1 (by decide)))
    fun _ t2 s2 l2 => ?_
  refine Accept.Sound_rest.rest_andThen (Accept.Sound_rest.rest_orThrow (do_match_punctuator_sound t2 _)
    s2 l2 (by decide)) fun _ t3 s3 l3 => ?_
  refine Accept.Sound_rest.rest_andThen (Accept.Sound_rest.rest_of_opt
    (ha.statements_loop_sound [] t3 (by omega)) s3 l3) fun _ t4 s4 l4 => ?_
  exact Accept.Sound_rest.rest_of_accepted s4 l4

theorem do_accept_switch_statement_sound (accept : Statement_Acceptors) (n : Nat)
    (ha : accept.Sound n) (inp : Token_stream) (hn : inp.length ≤ n) :
    (do_accept_switch_statement accept inp).Sound_call inp := by
  unfold do_accept_switch_statement
  refine Accept.Sound_call.call_andThen (do_match_keyword_sound _ _) fun _ t1 s1 l1 => ?_
  refine Accept.Sound_rest.rest_andThen (Accept.Sound_rest.rest_orThrow (do_match_punctuator_sound t1 _)
    s1 l1 (by decide)) fun _ t2 s2 l2 => ?_
  refine Accept.Sound_rest.rest_andThen (Accept.Sound_rest.rest_orThrow (do_accept_expression_sound _ t2)
    s2 l2 (by decide)) fun _ t3 s3 l3 => ?_
  refine Accept.Sound_rest.rest_andThen (Accept.Sound_rest.rest_orThrow (do_match_punctuator_sound t3 _)
    s3 l3 (by decide)) fun _ t4 s4 l4 => ?_
  refine Accept.Sound_rest.rest_andThen (Accept.Sound_rest.rest_orThrow (do_match_punctuator_sound t4 _)
    s4 l4 (by decide)) fun _ t5 s5 l5 => ?_
  refine Accept.Sound_rest.rest_andThen (Accept.Sound_rest.rest_of_opt
    (Accept.loop_sound _ _ _ _ (fun t ht => do_accept_switch_statement.clause_sound accept n ha t
      (by have := ht.length_le; omega)) (Nat.lt_succ_self _)) s5 l5) fun _ t6 s6 l6 => ?_
  refine Accept.Sound_rest.rest_andThen (Accept.Sound_rest.rest_orThrow (do_match_punctuator_sound t6 _)
    s6 l6 (by decide)) fun _ t7 s7 l7 => ?_
  exact Accept.Sound_rest.rest_of_accepted s7 l7

theorem do_accept_do_while_statement_sound (accept : Statement_Acceptors) (n : Nat)
    (ha : accept.Sound n) (inp : Token_stream) (hn : inp.length ≤ n) :
    (do_accept_do_while_statement accept inp).Sound_call inp := by
  unfold do_accept_do_while_statement
  refine Accept.Sound_call.call_andThen (do_match_keyword_sound _ _) fun _ t1 s1 l1 => ?_
  refine Accept.Sound_rest.rest_andThen (Accept.Sound_rest.rest_orThrow (ha t1 (by omega)).2
    s1 l1 (by decide)) fun _ t2 s2 l2 => ?_
  refine Accept.Sound_rest.rest_andThen (Accept.Sound_rest.rest_orThrow (do_match_keyword_sound t2 _)
    s2 l2 (by decide)) fun _ t3 s3 l3 => ?_
  refine Accept.Sound_rest.rest_andThen (Accept.Sound_rest.rest_orThrow (do_match_punctuator_sound t3 _)
    s3 l3 (by decide)) fun _ t4 s4 l4 => ?_
  refine Accept.Sound_rest.rest_andThen (Accept.Sound_rest.rest_orThrow (do_accept_expression_sound _ t4)
    s4 l4 (by decide)) fun _ t5 s5 l5 => ?_
  refine Accept.Sound_rest.rest_andThen (Accept.Sound_rest.rest_orThrow (do_match_punctuator_sound t5 _)
    s5 l5 (by decide)) fun _ t6 s6 l6 => ?_
  refine Accept.Sound_rest.rest_andThen (Accept.Sound_rest.rest_orThrow (do_match_punctuator_sound t6 _)
    s6 l6 (by decide)) fun _ t7 s7 l7 => ?_
  exact Accept.Sound_rest.rest_of_accepted s7 l7

theorem do_accept_while_statement_sound (accept : Statement_Acceptors) (n : Nat)
    (ha : accept.Sound n) (inp : Token_stream) (hn : inp.length ≤ n) :
    (do_accept_while_statement accept inp).Sound_call inp := by
  unfold do_accept_while_statement
  refine Accept.Sound_call.call_andThen (do_match_keyword_sound _ _) fun _ t1 s1 l1 => ?_
  refine Accept.Sound_rest.rest_andThen (Accept.Sound_rest.rest_orThrow (do_match_punctuator_sound t1 _)
    s1 l1 (by decide)) fun _ t2 s2 l2 => ?_
  refine Accept.Sound_rest.rest_andThen (Accept.Sound_rest.rest_orThrow (do_accept_expression_sound _ t2)
    s2 l2 (by decide)) fun _ t3 s3 l3 => ?_
  refine Accept.Sound_rest.rest_andThen (Accept.Sound_rest.rest_orThrow (do_match_punctuator_sound t3 _)
    s3 l3 (by decide)) fun _ t4 s4 l4 => ?_
  refine Accept.Sound_rest.rest_andThen (Accept.Sound_rest.rest_orThrow (ha t4 (by omega)).2
    s4 l4 (by decide)) fun _ t5 s5 l5 => ?_
  exact Accept.Sound_rest.rest_of_accepted s5 l5

theorem do_accept_for_statement.head_sound (inp toks : Token_stream) (hs : toks <:+ inp)
    (hl : toks.length < inp.length) : (do_accept_for_statement.head toks).Sound_rest inp := by
  unfold do_accept_for_statement.head
  refine Accept.Sound_rest.rest_ifElse (do_match_keyword_sound _ _) hs hl (fun t1 s1 l1 => ?_) ?_
  · refine Accept.Sound_rest.rest_andThen (Accept.Sound_rest.rest_orThrow (do_accept_identifier_sound t1)
      s1 l1 (by decide)) fun _ t2 s2 l2 => ?_
    refine Accept.Sound_rest.rest_andThen (Accept.Sound_rest.rest_orThrow (do_match_punctuator_sound t2 _)
      s2 l2 (by decide)) fun _ t3 s3 l3 => ?_
    refine Accept.Sound_rest.rest_andThen (Accept.Sound_rest.rest_orThrow (do_accept_identifier_sound t3)
      s3 l3 (by decide)) fun _ t4 s4 l4 => ?_
    refine Accept.Sound_rest.rest_andThen (Accept.Sound_rest.rest_orThrow (do_match_punctuator_sound t4 _)
      s4 l4 (by decide)) fun _ t5 s5 l5 => ?_
    exact Accept.Sound_rest.rest_of_accepted s5 l5
  · refine Accept.Sound_rest.rest_andThen (Accept.Sound_rest.rest_orThrow (Accept.Sound_call.call_orElse
      (Accept.Sound_call.call_orElse (do_accept_variable_definition_sound _)
        (do_accept_null_statement_sound _)) (do_accept_expression_statement_sound _))
      hs hl (by decide)) fun _ t1 s1 l1 => ?_
    refine Accept.Sound_rest.rest_andThen (Accept.Sound_rest.rest_ignored
      (do_accept_expression_sound _ t1) s1 l1) fun _ t2 s2 l2 => ?_
    refine Accept.Sound_rest.rest_andThen (Accept.Sound_rest.rest_orThrow (do_match_punctuator_sound t2 _)
      s2 l2 (by decide)) fun _ t3 s3 l3 => ?_
    exact Accept.Sound_rest.rest_of_accepted s3 l3

theorem do_accept_for_statement_sound (accept : Statement_Acceptors) (n : Nat)
    (ha : accept.Sound n) (inp : Token_stream) (hn : inp.length ≤ n) :
    (do_accept_for_statement accept inp).Sound_call inp := by
  unfold do_accept_for_statement
  refine Accept.Sound_call.call_andThen (do_match_keyword_sound _ _) fun _ t1 s1 l1 => ?_
  refine Accept.Sound_rest.rest_andThen (Accept.Sound_rest.rest_orThrow (do_match_punctuator_sound t1 _)
    s1 l1 (by decide)) fun _ t2 s2 l2 => ?_
  refine Accept.Sound_rest.rest_andThen (do_accept_for_statement.head_sound inp t2 s2 l2)
    fun vars t3 s3 l3 => ?_
  refine Accept.Sound_rest.rest_andThen (Accept.Sound_rest.rest_ignored
    (do_accept_expression_sound _ t3) s3 l3) fun _ t4 s4 l4 => ?_
  refine Accept.Sound_rest.rest_andThen (Accept.Sound_rest.rest_orThrow (do_match_punctuator_sound t4 _)
    s4 l4 (by decide)) fun _ t5 s5 l5 => ?_
  refine Accept.Sound_rest.rest_andThen (Accept.Sound_rest.rest_orThrow (ha t5 (by omega)).2
    s5 l5 (by decide)) fun _ t6 s6 l6 => ?_
  dsimp only
  split_ifs
  · exact Accept.Sound_rest.rest_of_accepted s6 l6
  · exact Accept.Sound_rest.rest_of_accepted s6 l6

/-- The choice of the target in `do_accept_break_statement` and
`do_accept_continue_statement`: one keyword, the next, or none. -/
theorem Accept.Sound_opt.opt_target {inp : Token_stream} {keyword : Token.Keyword}
    {target : Statement.Target} {g : Token_stream → Accept Statement.Target}
    (hg : (g inp).Sound_opt inp) :
    (((do_match_keyword inp keyword).andThen fun _ toks_io =>
      Accept.accepted target toks_io).orElse g).Sound_opt inp :=
  Accept.Sound_opt.opt_orElse
    (Accept.Sound_call.call_andThen (do_match_keyword_sound _ _) fun _ _ s1 l1 =>
      Accept.Sound_rest.rest_of_accepted s1 l1) hg

theorem do_accept_break_statement_sound (inp : Token_stream) :
    (do_accept_break_statement inp).Sound_call inp := by
  unfold do_accept_break_statement
  refine Accept.Sound_call.call_andThen (do_match_keyword_sound _ _) fun _ t1 s1 l1 => ?_
  refine Accept.Sound_rest.rest_andThen (Accept.Sound_rest.rest_of_opt (Accept.Sound_opt.opt_target
    (Accept.Sound_opt.opt_target (Accept.Sound_opt.opt_target Accept.Sound_opt.opt_of_accepted))) s1 l1)
    fun _ t2 s2 l2 => ?_
  refine Accept.Sound_rest.rest_andThen (Accept.Sound_rest.rest_orThrow (do_match_punctuator_sound t2 _)
    s2 l2 (by decide)) fun _ t3 s3 l3 => ?_
  exact Accept.Sound_rest.rest_of_accepted s3 l3

theorem do_accept_continue_statement_sound (inp : Token_stream) :
    (do_accept_continue_statement inp).Sound_call inp := by
  unfold do_accept_continue_statement
  refine Accept.Sound_call.call_andThen (do_match_keyword_sound _ _) fun _ t1 s1 l1 => ?_
  refine Accept.Sound_rest.rest_andThen (Accept.Sound_rest.rest_of_opt (Accept.Sound_opt.opt_target
    (Accept.Sound_opt.opt_target Accept.Sound_opt.opt_of_accepted)) s1 l1) fun _ t2 s2 l2 => ?_
  refine Accept.Sound_rest.rest_andThen (Accept.Sound_rest.rest_orThrow (do_match_punctuator_sound t2 _)
    s2 l2 (by decide)) fun _ t3 s3 l3 => ?_
  exact Accept.Sound_rest.rest_of_accepted s3 l3

theorem do_accept_throw_statement_sound (inp : Token_stream) :
    (do_accept_throw_statement inp).Sound_call inp := by
  unfold do_accept_throw_statement
  refine Accept.Sound_call.call_andThen (do_match_keyword_sound _ _) fun _ t1 s1 l1 => ?_
  refine Accept.Sound_rest.rest_andThen (Accept.Sound_rest.rest_orThrow (do_accept_expression_sound _ t1)
    s1 l1 (by decide)) fun _ t2 s2 l2 => ?_
  refine Accept.Sound_rest.rest_andThen (Accept.Sound_rest.rest_orThrow (do_match_punctuator_sound t2 _)
    s2 l2 (by decide)) fun _ t3 s3 l3 => ?_
  exact Accept.Sound_rest.rest_of_accepted s3 l3

theorem do_accept_return_statement_sound (inp : Token_stream) :
    (do_accept_return_statement inp).Sound_call inp := by
  unfold do_accept_return_statement
  refine Accept.Sound_call.call_andThen (do_match_keyword_sound _ _) fun _ t1 s1 l1 => ?_
  refine Accept.Sound_rest.rest_andThen (Accept.Sound_rest.rest_ignored
    (do_accept_expression_sound _ t1) s1 l1) fun _ t2 s2 l2 => ?_
  refine Accept.Sound_rest.rest_andThen (Accept.Sound_rest.rest_orThrow (do_match_punctuator_sound t2 _)
    s2 l2 (by decide)) fun _ t3 s3 l3 => ?_
  exact Accept.Sound_rest.rest_of_accepted s3 l3

theorem do_accept_try_statement_sound (accept : Statement_Acceptors) (n : Nat)
    (ha : accept.Sound n) (inp : Token_stream) (hn : inp.length ≤ n) :
    (do_accept_try_statement accept inp).Sound_call inp := by
  unfold do_accept_try_statement
  refine Accept.Sound_call.call_andThen (do_match_keyword_sound _ _) fun _ t1 s1 l1 => ?_
  refine Accept.Sound_rest.rest_andThen (Accept.Sound_rest.rest_orThrow (ha t1 (by omega)).2
    s1 l1 (by decide)) fun _ t2 s2 l2 => ?_
  refine Accept.Sound_rest.rest_andThen (Accept.Sound_rest.rest_orThrow (do_match_keyword_sound t2 _)
    s2 l2 (by decide)) fun _ t3 s3 l3 => ?_
  refine Accept.Sound_rest.rest_andThen (Accept.Sound_rest.rest_orThrow (do_match_punctuator_sound t3 _)
    s3 l3 (by decide)) fun _ t4 s4 l4 => ?_
  refine Accept.Sound_rest.rest_andThen (Accept.Sound_rest.rest_orThrow (do_accept_identifier_sound t4)
    s4 l4 (by decide)) fun _ t5 s5 l5 => ?_
  refine Accept.Sound_rest.rest_andThen (Accept.Sound_rest.rest_orThrow (do_match_punctuator_sound t5 _)
    s5 l5 (by decide)) fun _ t6 s6 l6 => ?_
  refine Accept.Sound_rest.rest_andThen (Accept.Sound_rest.rest_orThrow (ha t6 (by omega)).2
    s6 l6 (by decide)) fun _ t7 s7 l7 => ?_
  exact Accept.Sound_rest.rest_of_accepted s7 l7

theorem do_accept_nonblock_statement_sound (accept : Statement_Acceptors) (n : Nat)
    (ha : accept.Sound n) (inp : Token_stream) (hn : inp.length ≤ n) :
    (do_accept_nonblock_statement accept inp).Sound_call inp := by
  unfold do_accept_nonblock_statement
  refine Accept.Sound_call.call_orElse (Accept.Sound_call.call_orElse (Accept.Sound_call.call_orElse
    (Accept.Sound_call.call_orElse (Accept.Sound_call.call_orElse (Accept.Sound_call.call_orElse
    (Accept.Sound_call.call_orElse (Accept.Sound_call.call_orElse (Accept.Sound_call.call_orElse
    (Accept.Sound_call.call_orElse (Accept.Sound_call.call_orElse (Accept.Sound_call.call_orElse
    (Accept.Sound_call.call_orElse (Accept.Sound_call.call_orElse
    (do_accept_null_statement_sound _)
    (do_accept_variable_definition_sound _))
    (do_accept_immutable_variable_definition_sound _))
    (do_accept_function_definition_sound accept n ha inp hn))
    (do_accept_expression_statement_sound _))
    (do_accept_if_statement_sound accept n ha inp hn))
    (do_accept_switch_statement_sound accept n ha inp hn))
    (do_accept_do_while_statement_sound accept n ha inp hn))
    (do_accept_while_statement_sound accept n ha inp hn))
    (do_accept_for_statement_sound accept n ha inp hn))
    (do_accept_break_statement_sound _))
    (do_accept_continue_statement_sound _))
    (do_accept_throw_statement_sound _))
    (do_accept_return_statement_sound _))
    (do_accept_try_statement_sound accept n ha inp hn)

theorem do_accept_nonblock_statement_block_sound (accept : Statement_Acceptors) (n : Nat)
    (ha : accept.Sound n) (inp : Token_stream) (hn : inp.length ≤ n) :
    (do_accept_nonblock_statement_block accept inp).Sound_call inp := by
  unfold do_accept_nonblock_statement_block
  refine Accept.Sound_call.call_andThen (do_accept_nonblock_statement_sound accept n ha inp hn)
    fun _ t1 s1 l1 => ?_
  exact Accept.Sound_rest.rest_of_accepted s1 l1

/-- With the bound `fuel`, `do_accept_statement` is sound on every stream of
fewer than `fuel` tokens: it comes to an end there. -/
theorem do_accept_statement_sound : ∀ fuel : Nat, (do_accept_statement fuel).Sound fuel := by
  intro fuel
  induction fuel with
  | zero => intro toks h; omega
  | succ n ih =>
    intro toks h
    have hn : toks.length ≤ n := by omega
    exact ⟨Accept.Sound_call.call_orElse (do_accept_block_statement_sound _ n ih toks hn)
        (do_accept_nonblock_statement_sound _ n ih toks hn),
      Accept.Sound_call.call_orElse (do_accept_block_sound _ n ih toks hn)
        (do_accept_nonblock_statement_block_sound _ n ih toks hn)⟩

theorem do_accept_directive_or_statement_sound (inp : Token_stream) :
    (do_accept_directive_or_statement inp).Sound_call inp := by
  unfold do_accept_directive_or_statement
  exact Accept.Sound_call.call_orElse (Accept.Sound_call.call_orElse
    (do_accept_export_directive_sound _) (do_accept_import_directive_sound _))
    (do_accept_statement_sound _ inp (Nat.lt_succ_self _)).1

theorem Parser.load.load_loop_sound (inp : Token_stream) : (Parser.load.loop inp).Sound_opt inp := by
  unfold Parser.load.loop
  refine Accept.loop_sound _ _ _ _ (fun t _ => ?_) (Nat.lt_succ_self _)
  dsimp only
  split_ifs
  · exact Accept.Sound_call.call_orThrow (do_accept_directive_or_statement_sound t) (by decide)
  · rfl

theorem do_make_parser_result_error (toks : Token_stream) (error : Parser_result.Error) :
    (do_make_parser_result toks error).get_error = error := by
  unfold do_make_parser_result
  cases toks.peek_opt <;> rfl

theorem Thrown_OK.error_ne {e : Parser_result} {toks : Token_stream} (h : Thrown_OK e toks) :
    e.get_error ≠ Parser_result.Error.error_success := by
  obtain ⟨error, hne, rfl⟩ := h
  rw [do_make_parser_result_error]
  exact hne


/-! ## `linear_probe` with a record of the calls -/

theorem linear_probe.phase_logged (live p : Nat → Bool) :
    ∀ (cnt bkt : Nat) (calls : List Nat),
      linear_probe.phase (fun (_ : List Nat) i => live i)
          (fun bkt calls => (p bkt, calls ++ [bkt])) cnt bkt calls =
        ((List.range' bkt cnt).find? (fun i => !live i || p i),
          calls ++ (List.range' bkt cnt).takeWhile (fun i => !(!live i || p i)) ++
            (match (List.range' bkt cnt).find? (fun i => !live i || p i) with
              | some i => if live i then [i] else []
              | none => [])) := by
  intro cnt
  induction cnt with
  | zero => intro bkt calls; simp [linear_probe.phase]
  | succ n ih =>
    intro bkt calls
    rw [linear_probe.phase, List.range'_succ]
    cases hl : live bkt with
    | false => simp [hl]
    | true =>
      cases hp : p bkt with
      | true => simp [hl, hp]
      | false =>
        simp only [hl, hp, Bool.not_true, Bool.false_eq_true, if_false, ih, Bool.or_self,
          List.find?_cons_of_neg, not_false_eq_true, List.takeWhile_cons_of_pos,
          Bool.not_false, List.append_assoc, List.singleton_append, List.cons_append,
          List.nil_append]

theorem find?_append_none {α : Type} (q : α → Bool) (l1 l2 : List α)
    (h : l1.find? q = none) : (l1 ++ l2).find? q = l2.find? q := by
  induction l1 with
  | nil => rfl
  | cons a t ih =>
    rw [List.find?_cons] at h
    cases hq : q a with
    | true => rw [hq] at h; simp at h
    | false =>
      rw [hq] at h
      rw [List.cons_append, List.find?_cons, hq]
      exact ih h

theorem find?_append_some {α : Type} (q : α → Bool) (l1 l2 : List α) (x : α)
    (h : l1.find? q = some x) : (l1 ++ l2).find? q = some x := by
  induction l1 with
  | nil => simp at h
  | cons a t ih =>
    rw [List.find?_cons] at h
    rw [List.cons_append, List.find?_cons]
    cases hq : q a with
    | true => rw [hq] at h; exact h
    | false => rw [hq] at h; exact ih h

theorem takeWhile_append_none {α : Type} (q : α → Bool) (l1 l2 : List α)
    (h : l1.find? q = none) :
    (l1 ++ l2).takeWhile (fun i => !q i) = l1 ++ l2.takeWhile (fun i => !q i) := by
  induction l1 with
  | nil => rfl
  | cons a t ih =>
    rw [List.find?_cons] at h
    cases hq : q a with
    | true => rw [hq] at h; simp at h
    | false =>
      rw [hq] at h
      rw [List.cons_append, List.takeWhile_cons, hq]
      simp only [Bool.not_false, if_true, List.cons_append]
      rw [ih h]

theorem takeWhile_append_some {α : Type} (q : α → Bool) (l1 l2 : List α) (x : α)
    (h : l1.find? q = some x) :
    (l1 ++ l2).takeWhile (fun i => !q i) = l1.takeWhile (fun i => !q i) := by
  induction l1 with
  | nil => simp at h
  | cons a t ih =>
    rw [List.find?_cons] at h
    rw [List.cons_append, List.takeWhile_cons, List.takeWhile_cons]
    cases hq : q a with
    | true => simp
    | false =>
      rw [hq] at h
      simp only [Bool.not_false, if_true]
      rw [ih h]

theorem takeWhile_of_find?_none {α : Type} (q : α → Bool) (l : List α)
    (h : l.find? q = none) : l.takeWhile (fun i => !q i) = l := by
  have := takeWhile_append_none q l [] h
  simpa using this

/-- The result and the calls of `linear_probe`, read off the order of probing. -/
theorem linear_probe.logged_spec (live p : Nat → Bool) (begin to_ from_ end_ : Nat) :
    linear_probe.logged live p begin to_ from_ end_ =
      ((linear_probe.order begin to_ from_ end_).find? (fun i => !live i || p i),
        (linear_probe.order begin to_ from_ end_).takeWhile (fun i => !(!live i || p i)) ++
          (match (linear_probe.order begin to_ from_ end_).find? (fun i => !live i || p i) with
            | some i => if live i then [i] else []
            | none => [])) := by
  unfold linear_probe.logged linear_probe linear_probe.order
  rw [linear_probe.phase_logged]
  cases h1 : (List.range' from_ (end_ - from_)).find? (fun i => !live i || p i) with
  | some i =>
    simp only [List.nil_append]
    rw [find?_append_some _ _ _ _ h1, takeWhile_append_some _ _ _ _ h1]
  | none =>
    simp only [List.nil_append, List.append_nil]
    rw [linear_probe.phase_logged, find?_append_none _ _ _ h1, takeWhile_append_none _ _ _ h1,
      takeWhile_of_find?_none _ _ h1]


theorem takeWhile_until_found {q : Nat → Bool} (l : List Nat) (r : Nat)
    (h : l.find? q = some r) :
    l.takeWhile (fun i => !q i) = l.takeWhile (fun i => i != r) := by
  induction l with
  | nil => simp at h
  | cons a t ih =>
    rw [List.find?_cons] at h
    rw [List.takeWhile_cons, List.takeWhile_cons]
    cases hq : q a with
    | true =>
      rw [hq] at h
      simp only [Option.some.injEq] at h
      subst h
      simp
    | false =>
      rw [hq] at h
      have hqr : q r = true := List.find?_some h
      have hne : a ≠ r := by intro e; rw [e, hqr] at hq; exact Bool.noConfusion hq
      simp only [Bool.not_false, if_true, bne_iff_ne, ne_eq, hne, not_false_eq_true]
      rw [ih h]

theorem mem_takeWhile_not {q : Nat → Bool} (l : List Nat) :
    ∀ b ∈ l.takeWhile (fun i => !q i), q b = false := by
  induction l with
  | nil => intro b hb; simp at hb
  | cons a t ih =>
    intro b hb
    rw [List.takeWhile_cons] at hb
    cases hq : q a with
    | true => rw [hq] at hb; simp at hb
    | false =>
      rw [hq] at hb
      simp only [Bool.not_false, if_true, List.mem_cons] at hb
      rcases hb with rfl | hb
      · exact hq
      · exact ih b hb

/-! ## The assertions of the chunked hashers hold -/

theorem Chunk_Hasher.update.rest_checked_eq (f : List Nat → List Nat → List Nat)
    (h : Chunk_Hasher) (bp : List Nat) (hs : h.m_size < 2 ^ 64) :
    Chunk_Hasher.update.rest_checked f h bp 0 = some (Chunk_Hasher.update.rest f h bp 0) := by
  obtain ⟨_, h2, _, _, _⟩ := Chunk_Hasher.update.loop_spec f bp.length h bp hs
  rw [absorb_eq_absorbAll f bp.length _ bp (Nat.div_le_self _ _)] at h2
  have hlen := absorbAll_length f bp.length h.m_regs bp le_rfl
  rw [← h2] at hlen
  unfold Chunk_Hasher.update.rest_checked Chunk_Hasher.update.rest
  generalize Chunk_Hasher.update.loop f bp.length h bp = res at hlen
  obtain ⟨h', bp'⟩ := res
  simp only at hlen ⊢
  have hlt : bp'.length < 64 := by rw [hlen]; exact Nat.mod_lt _ (by norm_num)
  by_cases hn : bp'.length = 0
  · simp only [hn, ne_eq, not_true_eq_false, if_false, if_true]
  · have hle : 0 + bp'.length ≤ 64 := by omega
    simp only [hn, ne_eq, not_false_eq_true, if_true, hle, List.drop_length, List.length_nil]

theorem Chunk_Hasher.update_checked_eq (f : List Nat → List Nat → List Nat)
    (h : Chunk_Hasher) (data : List Nat) (hv : h.Valid) :
    Chunk_Hasher.update_checked f h data = some (Chunk_Hasher.update f h data) := by
  obtain ⟨hc, hs⟩ := hv
  have hoff : h.m_size % 64 < 64 := Nat.mod_lt _ (by norm_num)
  unfold Chunk_Hasher.update_checked Chunk_Hasher.update
  by_cases h0 : h.m_size % 64 = 0
  · simp only [h0, ne_eq, not_true_eq_false, if_false]
    exact Chunk_Hasher.update.rest_checked_eq f h data hs
  · have hw : h.m_size % 64 + min data.length (64 - h.m_size % 64) ≤ 64 := by omega
    simp only [h0, ne_eq, not_false_eq_true, if_true, hw]
    by_cases hfull : h.m_size % 64 + min data.length (64 - h.m_size % 64) = 64
    · have h64 : (h.m_size + min data.length (64 - h.m_size % 64)) % 2 ^ 64 % 64 = 0 := by
        omega
      simp only [hfull, not_true_eq_false, if_false, h64, if_true]
      exact Chunk_Hasher.update.rest_checked_eq f _ _ (Nat.mod_lt _ (by norm_num))
    · have hn : min data.length (64 - h.m_size % 64) = data.length := by omega
      have hfull2 : ¬ h.m_size % 64 + data.length = 64 := by omega
      simp only [hn]
      simp only [hfull2, not_false_eq_true, if_true, List.drop_length, List.length_nil]

theorem Chunk_Hasher.finish_checked_eq (f : List Nat → List Nat → List Nat) (bigendT : Bool)
    (init : List Nat) (h : Chunk_Hasher) :
    Chunk_Hasher.finish_checked f bigendT init h =
      some (Chunk_Hasher.finish f bigendT init h) := by
  have hoff : h.m_size % 64 < 64 := Nat.mod_lt _ (by norm_num)
  unfold Chunk_Hasher.finish_checked Chunk_Hasher.finish
  simp only [hoff, if_true]
  by_cases hwrap : 64 - (h.m_size % 64 + 1) < 8
  · have hw : h.m_size % 64 + 1 + (64 - (h.m_size % 64 + 1)) ≤ 64 := by omega
    simp only [hwrap, if_true, hw, Option.some_bind, Nat.sub_zero, Nat.zero_add,
      Nat.reduceSub, Nat.reduceLeDiff, gt_iff_lt, Nat.ofNat_pos, Nat.reduceAdd, le_refl]
  · have hle : h.m_size % 64 + 1 + 8 ≤ 64 := by omega
    simp only [hwrap, if_false, Option.some_bind]
    by_cases hz : 64 - (h.m_size % 64 + 1) - 8 > 0
    · have hw : h.m_size % 64 + 1 + (64 - (h.m_size % 64 + 1) - 8) ≤ 64 := by omega
      have h8 : 64 - (h.m_size % 64 + 1 + (64 - (h.m_size % 64 + 1) - 8)) = 8 := by omega
      have hw8 : h.m_size % 64 + 1 + (64 - (h.m_size % 64 + 1) - 8) + 8 ≤ 64 := by omega
      simp only [hz, if_true, hw, Option.some_bind]
      simp only [h8, hw8, if_true]
    · have h8 : 64 - (h.m_size % 64 + 1) = 8 := by omega
      simp only [hz, if_false, Option.some_bind]
      simp only [h8, hle, if_true]

theorem Chunk_Hasher.updates_checked_eq (f : List Nat → List Nat → List Nat) :
    ∀ (ds : List (List Nat)) (h : Chunk_Hasher), h.Valid →
      Chunk_Hasher.updates_checked f h ds = some (ds.foldl (Chunk_Hasher.update f) h) ∧
      (ds.foldl (Chunk_Hasher.update f) h).Valid := by
  intro ds
  induction ds with
  | nil => intro h hv; exact ⟨rfl, hv⟩
  | cons d t ih =>
    intro h hv
    rw [Chunk_Hasher.updates_checked, Chunk_Hasher.update_checked_eq f h d hv,
      Option.some_bind, List.foldl_cons]
    exact ih _ (Chunk_Hasher.update_spec f h d hv).1

/-! ## The chunks that the hashers consume -/

theorem absorb_eq_foldl (f : List Nat → List Nat → List Nat) :
    ∀ (fuel : Nat) (r d : List Nat),
      (absorb f fuel r d).1 = (split_chunks.go fuel d).foldl f r := by
  intro fuel
  induction fuel with
  | zero => intro r d; rfl
  | succ n ih =>
    intro r d
    rw [absorb, split_chunks.go]
    split_ifs
    · rw [List.foldl_cons, ih]
    · rfl

theorem absorbAll_eq_foldl (f : List Nat → List Nat → List Nat) (r d : List Nat) :
    (absorbAll f r d).1 = (split_chunks d).foldl f r :=
  absorb_eq_foldl f d.length r d

theorem split_chunks.go_fuel : ∀ (fuel1 fuel2 : Nat) (d : List Nat),
    d.length / 64 ≤ fuel1 → d.length / 64 ≤ fuel2 →
    split_chunks.go fuel1 d = split_chunks.go fuel2 d := by
  intro fuel1
  induction fuel1 with
  | zero =>
    intro fuel2 d h1 _
    have hlt : ¬ 64 ≤ d.length := by omega
    cases fuel2 with
    | zero => rfl
    | succ m => simp [split_chunks.go, hlt]
  | succ k ih =>
    intro fuel2 d h1 h2
    by_cases hlen : 64 ≤ d.length
    · cases fuel2 with
      | zero => omega
      | succ m =>
        simp only [split_chunks.go, hlen, if_true]
        rw [ih m (d.drop 64) (by simp only [List.length_drop]; omega)
          (by simp only [List.length_drop]; omega)]
    · cases fuel2 with
      | zero => simp [split_chunks.go, hlen]
      | succ m => simp [split_chunks.go, hlen]

theorem split_chunks_one (x : List Nat) (hx : x.length = 64) : split_chunks x = [x] := by
  unfold split_chunks
  rw [hx]
  simp only [split_chunks.go, hx, le_refl, if_true, List.length_drop, Nat.sub_self]
  rw [List.take_of_length_le (by omega)]
  have : ¬ 64 ≤ (List.drop 64 x).length := by simp [hx]
  simp [split_chunks.go, this]

theorem split_chunks_cons (x y : List Nat) (hx : x.length = 64) :
    split_chunks (x ++ y) = x :: split_chunks y := by
  unfold split_chunks
  have hl : (x ++ y).length = y.length + 63 + 1 := by rw [List.length_append, hx]; omega
  rw [hl, split_chunks.go]
  have h64 : 64 ≤ (x ++ y).length := by omega
  rw [if_pos h64, List.take_append_of_le_length (by omega), List.take_of_length_le (by omega),
    List.drop_append_of_le_length (by omega), List.drop_of_length_le (by omega),
    List.nil_append]
  rw [split_chunks.go_fuel (y.length + 63) y.length y (by omega) (by omega)]

theorem split_chunks_append (x : List Nat) : ∀ (n : Nat) (y : List Nat), x.length = 64 * n →
    split_chunks (x ++ y) = split_chunks x ++ split_chunks y := by
  intro n
  induction n generalizing x with
  | zero =>
    intro y hx
    have : x = [] := List.length_eq_zero.mp (by omega)
    subst this
    simp [split_chunks, split_chunks.go]
  | succ k ih =>
    intro y hx
    have hx1 : x = x.take 64 ++ x.drop 64 := (List.take_append_drop 64 x).symm
    have ht : (x.take 64).length = 64 := by rw [List.length_take]; omega
    have hd : (x.drop 64).length = 64 * k := by rw [List.length_drop]; omega
    rw [hx1, List.append_assoc, split_chunks_cons _ _ ht, split_chunks_cons _ _ ht,
      ih (x.drop 64) y hd, List.cons_append]

theorem do_pdigits_impl.stor_le_eq : ∀ (n w : Nat),
    do_pdigits_impl.stor_le n w = (List.range n).map fun i => (w / 256 ^ i) % 256 := by
  intro n
  induction n with
  | zero => intro w; rfl
  | succ k ih =>
    intro w
    rw [do_pdigits_impl.stor_le, ih, List.range_succ_eq_map, List.map_cons, List.map_map]
    have hand : w &&& 0xFF = w % 256 := Nat.and_pow_two_sub_one_eq_mod w 8
    rw [hand]
    congr 1
    · simp
    · apply List.map_congr_left
      intro i _
      simp only [Function.comp_apply, Nat.shiftRight_eq_div_pow]
      have e : 2 ^ 8 * 256 ^ i = 256 ^ (i + 1) := by ring
      rw [Nat.div_div_eq_div_mul, e]

theorem md_pad.encode_eq (bigendT : Bool) (L : Nat) :
    Chunk_Hasher.finish.bits bigendT (((L % 2 ^ 64) * 8) % 2 ^ 64) =
      md_pad.encode bigendT (8 * L) := by
  unfold Chunk_Hasher.finish.bits md_pad.encode
  rw [do_pdigits_impl.stor_le_eq]
  have : ((List.range 8).map fun i => (((L % 2 ^ 64) * 8) % 2 ^ 64 / 256 ^ i) % 256) =
      (List.range 8).map fun i => (8 * L / 256 ^ i) % 256 := by
    simp only [List.range_succ, List.range_zero, List.nil_append, List.cons_append,
      List.map_cons, List.map_nil]
    norm_num
    refine ⟨?_, ?_, ?_, ?_, ?_, ?_, ?_, ?_⟩ <;> omega
  simp only [this]

theorem md_pad.zeros_least (L : Nat) :
    (L + 9 + md_pad.zeros L) % 64 = 0 ∧ ∀ z, (L + 9 + z) % 64 = 0 → md_pad.zeros L ≤ z := by
  unfold md_pad.zeros
  constructor
  · omega
  · intro z hz; omega

theorem absorbAll_snd (f : List Nat → List Nat → List Nat) :
    ∀ (n : Nat) (r d : List Nat), d.length ≤ n →
      (absorbAll f r d).2 = d.drop (64 * (d.length / 64)) := by
  intro n
  induction n using Nat.strong_induction_on with
  | _ n ih =>
    intro r d hn
    by_cases hlen : 64 ≤ d.length
    · rw [absorbAll_step f r d hlen, ih (d.length - 64) (by omega) _ _ (by simp),
        List.drop_drop, List.length_drop]
      congr 1
      omega
    · rw [absorbAll_short f r d (by omega)]
      have : d.length / 64 = 0 := by omega
      simp [this]

theorem split_chunks_short (d : List Nat) (h : d.length < 64) : split_chunks d = [] := by
  unfold split_chunks
  cases hd : d.length with
  | zero => rfl
  | succ k =>
    have : ¬ 64 ≤ d.length := by omega
    simp [split_chunks.go, this]

theorem split_chunks_length : ∀ (n : Nat) (d : List Nat), d.length ≤ n →
    (split_chunks d).length = d.length / 64 := by
  intro n
  induction n using Nat.strong_induction_on with
  | _ n ih =>
    intro d hn
    by_cases hlen : 64 ≤ d.length
    · have hd : d = d.take 64 ++ d.drop 64 := (List.take_append_drop 64 d).symm
      have ht : (d.take 64).length = 64 := by rw [List.length_take]; omega
      rw [hd, split_chunks_cons _ _ ht, List.length_cons,
        ih (d.length - 64) (by omega) _ (by simp), List.length_append, ht, List.length_drop]
      omega
    · rw [split_chunks_short d (by omega)]
      simp only [List.length_nil]
      omega

/-- The chunks that `finish` consumes are the split of what is buffered, the
byte `0x80`, the zero bytes and the encoding of the number of bits. -/
theorem Chunk_Hasher.final_chunks_eq_split (bigendT : Bool) (pend : List Nat) (L : Nat)
    (hp : pend.length = L % 64) :
    split_chunks (pend ++ [0x80] ++ List.replicate (md_pad.zeros L) 0 ++
        md_pad.encode bigendT (8 * L)) =
      Chunk_Hasher.final_chunks bigendT pend (L % 2 ^ 64) := by
  have hlt : L % 64 < 64 := Nat.mod_lt _ (by norm_num)
  have hbits : (md_pad.encode bigendT (8 * L)).length = 8 := by
    rw [← md_pad.encode_eq]; exact Chunk_Hasher.finish.bits_length _ _
  unfold Chunk_Hasher.final_chunks
  simp only [md_pad.encode_eq]
  rw [hp]
  by_cases hwrap : 64 - (L % 64 + 1) < 8
  · simp only [hwrap, if_true]
    have hz : md_pad.zeros L = (64 - (L % 64 + 1)) + 56 := by unfold md_pad.zeros; omega
    rw [hz, List.replicate_add]
    have e : pend ++ [0x80] ++ (List.replicate (64 - (L % 64 + 1)) 0 ++ List.replicate 56 0) ++
        md_pad.encode bigendT (8 * L) =
        (pend ++ [0x80] ++ List.replicate (64 - (L % 64 + 1)) 0) ++
          (List.replicate 56 0 ++ md_pad.encode bigendT (8 * L)) := by
      simp only [List.append_assoc]
    rw [e, split_chunks_cons _ _ (by
      simp only [List.length_append, List.length_replicate, List.length_singleton, hp]; omega),
      split_chunks_one _ (by
      simp only [List.length_append, List.length_replicate, hbits])]
  · simp only [hwrap, if_false]
    have hz : md_pad.zeros L = 64 - (L % 64 + 1) - 8 := by unfold md_pad.zeros; omega
    rw [hz, split_chunks_one _ (by
      simp only [List.length_append, List.length_replicate, List.length_singleton, hp, hbits]
      omega)]

/-- Over `update(m)` and `finish()` on a new hasher, the chunks passed to
`do_consume_chunk`, whatever function that is, are the split of the padded
message. -/
theorem Chunk_Hasher.finish_padding (f : List Nat → List Nat → List Nat) (bigendT : Bool)
    (init regs c m : List Nat) (hc : c.length = 64) :
    (Chunk_Hasher.finish f bigendT init
        (Chunk_Hasher.update f { m_regs := regs, m_size := 0, m_chunk := c } m)).1 =
      ((split_chunks (md_pad bigendT m)).foldl f regs).foldl (do_pdigits_impl bigendT) "" := by
  have v : Chunk_Hasher.Valid { m_regs := regs, m_size := 0, m_chunk := c } :=
    ⟨hc, show (0 : Nat) < 2 ^ 64 by norm_num⟩
  obtain ⟨w, hs, hr, hp⟩ := Chunk_Hasher.update_spec f _ m v
  have hp0 : Chunk_Hasher.pending { m_regs := regs, m_size := 0, m_chunk := c } = [] := by
    simp [Chunk_Hasher.pending]
  rw [hp0, List.nil_append] at hr hp
  simp only [Nat.zero_add] at hs
  rw [Chunk_Hasher.finish_spec f bigendT init _ w, hs, hr, hp, absorbAll_eq_foldl]
  have hsnd := absorbAll_snd f m.length regs m le_rfl
  have hplen : (absorbAll f regs m).2.length = m.length % 64 :=
    absorbAll_length f m.length regs m le_rfl
  rw [← Chunk_Hasher.final_chunks_eq_split bigendT _ m.length hplen, ← List.foldl_append]
  congr 2
  -- the split of the padded message
  have hm : m.take (64 * (m.length / 64)) ++ (absorbAll f regs m).2 = m := by
    rw [hsnd]; exact List.take_append_drop _ m
  have htl : (m.take (64 * (m.length / 64))).length = 64 * (m.length / 64) := by
    rw [List.length_take]; omega
  have hshort : split_chunks (absorbAll f regs m).2 = [] :=
    split_chunks_short _ (by rw [hplen]; exact Nat.mod_lt _ (by norm_num))
  unfold md_pad
  generalize List.replicate (md_pad.zeros m.length) 0 = Z
  generalize md_pad.encode bigendT (8 * m.length) = E
  have k1 := split_chunks_append (m.take (64 * (m.length / 64))) _ (absorbAll f regs m).2 htl
  have k2 := split_chunks_append (m.take (64 * (m.length / 64))) _
    ((absorbAll f regs m).2 ++ [0x80] ++ Z ++ E) htl
  rw [hshort, List.append_nil] at k1
  simp only [← List.append_assoc] at k2
  rw [hm] at k1 k2
  rw [k2, k1]

theorem md_pad_length (bigendT : Bool) (m : List Nat) :
    (md_pad bigendT m).length % 64 = 0 ∧
    (split_chunks (md_pad bigendT m)).length = (m.length + 9 + 63) / 64 := by
  have hbits : (md_pad.encode bigendT (8 * m.length)).length = 8 := by
    rw [← md_pad.encode_eq]; exact Chunk_Hasher.finish.bits_length _ _
  have hl : (md_pad bigendT m).length = m.length + 9 + md_pad.zeros m.length := by
    unfold md_pad
    simp only [List.length_append, List.length_replicate, List.length_singleton, hbits]
    omega
  refine ⟨?_, ?_⟩
  · rw [hl]; exact (md_pad.zeros_least m.length).1
  · rw [split_chunks_length _ _ le_rfl, hl]
    unfold md_pad.zeros
    omega


/-! ## Lemmas on values and references -/

theorem Reference_Modifier.wrap_index_lt {index : Int} {n pos : Nat}
    (h : Reference_Modifier.wrap_index index n = some pos) : pos < n := by
  unfold Reference_Modifier.wrap_index at h
  split_ifs at h <;> simp at h <;> omega

theorem Value.object_find_insert (key : String) (value : Value)
    (entries : List (String × Value)) :
    Value.object_find key (Value.object_insert key value entries) = some value := by
  unfold Value.object_insert Value.object_find
  split_ifs with hany
  · induction entries with
    | nil => simp at hany
    | cons e rest ih =>
      by_cases he : e.1 = key
      · simp [List.find?_cons, he]
      · have hr : rest.any (fun e => e.1 == key) = true := by
          simpa [List.any_cons, he] using hany
        simpa [List.find?_cons, he] using ih hr
  · have hnone : entries.find? (fun e => e.1 == key) = none := by
      rw [List.find?_eq_none]
      intro e he
      simp only [List.any_eq_true, not_exists, not_and] at hany
      exact hany e he
    simp [List.find?_append, hnone]

theorem Value.object_find_erase (key : String) (entries : List (String × Value)) :
    Value.object_find key (Value.object_erase key entries) = none := by
  unfold Value.object_erase Value.object_find
  have hnone : (entries.filter fun e => e.1 != key).find? (fun e => e.1 == key) = none := by
    rw [List.find?_eq_none]
    intro e he
    have := (List.mem_filter.mp he).2
    simpa using this
  rw [hnone]
  rfl

theorem Value.read_at_null (mods : List Reference_Modifier) :
    Value.read_at mods Value.null = Except.ok Value.null := by
  induction mods with
  | nil => rfl
  | cons m mods ih =>
    cases m <;> simpa [Value.read_at, Reference_Modifier.apply_const] using ih

/-- What an unset through a path that ends in an object key does to the value
of the root: it returns what a read yields, after it a read yields null and a
second unset returns null. -/
theorem Value.unset_at_key_spec (key : String) :
    ∀ (mods : List Reference_Modifier) (parent v : Value),
      Value.read_at (mods ++ [Reference_Modifier.S_object_key key]) parent = Except.ok v →
      ∃ parent1 parent2,
        Value.unset_at mods (Reference_Modifier.S_object_key key) parent
          = Except.ok (v, parent1) ∧
        Value.read_at (mods ++ [Reference_Modifier.S_object_key key]) parent1
          = Except.ok Value.null ∧
        Value.unset_at mods (Reference_Modifier.S_object_key key) parent1
          = Except.ok (Value.null, parent2) := by
  intro mods
  induction mods with
  | nil =>
    intro parent v h
    cases parent with
    | null =>
      simp only [List.nil_append, Value.read_at, Reference_Modifier.apply_const,
        Except.ok.injEq] at h
      subst h
      exact ⟨Value.null, Value.null, rfl, rfl, rfl⟩
    | object entries =>
      simp only [List.nil_append, Value.read_at, Reference_Modifier.apply_const,
        Except.ok.injEq] at h
      subst h
      refine ⟨Value.object (Value.object_erase key entries),
        Value.object (Value.object_erase key (Value.object_erase key entries)), rfl, ?_, ?_⟩
      · simp only [List.nil_append, Value.read_at, Reference_Modifier.apply_const,
          Value.object_find_erase, Option.getD_none]
      · simp only [Value.unset_at, Reference_Modifier.apply_unset,
          Value.object_find_erase, Option.getD_none]
    | boolean _ => simp [Value.read_at, Reference_Modifier.apply_const] at h
    | integer _ => simp [Value.read_at, Reference_Modifier.apply_const] at h
    | real _ => simp [Value.read_at, Reference_Modifier.apply_const] at h
    | string _ => simp [Value.read_at, Reference_Modifier.apply_const] at h
    | opaque_t _ => simp [Value.read_at, Reference_Modifier.apply_const] at h
    | function _ => simp [Value.read_at, Reference_Modifier.apply_const] at h
    | array _ => simp [Value.read_at, Reference_Modifier.apply_const] at h
  | cons m mods ih =>
    intro parent v h
    have hnull : ∀ w, Value.read_at (mods ++ [Reference_Modifier.S_object_key key])
        Value.null = Except.ok w → w = Value.null := by
      intro w hw
      rw [Value.read_at_null] at hw
      exact (Except.ok.inj hw).symm
    cases m with
    | S_array_index index =>
      cases parent with
      | null =>
        simp only [List.cons_append, Value.read_at, Reference_Modifier.apply_const] at h
        have := hnull v h
        subst this
        exact ⟨Value.null, Value.null, rfl,
          by simp only [List.cons_append, Value.read_at, Reference_Modifier.apply_const,
            Value.read_at_null], rfl⟩
      | array elems =>
        simp only [List.cons_append, Value.read_at, Reference_Modifier.apply_const] at h
        cases hw : Reference_Modifier.wrap_index index elems.length with
        | none =>
          simp only [hw] at h
          have := hnull v h
          subst this
          refine ⟨Value.array elems, Value.array elems, ?_, ?_, ?_⟩
          · simp only [Value.unset_at, hw]
          · simp only [List.cons_append, Value.read_at, Reference_Modifier.apply_const, hw,
              Value.read_at_null]
          · simp only [Value.unset_at, hw]
        | some pos =>
          simp only [hw] at h
          obtain ⟨c1, c2, h1, h2, h3⟩ := ih _ _ h
          have hlt := Reference_Modifier.wrap_index_lt hw
          have hw1 : Reference_Modifier.wrap_index index (elems.set pos c1).length
              = some pos := by rw [List.length_set]; exact hw
          have hg1 : (elems.set pos c1).getD pos Value.null = c1 := by
            simp [List.getD_eq_getElem?_getD, List.getElem?_set, hlt]
          refine ⟨Value.array (elems.set pos c1),
            Value.array ((elems.set pos c1).set pos c2), ?_, ?_, ?_⟩
          · simp only [Value.unset_at, hw, h1]
          · simp only [List.cons_append, Value.read_at, Reference_Modifier.apply_const, hw1,
              hg1]
            exact h2
          · simp only [Value.unset_at, hw1, hg1, h3]
      | boolean _ => simp [Value.read_at, Reference_Modifier.apply_const] at h
      | integer _ => simp [Value.read_at, Reference_Modifier.apply_const] at h
      | real _ => simp [Value.read_at, Reference_Modifier.apply_const] at h
      | string _ => simp [Value.read_at, Reference_Modifier.apply_const] at h
      | opaque_t _ => simp [Value.read_at, Reference_Modifier.apply_const] at h
      | function _ => simp [Value.read_at, Reference_Modifier.apply_const] at h
      | object _ => simp [Value.read_at, Reference_Modifier.apply_const] at h
    | S_object_key k2 =>
      cases parent with
      | null =>
        simp only [List.cons_append, Value.read_at, Reference_Modifier.apply_const] at h
        have := hnull v h
        subst this
        exact ⟨Value.null, Value.null, rfl,
          by simp only [List.cons_append, Value.read_at, Reference_Modifier.apply_const,
            Value.read_at_null], rfl⟩
      | object entries =>
        simp only [List.cons_append, Value.read_at, Reference_Modifier.apply_const] at h
        cases hf : Value.object_find k2 entries with
        | none =>
          simp only [hf, Option.getD_none] at h
          have := hnull v h
          subst this
          refine ⟨Value.object entries, Value.object entries, ?_, ?_, ?_⟩
          · simp only [Value.unset_at, hf]
          · simp only [List.cons_append, Value.read_at, Reference_Modifier.apply_const, hf,
              Option.getD_none, Value.read_at_null]
          · simp only [Value.unset_at, hf]
        | some child =>
          simp only [hf, Option.getD_some] at h
          obtain ⟨c1, c2, h1, h2, h3⟩ := ih _ _ h
          refine ⟨Value.object (Value.object_insert k2 c1 entries),
            Value.object (Value.object_insert k2 c2 (Value.object_insert k2 c1 entries)),
            ?_, ?_, ?_⟩
          · simp only [Value.unset_at, hf, h1]
          · simp only [List.cons_append, Value.read_at, Reference_Modifier.apply_const,
              Value.object_find_insert, Option.getD_some]
            exact h2
          · simp only [Value.unset_at, Value.object_find_insert, h3]
      | boolean _ => simp [Value.read_at, Reference_Modifier.apply_const] at h
      | integer _ => simp [Value.read_at, Reference_Modifier.apply_const] at h
      | real _ => simp [Value.read_at, Reference_Modifier.apply_const] at h
      | string _ => simp [Value.read_at, Reference_Modifier.apply_const] at h
      | opaque_t _ => simp [Value.read_at, Reference_Modifier.apply_const] at h
      | function _ => simp [Value.read_at, Reference_Modifier.apply_const] at h
      | array _ => simp [Value.read_at, Reference_Modifier.apply_const] at h

theorem Reference.read_variable (mods : List Reference_Modifier) (var : Nat)
    (pool : List Value) (h : var < pool.length) :
    Reference.read { m_root := Reference_Root.S_variable (some var), m_mods := mods } pool
      = Value.read_at mods (pool.getD var Value.null) := by
  simp [Reference.read, Reference_Root.dereference_const, List.getD_eq_getElem?_getD,
    List.getElem?_eq_getElem h, List.get?_eq_getElem?]

theorem Reference.write_variable (mods : List Reference_Modifier) (var : Nat) (value : Value)
    (pool : List Value) (h : var < pool.length) :
    Reference.write { m_root := Reference_Root.S_variable (some var), m_mods := mods }
        value pool
      = match Value.write_at mods value (pool.getD var Value.null) with
        | Except.ok stored => Except.ok (pool.set var stored)
        | Except.error e => Except.error e := by
  simp [Reference.write, Reference_Root.dereference_mutable, h]

theorem Reference.unset_variable (mods : List Reference_Modifier) (last : Reference_Modifier)
    (var : Nat) (pool : List Value) (h : var < pool.length) :
    Reference.unset
        { m_root := Reference_Root.S_variable (some var), m_mods := mods ++ [last] } pool
      = match Value.unset_at mods last (pool.getD var Value.null) with
        | Except.ok res => Except.ok (res.1, pool.set var res.2)
        | Except.error e => Except.error e := by
  simp [Reference.unset, Reference_Root.dereference_mutable, h]

theorem Value.pool_getD_set (pool : List Value) (var : Nat) (value : Value)
    (h : var < pool.length) : (pool.set var value).getD var Value.null = value := by
  simp [List.getD_eq_getElem?_getD, List.getElem?_set, h]

theorem Value.pool_getD_concat (pool : List Value) (value : Value) :
    (pool ++ [value]).getD pool.length Value.null = value := by
  simp [List.getD_eq_getElem?_getD]

theorem Value.pool_set_concat (pool : List Value) (value stored : Value) :
    (pool ++ [value]).set pool.length stored = pool ++ [stored] := by
  induction pool with
  | nil => rfl
  | cons a t ih => simp [List.set, ih]

theorem AVMC_Queue.nodes_append_all (nodes : List AVMC_Queue.Header) :
    ∀ q : AVMC_Queue, (q.append_all nodes).nodes = q.nodes ++ nodes := by
  induction nodes with
  | nil => intro q; simp [AVMC_Queue.append_all]
  | cons n t ih =>
    intro q
    have ih2 := fun q => ih q
    unfold AVMC_Queue.append_all at ih2 ⊢
    rw [List.foldl_cons, ih2]
    obtain ⟨d, u, v⟩ := n
    cases d with
    | none => simp [AVMC_Queue.do_append_trivial, AVMC_Queue.nodes]
    | some d => simp [AVMC_Queue.do_append_nontrivial, AVMC_Queue.nodes]



/-- What a sound call says in plain words: a `true` has left a proper suffix of
the stream, a `false` has left the stream as it was, and no bound of a loop or
of the recursion was reached. -/
theorem Accept.Sound_call.shortens {α : Type} {inp : Token_stream} {r : Accept α}
    (h : r.Sound_call inp) :
    (∀ out toks, r = Accept.accepted out toks → toks <:+ inp ∧ toks.length < inp.length) ∧
    (∀ toks, r = Accept.rejected toks → toks = inp) ∧
    r ≠ Accept.fuel_out := by
  cases r with
  | accepted out t =>
    refine ⟨fun out1 t1 e => ?_, fun t1 e => Accept.noConfusion e, fun e => Accept.noConfusion e⟩
    cases e
    exact h
  | rejected t =>
    refine ⟨fun out1 t1 e => Accept.noConfusion e, fun t1 e => ?_, fun e => Accept.noConfusion e⟩
    cases e
    exact h
  | thrown e t =>
    exact ⟨fun out1 t1 e => Accept.noConfusion e, fun t1 e => Accept.noConfusion e,
      fun e => Accept.noConfusion e⟩
  | fuel_out => exact h.elim

/-- What a sound loop says in plain words: it ends, by leaving a suffix of the
stream or by an exception, and does not reach its bound. -/
theorem Accept.Sound_opt.ends {α : Type} {inp : Token_stream} {r : Accept α}
    (h : r.Sound_opt inp) :
    (∃ out toks, r = Accept.accepted out toks ∧ toks <:+ inp) ∨
    (∃ e toks, r = Accept.thrown e toks ∧ toks <:+ inp) := by
  cases r with
  | accepted out t => exact Or.inl ⟨out, t, rfl, h⟩
  | rejected t => exact h.elim
  | thrown e t => exact Or.inr ⟨e, t, rfl, h.1⟩
  | fuel_out => exact h.elim

/-! ## Checksum vectors -/

/-- C4: `std_checksum_crc32` returns the integer 0 for the empty byte string
and 0x352441C2 for the three-byte string "abc". -/
theorem std_checksum_crc32_vectors :
    std_checksum_crc32 [] = 0 ∧ std_checksum_crc32 [0x61, 0x62, 0x63] = 0x352441C2 := by
  decide!

/-- C5: `std_checksum_fnv1a32` returns the integer 0x811C9DC5 for the empty
byte string and 0x1A47E90B for the three-byte string "abc". -/
theorem std_checksum_fnv1a32_vectors :
    std_checksum_fnv1a32 [] = 0x811C9DC5 ∧
      std_checksum_fnv1a32 [0x61, 0x62, 0x63] = 0x1A47E90B := by
  decide!

/-- The two vectors of `std_checksum_sha256`, evaluated with a zeroed buffer. -/
theorem std_checksum_sha256_zero_vectors :
    std_checksum_sha256 (List.replicate 64 0) [] = "E3B0C44298FC1C149AFBF4C8996FB92427AE41E4649B934CA495991B7852B855" ∧
    std_checksum_sha256 (List.replicate 64 0) [0x61, 0x62, 0x63] = "BA7816BF8F01CFEA414140DE5DAE2223B00361A396177A9CB410FF61F20015AD" := by
  decide!

/-- C1: `std_checksum_sha256` returns the 64-character string
E3B0C44298FC1C149AFBF4C8996FB92427AE41E4649B934CA495991B7852B855
for the empty byte string and
BA7816BF8F01CFEA414140DE5DAE2223B00361A396177A9CB410FF61F20015AD
for the three-byte string "abc", whatever the uninitialized 64-byte buffer
`m_chunk` of the local hasher holds. -/
theorem std_checksum_sha256_vectors (m_chunk : List Nat) (h : m_chunk.length = 64) :
    (std_checksum_sha256 m_chunk [] = "E3B0C44298FC1C149AFBF4C8996FB92427AE41E4649B934CA495991B7852B855" ∧
      (std_checksum_sha256 m_chunk []).length = 64) ∧
    (std_checksum_sha256 m_chunk [0x61, 0x62, 0x63] = "BA7816BF8F01CFEA414140DE5DAE2223B00361A396177A9CB410FF61F20015AD" ∧
      (std_checksum_sha256 m_chunk [0x61, 0x62, 0x63]).length = 64) := by
  have hz : (List.replicate 64 0).length = 64 := List.length_replicate 64 0
  rw [std_checksum_sha256_chunk_irrelevant m_chunk _ [] h hz,
    std_checksum_sha256_chunk_irrelevant m_chunk _ [0x61, 0x62, 0x63] h hz,
    std_checksum_sha256_zero_vectors.1, std_checksum_sha256_zero_vectors.2]
  decide

/-- Witness of C1: the buffer holds 64 bytes 0xAA. -/
theorem std_checksum_sha256_vectors_witness :
    (List.replicate 64 0xAA).length = 64 ∧
    std_checksum_sha256 (List.replicate 64 0xAA) [] = "E3B0C44298FC1C149AFBF4C8996FB92427AE41E4649B934CA495991B7852B855" ∧
    std_checksum_sha256 (List.replicate 64 0xAA) [0x61, 0x62, 0x63] = "BA7816BF8F01CFEA414140DE5DAE2223B00361A396177A9CB410FF61F20015AD" :=
  ⟨by decide, (std_checksum_sha256_vectors (List.replicate 64 0xAA) (by decide)).1.1,
    (std_checksum_sha256_vectors (List.replicate 64 0xAA) (by decide)).2.1⟩

/-- The two vectors of `std_checksum_sha1`, evaluated with a zeroed buffer. -/
theorem std_checksum_sha1_zero_vectors :
    std_checksum_sha1 (List.replicate 64 0) [] = "DA39A3EE5E6B4B0D3255BFEF95601890AFD80709" ∧
    std_checksum_sha1 (List.replicate 64 0) [0x61, 0x62, 0x63] = "A9993E364706816ABA3E25717850C26C9CD0D89D" := by
  decide!

/-- C2: `std_checksum_sha1` returns the 40-character string
DA39A3EE5E6B4B0D3255BFEF95601890AFD80709
for the empty byte string and
A9993E364706816ABA3E25717850C26C9CD0D89D
for the three-byte string "abc", whatever the uninitialized 64-byte buffer
`m_chunk` of the local hasher holds. -/
theorem std_checksum_sha1_vectors (m_chunk : List Nat) (h : m_chunk.length = 64) :
    (std_checksum_sha1 m_chunk [] = "DA39A3EE5E6B4B0D3255BFEF95601890AFD80709" ∧
      (std_checksum_sha1 m_chunk []).length = 40) ∧
    (std_checksum_sha1 m_chunk [0x61, 0x62, 0x63] = "A9993E364706816ABA3E25717850C26C9CD0D89D" ∧
      (std_checksum_sha1 m_chunk [0x61, 0x62, 0x63]).length = 40) := by
  have hz : (List.replicate 64 0).length = 64 := List.length_replicate 64 0
  rw [std_checksum_sha1_chunk_irrelevant m_chunk _ [] h hz,
    std_checksum_sha1_chunk_irrelevant m_chunk _ [0x61, 0x62, 0x63] h hz,
    std_checksum_sha1_zero_vectors.1, std_checksum_sha1_zero_vectors.2]
  decide

/-- Witness of C2: the buffer holds 64 bytes 0xAA. -/
theorem std_checksum_sha1_vectors_witness :
    (List.replicate 64 0xAA).length = 64 ∧
    std_checksum_sha1 (List.replicate 64 0xAA) [] = "DA39A3EE5E6B4B0D3255BFEF95601890AFD80709" ∧
    std_checksum_sha1 (List.replicate 64 0xAA) [0x61, 0x62, 0x63] = "A9993E364706816ABA3E25717850C26C9CD0D89D" :=
  ⟨by decide, (std_checksum_sha1_vectors (List.replicate 64 0xAA) (by decide)).1.1,
    (std_checksum_sha1_vectors (List.replicate 64 0xAA) (by decide)).2.1⟩

/-- The two vectors of `std_checksum_md5`, evaluated with a zeroed buffer. -/
theorem std_checksum_md5_zero_vectors :
    std_checksum_md5 (List.replicate 64 0) [] = "D41D8CD98F00B204E9800998ECF8427E" ∧
    std_checksum_md5 (List.replicate 64 0) [0x61, 0x62, 0x63] = "900150983CD24FB0D6963F7D28E17F72" := by
  decide!

/-- C3: `std_checksum_md5` returns the 32-character string
D41D8CD98F00B204E9800998ECF8427E
for the empty byte string and
900150983CD24FB0D6963F7D28E17F72
for the three-byte string "abc", whatever the uninitialized 64-byte buffer
`m_chunk` of the local hasher holds. -/
theorem std_checksum_md5_vectors (m_chunk : List Nat) (h : m_chunk.length = 64) :
    (std_checksum_md5 m_chunk [] = "D41D8CD98F00B204E9800998ECF8427E" ∧
      (std_checksum_md5 m_chunk []).length = 32) ∧
    (std_checksum_md5 m_chunk [0x61, 0x62, 0x63] = "900150983CD24FB0D6963F7D28E17F72" ∧
      (std_checksum_md5 m_chunk [0x61, 0x62, 0x63]).length = 32) := by
  have hz : (List.replicate 64 0).length = 64 := List.length_replicate 64 0
  rw [std_checksum_md5_chunk_irrelevant m_chunk _ [] h hz,
    std_checksum_md5_chunk_irrelevant m_chunk _ [0x61, 0x62, 0x63] h hz,
    std_checksum_md5_zero_vectors.1, std_checksum_md5_zero_vectors.2]
  decide

/-- Witness of C3: the buffer holds 64 bytes 0xAA. -/
theorem std_checksum_md5_vectors_witness :
    (List.replicate 64 0xAA).length = 64 ∧
    std_checksum_md5 (List.replicate 64 0xAA) [] = "D41D8CD98F00B204E9800998ECF8427E" ∧
    std_checksum_md5 (List.replicate 64 0xAA) [0x61, 0x62, 0x63] = "900150983CD24FB0D6963F7D28E17F72" :=
  ⟨by decide, (std_checksum_md5_vectors (List.replicate 64 0xAA) (by decide)).1.1,
    (std_checksum_md5_vectors (List.replicate 64 0xAA) (by decide)).2.1⟩

/-! ## Feeding data in pieces -/

theorem CRC32_Hasher.crc32_update_append (h : CRC32_Hasher) (a b : List Nat) :
    (h.update a).update b = h.update (a ++ b) := by
  simp only [CRC32_Hasher.update, List.foldl_append]

theorem FNV1a32_Hasher.fnv1a32_update_append (h : FNV1a32_Hasher) (a b : List Nat) :
    (h.update a).update b = h.update (a ++ b) := by
  simp only [FNV1a32_Hasher.update, List.foldl_append]

/-- C10: feeding data in pieces gives the same checksum as feeding it at once.
For each of the five hashers and all byte strings `a` and `b`, a new hasher
given `update(a)`, `update(b)`, `finish()` returns the same checksum as a new
hasher given `update(a ++ b)`, `finish()`, which is the value of the one-shot
function `std_checksum_*` on `a ++ b`. For the chunked hashers the three new
hashers involved may start with different contents `c1`, `c2`, `c3` of their
uninitialized 64-byte buffers. -/
theorem update_in_pieces (a b c1 c2 c3 : List Nat) (h1 : c1.length = 64)
    (h2 : c2.length = 64) (h3 : c3.length = 64) :
    ((((({} : CRC32_Hasher).update a).update b).finish).1 =
        ((({} : CRC32_Hasher).update (a ++ b)).finish).1 ∧
      ((({} : CRC32_Hasher).update (a ++ b)).finish).1 = std_checksum_crc32 (a ++ b)) ∧
    ((((({} : FNV1a32_Hasher).update a).update b).finish).1 =
        ((({} : FNV1a32_Hasher).update (a ++ b)).finish).1 ∧
      ((({} : FNV1a32_Hasher).update (a ++ b)).finish).1 = std_checksum_fnv1a32 (a ++ b)) ∧
    ((MD5_Hasher.finish (MD5_Hasher.update (MD5_Hasher.update (MD5_Hasher.new c1) a) b)).1 =
        (MD5_Hasher.finish (MD5_Hasher.update (MD5_Hasher.new c2) (a ++ b))).1 ∧
      (MD5_Hasher.finish (MD5_Hasher.update (MD5_Hasher.new c2) (a ++ b))).1 =
        std_checksum_md5 c3 (a ++ b)) ∧
    ((SHA1_Hasher.finish (SHA1_Hasher.update (SHA1_Hasher.update (SHA1_Hasher.new c1) a) b)).1 =
        (SHA1_Hasher.finish (SHA1_Hasher.update (SHA1_Hasher.new c2) (a ++ b))).1 ∧
      (SHA1_Hasher.finish (SHA1_Hasher.update (SHA1_Hasher.new c2) (a ++ b))).1 =
        std_checksum_sha1 c3 (a ++ b)) ∧
    ((SHA256_Hasher.finish
          (SHA256_Hasher.update (SHA256_Hasher.update (SHA256_Hasher.new c1) a) b)).1 =
        (SHA256_Hasher.finish (SHA256_Hasher.update (SHA256_Hasher.new c2) (a ++ b))).1 ∧
      (SHA256_Hasher.finish (SHA256_Hasher.update (SHA256_Hasher.new c2) (a ++ b))).1 =
        std_checksum_sha256 c3 (a ++ b)) := by
  refine ⟨⟨?_, rfl⟩, ⟨?_, rfl⟩, ⟨?_, ?_⟩, ⟨?_, ?_⟩, ⟨?_, ?_⟩⟩
  · rw [CRC32_Hasher.crc32_update_append]
  · rw [FNV1a32_Hasher.fnv1a32_update_append]
  · exact Chunk_Hasher.finish_update_update _ _ _ _ c1 c2 a b h1 h2
  · exact std_checksum_md5_chunk_irrelevant c2 c3 (a ++ b) h2 h3
  · exact Chunk_Hasher.finish_update_update _ _ _ _ c1 c2 a b h1 h2
  · exact std_checksum_sha1_chunk_irrelevant c2 c3 (a ++ b) h2 h3
  · exact Chunk_Hasher.finish_update_update _ _ _ _ c1 c2 a b h1 h2
  · exact std_checksum_sha256_chunk_irrelevant c2 c3 (a ++ b) h2 h3

/-- Witness of C10: the message "abc" fed as "a" and "bc", with buffers that
hold 64 bytes 0x00, 0x55 and 0xAA. -/
theorem update_in_pieces_witness :
    (List.replicate 64 0x00).length = 64 ∧ (List.replicate 64 0x55).length = 64 ∧
    (List.replicate 64 0xAA).length = 64 ∧
    (SHA256_Hasher.finish (SHA256_Hasher.update
        (SHA256_Hasher.update (SHA256_Hasher.new (List.replicate 64 0x00)) [0x61])
        [0x62, 0x63])).1 =
      std_checksum_sha256 (List.replicate 64 0xAA) ([0x61] ++ [0x62, 0x63]) :=
  ⟨by decide, by decide, by decide,
    ((update_in_pieces [0x61] [0x62, 0x63] (List.replicate 64 0x00) (List.replicate 64 0x55)
      (List.replicate 64 0xAA) (by decide) (by decide) (by decide)).2.2.2.2.1).trans
    (update_in_pieces [0x61] [0x62, 0x63] (List.replicate 64 0x00) (List.replicate 64 0x55)
      (List.replicate 64 0xAA) (by decide) (by decide) (by decide)).2.2.2.2.2⟩

/-! ## A table to try the dictionary on -/

theorem witness_table_live (i : Nat) : witness_table.live i = true ↔ (i = 0 ∨ i = 1) := by
  unfold Reference_Dictionary.live Bucket.live witness_table
  by_cases h0 : i = 0
  · simp [h0]
  · by_cases h1 : i = 1
    · simp [h1]
    · simp [h0, h1]

theorem witness_table_has_empty : witness_table.Has_Empty :=
  ⟨2, by decide, by decide⟩

theorem witness_table_wf : witness_table.WF := by
  refine ⟨⟨?_, ?_⟩, ?_, ?_, ?_⟩
  · intro i x hix
    simp only [witness_table] at hix ⊢
    by_cases h0 : i = 0
    · subst h0
      simp only [if_true, Option.some.injEq] at hix
      subst hix
      exact ⟨by decide, ⟨0, by decide⟩, 1, by decide, by decide⟩
    · by_cases h1 : i = 1
      · subst h1
        simp only [one_ne_zero, if_false, if_true, Option.some.injEq] at hix
        subst hix
        exact ⟨by decide, ⟨1, by decide⟩, 0, by decide, by decide⟩
      · simp [h0, h1] at hix
  · intro a ha
    simp only [witness_table, Option.some.injEq] at ha
    subst ha
    decide
  · intro i hi
    rcases (witness_table_live i).mp hi with h | h <;> subst h <;> decide
  · intro i hi
    rcases (witness_table_live i).mp hi with h | h <;> subst h
    · exact ⟨witness_name_a, 10, rfl, rfl⟩
    · exact ⟨witness_name_b, 11, rfl, rfl⟩
  · intro i j name ⟨hi1, hi2⟩ ⟨hj1, hj2⟩
    rcases (witness_table_live i).mp hi1 with h | h <;>
      rcases (witness_table_live j).mp hj1 with h' | h' <;> subst h <;> subst h'
    · rfl
    · simp only [witness_table] at hi2 hj2
      simp only [if_true, Option.some.injEq] at hi2
      subst hi2
      simp [witness_name_a, witness_name_b] at hj2
    · simp only [witness_table] at hi2 hj2
      simp only [if_true, Option.some.injEq] at hj2
      subst hj2
      simp [witness_name_a, witness_name_b] at hi2
    · rfl

theorem witness_table_probe_inv : witness_table.Probe_Inv := by
  intro i name _ ⟨h1, h2⟩ j hj hd
  have hj4 : j < 4 := hj
  rcases (witness_table_live i).mp h1 with h | h <;> subst h
  · have e : name = witness_name_a := by
      simp only [witness_table, if_true, Option.some.injEq] at h2
      exact h2.symm
    subst e
    have ho : witness_table.origin witness_name_a = 0 := by decide
    rw [ho] at hd
    have : witness_table.eptr = 4 := rfl
    rw [this] at hd
    interval_cases j <;> simp [cdist] at hd
  · have e : name = witness_name_b := by
      simp only [witness_table] at h2
      simp only [if_true, Option.some.injEq, one_ne_zero, if_false] at h2
      exact h2.symm
    subst e
    have ho : witness_table.origin witness_name_b = 0 := by decide
    rw [ho] at hd
    have : witness_table.eptr = 4 := rfl
    rw [this] at hd
    interval_cases j
    · decide
    all_goals simp [cdist] at hd

/-! ## The probing origin -/

theorem get_probing_origin_seed_mod (hval : Nat) :
    ((hval * 0x9E3779B9) % 2 ^ 64 / 2) &&& 0x7FFFFFFF
      = ((hval * 0x9E3779B9) % 2 ^ 64 / 2) % 2 ^ 31 := by
  have := Nat.and_pow_two_sub_one_eq_mod ((hval * 0x9E3779B9) % 2 ^ 64 / 2) 31
  simpa using this

theorem get_probing_origin_exact (begin end_ hval : Nat)
    (h : (end_ - begin) * (((hval * 0x9E3779B9) % 2 ^ 64 / 2) % 2 ^ 31) < 2 ^ 53) :
    get_probing_origin begin end_ hval
      = begin + (end_ - begin) * (((hval * 0x9E3779B9) % 2 ^ 64 / 2) % 2 ^ 31) / 2 ^ 31 := by
  unfold get_probing_origin
  simp only [get_probing_origin_seed_mod]
  generalize ((hval * 0x9E3779B9) % 2 ^ 64 / 2) % 2 ^ 31 = k at h ⊢
  by_cases hk : k = 0
  · subst hk
    simp only [Nat.mul_zero]
    rw [round_double_exact 0 (by norm_num)]
  · have hn : end_ - begin < 2 ^ 53 := by
      have : end_ - begin ≤ (end_ - begin) * k := Nat.le_mul_of_pos_right _ (by omega)
      omega
    rw [round_double_exact _ hn, round_double_exact _ h]

/-- C9 (amended): `get_probing_origin` always lands inside the table. For every
hash value `hval` and every table of `n = end - begin >= 1` buckets, with
`seed = (hval * 0x9E3779B9 mod 2^64) div 2` and `k = seed mod 2^31`, the
returned bucket is `begin + off` where `off` is the integer part of the
`double` product `double(n) * (k / 2^31)`; it satisfies `0 <= off < n`, so the
closing assertion holds, and equal hash values give the same origin. The offset
equals `floor(n * k / 2^31)` whenever `n * k < 2^53`, in particular for every
table of at most `2^22` buckets; beyond that the product is rounded to 53 bits
before it is truncated. -/
theorem get_probing_origin_in_table (begin end_ hval : Nat) (h : begin < end_) :
    begin ≤ get_probing_origin begin end_ hval ∧
    get_probing_origin begin end_ hval < end_ ∧
    get_probing_origin begin end_ hval
      = begin + round_double (round_double (end_ - begin) *
          (((hval * 0x9E3779B9) % 2 ^ 64 / 2) % 2 ^ 31)) / 2 ^ 31 ∧
    ((end_ - begin) * (((hval * 0x9E3779B9) % 2 ^ 64 / 2) % 2 ^ 31) < 2 ^ 53 →
      get_probing_origin begin end_ hval
        = begin + (end_ - begin) * (((hval * 0x9E3779B9) % 2 ^ 64 / 2) % 2 ^ 31) / 2 ^ 31) ∧
    (end_ - begin ≤ 2 ^ 22 →
      get_probing_origin begin end_ hval
        = begin + (end_ - begin) * (((hval * 0x9E3779B9) % 2 ^ 64 / 2) % 2 ^ 31) / 2 ^ 31) ∧
    ∀ hval', hval' = hval →
      get_probing_origin begin end_ hval' = get_probing_origin begin end_ hval := by
  refine ⟨?_, get_probing_origin_lt begin end_ hval h, ?_,
    get_probing_origin_exact begin end_ hval, ?_, ?_⟩
  · unfold get_probing_origin
    exact Nat.le_add_right _ _
  · unfold get_probing_origin
    simp only [get_probing_origin_seed_mod]
  · intro hn
    apply get_probing_origin_exact
    have hk : ((hval * 0x9E3779B9) % 2 ^ 64 / 2) % 2 ^ 31 < 2 ^ 31 := Nat.mod_lt _ (by norm_num)
    calc (end_ - begin) * (((hval * 0x9E3779B9) % 2 ^ 64 / 2) % 2 ^ 31)
        ≤ 2 ^ 22 * (((hval * 0x9E3779B9) % 2 ^ 64 / 2) % 2 ^ 31) := Nat.mul_le_mul_right _ hn
      _ < 2 ^ 22 * 2 ^ 31 := Nat.mul_lt_mul_of_pos_left hk (by norm_num)
      _ = 2 ^ 53 := by norm_num
  · intro hval' e
    rw [e]

/-- Witness of C9: a table of 8 buckets at index 0 and the hash value 3, whose
origin is bucket 6. -/
theorem get_probing_origin_in_table_witness :
    0 < 8 ∧ get_probing_origin 0 8 3 < 8 ∧ get_probing_origin 0 8 3 = 6 :=
  ⟨by decide, (get_probing_origin_in_table 0 8 3 (by decide)).2.1, by decide⟩

/-- Counterexample to C9 as stated: in a table of 4196911 buckets the hash value
10635795377535869554 gives `k = 2146992945` and `floor(n * k / 2^31) = 4195951`,
but the `double` product rounds up to 4195952.0 and the function returns bucket
4195952. -/
theorem get_probing_origin_floor_counterexample :
    ((10635795377535869554 * 0x9E3779B9) % 2 ^ 64 / 2) % 2 ^ 31 = 2146992945 ∧
    4196911 * 2146992945 / 2 ^ 31 = 4195951 ∧
    get_probing_origin 0 4196911 10635795377535869554 = 4195952 ∧
    get_probing_origin 0 4196911 10635795377535869554
      ≠ 0 + 4196911 * (((10635795377535869554 * 0x9E3779B9) % 2 ^ 64 / 2) % 2 ^ 31) / 2 ^ 31 := by
  decide

/-! ## Lookup and deletion in the dictionary -/

/-- C6: lookup terminates and is correct. For every table that has at least one
empty bucket and in which every stored name lies on the probe path from its own
probing origin before any empty bucket, `do_xprobe(name)` returns a non-null
bucket of the table, which holds `name` when `name` is stored (so it is the
bucket holding `name` when only one does) and is an empty bucket when it is
not. -/
theorem do_xprobe_correct {R : Type} (d : Reference_Dictionary R) (name : PreHashed_String)
    (hempty : d.Has_Empty) (hinv : d.Probe_Inv) :
    ∃ q, d.do_xprobe name = some q ∧ q < d.eptr ∧
      ((∃ i, i < d.eptr ∧ d.holds i name) → d.holds q name) ∧
      (∀ i, i < d.eptr → d.holds i name →
        (∀ j, j < d.eptr → d.holds j name → j = i) → q = i) ∧
      ((¬ ∃ i, i < d.eptr ∧ d.holds i name) → d.live q = false) := by
  obtain ⟨q, h1, h2, h3, h4⟩ := d.do_xprobe_spec name hempty hinv
  refine ⟨q, h1, h2, ?_, ?_, h4⟩
  · rintro ⟨i, hi, hh⟩
    exact h3 i hi hh
  · intro i hi hh huniq
    exact huniq q h2 (h3 i hi hh)

/-- Witness of C6: the lookup of `witness_name_b`, which sits one bucket after
its origin in `witness_table`, returns bucket 1. -/
theorem do_xprobe_correct_witness :
    witness_table.Has_Empty ∧ witness_table.Probe_Inv ∧
    witness_table.do_xprobe witness_name_b = some 1 ∧
    ∃ q, witness_table.do_xprobe witness_name_b = some q ∧ q < witness_table.eptr ∧
      ((∃ i, i < witness_table.eptr ∧ witness_table.holds i witness_name_b) →
        witness_table.holds q witness_name_b) ∧
      (∀ i, i < witness_table.eptr → witness_table.holds i witness_name_b →
        (∀ j, j < witness_table.eptr → witness_table.holds j witness_name_b → j = i) → q = i) ∧
      ((¬ ∃ i, i < witness_table.eptr ∧ witness_table.holds i witness_name_b) →
        witness_table.live q = false) :=
  ⟨witness_table_has_empty, witness_table_probe_inv, by decide,
    do_xprobe_correct witness_table witness_name_b witness_table_has_empty
      witness_table_probe_inv⟩

/-- C7: deleting an entry keeps the table searchable without tombstones. For
every well-formed table with an empty bucket that satisfies the probe-path
invariant and every bucket `q` in use, after `do_detach(q)` the detached name
is no longer found by `do_xprobe` (an empty bucket is returned), every other
previously stored name is still found by `do_xprobe` with its reference
unchanged, and the probe-path invariant holds again; the table stays well
formed, keeps its size and has an empty bucket. -/
theorem do_detach_keeps_searchable {R : Type} (d : Reference_Dictionary R) (q : Nat)
    (hwf : d.WF) (hempty : d.Has_Empty) (hinv : d.Probe_Inv) (hq : d.live q = true) :
    (∀ name, (d.bptr q).kstor = some name →
      ∃ b, (d.do_detach q).do_xprobe name = some b ∧ b < (d.do_detach q).eptr ∧
        (d.do_detach q).live b = false) ∧
    (∀ i name refr, i ≠ q → d.live i = true → (d.bptr i).kstor = some name →
      (d.bptr i).vstor = some refr →
      ∃ b, (d.do_detach q).do_xprobe name = some b ∧ (d.do_detach q).live b = true ∧
        ((d.do_detach q).bptr b).kstor = some name ∧
        ((d.do_detach q).bptr b).vstor = some refr) ∧
    (d.do_detach q).Probe_Inv ∧ (d.do_detach q).Has_Empty ∧ (d.do_detach q).WF ∧
    (d.do_detach q).eptr = d.eptr := by
  have hqn : q < d.eptr := hwf.2.1 q hq
  obtain ⟨M, hM, hfin⟩ := Reloc_Inv.of_do_detach d q hwf hempty hinv hq
  obtain ⟨hpi', hem'⟩ := Reloc_Inv.at_end d q M _ hqn hM hfin
  obtain ⟨i1, hwf', -, -, i5, -⟩ := hfin
  generalize d.do_detach q = d' at *
  refine ⟨?_, ?_, hpi', hem', hwf', i1⟩
  · intro name hk
    obtain ⟨b, h1, h2, -, h4⟩ := d'.do_xprobe_spec name hem' hpi'
    refine ⟨b, h1, h2, h4 ?_⟩
    rintro ⟨i, -, hl, hki⟩
    obtain ⟨nm, rf, e1, e2⟩ := hwf'.2.2.1 i hl
    rw [hki] at e1
    have e3 : nm = name := (Option.some.inj e1).symm
    subst e3
    obtain ⟨j, hjq, hjl, hjk, -⟩ := (i5 nm rf).mp ⟨i, hl, hki, e2⟩
    exact hjq (hwf.2.2.2 j q nm ⟨hjl, hjk⟩ ⟨hq, hk⟩)
  · intro i name refr hiq hl hk hv
    obtain ⟨j, hjl, hjk, hjv⟩ := (i5 name refr).mpr ⟨i, hiq, hl, hk, hv⟩
    obtain ⟨b, h1, -, h3, -⟩ := d'.do_xprobe_spec name hem' hpi'
    have hb := h3 j (hwf'.2.1 j hjl) ⟨hjl, hjk⟩
    have hbj : b = j := hwf'.2.2.2 b j name hb ⟨hjl, hjk⟩
    subst hbj
    exact ⟨b, h1, hjl, hjk, hjv⟩

/-- Witness of C7: bucket 0 of `witness_table` is detached; `witness_name_b`
moves from bucket 1 to bucket 0 and is found there with its reference 11. -/
theorem do_detach_keeps_searchable_witness :
    witness_table.WF ∧ witness_table.Has_Empty ∧ witness_table.Probe_Inv ∧
    witness_table.live 0 = true ∧
    (witness_table.do_detach 0).do_xprobe witness_name_b = some 0 ∧
    (∃ b, (witness_table.do_detach 0).do_xprobe witness_name_b = some b ∧
      (witness_table.do_detach 0).live b = true ∧
      ((witness_table.do_detach 0).bptr b).kstor = some witness_name_b ∧
      ((witness_table.do_detach 0).bptr b).vstor = some 11) :=
  ⟨witness_table_wf, witness_table_has_empty, witness_table_probe_inv, by decide, by decide,
    (do_detach_keeps_searchable witness_table 0 witness_table_wf witness_table_has_empty
      witness_table_probe_inv (by decide)).2.1 1 witness_name_b 11 (by decide) (by decide)
      (by decide) (by decide)⟩

/-- Remark on C7: the empty bucket that the dictionary keeps (its load factor is
below 1) is needed. In `full_table` the name of bucket 1 has its origin at
bucket 2; `do_detach 0` moves it to bucket 0 and the name of bucket 2 to bucket
1, which leaves bucket 2 empty, so that the lookup of the first name stops at
its origin and returns that empty bucket. -/
theorem do_detach_full_table :
    full_table.origin { m_sth := [0x62], m_hval := 3 } = 2 ∧
    ((full_table.do_detach 0).bptr 0).kstor = some { m_sth := [0x62], m_hval := 3 } ∧
    (full_table.do_detach 0).do_xprobe { m_sth := [0x62], m_hval := 3 } = some 2 ∧
    (full_table.do_detach 0).live 2 = false := by
  decide

/-! ## The order of the list -/

/-- C8 (amended): the linked list of a `Reference_Dictionary` threads the
buckets in use in reverse insertion order. After buckets `b1, b2, ..., bn` are
attached in that order with `do_attach` to a dictionary without buckets in use
(no detach in between), the traversal used by `enumerate_variables`, which
starts at the list head `m_stor.aptr` and follows `next` pointers, terminates
and visits `bn, ..., b2, b1` in that order. -/
theorem enumerate_variables_reverse_order {R : Type} [Inhabited R]
    (d : Reference_Dictionary R) (bs : List (Nat × PreHashed_String)) (fuel : Nat)
    (haptr : d.aptr = none) (hlive : ∀ x, d.live x = false)
    (hnd : (bs.map Prod.fst).Nodup) (hfuel : bs.length ≤ fuel) :
    (bs.foldl (fun d b => d.do_attach b.1 b.2) d).enumerate_variables fuel
      = some (bs.map Prod.fst).reverse := by
  have h0 : d.List_Is [] := by
    refine ⟨List.nodup_nil, ?_, haptr, trivial, ?_⟩
    · intro x hx
      rw [hlive x] at hx; cases hx
    · intro x hx
      simp at hx
  have h := Reference_Dictionary.List_Is.do_attach_all bs d [] h0 (fun _ _ hm => by simp at hm) hnd
  rw [List.append_nil] at h
  exact Reference_Dictionary.List_Is.enumerate _ _ fuel h (by simpa using hfuel)

/-- Witness of C8 (amended): buckets 0, 2, 1 attached in that order to a newly
allocated table of four buckets are visited in the order 1, 2, 0. -/
theorem enumerate_variables_reverse_order_witness :
    (Reference_Dictionary.allocated Nat 4).aptr = none ∧
    (∀ x, (Reference_Dictionary.allocated Nat 4).live x = false) ∧
    ([(0, witness_name_a), (2, witness_name_b), (1, witness_name_a)].map Prod.fst).Nodup ∧
    ([(0, witness_name_a), (2, witness_name_b), (1, witness_name_a)].foldl
        (fun d b => d.do_attach b.1 b.2)
        (Reference_Dictionary.allocated Nat 4)).enumerate_variables 3 = some [1, 2, 0] :=
  ⟨rfl, fun _ => rfl, by decide, enumerate_variables_reverse_order
    (Reference_Dictionary.allocated Nat 4)
    [(0, witness_name_a), (2, witness_name_b), (1, witness_name_a)] 3 rfl (fun _ => rfl)
    (by decide) (by decide)⟩

/-- Counterexample to C8 as stated: after bucket 0 and then bucket 1 are
attached to a new table of four buckets, the traversal visits bucket 1 first and
bucket 0 second, not 0 and then 1. -/
theorem enumerate_variables_order_counterexample :
    (((Reference_Dictionary.allocated Nat 4).do_attach 0 witness_name_a).do_attach 1
        witness_name_b).enumerate_variables 4 = some [1, 0] ∧
    (((Reference_Dictionary.allocated Nat 4).do_attach 0 witness_name_a).do_attach 1
        witness_name_b).enumerate_variables 4 ≠ some [0, 1] := by
  decide

/-! ## Reset by `finish` -/

/-- C11: `finish()` resets a hasher as if it had been newly created. For each
of the five hashers and all byte strings `d1` and `d2`, a new hasher given
`update(d1)`, `finish()`, `update(d2)`, `finish()` returns from the second
`finish()` what a new hasher given `update(d2)`, `finish()` returns. The
chunked hashers do not clear their 64-byte buffer on reset: the equality holds
whatever the buffers `c1` and `c2` of the two new hashers hold. -/
theorem finish_resets_hasher (d1 d2 c1 c2 : List Nat) (h1 : c1.length = 64)
    (h2 : c2.length = 64) :
    ((((({} : CRC32_Hasher).update d1).finish).2.update d2).finish).1 =
      ((({} : CRC32_Hasher).update d2).finish).1 ∧
    ((((({} : FNV1a32_Hasher).update d1).finish).2.update d2).finish).1 =
      ((({} : FNV1a32_Hasher).update d2).finish).1 ∧
    (MD5_Hasher.finish (MD5_Hasher.update
        (MD5_Hasher.finish (MD5_Hasher.update (MD5_Hasher.new c1) d1)).2 d2)).1 =
      (MD5_Hasher.finish (MD5_Hasher.update (MD5_Hasher.new c2) d2)).1 ∧
    (SHA1_Hasher.finish (SHA1_Hasher.update
        (SHA1_Hasher.finish (SHA1_Hasher.update (SHA1_Hasher.new c1) d1)).2 d2)).1 =
      (SHA1_Hasher.finish (SHA1_Hasher.update (SHA1_Hasher.new c2) d2)).1 ∧
    (SHA256_Hasher.finish (SHA256_Hasher.update
        (SHA256_Hasher.finish (SHA256_Hasher.update (SHA256_Hasher.new c1) d1)).2 d2)).1 =
      (SHA256_Hasher.finish (SHA256_Hasher.update (SHA256_Hasher.new c2) d2)).1 := by
  refine ⟨rfl, rfl, ?_, ?_, ?_⟩
  · exact Chunk_Hasher.finish_then_update _ _ _ c2 d1 d2 _ ⟨h1, show (0 : Nat) < 2 ^ 64 by norm_num⟩ h2
  · exact Chunk_Hasher.finish_then_update _ _ _ c2 d1 d2 _ ⟨h1, show (0 : Nat) < 2 ^ 64 by norm_num⟩ h2
  · exact Chunk_Hasher.finish_then_update _ _ _ c2 d1 d2 _ ⟨h1, show (0 : Nat) < 2 ^ 64 by norm_num⟩ h2

/-- Witness of C11: "abc" then "a", with buffers of 64 bytes 0x55 and 0xAA;
the second checksum of the reused MD5 hasher is the MD5 of "a". -/
theorem finish_resets_hasher_witness :
    (List.replicate 64 0x55).length = 64 ∧ (List.replicate 64 0xAA).length = 64 ∧
    (MD5_Hasher.finish (MD5_Hasher.update
        (MD5_Hasher.finish (MD5_Hasher.update (MD5_Hasher.new (List.replicate 64 0x55))
          [0x61, 0x62, 0x63])).2 [0x61])).1 =
      (MD5_Hasher.finish (MD5_Hasher.update (MD5_Hasher.new (List.replicate 64 0xAA))
        [0x61])).1 :=
  ⟨by decide, by decide,
    (finish_resets_hasher [0x61, 0x62, 0x63] [0x61] (List.replicate 64 0x55)
      (List.replicate 64 0xAA) (by decide) (by decide)).2.2.1⟩

/-! ## CRC-32 by table and bit by bit -/

/-- C12: for every byte string, `std_checksum_crc32` (which looks each byte up
in `s_iso3309_CRC32_table`) equals the bitwise CRC-32 with the reversed divisor
`0xEDB88320`: start at `0xFFFFFFFF`, xor each byte into the low 8 bits and do 8
rounds `r := (r >> 1) xor (0xEDB88320 if r is odd else 0)`, complement at the
end. Entry `i` of the table, for `i < 256`, is 8 such rounds applied to `i`. -/
theorem crc32_table_is_bitwise (data : List Nat) (hb : ∀ b ∈ data, b < 256) :
    std_checksum_crc32 data = crc32_bitwise data ∧
    ∀ i, i < 256 → s_iso3309_CRC32_table.getD i 0 = crc32_bitwise.rounds 8 i := by
  refine ⟨?_, s_iso3309_CRC32_table_getD⟩
  unfold std_checksum_crc32 crc32_bitwise CRC32_Hasher.finish CRC32_Hasher.update
  dsimp only
  rw [CRC32_Hasher.update_eq_bitwise data hb]
  exact xor_ones _ (crc32_bitwise.fold_lt data hb _ (by norm_num))

/-- Witness of C12: the byte string "abc". -/
theorem crc32_table_is_bitwise_witness :
    (∀ b ∈ [0x61, 0x62, 0x63], b < 256) ∧
    std_checksum_crc32 [0x61, 0x62, 0x63] = crc32_bitwise [0x61, 0x62, 0x63] :=
  ⟨by decide, (crc32_table_is_bitwise [0x61, 0x62, 0x63] (by decide)).1⟩

/-! ## FNV-1a as a fold -/

/-- C13: for every byte string, `std_checksum_fnv1a32` is the left fold of
`h -> ((h xor byte) * 16777619) mod 2^32` over the bytes, from `2166136261`. -/
theorem std_checksum_fnv1a32_is_fold (data : List Nat) (hb : ∀ b ∈ data, b < 256) :
    std_checksum_fnv1a32 data = fnv1a32_fold data := by
  unfold std_checksum_fnv1a32 fnv1a32_fold FNV1a32_Hasher.finish FNV1a32_Hasher.update
  dsimp only
  apply List.foldl_ext
  intro a b hbm
  rw [Nat.mod_eq_of_lt (hb b hbm)]
  rfl

/-- Witness of C13: the byte string "abc". -/
theorem std_checksum_fnv1a32_is_fold_witness :
    (∀ b ∈ [0x61, 0x62, 0x63], b < 256) ∧
    std_checksum_fnv1a32 [0x61, 0x62, 0x63] = fnv1a32_fold [0x61, 0x62, 0x63] :=
  ⟨by decide, std_checksum_fnv1a32_is_fold [0x61, 0x62, 0x63] (by decide)⟩

/-! ## Range of the integer checksums -/

/-- C14: for every byte string, the integers that `std_checksum_crc32` and
`std_checksum_fnv1a32` return satisfy `0 <= result < 2^32`. -/
theorem integer_checksums_in_range (data : List Nat) :
    ((0 : Int) ≤ (std_checksum_crc32 data : Int) ∧
      (std_checksum_crc32 data : Int) < 2 ^ 32) ∧
    ((0 : Int) ≤ (std_checksum_fnv1a32 data : Int) ∧
      (std_checksum_fnv1a32 data : Int) < 2 ^ 32) := by
  have hc : std_checksum_crc32 data < 2 ^ 32 := by
    unfold std_checksum_crc32 CRC32_Hasher.finish CRC32_Hasher.update
    dsimp only
    exact Nat.xor_lt_two_pow (by norm_num) (CRC32_Hasher.crc32_update_lt data _ (by norm_num))
  have hf : std_checksum_fnv1a32 data < 2 ^ 32 := by
    unfold std_checksum_fnv1a32 FNV1a32_Hasher.finish FNV1a32_Hasher.update
    dsimp only
    exact FNV1a32_Hasher.fnv1a32_update_lt data _ (by unfold FNV1a32_Hasher.offset; norm_num)
  exact ⟨⟨Int.ofNat_nonneg _, by exact_mod_cast hc⟩, ⟨Int.ofNat_nonneg _, by exact_mod_cast hf⟩⟩

/-! ## Shape of the hexadecimal checksums -/

/-- C15: for every byte string, `std_checksum_md5`, `std_checksum_sha1` and
`std_checksum_sha256` return strings of exactly 32, 40 and 64 characters, each
of which is one of `0`-`9` or `A`-`F`. -/
theorem hex_checksums_fixed_length (m_chunk data : List Nat) (h : m_chunk.length = 64) :
    ((std_checksum_md5 m_chunk data).length = 32 ∧
      ∀ c ∈ (std_checksum_md5 m_chunk data).toList, c ∈ hex_uppercase) ∧
    ((std_checksum_sha1 m_chunk data).length = 40 ∧
      ∀ c ∈ (std_checksum_sha1 m_chunk data).toList, c ∈ hex_uppercase) ∧
    ((std_checksum_sha256 m_chunk data).length = 64 ∧
      ∀ c ∈ (std_checksum_sha256 m_chunk data).toList, c ∈ hex_uppercase) :=
  ⟨Chunk_Hasher.finish_hex _ MD5_Hasher.md5_consume_chunk_length false _ MD5_Hasher.init
      m_chunk data h,
    Chunk_Hasher.finish_hex _ SHA1_Hasher.sha1_consume_chunk_length true _ SHA1_Hasher.init
      m_chunk data h,
    Chunk_Hasher.finish_hex _ SHA256_Hasher.sha256_consume_chunk_length true _ SHA256_Hasher.init
      m_chunk data h⟩

/-- Witness of C15: the byte string "abc" in a hasher whose buffer holds 64
bytes 0xAA. -/
theorem hex_checksums_fixed_length_witness :
    (List.replicate 64 0xAA).length = 64 ∧
    (std_checksum_md5 (List.replicate 64 0xAA) [0x61, 0x62, 0x63]).length = 32 :=
  ⟨by decide,
    (hex_checksums_fixed_length (List.replicate 64 0xAA) [0x61, 0x62, 0x63] (by decide)).1.1⟩


/-! ## Backtraces and generations -/

/-- C16: the backtrace of a `Traceable_Exception` is append-only. For every
exception `e` and source location `loc`, after `e.append_backtrace(loc)` the
sequence `get_backtrace()` is the previous one with `loc` added at the end,
`get_value()` and `get_location()` are unchanged, and an exception made by
either constructor has an empty backtrace. -/
theorem append_backtrace_appends {Value : Type} (e : Traceable_Exception Value)
    (loc : Source_Location) :
    (e.append_backtrace loc).get_backtrace = e.get_backtrace ++ [loc] ∧
    (e.append_backtrace loc).get_value = e.get_value ∧
    (e.append_backtrace loc).get_location = e.get_location ∧
    (∀ (loc0 : Source_Location) (value : Value),
      (Traceable_Exception.new loc0 value).get_backtrace = []) ∧
    (∀ (D_string : String → Value) (what : String),
      (Traceable_Exception.of_exception D_string what).get_backtrace = []) :=
  ⟨rfl, rfl, rfl, fun _ _ => rfl, fun _ _ => rfl⟩

/-- C17: a `Genius_Collector` is built with three generations that share one
variable pool: the newest collector has threshold 800 and is tied to the middle
one, the middle collector has threshold 60 and is tied to the oldest one, and
the oldest collector has threshold 10 and is tied to none. -/
theorem genius_collector_generations :
    (Genius_Collector.new.m_newest.m_threshold = 800 ∧
      Genius_Collector.new.m_newest.m_tied_opt = some .m_middle) ∧
    (Genius_Collector.new.m_middle.m_threshold = 60 ∧
      Genius_Collector.new.m_middle.m_tied_opt = some .m_oldest) ∧
    (Genius_Collector.new.m_oldest.m_threshold = 10 ∧
      Genius_Collector.new.m_oldest.m_tied_opt = none) ∧
    (Genius_Collector.new.m_newest.m_output_opt = some .m_pool ∧
      Genius_Collector.new.m_middle.m_output_opt = some .m_pool ∧
      Genius_Collector.new.m_oldest.m_output_opt = some .m_pool) :=
  ⟨⟨rfl, rfl⟩, ⟨rfl, rfl⟩, ⟨rfl, rfl⟩, rfl, rfl, rfl⟩


/-! ## The state of a parser after `load` -/

/-- C18: the state of a parser follows the result of `load`. For every token
stream, `load` returns (the bounds of the loops are not reached); it returns
`error_success` exactly when the parser ends in `state_success`; after a failed
load the parser is in `state_error`, `get_result()` returns the `Parser_result`
that `load` returned, and `get_document()` and `extract_document()` throw; after
a successful load `extract_document()` returns the block that was parsed and
leaves the parser in `state_empty`. In `state_empty`, `get_result()`,
`get_document()` and `extract_document()` all throw. -/
theorem load_sets_parser_state (p : Parser) (toks_io : Token_stream) :
    (∃ r p1 toks1, p.load toks_io = some (r, p1, toks1) ∧
      (r.get_error = Parser_result.Error.error_success ↔ p1.state = Parser.State.state_success) ∧
      (r.get_error ≠ Parser_result.Error.error_success →
        p1.state = Parser.State.state_error ∧ p1.get_result = Except.ok r ∧
        (∃ msg, p1.get_document = Except.error msg) ∧
        (∃ msg, p1.extract_document = Except.error msg)) ∧
      (r.get_error = Parser_result.Error.error_success →
        ∃ block p2, Parser.load.loop toks_io = Accept.accepted block toks1 ∧
          p1.get_document = Except.ok block ∧
          p1.extract_document = Except.ok (block, p2) ∧
          p2.state = Parser.State.state_empty)) ∧
    (∀ q : Parser, q.state = Parser.State.state_empty →
      (∃ msg, q.get_result = Except.error msg) ∧ (∃ msg, q.get_document = Except.error msg) ∧
      (∃ msg, q.extract_document = Except.error msg)) := by
  constructor
  · have h := Parser.load.load_loop_sound toks_io
    unfold Parser.load
    cases hl : Parser.load.loop toks_io with
    | accepted stmts t =>
      refine ⟨_, _, _, rfl, ⟨fun _ => rfl, fun _ => rfl⟩, fun hne => (hne rfl).elim, fun _ => ?_⟩
      exact ⟨stmts, _, rfl, rfl, rfl, rfl⟩
    | rejected t => rw [hl] at h; exact h.elim
    | thrown e t =>
      rw [hl] at h
      have hne := h.2.error_ne
      refine ⟨_, _, _, rfl, ⟨fun he => (hne he).elim, fun hs => ?_⟩, fun _ => ?_,
        fun he => (hne he).elim⟩
      · exact Parser.State.noConfusion hs
      · exact ⟨rfl, rfl, ⟨_, rfl⟩, ⟨_, rfl⟩⟩
    | fuel_out => rw [hl] at h; exact h.elim
  · intro q hq
    cases hs : q.m_stor with
    | null =>
      simp only [Parser.get_result, Parser.get_document, Parser.extract_document, hs]
      exact ⟨⟨_, rfl⟩, ⟨_, rfl⟩, ⟨_, rfl⟩⟩
    | result e => simp [Parser.state, hs] at hq
    | block b => simp [Parser.state, hs] at hq

/-- Witness of C18: the document `export ;` fails to load, the document
`break while ;` loads. -/
theorem load_sets_parser_state_witness :
    (∃ r p1 toks1,
      Parser.load { m_stor := Parser.Stor.null }
        [witness_token 0 6 (.S_keyword .keyword_export),
          witness_token 7 1 (.S_punctuator .punctuator_semicol)] = some (r, p1, toks1) ∧
      p1.state = Parser.State.state_error ∧ p1.get_result = Except.ok r) ∧
    (∃ r p1 toks1,
      Parser.load { m_stor := Parser.Stor.null }
        [witness_token 0 5 (.S_keyword .keyword_break),
          witness_token 6 5 (.S_keyword .keyword_while),
          witness_token 11 1 (.S_punctuator .punctuator_semicol)] = some (r, p1, toks1) ∧
      p1.state = Parser.State.state_success ∧
      p1.get_document = Except.ok [Statement.S_break Statement.Target.target_while]) := by
  constructor
  · obtain ⟨r, p1, toks1, h, _, h2, _⟩ := (load_sets_parser_state { m_stor := Parser.Stor.null }
      [witness_token 0 6 (.S_keyword .keyword_export),
        witness_token 7 1 (.S_punctuator .punctuator_semicol)]).1
    have e : r =
        { m_line := 1, m_offset := 7, m_length := 1,
          m_error := Parser_result.Error.error_identifier_expected } := by
      have := h.symm.trans (show Parser.load _ _ = some (_, _, _) from rfl)
      exact (Prod.mk.inj (Option.some.inj this)).1
    have hne : r.get_error ≠ Parser_result.Error.error_success := by rw [e]; decide
    exact ⟨r, p1, toks1, h, (h2 hne).1, (h2 hne).2.1⟩
  · obtain ⟨r, p1, toks1, h, h1, _, _⟩ := (load_sets_parser_state { m_stor := Parser.Stor.null }
      [witness_token 0 5 (.S_keyword .keyword_break),
        witness_token 6 5 (.S_keyword .keyword_while),
        witness_token 11 1 (.S_punctuator .punctuator_semicol)]).1
    have e := h.symm.trans (show Parser.load _ _ = some (_, _, _) from rfl)
    have e1 := (Prod.mk.inj (Option.some.inj e)).1
    have e2 := (Prod.mk.inj (Prod.mk.inj (Option.some.inj e)).2).1
    refine ⟨r, p1, toks1, h, h1.mp (by rw [e1]; rfl), ?_⟩
    rw [e2]; rfl

/-! ## Where a parse error points -/

/-- C19: a parse error reports where parsing stopped. For every token stream on
which `Parser::load` fails, the stream is left at the tokens that had not been
consumed when the error was raised (a suffix of the input), and the returned
`Parser_result` carries the line, offset and length of the first of them, or
line 0, offset 0 and length 0 when none is left. -/
theorem load_error_position (p : Parser) (toks_io : Token_stream) (r : Parser_result)
    (p1 : Parser) (toks1 : Token_stream) (h : p.load toks_io = some (r, p1, toks1))
    (he : r.get_error ≠ Parser_result.Error.error_success) :
    toks1 <:+ toks_io ∧
    (∀ tok rest, toks1 = tok :: rest →
      r.m_line = tok.get_line ∧ r.m_offset = tok.get_offset ∧ r.m_length = tok.get_length) ∧
    (toks1 = [] → r.m_line = 0 ∧ r.m_offset = 0 ∧ r.m_length = 0) := by
  have hs := Parser.load.load_loop_sound toks_io
  unfold Parser.load at h
  cases hl : Parser.load.loop toks_io with
  | accepted stmts t =>
    rw [hl] at h
    simp only [Option.some.injEq, Prod.mk.injEq] at h
    obtain ⟨rfl, _, _⟩ := h
    exact (he rfl).elim
  | rejected t => rw [hl] at h; simp at h
  | thrown e t =>
    rw [hl] at h hs
    simp only [Option.some.injEq, Prod.mk.injEq] at h
    obtain ⟨rfl, _, rfl⟩ := h
    obtain ⟨hsuf, error, _, rfl⟩ := hs
    refine ⟨hsuf, ?_, ?_⟩
    · intro tok rest ht
      subst ht
      exact ⟨rfl, rfl, rfl⟩
    · intro ht
      subst ht
      exact ⟨rfl, rfl, rfl⟩
  | fuel_out => rw [hl] at h; simp at h

/-- Witness of C19: in `export ;` the error is at the semicolon, which is at
offset 7 and has length 1. -/
theorem load_error_position_witness :
    Parser.load { m_stor := Parser.Stor.null }
        [witness_token 0 6 (.S_keyword .keyword_export),
          witness_token 7 1 (.S_punctuator .punctuator_semicol)] =
      some ({ m_line := 1, m_offset := 7, m_length := 1,
              m_error := Parser_result.Error.error_identifier_expected },
        { m_stor := Parser.Stor.result
            { m_line := 1, m_offset := 7, m_length := 1,
              m_error := Parser_result.Error.error_identifier_expected } },
        [witness_token 7 1 (.S_punctuator .punctuator_semicol)]) ∧
    [witness_token 7 1 (.S_punctuator .punctuator_semicol)] <:+
      [witness_token 0 6 (.S_keyword .keyword_export),
        witness_token 7 1 (.S_punctuator .punctuator_semicol)] :=
  ⟨rfl, (load_error_position { m_stor := Parser.Stor.null }
    [witness_token 0 6 (.S_keyword .keyword_export),
      witness_token 7 1 (.S_punctuator .punctuator_semicol)] _ _ _ rfl (by decide)).1⟩

/-! ## `break` and `continue` without a target -/

/-- C20: the claim that `break ;` and `continue ;` are rejected does not hold
of the code. `do_accept_break_statement` accepts the two tokens `break ;` and
`do_accept_continue_statement` accepts `continue ;`, each with the target
`target_unspec`, and `Parser::load` loads the document `break ;` with
`error_success`. -/
theorem break_without_target_is_accepted :
    do_accept_break_statement
        [witness_token 0 5 (.S_keyword .keyword_break),
          witness_token 6 1 (.S_punctuator .punctuator_semicol)] =
      Accept.accepted (Statement.S_break Statement.Target.target_unspec) [] ∧
    do_accept_continue_statement
        [witness_token 0 8 (.S_keyword .keyword_continue),
          witness_token 9 1 (.S_punctuator .punctuator_semicol)] =
      Accept.accepted (Statement.S_continue Statement.Target.target_unspec) [] ∧
    Parser.load { m_stor := Parser.Stor.null }
        [witness_token 0 5 (.S_keyword .keyword_break),
          witness_token 6 1 (.S_punctuator .punctuator_semicol)] =
      some ({ m_line := 0, m_offset := 0, m_length := 0,
              m_error := Parser_result.Error.error_success },
        { m_stor := Parser.Stor.block [Statement.S_break Statement.Target.target_unspec] },
        []) :=
  ⟨rfl, rfl, rfl⟩


/-! ## Definitions of variables -/

/-- C21: an immutable definition needs an initializer and a mutable one does
not. For every token sequence `const` identifier followed by a token other than
`=`, `do_accept_immutable_variable_definition` raises
`error_equals_sign_expected` (at that token); for `var` identifier `;`,
`do_accept_variable_definition` succeeds with an `S_var_def` whose immutable
flag is false and whose initializer is the empty expression; and every
`S_var_def` produced for `const` has the immutable flag true. -/
theorem variable_definition_initializers :
    (∀ (c i t : Token) (rest : Token_stream) (name : String),
      c.m_stor = Token.Variant.S_keyword Token.Keyword.keyword_const →
      i.m_stor = Token.Variant.S_identifier name →
      t.m_stor ≠ Token.Variant.S_punctuator Token.Punctuator.punctuator_assign →
      do_accept_immutable_variable_definition (c :: i :: t :: rest) =
        Accept.thrown
          { m_line := t.get_line, m_offset := t.get_offset, m_length := t.get_length,
            m_error := Parser_result.Error.error_equals_sign_expected } (t :: rest)) ∧
    (∀ (k i s : Token) (rest : Token_stream) (name : String),
      k.m_stor = Token.Variant.S_keyword Token.Keyword.keyword_var →
      i.m_stor = Token.Variant.S_identifier name →
      s.m_stor = Token.Variant.S_punctuator Token.Punctuator.punctuator_semicol →
      do_accept_variable_definition (k :: i :: s :: rest) =
        Accept.accepted (Statement.S_var_def name false { m_nodes := [] }) rest) ∧
    (∀ (toks rest : Token_stream) (stmt : Statement),
      do_accept_immutable_variable_definition toks = Accept.accepted stmt rest →
      ∃ name init, stmt = Statement.S_var_def name true init) := by
  refine ⟨?_, ?_, ?_⟩
  · intro c i t rest name hc hi ht
    simp only [do_accept_immutable_variable_definition, do_match_keyword, do_accept_identifier,
      do_match_punctuator, Token_stream.peek_opt, Token_stream.shift, List.head?_cons,
      List.tail_cons, hc, hi, Accept.andThen, Accept.orThrow, ne_eq, not_true_eq_false,
      if_false, do_make_parser_result]
    cases hs : t.m_stor with
    | S_punctuator p =>
      have hp : p ≠ Token.Punctuator.punctuator_assign := by
        intro h; rw [hs, h] at ht; exact ht rfl
      simp only [ne_eq, hp, not_false_eq_true, if_true, List.head?_cons]
    | _ => rfl
  · intro k i s rest name hk hi hs
    simp only [do_accept_variable_definition, do_match_keyword, do_accept_identifier,
      do_match_punctuator, Token_stream.peek_opt, Token_stream.shift, List.head?_cons,
      List.tail_cons, hk, hi, hs, Accept.andThen, Accept.orThrow, Accept.ifElse, ne_eq,
      not_true_eq_false, if_false, reduceCtorEq, not_false_eq_true, if_true]
  · intro toks rest stmt h
    unfold do_accept_immutable_variable_definition at h
    cases h1 : do_match_keyword toks Token.Keyword.keyword_const <;>
      rw [h1] at h <;> simp only [Accept.andThen, reduceCtorEq] at h
    rename_i u1 t1
    cases h2 : do_accept_identifier t1 <;>
      rw [h2] at h <;> simp only [Accept.andThen, Accept.orThrow, reduceCtorEq] at h
    rename_i name t2
    cases h3 : do_match_punctuator t2 Token.Punctuator.punctuator_assign <;>
      rw [h3] at h <;> simp only [Accept.andThen, Accept.orThrow, reduceCtorEq] at h
    rename_i u3 t3
    cases h4 : do_accept_expression { m_nodes := [] } t3 <;>
      rw [h4] at h <;> simp only [Accept.andThen, Accept.orThrow, reduceCtorEq] at h
    rename_i init t4
    cases h5 : do_match_punctuator t4 Token.Punctuator.punctuator_semicol <;>
      rw [h5] at h <;> simp only [Accept.andThen, Accept.orThrow, reduceCtorEq] at h
    rename_i u5 t5
    simp only [Accept.accepted.injEq] at h
    exact ⟨name, init, h.1.symm⟩

/-- Witness of C21: `const x ;` raises the error at the semicolon, `var x ;`
is accepted, and `const x = 1 ;` gives an immutable definition. -/
theorem variable_definition_initializers_witness :
    do_accept_immutable_variable_definition
        [witness_token 0 5 (.S_keyword .keyword_const), witness_token 6 1 (.S_identifier "x"),
          witness_token 8 1 (.S_punctuator .punctuator_semicol)] =
      Accept.thrown
        { m_line := 1, m_offset := 8, m_length := 1,
          m_error := Parser_result.Error.error_equals_sign_expected }
        [witness_token 8 1 (.S_punctuator .punctuator_semicol)] ∧
    do_accept_variable_definition
        [witness_token 0 3 (.S_keyword .keyword_var), witness_token 4 1 (.S_identifier "x"),
          witness_token 6 1 (.S_punctuator .punctuator_semicol)] =
      Accept.accepted ( Statement.S_var_def "x" false { m_nodes := [] }) [] ∧
    ∃ name init, Statement.S_var_def "x" true { m_nodes := [] } =
      Statement.S_var_def name true init :=
  ⟨variable_definition_initializers.1 _ _ _ _ "x" rfl rfl (by decide),
    variable_definition_initializers.2.1 _ _ _ _ "x" rfl rfl rfl,
    variable_definition_initializers.2.2
      [witness_token 0 5 (.S_keyword .keyword_const), witness_token 6 1 (.S_identifier "x"),
        witness_token 8 1 (.S_punctuator .punctuator_assign),
        witness_token 10 1 (.S_integer_literal 1),
        witness_token 12 1 (.S_punctuator .punctuator_semicol)] [] _ rfl⟩

/-! ## Calling a function -/

/-- C22: calling a null function is an error and native functions take
precedence. `cow_function::invoke_ptc_aware` throws, with the message "attempt
to dereference a null function pointer", if and only if both the native
function pointer and the dynamic callable are null; when the native pointer is
not null it is the one called, whether or not a dynamic callable is set;
otherwise the dynamic callable is called. -/
theorem invoke_ptc_aware_dispatch {Reference Global_Context Outcome : Type}
    (f : cow_function Reference Global_Context Outcome) (self : Reference)
    (global : Global_Context) (args : List Reference) :
    ((∃ msg, f.invoke_ptc_aware self global args = Except.error msg) ↔
      (f.m_fptr = none ∧ f.m_sptr = none)) ∧
    (∀ msg, f.invoke_ptc_aware self global args = Except.error msg →
      msg = "attempt to dereference a null function pointer") ∧
    (∀ fptr, f.m_fptr = some fptr →
      f.invoke_ptc_aware self global args = Except.ok (fptr self args global)) ∧
    (∀ ptr, f.m_fptr = none → f.m_sptr = some ptr →
      f.invoke_ptc_aware self global args = Except.ok (ptr self global args)) := by
  unfold cow_function.invoke_ptc_aware
  cases hf : f.m_fptr with
  | some fptr =>
    refine ⟨⟨fun ⟨msg, h⟩ => by simp at h, fun h => by simp at h⟩, fun msg h => by simp at h,
      fun fp h => by cases h; rfl, fun ptr h => by simp at h⟩
  | none =>
    cases hs : f.m_sptr with
    | none =>
      refine ⟨⟨fun _ => ⟨rfl, rfl⟩, fun _ => ⟨_, rfl⟩⟩, fun msg h => ?_, fun fp h => by simp at h,
        fun ptr _ h => by simp at h⟩
      simp only [Except.error.injEq] at h
      exact h.symm
    | some ptr =>
      refine ⟨⟨fun ⟨msg, h⟩ => by simp at h, fun h => by simp at h⟩, fun msg h => by simp at h,
        fun fp h => by simp at h, fun p _ h => by cases h; rfl⟩

/-- Witness of C22: a function with both pointers set calls the native one. -/
theorem invoke_ptc_aware_dispatch_witness :
    (cow_function.invoke_ptc_aware
      ({ m_desc := "f", m_fptr := some fun _ _ _ => 1, m_sptr := some fun _ _ _ => 2 } :
        cow_function Nat Nat Nat) 0 0 []) = Except.ok 1 :=
  (invoke_ptc_aware_dispatch _ 0 0 []).2.2.1 _ rfl

/-! ## Names of the types -/

/-- C23: `describe_vtype` names exactly the nine scripting types. It maps the
nine type tags to "null", "boolean", "integer", "real", "string", "opaque",
"function", "array" and "object" in this order, these nine names are pairwise
different, and every other tag maps to "<unknown data type>". -/
theorem describe_vtype_names :
    [vtype_null, vtype_boolean, vtype_integer, vtype_real, vtype_string, vtype_opaque,
        vtype_function, vtype_array, vtype_object].map describe_vtype =
      ["null", "boolean", "integer", "real", "string", "opaque", "function", "array",
        "object"] ∧
    ["null", "boolean", "integer", "real", "string", "opaque", "function", "array",
      "object"].Nodup ∧
    ∀ vtype : Vtype,
      vtype ∉ [vtype_null, vtype_boolean, vtype_integer, vtype_real, vtype_string,
        vtype_opaque, vtype_function, vtype_array, vtype_object] →
      describe_vtype vtype = "<unknown data type>" := by
  refine ⟨by decide, by decide, ?_⟩
  intro vtype h
  simp only [List.mem_cons, List.mem_singleton, not_or, List.not_mem_nil, or_false] at h
  obtain ⟨h0, h1, h2, h3, h4, h5, h6, h7, h8⟩ := h
  simp only [describe_vtype, h0, h1, h2, h3, h4, h5, h6, h7, h8, if_false]


/-! ## Destruction of a queue -/

/-- C27: for every `AVMC_Queue`, destroying it or calling `clear()` invokes the
destructor of each node that recorded a non-null destructor exactly once, in
reverse append order, and skips the nodes with trivial payloads: the calls are
the reverse of the list of the nodes with a destructor, and there are as many
calls as such nodes. `clear()` leaves a queue with no storage, reservation 0
and used size 0. The nodes of a queue are those appended to a new queue, in
the order of the appends. -/
theorem clear_destroys_in_reverse (q : AVMC_Queue) :
    q.clear.1 =
      (q.nodes.filterMap fun node => node.dtor.map fun dtor =>
        (dtor, node.paramu, node.paramv)).reverse ∧
    q.destroy = q.clear.1 ∧
    q.clear.1.length = q.nodes.countP (fun node => node.dtor.isSome) ∧
    q.clear.2 = { m_bptr := none, m_rsrv := 0, m_used := 0 } ∧
    q.clear.2.empty = true ∧
    ∀ nodes : List AVMC_Queue.Header,
      (AVMC_Queue.append_all {} nodes).nodes = nodes ∧
      (AVMC_Queue.append_all {} nodes).clear.1 =
        (nodes.filterMap fun node => node.dtor.map fun dtor =>
          (dtor, node.paramu, node.paramv)).reverse := by
  have hcalls : ∀ q : AVMC_Queue, q.clear.1 =
      (q.nodes.filterMap fun node => node.dtor.map fun dtor =>
        (dtor, node.paramu, node.paramv)).reverse := by
    intro q
    unfold AVMC_Queue.clear AVMC_Queue.do_deallocate_storage AVMC_Queue.nodes
    cases q.m_bptr with
    | none => rfl
    | some nodes => simp [List.filterMap_reverse]
  have hnodes : ∀ nodes : List AVMC_Queue.Header,
      (AVMC_Queue.append_all {} nodes).nodes = nodes := by
    intro nodes
    rw [AVMC_Queue.nodes_append_all]
    rfl
  have h1 := hcalls q
  refine ⟨h1, ?_, ?_, rfl, rfl, fun nodes => ⟨hnodes nodes, by rw [hcalls, hnodes]⟩⟩
  · rfl
  · rw [h1, List.length_reverse]
    induction q.nodes with
    | nil => rfl
    | cons n t ih =>
      cases hd : n.dtor with
      | none => simp [List.filterMap_cons, hd, ih]
      | some d => simp [List.filterMap_cons, hd, ih]


/-! ## References: materialization, writes through indices, unset -/

/-- C25: a write through a negative array index that reaches before the head
extends the array at the front. For a materialized reference `r` that holds
null: zoomed into index -3 it reads null; after a write of `v` there, zooming
out and into index 0 reads `v`, and `r` holds the three-element array
`[v, null, null]`; an element `w` written then at index 2 is read back through
index -1. -/
theorem negative_index_extends_front (v w : Value) (pool : List Value) :
    Reference.read
        ((Reference.materialize
            { m_root := Reference_Root.S_temporary Value.null, m_mods := [] } pool).1.zoom_in
          (Reference_Modifier.S_array_index (-3)))
        (Reference.materialize
            { m_root := Reference_Root.S_temporary Value.null, m_mods := [] } pool).2
      = Except.ok Value.null ∧
    ∃ pool2,
      Reference.write
          ((Reference.materialize
              { m_root := Reference_Root.S_temporary Value.null, m_mods := [] } pool).1.zoom_in
            (Reference_Modifier.S_array_index (-3)))
          v
          (Reference.materialize
              { m_root := Reference_Root.S_temporary Value.null, m_mods := [] } pool).2
        = Except.ok pool2 ∧
      Reference.read
          ((((Reference.materialize
              { m_root := Reference_Root.S_temporary Value.null, m_mods := [] } pool).1.zoom_in
            (Reference_Modifier.S_array_index (-3))).zoom_out).zoom_in
            (Reference_Modifier.S_array_index 0))
          pool2
        = Except.ok v ∧
      Reference.read
          (Reference.materialize
              { m_root := Reference_Root.S_temporary Value.null, m_mods := [] } pool).1
          pool2
        = Except.ok (Value.array [v, Value.null, Value.null]) ∧
      ∃ pool3,
        Reference.write
            ((Reference.materialize
                { m_root := Reference_Root.S_temporary Value.null, m_mods := [] } pool).1.zoom_in
              (Reference_Modifier.S_array_index 2))
            w pool2
          = Except.ok pool3 ∧
        Reference.read
            ((Reference.materialize
                { m_root := Reference_Root.S_temporary Value.null, m_mods := [] } pool).1.zoom_in
              (Reference_Modifier.S_array_index (-1)))
            pool3
          = Except.ok w ∧
        Reference.read
            (Reference.materialize
                { m_root := Reference_Root.S_temporary Value.null, m_mods := [] } pool).1
            pool3
          = Except.ok (Value.array [v, Value.null, w]) := by
  have hlen : ∀ x : Value, pool.length < (pool ++ [x]).length := by intro x; simp
  simp only [Reference.materialize, Reference.zoom_in, Reference.zoom_out, List.nil_append,
    List.dropLast_single]
  refine ⟨?_, pool ++ [Value.array [v, Value.null, Value.null]], ?_, ?_, ?_,
    pool ++ [Value.array [v, Value.null, w]], ?_, ?_, ?_⟩
  · rw [Reference.read_variable _ _ _ (hlen _), Value.pool_getD_concat]
    rfl
  · rw [Reference.write_variable _ _ _ _ (hlen _), Value.pool_getD_concat]
    have hw : Value.write_at [Reference_Modifier.S_array_index (-3)] v Value.null
        = Except.ok (Value.array [v, Value.null, Value.null]) := rfl
    simp only [hw, Value.pool_set_concat]
  · rw [Reference.read_variable _ _ _ (hlen _), Value.pool_getD_concat]
    rfl
  · rw [Reference.read_variable _ _ _ (hlen _), Value.pool_getD_concat]
    rfl
  · rw [Reference.write_variable _ _ _ _ (hlen _), Value.pool_getD_concat]
    have hw : Value.write_at [Reference_Modifier.S_array_index 2] w
        (Value.array [v, Value.null, Value.null])
        = Except.ok (Value.array [v, Value.null, w]) := rfl
    simp only [hw, Value.pool_set_concat]
  · rw [Reference.read_variable _ _ _ (hlen _), Value.pool_getD_concat]
    rfl
  · rw [Reference.read_variable _ _ _ (hlen _), Value.pool_getD_concat]
    rfl

/-- C26: unset returns what it removes. For a reference `r` to a variable whose
modifiers end in an object key and that reads `v`: `unset(r)` returns `v`, a
following `read(r)` yields null, and a second `unset(r)` returns null. -/
theorem unset_returns_removed (r : Reference) (var : Nat) (mods : List Reference_Modifier)
    (key : String) (v : Value) (pool : List Value)
    (hroot : r.m_root = Reference_Root.S_variable (some var))
    (hmods : r.m_mods = mods ++ [Reference_Modifier.S_object_key key])
    (hread : r.read pool = Except.ok v) :
    ∃ pool1 pool2,
      r.unset pool = Except.ok (v, pool1) ∧
      r.read pool1 = Except.ok Value.null ∧
      r.unset pool1 = Except.ok (Value.null, pool2) := by
  obtain ⟨root, ms⟩ := r
  simp only at hroot hmods
  subst hroot hmods
  have hlt : var < pool.length := by
    by_contra hge
    have hnone : pool.get? var = none := by
      rw [List.get?_eq_getElem?]
      exact List.getElem?_eq_none (Nat.le_of_not_lt hge)
    simp only [Reference.read, Reference_Root.dereference_const, hnone] at hread
    exact Except.noConfusion hread
  rw [Reference.read_variable _ _ _ hlt] at hread
  obtain ⟨p1, p2, h1, h2, h3⟩ := Value.unset_at_key_spec key mods _ v hread
  have hlt1 : var < (pool.set var p1).length := by rw [List.length_set]; exact hlt
  refine ⟨pool.set var p1, (pool.set var p1).set var p2, ?_, ?_, ?_⟩
  · rw [Reference.unset_variable _ _ _ _ hlt, h1]
  · rw [Reference.read_variable _ _ _ hlt1, Value.pool_getD_set _ _ _ hlt, h2]
  · rw [Reference.unset_variable _ _ _ _ hlt1, Value.pool_getD_set _ _ _ hlt, h3]

/-- Witness of C26: the reference of `test/reference.cpp`, index -1 and then
the key `my_key`, into the array of 36, null and an object with `my_key` set
to 10.5. -/
theorem unset_returns_removed_witness :
    ∃ pool1 pool2,
      Reference.unset
          { m_root := Reference_Root.S_variable (some 0),
            m_mods := [Reference_Modifier.S_array_index (-1),
              Reference_Modifier.S_object_key "my_key"] }
          [Value.array [Value.integer 36, Value.null,
            Value.object [("my_key", Value.real 0x4025000000000000)]]]
        = Except.ok (Value.real 0x4025000000000000, pool1) ∧
      Reference.read
          { m_root := Reference_Root.S_variable (some 0),
            m_mods := [Reference_Modifier.S_array_index (-1),
              Reference_Modifier.S_object_key "my_key"] }
          pool1
        = Except.ok Value.null ∧
      Reference.unset
          { m_root := Reference_Root.S_variable (some 0),
            m_mods := [Reference_Modifier.S_array_index (-1),
              Reference_Modifier.S_object_key "my_key"] }
          pool1
        = Except.ok (Value.null, pool2) :=
  unset_returns_removed
    { m_root := Reference_Root.S_variable (some 0),
      m_mods := [Reference_Modifier.S_array_index (-1),
        Reference_Modifier.S_object_key "my_key"] }
    0 [Reference_Modifier.S_array_index (-1)] "my_key" (Value.real 0x4025000000000000)
    [Value.array [Value.integer 36, Value.null,
      Value.object [("my_key", Value.real 0x4025000000000000)]]]
    rfl rfl rfl


/-! ## The first candidate in the order of probing -/

/-- C30, as amended: for `begin <= to <= from <= end`, `linear_probe` returns
the first bucket, in the order `from`, ..., `end - 1`, `begin`, ..., `to - 1`,
that is empty or satisfies `pred`; it calls `pred` on the buckets that precede
the returned one in that order, all of which are non-empty, and on the returned
one itself when that is non-empty, and on no other bucket; and it returns null
if and only if no bucket of the two ranges is empty or satisfies `pred`. -/
theorem linear_probe_first_candidate (live p : Nat → Bool) (begin to_ from_ end_ : Nat)
    (_h1 : begin ≤ to_) (_h2 : to_ ≤ from_) (_h3 : from_ ≤ end_) :
    (linear_probe.logged live p begin to_ from_ end_).1 =
      (linear_probe.order begin to_ from_ end_).find? (fun i => !live i || p i) ∧
    (linear_probe.logged live p begin to_ from_ end_).2 =
      (match (linear_probe.logged live p begin to_ from_ end_).1 with
        | some r => (linear_probe.order begin to_ from_ end_).takeWhile (fun i => i != r) ++
            (if live r then [r] else [])
        | none => linear_probe.order begin to_ from_ end_) ∧
    (∀ b ∈ (linear_probe.logged live p begin to_ from_ end_).2, live b = true) ∧
    ((linear_probe.logged live p begin to_ from_ end_).1 = none ↔
      ∀ i ∈ linear_probe.order begin to_ from_ end_, live i = true ∧ p i = false) := by
  rw [linear_probe.logged_spec]
  simp only
  refine ⟨trivial, ?_, ?_, ?_⟩
  · cases hf : (linear_probe.order begin to_ from_ end_).find? (fun i => !live i || p i) with
    | some r => simp only; rw [takeWhile_until_found _ r hf]
    | none => simp only [List.append_nil]; exact takeWhile_of_find?_none _ _ hf
  · intro b hb
    rw [List.mem_append] at hb
    rcases hb with hb | hb
    · have := mem_takeWhile_not (q := fun i => !live i || p i) _ b hb
      simp only [Bool.or_eq_false_iff, Bool.not_eq_false'] at this
      exact this.1
    · cases hf : (linear_probe.order begin to_ from_ end_).find? (fun i => !live i || p i) with
      | some r =>
        rw [hf] at hb
        simp only at hb
        split_ifs at hb with hl
        · simp only [List.mem_singleton] at hb
          rw [hb]; exact hl
        · simp at hb
      | none => rw [hf] at hb; simp at hb
  · rw [List.find?_eq_none]
    constructor
    · intro h i hi
      have := h i hi
      simp only [Bool.or_eq_true, Bool.not_eq_true', not_or, Bool.not_eq_false,
        Bool.not_eq_true] at this
      exact this
    · intro h i hi
      have := h i hi
      simp only [Bool.or_eq_true, Bool.not_eq_true', not_or, Bool.not_eq_false,
        Bool.not_eq_true]
      exact this

/-- Witness of C30: four buckets, probing from bucket 2 round to bucket 2, with
buckets 2 and 3 non-empty and bucket 0 empty: buckets 2 and 3 are tried, and
bucket 0 is returned. -/
theorem linear_probe_first_candidate_witness :
    (0 : Nat) ≤ 2 ∧ (2 : Nat) ≤ 2 ∧ (2 : Nat) ≤ 4 ∧
    linear_probe.logged (fun i => decide (2 ≤ i)) (fun _ => false) 0 2 2 4 =
      (some 0, [2, 3]) :=
  ⟨by decide, by decide, by decide,
    Prod.ext
      ((linear_probe_first_candidate (fun i => decide (2 ≤ i)) (fun _ => false) 0 2 2 4
        (by decide) (by decide) (by decide)).1.trans (by decide))
      ((linear_probe_first_candidate (fun i => decide (2 ≤ i)) (fun _ => false) 0 2 2 4
        (by decide) (by decide) (by decide)).2.1.trans (by decide))⟩

/-- C30, as stated, fails where the returned bucket is non-empty: in a table of
one non-empty bucket that satisfies the predicate, `linear_probe` returns
bucket 0 after calling the predicate on bucket 0, which does not precede the
returned bucket. -/
theorem linear_probe_calls_counterexample :
    linear_probe.logged (fun _ => true) (fun _ => true) 0 0 0 1 = (some 0, [0]) ∧
    ¬ linear_probe.Calls_Precede (linear_probe.order 0 0 0 1)
        (linear_probe.logged (fun _ => true) (fun _ => true) 0 0 0 1).1
        (linear_probe.logged (fun _ => true) (fun _ => true) 0 0 0 1).2 := by
  refine ⟨by decide, ?_⟩
  intro h
  have := h 0 (by decide)
  revert this
  decide


/-! ## Assertions and bounds of the chunked hashers -/

/-- C28: the assertions and the bounds of the buffer of the chunked hashers
always hold. For `MD5_Hasher`, `SHA1_Hasher` and `SHA256_Hasher` and every
sequence `ds` of `update` calls on a new hasher followed by `finish`, the
functions with the checks return what the functions without them return: every
write into the 64-byte buffer stays within indices 0 to 63, `m_size % 64` is 0
whenever a buffered chunk is consumed in `update`, all input bytes are consumed
when `update` returns (`bp == ep`), and exactly 8 bytes remain in the buffer
when `finish` writes the number of bits (`ec - bc == 8`). -/
theorem hasher_assertions_hold (m_chunk : List Nat) (ds : List (List Nat))
    (h : m_chunk.length = 64) :
    (Chunk_Hasher.updates_checked MD5_Hasher.do_consume_chunk (MD5_Hasher.new m_chunk) ds =
        some (ds.foldl MD5_Hasher.update (MD5_Hasher.new m_chunk)) ∧
      Chunk_Hasher.finish_checked MD5_Hasher.do_consume_chunk false MD5_Hasher.init
          (ds.foldl MD5_Hasher.update (MD5_Hasher.new m_chunk)) =
        some (MD5_Hasher.finish (ds.foldl MD5_Hasher.update (MD5_Hasher.new m_chunk)))) ∧
    (Chunk_Hasher.updates_checked SHA1_Hasher.do_consume_chunk (SHA1_Hasher.new m_chunk) ds =
        some (ds.foldl SHA1_Hasher.update (SHA1_Hasher.new m_chunk)) ∧
      Chunk_Hasher.finish_checked SHA1_Hasher.do_consume_chunk true SHA1_Hasher.init
          (ds.foldl SHA1_Hasher.update (SHA1_Hasher.new m_chunk)) =
        some (SHA1_Hasher.finish (ds.foldl SHA1_Hasher.update (SHA1_Hasher.new m_chunk)))) ∧
    (Chunk_Hasher.updates_checked SHA256_Hasher.do_consume_chunk (SHA256_Hasher.new m_chunk)
          ds =
        some (ds.foldl SHA256_Hasher.update (SHA256_Hasher.new m_chunk)) ∧
      Chunk_Hasher.finish_checked SHA256_Hasher.do_consume_chunk true SHA256_Hasher.init
          (ds.foldl SHA256_Hasher.update (SHA256_Hasher.new m_chunk)) =
        some (SHA256_Hasher.finish
          (ds.foldl SHA256_Hasher.update (SHA256_Hasher.new m_chunk)))) :=
  ⟨⟨(Chunk_Hasher.updates_checked_eq _ ds _ ⟨h, show (0 : Nat) < 2 ^ 64 by norm_num⟩).1,
      Chunk_Hasher.finish_checked_eq _ _ _ _⟩,
    ⟨(Chunk_Hasher.updates_checked_eq _ ds _ ⟨h, show (0 : Nat) < 2 ^ 64 by norm_num⟩).1,
      Chunk_Hasher.finish_checked_eq _ _ _ _⟩,
    ⟨(Chunk_Hasher.updates_checked_eq _ ds _ ⟨h, show (0 : Nat) < 2 ^ 64 by norm_num⟩).1,
      Chunk_Hasher.finish_checked_eq _ _ _ _⟩⟩

/-- Witness of C28: the updates "a" and "bc" on an MD5 hasher whose buffer
holds 64 bytes 0xAA pass every check. -/
theorem hasher_assertions_hold_witness :
    (List.replicate 64 0xAA).length = 64 ∧
    Chunk_Hasher.updates_checked MD5_Hasher.do_consume_chunk
        (MD5_Hasher.new (List.replicate 64 0xAA)) [[0x61], [0x62, 0x63]] =
      some ([[0x61], [0x62, 0x63]].foldl MD5_Hasher.update
        (MD5_Hasher.new (List.replicate 64 0xAA))) :=
  ⟨by decide,
    (hasher_assertions_hold (List.replicate 64 0xAA) [[0x61], [0x62, 0x63]] (by decide)).1.1⟩

/-! ## Padding of the chunked hashers -/

/-- C29: the chunked hashers apply the Merkle-Damgard padding. For every
message `m` of `L` bytes, the 64-byte chunks passed to `do_consume_chunk` over
`update(m)` and `finish()` are the split of `m ++ [0x80] ++` zero bytes `++` the
64-bit encoding of `8 * L` (least significant byte first for MD5, most
significant byte first for SHA-1 and SHA-256), with the least number of zero
bytes that makes the total a multiple of 64; the number of chunks is
`ceil((L + 9) / 64)`. The first part holds for the text of `update` and `finish`
with any function in the place of `do_consume_chunk`. -/
theorem merkle_damgard_padding (m_chunk m : List Nat) (h : m_chunk.length = 64) :
    (∀ (f : List Nat → List Nat → List Nat) (bigendT : Bool) (init regs : List Nat),
      (Chunk_Hasher.finish f bigendT init
          (Chunk_Hasher.update f { m_regs := regs, m_size := 0, m_chunk := m_chunk } m)).1 =
        ((split_chunks (md_pad bigendT m)).foldl f regs).foldl (do_pdigits_impl bigendT) "") ∧
    std_checksum_md5 m_chunk m =
      ((split_chunks (md_pad false m)).foldl MD5_Hasher.do_consume_chunk
        MD5_Hasher.init).foldl do_pdigits_le "" ∧
    std_checksum_sha1 m_chunk m =
      ((split_chunks (md_pad true m)).foldl SHA1_Hasher.do_consume_chunk
        SHA1_Hasher.init).foldl do_pdigits_be "" ∧
    std_checksum_sha256 m_chunk m =
      ((split_chunks (md_pad true m)).foldl SHA256_Hasher.do_consume_chunk
        SHA256_Hasher.init).foldl do_pdigits_be "" ∧
    (∀ bigendT : Bool, (md_pad bigendT m).length % 64 = 0 ∧
      (split_chunks (md_pad bigendT m)).length = (m.length + 9 + 63) / 64) ∧
    ((m.length + 9 + md_pad.zeros m.length) % 64 = 0 ∧
      ∀ z, (m.length + 9 + z) % 64 = 0 → md_pad.zeros m.length ≤ z) :=
  ⟨fun f bigendT init regs => Chunk_Hasher.finish_padding f bigendT init regs m_chunk m h,
    Chunk_Hasher.finish_padding _ false _ _ m_chunk m h,
    Chunk_Hasher.finish_padding _ true _ _ m_chunk m h,
    Chunk_Hasher.finish_padding _ true _ _ m_chunk m h,
    fun bigendT => md_pad_length bigendT m,
    md_pad.zeros_least m.length⟩

/-- Witness of C29: the message "abc" is padded to one chunk, which ends in
the bit count 24. -/
theorem merkle_damgard_padding_witness :
    (List.replicate 64 0xAA).length = 64 ∧
    (split_chunks (md_pad true [0x61, 0x62, 0x63])).length = (3 + 9 + 63) / 64 ∧
    md_pad true [0x61, 0x62, 0x63] =
      [0x61, 0x62, 0x63, 0x80] ++ List.replicate 52 0 ++ [0, 0, 0, 0, 0, 0, 0, 24] :=
  ⟨by decide,
    ((merkle_damgard_padding (List.replicate 64 0xAA) [0x61, 0x62, 0x63]
      (by decide)).2.2.2.2.1 true).2,
    by decide⟩



/-! ## Names of the kinds of frames -/

/-- C35: `describe_frame_type` names exactly the seven kinds of frames. It maps
native, throw, catch, plain, function, defer and assert to "native code",
"throw statement", "catch clause", "frame", "function", "defer statement" and
"assertion failure" in this order, these seven names are pairwise different,
none of them is the name of the default, and every other value maps to
"<unknown frame type>". -/
theorem describe_frame_type_names :
    [frame_type_native, frame_type_throw, frame_type_catch, frame_type_plain,
        frame_type_func, frame_type_defer, frame_type_assert].map describe_frame_type =
      ["native code", "throw statement", "catch clause", "frame", "function",
        "defer statement", "assertion failure"] ∧
    ["native code", "throw statement", "catch clause", "frame", "function",
      "defer statement", "assertion failure", "<unknown frame type>"].Nodup ∧
    ∀ type : Frame_Type,
      type ∉ [frame_type_native, frame_type_throw, frame_type_catch, frame_type_plain,
        frame_type_func, frame_type_defer, frame_type_assert] →
      describe_frame_type type = "<unknown frame type>" := by
  refine ⟨by decide, by decide, ?_⟩
  intro type h
  simp only [List.mem_cons, List.mem_singleton, not_or, List.not_mem_nil, or_false] at h
  obtain ⟨h0, h1, h2, h3, h4, h5, h6⟩ := h
  simp only [describe_frame_type, h0, h1, h2, h3, h4, h5, h6, if_false]


/-! ## Termination of the parser -/

/-- C34: parsing always terminates. For every token stream `Parser::load`
returns, and leaves a suffix of the stream. Every call of
`do_accept_directive_or_statement`, of the two instances of
`do_accept_statement`, of `do_accept_block`, of `do_accept_switch_statement`
and of a clause of it that returns `true` has taken at least one token off the
front of the stream, a call that returns `false` has taken none, and none
reaches the bound of a loop or of the recursion when that is more than the
number of tokens; the same holds of every other `do_match_*` and `do_accept_*`
function; so the statement loops of `Parser::load`, of `do_accept_block`
and of `do_accept_switch_statement` end within one more turn than there are
tokens. -/
theorem parsing_terminates (p : Parser) (toks_io : Token_stream) :
    (∃ r p1 toks1, p.load toks_io = some (r, p1, toks1) ∧ toks1 <:+ toks_io) ∧
    ((∃ stmts toks1, Parser.load.loop toks_io = Accept.accepted stmts toks1 ∧
        toks1 <:+ toks_io) ∨
      (∃ e toks1, Parser.load.loop toks_io = Accept.thrown e toks1 ∧ toks1 <:+ toks_io)) ∧
    (do_accept_directive_or_statement toks_io).Sound_call toks_io ∧
    (∀ out toks1, do_accept_directive_or_statement toks_io = Accept.accepted out toks1 →
      toks1 <:+ toks_io ∧ toks1.length < toks_io.length) ∧
    do_accept_directive_or_statement toks_io ≠ Accept.fuel_out ∧
    ((∀ keyword, (do_match_keyword toks_io keyword).Sound_call toks_io) ∧
      (∀ punct, (do_match_punctuator toks_io punct).Sound_call toks_io) ∧
      (do_accept_identifier toks_io).Sound_call toks_io ∧
      (do_match_string_literal toks_io).Sound_call toks_io ∧
      (do_accept_export_directive toks_io).Sound_call toks_io ∧
      (do_accept_import_directive toks_io).Sound_call toks_io ∧
      (do_accept_null_statement toks_io).Sound_call toks_io ∧
      (do_accept_identifier_list toks_io).Sound_call toks_io ∧
      (∀ expr_out, (do_accept_expression expr_out toks_io).Sound_call toks_io) ∧
      (do_accept_variable_definition toks_io).Sound_call toks_io ∧
      (do_accept_immutable_variable_definition toks_io).Sound_call toks_io ∧
      (do_accept_expression_statement toks_io).Sound_call toks_io ∧
      (do_accept_break_statement toks_io).Sound_call toks_io ∧
      (do_accept_continue_statement toks_io).Sound_call toks_io ∧
      (do_accept_throw_statement toks_io).Sound_call toks_io ∧
      (do_accept_return_statement toks_io).Sound_call toks_io) ∧
    ∀ fuel, toks_io.length ≤ fuel →
      (do_accept_block_statement (do_accept_statement fuel) toks_io).Sound_call toks_io ∧
      (do_accept_function_definition (do_accept_statement fuel) toks_io).Sound_call toks_io ∧
      (do_accept_if_statement (do_accept_statement fuel) toks_io).Sound_call toks_io ∧
      (do_accept_do_while_statement (do_accept_statement fuel) toks_io).Sound_call toks_io ∧
      (do_accept_while_statement (do_accept_statement fuel) toks_io).Sound_call toks_io ∧
      (do_accept_for_statement (do_accept_statement fuel) toks_io).Sound_call toks_io ∧
      (do_accept_try_statement (do_accept_statement fuel) toks_io).Sound_call toks_io ∧
      (do_accept_nonblock_statement (do_accept_statement fuel) toks_io).Sound_call toks_io ∧
      (do_accept_nonblock_statement_block (do_accept_statement fuel) toks_io).Sound_call
        toks_io ∧
      ((do_accept_statement (fuel + 1)).to_statement toks_io).Sound_call toks_io ∧
      ((do_accept_statement (fuel + 1)).to_block toks_io).Sound_call toks_io ∧
      (do_accept_block (do_accept_statement fuel) toks_io).Sound_call toks_io ∧
      (do_accept_switch_statement (do_accept_statement fuel) toks_io).Sound_call toks_io ∧
      (do_accept_switch_statement.clause (do_accept_statement fuel) toks_io).Sound_call
        toks_io ∧
      (Accept.loop (do_accept_statement (fuel + 1)).to_statement (toks_io.length + 1) []
        toks_io).Sound_opt toks_io ∧
      (Accept.loop (do_accept_switch_statement.clause (do_accept_statement fuel))
        (toks_io.length + 1) [] toks_io).Sound_opt toks_io := by
  have hloop := Parser.load.load_loop_sound toks_io
  have hdir := do_accept_directive_or_statement_sound toks_io
  refine ⟨?_, hloop.ends, hdir, hdir.shortens.1, hdir.shortens.2.2,
    ⟨fun _ => do_match_keyword_sound _ _, fun _ => do_match_punctuator_sound _ _,
      do_accept_identifier_sound _, do_match_string_literal_sound _,
      do_accept_export_directive_sound _, do_accept_import_directive_sound _,
      do_accept_null_statement_sound _, do_accept_identifier_list_sound _,
      fun _ => do_accept_expression_sound _ _, do_accept_variable_definition_sound _,
      do_accept_immutable_variable_definition_sound _, do_accept_expression_statement_sound _,
      do_accept_break_statement_sound _, do_accept_continue_statement_sound _,
      do_accept_throw_statement_sound _, do_accept_return_statement_sound _⟩, ?_⟩
  · unfold Parser.load
    cases hl : Parser.load.loop toks_io with
    | accepted stmts t => rw [hl] at hloop; exact ⟨_, _, _, rfl, hloop⟩
    | rejected t => rw [hl] at hloop; exact hloop.elim
    | thrown e t => rw [hl] at hloop; exact ⟨_, _, _, rfl, hloop.1⟩
    | fuel_out => rw [hl] at hloop; exact hloop.elim
  · intro fuel hf
    have hs := do_accept_statement_sound (fuel + 1) toks_io (by omega)
    have ha := do_accept_statement_sound fuel
    refine ⟨do_accept_block_statement_sound _ fuel ha toks_io hf,
      do_accept_function_definition_sound _ fuel ha toks_io hf,
      do_accept_if_statement_sound _ fuel ha toks_io hf,
      do_accept_do_while_statement_sound _ fuel ha toks_io hf,
      do_accept_while_statement_sound _ fuel ha toks_io hf,
      do_accept_for_statement_sound _ fuel ha toks_io hf,
      do_accept_try_statement_sound _ fuel ha toks_io hf,
      do_accept_nonblock_statement_sound _ fuel ha toks_io hf,
      do_accept_nonblock_statement_block_sound _ fuel ha toks_io hf,
      hs.1, hs.2, do_accept_block_sound _ fuel ha toks_io hf,
      do_accept_switch_statement_sound _ fuel ha toks_io hf,
      do_accept_switch_statement.clause_sound _ fuel ha toks_io hf, ?_, ?_⟩
    · exact (do_accept_statement_sound (fuel + 1)).statements_loop_sound [] toks_io (by omega)
    · refine Accept.loop_sound _ _ _ _ (fun t ht => ?_) (Nat.lt_succ_self _)
      exact do_accept_switch_statement.clause_sound _ fuel ha t
        (le_trans ht.length_le hf)

/-- Witness of C34: the load of the document `export ;` returns, with an
exception, and so does every call on it with the bound 3. -/
theorem parsing_terminates_witness :
    (∃ r p1 toks1,
      Parser.load { m_stor := Parser.Stor.null }
          [witness_token 0 6 (.S_keyword .keyword_export),
            witness_token 7 1 (.S_punctuator .punctuator_semicol)]
        = some (r, p1, toks1) ∧
      toks1 <:+ [witness_token 0 6 (.S_keyword .keyword_export),
        witness_token 7 1 (.S_punctuator .punctuator_semicol)]) ∧
    (do_accept_block (do_accept_statement 3)
        [witness_token 0 6 (.S_keyword .keyword_export),
          witness_token 7 1 (.S_punctuator .punctuator_semicol)]).Sound_call
      [witness_token 0 6 (.S_keyword .keyword_export),
        witness_token 7 1 (.S_punctuator .punctuator_semicol)] :=
  ⟨(parsing_terminates { m_stor := Parser.Stor.null }
      [witness_token 0 6 (.S_keyword .keyword_export),
        witness_token 7 1 (.S_punctuator .punctuator_semicol)]).1,
    ((parsing_terminates { m_stor := Parser.Stor.null }
      [witness_token 0 6 (.S_keyword .keyword_export),
        witness_token 7 1 (.S_punctuator .punctuator_semicol)]).2.2.2.2.2.2 3
      (by decide)).2.2.2.2.2.2.2.2.2.2.2.1⟩

/-! ## Lemmas on the circular list -/

theorem Next_Chain.chain_append (nx : Nat → Option Nat) (B : List Nat) (t : Nat) :
    ∀ A : List Nat,
      Next_Chain nx (A ++ B) t ↔ Next_Chain nx A (B.headD t) ∧ Next_Chain nx B t := by
  intro A
  induction A with
  | nil => simp [Next_Chain]
  | cons x A ih =>
    have hh : (A ++ B).headD t = A.headD (B.headD t) := by cases A <;> rfl
    show (nx x = some ((A ++ B).headD t) ∧ Next_Chain nx (A ++ B) t) ↔ _
    rw [ih, hh]
    simp only [Next_Chain, and_assoc]

theorem Next_Chain.chain_next (nx : Nat → Option Nat) :
    ∀ (L : List Nat) (t x : Nat), Next_Chain nx L t → x ∈ L → ∃ y, nx x = some y := by
  intro L
  induction L with
  | nil => intro t x _ hx; cases hx
  | cons a L ih =>
    intro t x h hx
    rcases List.mem_cons.mp hx with e | e
    · subst e; exact ⟨_, h.1⟩
    · exact ih t x h.2 e

theorem Next_Chain.chain_last (nx : Nat → Option Nat) :
    ∀ (L : List Nat) (t z : Nat), Next_Chain nx L t → L.getLast? = some z →
      nx z = some t := by
  intro L
  induction L with
  | nil => intro t z _ hz; cases hz
  | cons a L ih =>
    intro t z h hz
    cases L with
    | nil =>
      simp only [List.getLast?_singleton, Option.some.injEq] at hz
      subst hz
      exact h.1
    | cons b L =>
      rw [List.getLast?_cons_cons] at hz
      exact ih t z h.2 hz

/-- The list after its last bucket is made to point to `t'` and the bucket `r`
outside of it is emptied. -/
theorem Next_Chain.chain_retarget (nx : Nat → Option Nat) (r z t' : Nat) :
    ∀ (C : List Nat) (t : Nat), Next_Chain nx C t → C.Nodup → r ∉ C →
      C.getLast? = some z →
      Next_Chain (fun x => if x = z then some t' else if x = r then none else nx x) C t' := by
  intro C
  induction C with
  | nil => intro t _ _ _ hz; cases hz
  | cons a C ih =>
    intro t h hnd hr hz
    cases C with
    | nil =>
      simp only [List.getLast?_singleton, Option.some.injEq] at hz
      subst hz
      refine ⟨?_, trivial⟩
      simp
    | cons b C =>
      rw [List.getLast?_cons_cons] at hz
      have hza : z ∈ b :: C := List.mem_of_getLast?_eq_some hz
      have hnd' := List.nodup_cons.mp hnd
      have haz : a ≠ z := fun e => hnd'.1 (e ▸ hza)
      have har : a ≠ r := fun e => hr (e ▸ List.mem_cons_self _ _)
      refine ⟨?_, ih t h.2 hnd'.2 (fun hm => hr (List.mem_cons_of_mem _ hm)) hz⟩
      simp only [haz, har, if_false]
      exact h.1

theorem Reference_Dictionary.List_Is.mem_iff {R : Type} {d : Reference_Dictionary R}
    {L : List Nat} (h : d.List_Is L) (x : Nat) : x ∈ L ↔ d.live x = true := by
  obtain ⟨-, hlive, -, hchain, -⟩ := h
  constructor
  · intro hx
    exact (d.live_iff x).mpr (Next_Chain.chain_next _ L _ x hchain hx)
  · exact hlive x

theorem Reference_Dictionary.List_Is.length_eq {R : Type} {d : Reference_Dictionary R}
    {L : List Nat} (h : d.List_Is L) (hlt : ∀ i, d.live i = true → i < d.eptr) :
    d.count_live = L.length := by
  unfold Reference_Dictionary.count_live
  apply List.Perm.length_eq
  rw [List.perm_ext_iff_of_nodup ((List.nodup_range _).filter _) h.1]
  intro a
  rw [h.mem_iff a, List.mem_filter, List.mem_range]
  constructor
  · intro ha; exact ha.2
  · intro ha; exact ⟨hlt a ha, ha⟩

/-- The list after the bucket `r` is detached: the other buckets, from the one
that followed `r`. -/
theorem Reference_Dictionary.List_Is.list_detach {R : Type} (d : Reference_Dictionary R)
    (L : List Nat) (r : Nat) (h : d.List_Is L) (hring : d.Ring_OK) (hr : d.live r = true) :
    ∃ C, (d.do_list_detach r).List_Is C ∧ C.length + 1 = L.length ∧
      ∀ x, x ∈ C ↔ (x ∈ L ∧ x ≠ r) := by
  have hmem := fun x => h.mem_iff x
  obtain ⟨hnd, hlive, hap, hchain, hprev⟩ := h
  obtain ⟨A, B, hL⟩ := List.append_of_mem (hlive r hr)
  subst hL
  have hhd : (A ++ r :: B).headD 0 = A.headD r := by cases A <;> rfl
  rw [hhd, Next_Chain.chain_append] at hchain
  obtain ⟨hA, hrB, hB⟩ := hchain
  simp only [List.headD_cons] at hA
  have hndm := List.nodup_middle.mp hnd
  obtain ⟨hrn, hndAB⟩ := List.nodup_cons.mp hndm
  have hndC : (B ++ A).Nodup := List.nodup_append_comm.mp hndAB
  have hrC : r ∉ B ++ A := fun hm => hrn (by
    rcases List.mem_append.mp hm with e | e
    · exact List.mem_append_right _ e
    · exact List.mem_append_left _ e)
  have hC : Next_Chain (fun i => (d.bptr i).next) (B ++ A) r :=
    (Next_Chain.chain_append _ A r B).mpr ⟨hB, hA⟩
  have hnr : (d.bptr r).next = some ((B ++ A).headD r) := by
    have : (B ++ A).headD r = B.headD (A.headD r) := by cases B <;> rfl
    rw [this]; exact hrB
  have hmemC : ∀ x, x ∈ B ++ A ↔ (x ∈ A ++ r :: B ∧ x ≠ r) := by
    intro x
    simp only [List.mem_append, List.mem_cons]
    constructor
    · intro hx
      refine ⟨by tauto, fun e => hrC (by rw [← e]; exact List.mem_append.mpr hx)⟩
    · rintro ⟨h1, h2⟩
      tauto
  have hlen : (B ++ A).length + 1 = (A ++ r :: B).length := by
    simp only [List.length_append, List.length_cons]; omega
  obtain ⟨c1, c2, c3, c4, c5⟩ := d.do_list_detach_spec r hring hr
  have hlive' : ∀ x, (d.do_list_detach r).live x = true → x ∈ B ++ A := by
    intro x hx
    obtain ⟨h1, h2⟩ := (c4 x).mp hx
    exact (hmemC x).mpr ⟨hlive x h1, h2⟩
  refine ⟨B ++ A, ?_, hlen, hmemC⟩
  generalize B ++ A = C at hndC hrC hC hnr hlive'
  cases C with
  | nil =>
    simp only [List.headD_nil] at hnr
    obtain ⟨e1, -, -, e4⟩ := d.do_list_detach_self r hnr
    exact ⟨List.nodup_nil, hlive', e1, trivial, fun x hx => by cases hx⟩
  | cons c C =>
    simp only [List.headD_cons] at hnr
    have hcr : c ≠ r := fun e => hrC (e ▸ List.mem_cons_self _ _)
    obtain ⟨z, hz⟩ : ∃ z, (c :: C).getLast? = some z :=
      ⟨(c :: C).getLast (List.cons_ne_nil _ _), List.getLast?_eq_getLast _ _⟩
    have hzr := Next_Chain.chain_last _ _ _ _ hC hz
    have hpv : (d.bptr r).prev = some z := (hring.1 z r hzr).1
    obtain ⟨e1, -, -, e4⟩ := d.do_list_detach_other r c z hnr hpv hcr
    have hnx : (fun i => ((d.do_list_detach r).bptr i).next)
        = fun x => if x = z then some c else if x = r then none else (d.bptr x).next :=
      funext fun x => (e4 x).1
    refine ⟨hndC, hlive', e1, ?_, ?_⟩
    · rw [hnx]
      exact Next_Chain.chain_retarget _ r z c _ r hC hndC hrC hz
    · intro x hx
      simp only [List.head?_cons, Option.some.injEq] at hx
      rw [(e4 x).2.1, hz, ← hx]
      simp
/-! ## Lemmas on the invariant of the list -/

theorem Reference_Dictionary.do_attach_eq_emplace {R : Type} [Inhabited R]
    (d : Reference_Dictionary R) (q : Nat) (name : PreHashed_String) :
    d.do_attach q name =
      { d.emplace q name default with size := (d.emplace q name default).size + 1 } := rfl

/-- What the attachment of the empty bucket `q` with a name and a reference
does. -/
theorem Reference_Dictionary.emplace_spec {R : Type} (d : Reference_Dictionary R) (q : Nat)
    (name : PreHashed_String) (refr : R) (L : List Nat) (h : d.Listed L) (hqn : q < d.eptr)
    (hq : d.live q = false) :
    (d.emplace q name refr).Listed (q :: L) ∧
    (d.emplace q name refr).eptr = d.eptr ∧ (d.emplace q name refr).size = d.size ∧
    (∀ x, (d.emplace q name refr).live x = true ↔ (d.live x = true ∨ x = q)) ∧
    ((d.emplace q name refr).bptr q).kstor = some name ∧
    ((d.emplace q name refr).bptr q).vstor = some refr ∧
    (∀ x, x ≠ q → ((d.emplace q name refr).bptr x).kstor = (d.bptr x).kstor ∧
      ((d.emplace q name refr).bptr x).vstor = (d.bptr x).vstor) ∧
    (∀ nm rf, (d.emplace q name refr).has_pair nm rf ↔
      (d.has_pair nm rf ∨ (nm = name ∧ rf = refr))) := by
  obtain ⟨hring, hlt, hkv, hlist⟩ := h
  have hqL : q ∉ L := fun hm => by
    have := (hlist.mem_iff q).mp hm
    rw [hq] at this; cases this
  have hl1 := Reference_Dictionary.List_Is.list_attach d L q hlist hqL
  unfold Reference_Dictionary.emplace
  obtain ⟨a1, a2, a3, a4, a5⟩ := d.do_list_attach_spec q hring hq
  generalize d.do_list_attach q = s1 at a1 a2 a3 a4 a5 hl1 ⊢
  obtain ⟨b1, b2, b3, b4, b5, b6, b7⟩ := s1.assign_storage q
    (fun b => { b with kstor := some name }) (fun _ => rfl) (fun _ => rfl)
  have hl2 : (s1.assign (some q) (fun b => { b with kstor := some name })).List_Is (q :: L) := by
    apply Reference_Dictionary.List_Is.of_same_links _ _ _ hl1 b4
    · intro x
      simp only [Reference_Dictionary.assign, Function.update_apply]
      split_ifs <;> simp_all
    · intro x
      simp only [Reference_Dictionary.assign, Function.update_apply]
      split_ifs <;> simp_all
  generalize s1.assign (some q) (fun b => { b with kstor := some name }) = s2
    at b1 b2 b3 b4 b5 b6 b7 hl2 ⊢
  obtain ⟨c1, c2, c3, c4, c5, c6, c7⟩ := s2.assign_storage q
    (fun b => { b with vstor := some refr }) (fun _ => rfl) (fun _ => rfl)
  have hl3 : (s2.assign (some q) (fun b => { b with vstor := some refr })).List_Is (q :: L) := by
    apply Reference_Dictionary.List_Is.of_same_links _ _ _ hl2 c4
    · intro x
      simp only [Reference_Dictionary.assign, Function.update_apply]
      split_ifs <;> simp_all
    · intro x
      simp only [Reference_Dictionary.assign, Function.update_apply]
      split_ifs <;> simp_all
  generalize s2.assign (some q) (fun b => { b with vstor := some refr }) = s3
    at c1 c2 c3 c4 c5 c6 c7 hl3 ⊢
  have hring3 : s3.Ring_OK := c1.mpr (b1.mpr a1)
  have heptr : s3.eptr = d.eptr := by rw [c2, b2, a2]
  have hlive : ∀ x, s3.live x = true ↔ (d.live x = true ∨ x = q) := by
    intro x; rw [c5, b5, a4]
  have hkq : (s3.bptr q).kstor = some name := by rw [c7, b7]
  have hvq : (s3.bptr q).vstor = some refr := by rw [c7]
  have hother : ∀ x, x ≠ q → (s3.bptr x).kstor = (d.bptr x).kstor ∧
      (s3.bptr x).vstor = (d.bptr x).vstor := by
    intro x hx
    rw [c6 x hx, b6 x hx, (a5 x).1, (a5 x).2]
    exact ⟨rfl, rfl⟩
  refine ⟨⟨hring3, ?_, ?_, hl3⟩, heptr, by rw [c3, b3, a3], hlive, hkq, hvq, hother, ?_⟩
  · intro x hx
    rw [heptr]
    rcases (hlive x).mp hx with h | h
    · exact hlt x h
    · rw [h]; exact hqn
  · intro x hx
    by_cases hxq : x = q
    · subst hxq; exact ⟨name, refr, hkq, hvq⟩
    · rcases (hlive x).mp hx with h | h
      · rw [(hother x hxq).1, (hother x hxq).2]; exact hkv x h
      · exact absurd h hxq
  · intro nm rf
    constructor
    · rintro ⟨i, h1, h2, h3⟩
      by_cases hiq : i = q
      · subst hiq
        rw [hkq] at h2; rw [hvq] at h3
        exact Or.inr ⟨(Option.some.inj h2).symm, (Option.some.inj h3).symm⟩
      · rcases (hlive i).mp h1 with h | h
        · rw [(hother i hiq).1] at h2; rw [(hother i hiq).2] at h3
          exact Or.inl ⟨i, h, h2, h3⟩
        · exact absurd h hiq
    · rintro (⟨i, h1, h2, h3⟩ | ⟨e1, e2⟩)
      · have hiq : i ≠ q := fun e => by rw [e, hq] at h1; cases h1
        exact ⟨i, (hlive i).mpr (Or.inl h1), by rw [(hother i hiq).1]; exact h2,
          by rw [(hother i hiq).2]; exact h3⟩
      · subst e1 e2
        exact ⟨q, (hlive q).mpr (Or.inr rfl), hkq, hvq⟩

theorem Reference_Dictionary.Listed.listed_allocated (R : Type) (nbkt : Nat) :
    (Reference_Dictionary.allocated R nbkt).Listed [] :=
  ⟨(Reference_Dictionary.allocated_wf R nbkt).1.1, (Reference_Dictionary.allocated_wf R nbkt).1.2.1,
    (Reference_Dictionary.allocated_wf R nbkt).1.2.2.1, Reference_Dictionary.List_Is.of_allocated R nbkt⟩

theorem Reference_Dictionary.Linked.count_eq {R : Type} {d : Reference_Dictionary R}
    (h : d.Linked) : d.count_live = d.size := by
  obtain ⟨L, hL, hs⟩ := h
  rw [hs]
  exact hL.2.2.2.length_eq hL.2.1

/-- `do_attach` on an empty bucket of the table keeps the invariant of the
list, adds one to `size` and adds the pair of the name and the default
reference. -/
theorem Reference_Dictionary.Linked.linked_do_attach {R : Type} [Inhabited R]
    (d : Reference_Dictionary R) (q : Nat) (name : PreHashed_String) (h : d.Linked)
    (hqn : q < d.eptr) (hq : d.live q = false) :
    (d.do_attach q name).Linked ∧ (d.do_attach q name).eptr = d.eptr ∧
    (d.do_attach q name).size = d.size + 1 ∧
    (∀ x, (d.do_attach q name).live x = true ↔ (d.live x = true ∨ x = q)) ∧
    (∀ nm rf, (d.do_attach q name).has_pair nm rf ↔
      (d.has_pair nm rf ∨ (nm = name ∧ rf = default))) := by
  obtain ⟨L, hL, hs⟩ := h
  obtain ⟨e1, e2, e3, e4, e5, e6, e7, e8⟩ := d.emplace_spec q name default L hL hqn hq
  rw [Reference_Dictionary.do_attach_eq_emplace]
  generalize d.emplace q name default = s at e1 e2 e3 e4 e5 e6 e7 e8
  refine ⟨⟨q :: L, e1, ?_⟩, e2, by simp only [e3], e4, e8⟩
  simp only [e3, hs, List.length_cons]
/-! ## The relocation loop and the list -/

/-- The destruction of the name and the reference of a bucket and its
detachment from the list, as `do_detach` and the relocation of a bucket do
them. -/
theorem Reference_Dictionary.Listed.of_vacate {R : Type} (s : Reference_Dictionary R)
    (L : List Nat) (r : Nat) (h : s.Listed L) (hr : s.live r = true) :
    ∃ C,
      (((s.assign (some r) (fun b => { b with kstor := none })).assign (some r)
        (fun b => { b with vstor := none })).do_list_detach r).Listed C ∧
      C.length + 1 = L.length ∧
      (((s.assign (some r) (fun b => { b with kstor := none })).assign (some r)
        (fun b => { b with vstor := none })).do_list_detach r).eptr = s.eptr ∧
      (((s.assign (some r) (fun b => { b with kstor := none })).assign (some r)
        (fun b => { b with vstor := none })).do_list_detach r).size = s.size ∧
      (∀ x, (((s.assign (some r) (fun b => { b with kstor := none })).assign (some r)
        (fun b => { b with vstor := none })).do_list_detach r).live x = true ↔
          (s.live x = true ∧ x ≠ r)) ∧
      (∀ x, x ≠ r →
        ((((s.assign (some r) (fun b => { b with kstor := none })).assign (some r)
          (fun b => { b with vstor := none })).do_list_detach r).bptr x).kstor
            = (s.bptr x).kstor ∧
        ((((s.assign (some r) (fun b => { b with kstor := none })).assign (some r)
          (fun b => { b with vstor := none })).do_list_detach r).bptr x).vstor
            = (s.bptr x).vstor) := by
  obtain ⟨hring, hlt, hkv, hlist⟩ := h
  obtain ⟨a1, a2, a3, a4, a5, a6, a7⟩ := s.assign_storage r (fun b => { b with kstor := none })
    (fun _ => rfl) (fun _ => rfl)
  have hl1 : (s.assign (some r) (fun b => { b with kstor := none })).List_Is L := by
    apply Reference_Dictionary.List_Is.of_same_links _ _ _ hlist a4
    · intro x
      simp only [Reference_Dictionary.assign, Function.update_apply]
      split_ifs <;> simp_all
    · intro x
      simp only [Reference_Dictionary.assign, Function.update_apply]
      split_ifs <;> simp_all
  generalize s.assign (some r) (fun b => { b with kstor := none }) = s1
    at a1 a2 a3 a4 a5 a6 a7 hl1 ⊢
  obtain ⟨b1, b2, b3, b4, b5, b6, b7⟩ := s1.assign_storage r (fun b => { b with vstor := none })
    (fun _ => rfl) (fun _ => rfl)
  have hl2 : (s1.assign (some r) (fun b => { b with vstor := none })).List_Is L := by
    apply Reference_Dictionary.List_Is.of_same_links _ _ _ hl1 b4
    · intro x
      simp only [Reference_Dictionary.assign, Function.update_apply]
      split_ifs <;> simp_all
    · intro x
      simp only [Reference_Dictionary.assign, Function.update_apply]
      split_ifs <;> simp_all
  generalize s1.assign (some r) (fun b => { b with vstor := none }) = s2
    at b1 b2 b3 b4 b5 b6 b7 hl2 ⊢
  have hring2 : s2.Ring_OK := b1.mpr (a1.mpr hring)
  have hr2 : s2.live r = true := by rw [b5, a5]; exact hr
  obtain ⟨C, hC, hlen, -⟩ := Reference_Dictionary.List_Is.list_detach s2 L r hl2 hring2 hr2
  obtain ⟨c1, c2, c3, c4, c5⟩ := s2.do_list_detach_spec r hring2 hr2
  generalize s2.do_list_detach r = s3 at c1 c2 c3 c4 c5 hC ⊢
  have hlive3 : ∀ x, s3.live x = true ↔ (s.live x = true ∧ x ≠ r) := by
    intro x; rw [c4, b5, a5]
  have hstor : ∀ x, x ≠ r → (s3.bptr x).kstor = (s.bptr x).kstor ∧
      (s3.bptr x).vstor = (s.bptr x).vstor := by
    intro x hx
    rw [(c5 x).1, (c5 x).2, b6 x hx, a6 x hx]
    exact ⟨rfl, rfl⟩
  refine ⟨C, ⟨c1, ?_, ?_, hC⟩, hlen, by rw [c2, b2, a2], by rw [c3, b3, a3], hlive3, hstor⟩
  · intro x hx
    rw [c2, b2, a2]
    exact hlt x ((hlive3 x).mp hx).1
  · intro x hx
    obtain ⟨h1, h2⟩ := (hlive3 x).mp hx
    rw [(hstor x h2).1, (hstor x h2).2]
    exact hkv x h1

/-- The first empty bucket on the probe path of a name in a table with an empty
bucket, as the probe with a predicate that is always false finds it. -/
theorem Reference_Dictionary.probe_empty {R : Type} (s : Reference_Dictionary R)
    (name : PreHashed_String) (hempty : s.Has_Empty) :
    ∃ p, (linear_probe Reference_Dictionary.live
        (fun (_ : Nat) (s : Reference_Dictionary R) => (false, s)) 0
        (get_probing_origin 0 s.eptr name.rdhash)
        (get_probing_origin 0 s.eptr name.rdhash) s.eptr s).1 = some p ∧
      p < s.eptr ∧ s.live p = false ∧
      ∀ j, j < s.eptr → cdist s.eptr (s.origin name) j < cdist s.eptr (s.origin name) p →
        s.live j = true := by
  obtain ⟨e, he, hel⟩ := hempty
  have ho : get_probing_origin 0 s.eptr name.rdhash < s.eptr :=
    get_probing_origin_lt 0 s.eptr name.rdhash (by omega)
  obtain ⟨-, hres⟩ := linear_probe_pure Reference_Dictionary.live
    (fun (_ : Reference_Dictionary R) (_ : Nat) => false) s s.eptr
    (get_probing_origin 0 s.eptr name.rdhash) ho
  simp only at hres
  rcases hres with ⟨p, h1, h2, h3, h4⟩ | ⟨-, h2⟩
  · refine ⟨p, h1, h2, ?_, fun j hj hd => (h4 j hj hd).1⟩
    rcases h3 with h3 | h3
    · exact h3
    · cases h3
  · have := (h2 e he).1
    rw [hel] at this; cases this

/-- The relocation of a bucket in use keeps the list, the size and the pairs of
names and references. -/
theorem Reference_Dictionary.Listed.of_relocate {R : Type} (s : Reference_Dictionary R)
    (L : List Nat) (r : Nat) (h : s.Listed L) (hr : s.live r = true) :
    ∃ s' L',
      Reference_Dictionary.do_xrelocate_but.relocate r s = (false, s') ∧
      s'.Listed L' ∧ L'.length = L.length ∧ s'.eptr = s.eptr ∧ s'.size = s.size ∧
      ∀ nm rf, s'.has_pair nm rf ↔ s.has_pair nm rf := by
  have hrn : r < s.eptr := h.2.1 r hr
  obtain ⟨name, refr, hk, hv⟩ := h.2.2.1 r hr
  obtain ⟨C, hC, hlen, v1, v2, v3, v4⟩ := Reference_Dictionary.Listed.of_vacate s L r h hr
  unfold Reference_Dictionary.do_xrelocate_but.relocate
  simp only [hk, hv]
  generalize ((s.assign (some r) (fun b => { b with kstor := none })).assign (some r)
    (fun b => { b with vstor := none })).do_list_detach r = s3 at hC v1 v2 v3 v4 ⊢
  have hempty : s3.Has_Empty := ⟨r, by rw [v1]; exact hrn, by
    have := (v3 r).not
    simpa using this⟩
  obtain ⟨p, hp, hpn, hpl, -⟩ := s3.probe_empty name hempty
  rw [v1] at hp
  simp only [hp]
  obtain ⟨e1, e2, e3, e4, e5, e6, e7, e8⟩ := s3.emplace_spec p name refr C hC hpn hpl
  refine ⟨s3.emplace p name refr, p :: C, rfl, e1, by simp only [List.length_cons, hlen],
    by rw [e2, v1], by rw [e3, v2], ?_⟩
  intro nm rf
  rw [e8]
  constructor
  · rintro (⟨i, h1, h2, h3⟩ | ⟨q1, q2⟩)
    · obtain ⟨g1, g2⟩ := (v3 i).mp h1
      rw [(v4 i g2).1] at h2; rw [(v4 i g2).2] at h3
      exact ⟨i, g1, h2, h3⟩
    · rw [q1, q2]
      exact ⟨r, hr, hk, hv⟩
  · rintro ⟨i, h1, h2, h3⟩
    by_cases hir : i = r
    · subst hir
      rw [hk] at h2; rw [hv] at h3
      exact Or.inr ⟨(Option.some.inj h2).symm, (Option.some.inj h3).symm⟩
    · exact Or.inl ⟨i, (v3 i).mpr ⟨h1, hir⟩, by rw [(v4 i hir).1]; exact h2,
        by rw [(v4 i hir).2]; exact h3⟩

/-- One `for` loop of the relocation keeps the list, the size and the pairs. -/
theorem Reference_Dictionary.Listed.of_relocate_phase {R : Type} (n m sz : Nat)
    (P : PreHashed_String → R → Prop) :
    ∀ (cnt bkt : Nat) (s : Reference_Dictionary R),
      (∃ L, s.Listed L ∧ L.length = m) → s.eptr = n → s.size = sz →
      (∀ nm rf, s.has_pair nm rf ↔ P nm rf) →
      (∃ L, (linear_probe.phase Reference_Dictionary.live
          Reference_Dictionary.do_xrelocate_but.relocate cnt bkt s).2.Listed L ∧
        L.length = m) ∧
      (linear_probe.phase Reference_Dictionary.live
        Reference_Dictionary.do_xrelocate_but.relocate cnt bkt s).2.eptr = n ∧
      (linear_probe.phase Reference_Dictionary.live
        Reference_Dictionary.do_xrelocate_but.relocate cnt bkt s).2.size = sz ∧
      ∀ nm rf, (linear_probe.phase Reference_Dictionary.live
        Reference_Dictionary.do_xrelocate_but.relocate cnt bkt s).2.has_pair nm rf ↔
          P nm rf := by
  intro cnt
  induction cnt with
  | zero => intro bkt s hL he hs hp; exact ⟨hL, he, hs, hp⟩
  | succ cnt ih =>
    intro bkt s hL he hs hp
    unfold linear_probe.phase
    by_cases hl : s.live bkt = true
    · obtain ⟨L, hL1, hL2⟩ := hL
      obtain ⟨s', L', r1, r2, r3, r4, r5, r6⟩ :=
        Reference_Dictionary.Listed.of_relocate s L bkt hL1 hl
      simp only [hl, Bool.not_true, Bool.false_eq_true, if_false, r1]
      exact ih (bkt + 1) s' ⟨L', r2, by rw [r3, hL2]⟩ (by rw [r4, he]) (by rw [r5, hs])
        (fun nm rf => by rw [r6, hp])
    · have hl' : s.live bkt = false := by simpa using hl
      simp only [hl', Bool.not_false, if_true]
      exact ⟨hL, he, hs, hp⟩

/-- `do_detach` on a bucket in use keeps the invariant of the list, takes one
off `size` and removes the pair of that bucket. -/
theorem Reference_Dictionary.Linked.linked_do_detach {R : Type} (d : Reference_Dictionary R)
    (q : Nat) (h : d.Linked) (hq : d.live q = true) :
    (d.do_detach q).Linked ∧ (d.do_detach q).eptr = d.eptr ∧
    (d.do_detach q).size + 1 = d.size ∧
    ∀ nm rf, (d.do_detach q).has_pair nm rf ↔
      ∃ i, i ≠ q ∧ d.live i = true ∧ (d.bptr i).kstor = some nm ∧
        (d.bptr i).vstor = some rf := by
  obtain ⟨L, hL, hs⟩ := h
  have hL0 : ({ d with size := d.size - 1 } : Reference_Dictionary R).Listed L := hL
  obtain ⟨C, hC, hlen, v1, v2, v3, v4⟩ :=
    Reference_Dictionary.Listed.of_vacate { d with size := d.size - 1 } L q hL0 hq
  unfold Reference_Dictionary.do_detach Reference_Dictionary.do_xrelocate_but
  simp only
  generalize ((({ d with size := d.size - 1 } : Reference_Dictionary R).assign (some q)
      (fun b => { b with kstor := none })).assign (some q)
      (fun b => { b with vstor := none })).do_list_detach q = s0 at hC v1 v2 v3 v4 ⊢
  have v1' : s0.eptr = d.eptr := v1
  have v2' : s0.size = d.size - 1 := v2
  have hp0 : ∀ nm rf, s0.has_pair nm rf ↔
      ∃ i, i ≠ q ∧ d.live i = true ∧ (d.bptr i).kstor = some nm ∧
        (d.bptr i).vstor = some rf := by
    intro nm rf
    constructor
    · rintro ⟨i, h1, h2, h3⟩
      obtain ⟨g1, g2⟩ := (v3 i).mp h1
      rw [(v4 i g2).1] at h2; rw [(v4 i g2).2] at h3
      exact ⟨i, g2, g1, h2, h3⟩
    · rintro ⟨i, g2, g1, h2, h3⟩
      exact ⟨i, (v3 i).mpr ⟨g1, g2⟩, by rw [(v4 i g2).1]; exact h2,
        by rw [(v4 i g2).2]; exact h3⟩
  have hphase := Reference_Dictionary.Listed.of_relocate_phase d.eptr C.length (d.size - 1)
    (fun nm rf => ∃ i, i ≠ q ∧ d.live i = true ∧ (d.bptr i).kstor = some nm ∧
        (d.bptr i).vstor = some rf)
  unfold linear_probe
  obtain ⟨k1, k2, k3, k4⟩ := hphase (s0.eptr - (q + 1)) (q + 1) s0 ⟨C, hC, rfl⟩ v1' v2' hp0
  generalize linear_probe.phase Reference_Dictionary.live
    Reference_Dictionary.do_xrelocate_but.relocate (s0.eptr - (q + 1)) (q + 1) s0 = res
    at k1 k2 k3 k4 ⊢
  obtain ⟨r1, s1⟩ := res
  simp only at k1 k2 k3 k4
  have hfin : ∀ s2 : Reference_Dictionary R, (∃ L, s2.Listed L ∧ L.length = C.length) →
      s2.eptr = d.eptr → s2.size = d.size - 1 →
      (∀ nm rf, s2.has_pair nm rf ↔
        ∃ i, i ≠ q ∧ d.live i = true ∧ (d.bptr i).kstor = some nm ∧
          (d.bptr i).vstor = some rf) →
      s2.Linked ∧ s2.eptr = d.eptr ∧ s2.size + 1 = d.size ∧
      ∀ nm rf, s2.has_pair nm rf ↔
        ∃ i, i ≠ q ∧ d.live i = true ∧ (d.bptr i).kstor = some nm ∧
          (d.bptr i).vstor = some rf := by
    intro s2 ⟨L2, hL2, hlen2⟩ he2 hs2 hp2
    refine ⟨⟨L2, hL2, by rw [hs2, hlen2]; omega⟩, he2, by rw [hs2]; omega, hp2⟩
  cases r1 with
  | some b => exact hfin s1 k1 k2 k3 k4
  | none =>
    simp only
    obtain ⟨j1, j2, j3, j4⟩ := hphase (q - 0) 0 s1 k1 k2 k3 k4
    exact hfin _ j1 j2 j3 j4
/-! ## Lemmas on rehashing -/

theorem Next_Chain.chain_congr (nx nx1 : Nat → Option Nat) :
    ∀ (L : List Nat) (t : Nat), (∀ z, z ∈ L → nx1 z = nx z) → Next_Chain nx L t →
      Next_Chain nx1 L t := by
  intro L
  induction L with
  | nil => intro t _ _; trivial
  | cons a L ih =>
    intro t hz h
    exact ⟨by rw [hz a (List.mem_cons_self _ _)]; exact h.1,
      ih t (fun z hm => hz z (List.mem_cons_of_mem _ hm)) h.2⟩

/-- A table whose list is shorter than the table has an empty bucket. -/
theorem Reference_Dictionary.Listed.has_empty {R : Type} {d : Reference_Dictionary R}
    {L : List Nat} (h : d.Listed L) (hlen : L.length < d.eptr) : d.Has_Empty := by
  by_contra hne
  have hall : ∀ i, i < d.eptr → d.live i = true := by
    intro i hi
    by_contra hl
    exact hne ⟨i, hi, by simpa using hl⟩
  have hsub : List.range d.eptr ⊆ L := by
    intro i hi
    exact (h.2.2.2.mem_iff i).mpr (hall i (List.mem_range.mp hi))
  have := ((List.nodup_range d.eptr).subperm hsub).length_le
  rw [List.length_range] at this
  omega

/-- The loop of `do_rehash` places the pairs of the list of the old table, in
the order of the list. -/
theorem Reference_Dictionary.do_rehash.loop_eq_place_all {R : Type} (origin : Nat) :
    ∀ (S : List Nat) (x : Nat) (PS : List (PreHashed_String × R)) (fuel : Nat)
      (bold : Nat → Bucket R) (d : Reference_Dictionary R),
      (x :: S).Nodup → origin ∉ S →
      Next_Chain (fun i => (bold i).next) (x :: S) origin →
      (x :: S).map (fun y => ((bold y).kstor, (bold y).vstor))
        = PS.map (fun pr => (some pr.1, some pr.2)) →
      (x :: S).length ≤ fuel →
      Reference_Dictionary.do_rehash.loop origin fuel bold (some x) d
        = Reference_Dictionary.do_rehash.place_all PS d := by
  intro S
  induction S with
  | nil =>
    intro x PS fuel bold d _ _ hch hmap hf
    cases fuel with
    | zero => simp at hf
    | succ fuel =>
      cases PS with
      | nil => simp at hmap
      | cons pr PS =>
        cases PS with
        | cons pr2 PS => simp at hmap
        | nil =>
          simp only [List.map_cons, List.map_nil, List.cons.injEq, Prod.mk.injEq, and_true]
            at hmap
          obtain ⟨hk, hv⟩ := hmap
          have hn : (bold x).next = some origin := hch.1
          unfold Reference_Dictionary.do_rehash.loop
          simp only [Bucket.live, hn, Option.isSome_some, if_true, hk, hv, ne_eq,
            not_true_eq_false, if_false]
          unfold Reference_Dictionary.do_rehash.place_all Reference_Dictionary.do_rehash.place
          cases (linear_probe Reference_Dictionary.live
            (fun (_ : Nat) (s : Reference_Dictionary R) => (false, s)) 0
            (get_probing_origin 0 d.eptr pr.1.rdhash)
            (get_probing_origin 0 d.eptr pr.1.rdhash) d.eptr d).1 with
          | none => rfl
          | some q =>
            simp only
            by_cases hl : d.live q = true
            · simp only [hl, if_true]
            · simp only [hl, Bool.false_eq_true, if_false]
              rfl
  | cons y S ih =>
    intro x PS fuel bold d hnd ho hch hmap hf
    cases fuel with
    | zero => simp at hf
    | succ fuel =>
      cases PS with
      | nil => simp at hmap
      | cons pr PS =>
        rw [List.map_cons, List.map_cons (l := PS), List.cons.injEq, Prod.mk.injEq] at hmap
        obtain ⟨⟨hk, hv⟩, hmap⟩ := hmap
        have hn : (bold x).next = some y := hch.1
        have hyo : ¬ (some y = some origin) := by
          intro e
          exact ho (by rw [← Option.some.inj e]; exact List.mem_cons_self _ _)
        obtain ⟨hx, hnd1⟩ := List.nodup_cons.mp hnd
        have hupd : ∀ z, z ∈ y :: S →
            Function.update bold x
              { (bold x) with kstor := none, vstor := none, next := none } z = bold z := by
          intro z hz
          have : z ≠ x := fun e => hx (e ▸ hz)
          simp [Function.update_apply, this]
        unfold Reference_Dictionary.do_rehash.loop
        simp only [Bucket.live, hn, Option.isSome_some, if_true, hk, hv, ne_eq, hyo,
          not_false_eq_true]
        unfold Reference_Dictionary.do_rehash.place_all Reference_Dictionary.do_rehash.place
        cases (linear_probe Reference_Dictionary.live
          (fun (_ : Nat) (s : Reference_Dictionary R) => (false, s)) 0
          (get_probing_origin 0 d.eptr pr.1.rdhash)
          (get_probing_origin 0 d.eptr pr.1.rdhash) d.eptr d).1 with
        | none => rfl
        | some q =>
          simp only
          by_cases hl : d.live q = true
          · simp only [hl, if_true]
          · simp only [hl, Bool.false_eq_true, if_false]
            apply ih y PS fuel _ _ hnd1 (fun hm => ho (List.mem_cons_of_mem _ hm))
            · exact Next_Chain.chain_congr _ _ _ _ (fun z hz => by rw [hupd z hz]) hch.2
            · rw [← hmap]
              apply List.map_congr_left
              intro z hz
              rw [hupd z hz]
            · simpa using hf

/-- The attachment of a name that is not stored yet to the first empty bucket on
its probe path keeps the names unique and keeps the probe-path invariant. -/
theorem Reference_Dictionary.emplace_keeps_probing {R : Type} (d : Reference_Dictionary R)
    (q : Nat) (name : PreHashed_String) (refr : R) (L : List Nat) (h : d.Listed L)
    (hqn : q < d.eptr) (hq : d.live q = false)
    (hfirst : ∀ j, j < d.eptr →
      cdist d.eptr (d.origin name) j < cdist d.eptr (d.origin name) q → d.live j = true)
    (hnew : ∀ i, ¬ d.holds i name) (huniq : d.Unique_Names) (hpi : d.Probe_Inv) :
    (d.emplace q name refr).Unique_Names ∧ (d.emplace q name refr).Probe_Inv := by
  obtain ⟨-, heptr, -, hlive, hkq, -, hother, -⟩ := d.emplace_spec q name refr L h hqn hq
  generalize d.emplace q name refr = s3 at heptr hlive hkq hother ⊢
  have hholds : ∀ i nm, i ≠ q → s3.holds i nm → d.holds i nm := by
    intro i nm hiq ⟨h1, h2⟩
    rcases (hlive i).mp h1 with h | h
    · exact ⟨h, by rw [← (hother i hiq).1]; exact h2⟩
    · exact absurd h hiq
  have hnameq : ∀ nm, s3.holds q nm → nm = name := by
    intro nm ⟨_, h2⟩
    rw [hkq] at h2
    exact (Option.some.inj h2).symm
  constructor
  · intro i j nm hi hj
    by_cases hiq : i = q
    · by_cases hjq : j = q
      · rw [hiq, hjq]
      · subst hiq
        have e := hnameq nm hi
        subst e
        exact absurd (hholds j nm hjq hj) (hnew j)
    · by_cases hjq : j = q
      · subst hjq
        have e := hnameq nm hj
        subst e
        exact absurd (hholds i nm hiq hi) (hnew i)
      · exact huniq i j nm (hholds i nm hiq hi) (hholds j nm hjq hj)
  · intro i nm hi hh j hj hd
    rw [heptr] at hi hj
    rw [heptr, s3.origin_congr d heptr nm] at hd
    by_cases hiq : i = q
    · subst hiq
      have e := hnameq nm hh
      subst e
      exact (hlive j).mpr (Or.inl (hfirst j hj hd))
    · exact (hlive j).mpr (Or.inl (hpi i nm hi (hholds i nm hiq hh) j hj hd))

/-- What placing the pairs of a list in a table with enough room does: each
pair is stored, the list of the table grows by one bucket for each, and the
size stays; names that are pairwise different and not stored yet leave the
names unique and keep the probe-path invariant. -/
theorem Reference_Dictionary.do_rehash.place_all_spec {R : Type} :
    ∀ (PS : List (PreHashed_String × R)) (d : Reference_Dictionary R) (L : List Nat),
      d.Listed L → L.length + PS.length < d.eptr →
      ∃ d1 L1, Reference_Dictionary.do_rehash.place_all PS d = some d1 ∧
        d1.Listed L1 ∧ L1.length = L.length + PS.length ∧ d1.eptr = d.eptr ∧
        d1.size = d.size ∧
        (∀ nm rf, d1.has_pair nm rf ↔ (d.has_pair nm rf ∨ (nm, rf) ∈ PS)) ∧
        ((PS.map Prod.fst).Nodup → (∀ pr, pr ∈ PS → ∀ i, ¬ d.holds i pr.1) →
          d.Unique_Names → d.Probe_Inv → d1.Unique_Names ∧ d1.Probe_Inv) := by
  intro PS
  induction PS with
  | nil =>
    intro d L hL _
    exact ⟨d, L, rfl, hL, rfl, rfl, rfl, fun nm rf => by simp,
      fun _ _ hu hp => ⟨hu, hp⟩⟩
  | cons pr PS ih =>
    intro d L hL hlen
    simp only [List.length_cons] at hlen
    obtain ⟨q, hp, hqn, hql, hfirst⟩ := d.probe_empty pr.1 (hL.has_empty (by omega))
    obtain ⟨e1, e2, e3, e4, e5, e6, e7, e8⟩ := d.emplace_spec q pr.1 pr.2 L hL hqn hql
    have hplace : Reference_Dictionary.do_rehash.place d pr = some (d.emplace q pr.1 pr.2) := by
      unfold Reference_Dictionary.do_rehash.place
      simp only [hp, hql, Bool.false_eq_true, if_false]
    obtain ⟨d1, L1, i1, i2, i3, i4, i5, i6, i7⟩ := ih (d.emplace q pr.1 pr.2) (q :: L) e1
      (by rw [e2]; simp only [List.length_cons]; omega)
    refine ⟨d1, L1, ?_, i2, ?_, by rw [i4, e2], by rw [i5, e3], ?_, ?_⟩
    · unfold Reference_Dictionary.do_rehash.place_all
      simp only [hplace]
      exact i1
    · rw [i3]; simp only [List.length_cons]; omega
    · intro nm rf
      rw [i6, e8, List.mem_cons]
      constructor
      · rintro ((h | ⟨q1, q2⟩) | h)
        · exact Or.inl h
        · exact Or.inr (Or.inl (by rw [q1, q2]))
        · exact Or.inr (Or.inr h)
      · rintro (h | h | h)
        · exact Or.inl (Or.inl h)
        · exact Or.inl (Or.inr ⟨by rw [← h], by rw [← h]⟩)
        · exact Or.inr h
    · intro hnd hnew huniq hpi
      simp only [List.map_cons, List.nodup_cons] at hnd
      obtain ⟨k1, k2⟩ := Reference_Dictionary.emplace_keeps_probing d q pr.1 pr.2 L hL hqn hql
        hfirst (hnew pr (List.mem_cons_self _ _)) huniq hpi
      apply i7 hnd.2 _ k1 k2
      intro pr2 hpr2 i hi
      by_cases hiq : i = q
      · subst hiq
        have := hi.2
        rw [e5] at this
        have e : pr.1 = pr2.1 := Option.some.inj this
        exact hnd.1 (by rw [e]; exact List.mem_map_of_mem _ hpr2)
      · have hl : d.live i = true := by
          rcases (e4 i).mp hi.1 with h | h
          · exact h
          · exact absurd h hiq
        exact hnew pr2 (List.mem_cons_of_mem _ hpr2) i
          ⟨hl, by rw [← (e7 i hiq).1]; exact hi.2⟩

theorem Reference_Dictionary.Listed.exists_pairs {R : Type} (bold : Nat → Bucket R) :
    ∀ L : List Nat,
      (∀ y, y ∈ L → ∃ name refr, (bold y).kstor = some name ∧ (bold y).vstor = some refr) →
      ∃ PS : List (PreHashed_String × R),
        L.map (fun y => ((bold y).kstor, (bold y).vstor))
          = PS.map (fun pr => (some pr.1, some pr.2)) := by
  intro L
  induction L with
  | nil => intro _; exact ⟨[], rfl⟩
  | cons a L ih =>
    intro h
    obtain ⟨PS, hPS⟩ := ih (fun y hy => h y (List.mem_cons_of_mem _ hy))
    obtain ⟨name, refr, hk, hv⟩ := h a (List.mem_cons_self _ _)
    exact ⟨(name, refr) :: PS, by simp only [List.map_cons, hk, hv, hPS]⟩

/-- What `do_rehash` does to a dictionary that satisfies the invariant of the
list, when `nbkt / 2 > size` and the bound is not less than `size`. -/
theorem Reference_Dictionary.do_rehash_spec {R : Type} (d : Reference_Dictionary R)
    (nbkt fuel : Nat) (h : d.Linked) (hn : nbkt / 2 > d.size) (hf : d.size ≤ fuel) :
    ∃ d1, d.do_rehash nbkt fuel = some d1 ∧ d1.Linked ∧ d1.eptr = nbkt ∧
      d1.size = d.size ∧
      (∀ nm rf, d1.has_pair nm rf ↔ d.has_pair nm rf) ∧
      (d.Unique_Names → d1.Unique_Names ∧ d1.Probe_Inv) := by
  obtain ⟨L, hL, hs⟩ := h
  obtain ⟨hring, hlt, hkv, hlist⟩ := hL
  have hmem := fun x => hlist.mem_iff x
  have h0 : (⟨Reference_Dictionary.do_allocate_table R nbkt, nbkt, none, d.size⟩ :
      Reference_Dictionary R).Listed [] :=
    Reference_Dictionary.Listed.listed_allocated R nbkt
  have hnp0 : ∀ nm rf, ¬ (⟨Reference_Dictionary.do_allocate_table R nbkt, nbkt, none, d.size⟩ :
      Reference_Dictionary R).has_pair nm rf := by
    rintro nm rf ⟨i, h1, -, -⟩
    cases h1
  unfold Reference_Dictionary.do_rehash
  simp only [hn, if_true]
  cases L with
  | nil =>
    have hap : d.aptr = none := hlist.2.2.1
    simp only [hap]
    refine ⟨_, rfl, ⟨[], h0, hs⟩, rfl, rfl, ?_, fun _ => ⟨?_, ?_⟩⟩
    · intro nm rf
      constructor
      · intro hp; exact absurd hp (hnp0 nm rf)
      · rintro ⟨i, h1, -, -⟩
        have := (hmem i).mpr h1
        cases this
    · intro i j name hi _
      cases hi.1
    · intro i name _ hi
      cases hi.1
  | cons x S =>
    have hap : d.aptr = some x := hlist.2.2.1
    simp only [hap]
    obtain ⟨PS, hPS⟩ := Reference_Dictionary.Listed.exists_pairs d.bptr (x :: S)
      (fun y hy => hkv y ((hmem y).mp hy))
    have hlenPS : PS.length = (x :: S).length := by
      have := congrArg List.length hPS
      simpa using this.symm
    have hnd : (x :: S).Nodup := hlist.1
    have hch : Next_Chain (fun i => (d.bptr i).next) (x :: S) x := hlist.2.2.2.1
    rw [Reference_Dictionary.do_rehash.loop_eq_place_all x S x PS fuel d.bptr _ hnd
      (List.nodup_cons.mp hnd).1 hch hPS (by rw [← hs]; exact hf)]
    obtain ⟨d1, L1, i1, i2, i3, i4, i5, i6, i7⟩ :=
      Reference_Dictionary.do_rehash.place_all_spec PS _ [] h0
        (by simp only [List.length_nil, Nat.zero_add, hlenPS, ← hs]; omega)
    have hpairs : ∀ nm rf, (nm, rf) ∈ PS ↔ d.has_pair nm rf := by
      intro nm rf
      have hiff : (nm, rf) ∈ PS ↔
          ((some nm, some rf) : Option PreHashed_String × Option R) ∈
            PS.map (fun pr => (some pr.1, some pr.2)) := by
        rw [List.mem_map]
        constructor
        · intro hm; exact ⟨(nm, rf), hm, rfl⟩
        · rintro ⟨pr, hm, he⟩
          simp only [Prod.mk.injEq, Option.some.injEq] at he
          have : pr = (nm, rf) := Prod.ext he.1 he.2
          rw [← this]; exact hm
      rw [hiff, ← hPS, List.mem_map]
      constructor
      · rintro ⟨y, hy, he⟩
        simp only [Prod.mk.injEq] at he
        exact ⟨y, (hmem y).mp hy, he.1, he.2⟩
      · rintro ⟨y, h1, h2, h3⟩
        exact ⟨y, (hmem y).mpr h1, by rw [h2, h3]⟩
    refine ⟨d1, i1, ⟨L1, i2, ?_⟩, i4, i5, ?_, ?_⟩
    · rw [i5, i3, hlenPS]; simp only [List.length_nil, Nat.zero_add]; exact hs
    · intro nm rf
      rw [i6, hpairs]
      constructor
      · rintro (hp | hp)
        · exact absurd hp (hnp0 nm rf)
        · exact hp
      · intro hp; exact Or.inr hp
    · intro huniq
      apply i7
      · have hk : (x :: S).map (fun y => (d.bptr y).kstor) = (PS.map Prod.fst).map some := by
          have := congrArg (List.map Prod.fst) hPS
          simpa only [List.map_map, Function.comp_def] using this
        have hndk : ((x :: S).map (fun y => (d.bptr y).kstor)).Nodup := by
          apply List.Nodup.map_on _ hnd
          intro a ha b hb hab
          obtain ⟨name, refr, hka, -⟩ := hkv a ((hmem a).mp ha)
          exact huniq a b name ⟨(hmem a).mp ha, hka⟩ ⟨(hmem b).mp hb, by rw [← hab]; exact hka⟩
        rw [hk] at hndk
        exact hndk.of_map some
      · intro pr _ i hi
        cases hi.1
      · intro i j name hi _
        cases hi.1
      · intro i name _ hi
        cases hi.1

/-- Every dictionary that the calls make of an empty dictionary satisfies the
invariant of the list. -/
theorem Reference_Dictionary.Reachable.linked {R : Type} [Inhabited R]
    {d : Reference_Dictionary R} (h : d.Reachable) : d.Linked := by
  induction h with
  | empty nbkt => exact ⟨[], Reference_Dictionary.Listed.listed_allocated R nbkt, rfl⟩
  | attach d q name _ hqn hq ih => exact (Reference_Dictionary.Linked.linked_do_attach d q name ih hqn hq).1
  | detach d q _ hq ih => exact (Reference_Dictionary.Linked.linked_do_detach d q ih hq).1
  | rehash d d1 nbkt fuel _ hf hre ih =>
    have hn : nbkt / 2 > d.size := by
      by_contra hn
      unfold Reference_Dictionary.do_rehash at hre
      simp only [hn, if_false] at hre
      cases hre
    obtain ⟨d2, h1, h2, -⟩ := d.do_rehash_spec nbkt fuel ih hn hf
    rw [hre] at h1
    rw [Option.some.inj h1]
    exact h2

/-- What the invariant of the list says about the pointers. -/
theorem Reference_Dictionary.Linked.pointers {R : Type} {d : Reference_Dictionary R}
    (h : d.Linked) :
    (d.aptr = none ↔ ∀ b, d.live b = false) ∧
    (∀ b, d.live b = true →
      ∃ n p, (d.bptr b).next = some n ∧ (d.bptr b).prev = some p ∧
        (d.bptr n).prev = some b ∧ (d.bptr p).next = some b ∧
        d.live n = true ∧ d.live p = true) ∧
    (∃ L : List Nat, L.Nodup ∧ (∀ b, b ∈ L ↔ d.live b = true) ∧ d.aptr = L.head? ∧
      d.size = L.length ∧
      ∀ fuel, L.length ≤ fuel → d.enumerate_variables fuel = some L) ∧
    (∀ b, d.live b = false → (d.bptr b).next = none) ∧
    (∀ b, (d.bptr b).kstor = none → (d.bptr b).next = none) ∧
    d.size = d.count_live := by
  have hcount := h.count_eq
  obtain ⟨L, ⟨hring, hlt, hkv, hlist⟩, hs⟩ := h
  have hmem := fun x => hlist.mem_iff x
  refine ⟨?_, ?_, ⟨L, hlist.1, hmem, hlist.2.2.1, hs,
    fun fuel hf => Reference_Dictionary.List_Is.enumerate d L fuel hlist hf⟩, fun b hb => (d.not_live_iff b).mp hb, ?_,
    hcount.symm⟩
  · rw [hlist.2.2.1]
    constructor
    · intro hh b
      have : L = [] := by
        cases L with
        | nil => rfl
        | cons a L => cases hh
      by_contra hb
      have hb' : d.live b = true := by simpa using hb
      have := (hmem b).mpr hb'
      rw [‹L = []›] at this
      cases this
    · intro hall
      cases L with
      | nil => rfl
      | cons a L =>
        have := (hmem a).mp (List.mem_cons_self _ _)
        rw [hall a] at this
        cases this
  · intro b hb
    obtain ⟨n, hn⟩ := (d.live_iff b).mp hb
    obtain ⟨g1, ⟨y, g2⟩, p, g3, g4⟩ := hring.1 b n hn
    exact ⟨n, p, hn, g3, g1, g4, (d.live_iff n).mpr ⟨y, g2⟩, (d.live_iff p).mpr ⟨b, g4⟩⟩
  · intro b hb
    by_contra hne
    have hl : d.live b = true := by
      rw [d.live_iff]
      cases hx : (d.bptr b).next with
      | none => exact absurd hx hne
      | some y => exact ⟨y, rfl⟩
    obtain ⟨name, refr, hk, -⟩ := hkv b hl
    rw [hb] at hk
    cases hk

theorem witness_single_linked : witness_single.Linked :=
  (Reference_Dictionary.Linked.linked_do_attach (Reference_Dictionary.allocated Nat 4) 0
    witness_name_a ⟨[], Reference_Dictionary.Listed.listed_allocated Nat 4, rfl⟩ (by decide) rfl).1

theorem witness_single_unique : witness_single.Unique_Names := by
  have key : ∀ i, witness_single.live i = true → i = 0 := by
    intro i hi
    have := (Reference_Dictionary.Linked.linked_do_attach (Reference_Dictionary.allocated Nat 4) 0
      witness_name_a ⟨[], Reference_Dictionary.Listed.listed_allocated Nat 4, rfl⟩ (by decide)
      rfl).2.2.2.1 i
    rcases this.mp hi with h | h
    · cases h
    · exact h
  intro i j name hi hj
  rw [key i hi.1, key j hj.1]

/-- The table of four buckets with two names, rehashed to eight buckets: the
name with hash value 0 goes to bucket 0, the name with hash value 2 to bucket
1, and the list is 0, 1. A bound of one turn does not suffice for two names,
and four buckets are refused for two names. -/
theorem do_rehash_example :
    (witness_table.do_rehash 8 2).map (fun d =>
      (d.eptr, d.aptr, d.size,
        (List.range 8).map (fun i => ((d.bptr i).next, (d.bptr i).prev,
          (d.bptr i).kstor.map (fun k => k.m_hval), (d.bptr i).vstor))))
      = some (8, some 0, 2,
          [(some 1, some 1, some 0, some 10), (some 0, some 0, some 2, some 11),
           (none, none, none, none), (none, none, none, none), (none, none, none, none),
           (none, none, none, none), (none, none, none, none), (none, none, none, none)]) ∧
    (witness_table.do_rehash 8 1).isSome = false ∧
    (witness_table.do_rehash 4 2).isSome = false :=
  ⟨rfl, rfl, rfl⟩


/-! ## The list, the entries and the size of a dictionary -/

/-- C31: the list of buckets stays a well-formed circular doubly-linked list
over exactly the buckets in use. After any sequence of calls of `do_attach`,
`do_detach` and `do_rehash` that starts from an empty dictionary, `aptr` is
null if and only if no bucket is in use; every bucket `b` in use has a `next`
and a `prev` bucket, both in use, with `b.next.prev == b` and
`b.prev.next == b`; the walk from `aptr` along `next` until `aptr` is met
again, which is the loop of `enumerate_variables`, ends and visits every bucket
in use exactly once; and an empty bucket, and a bucket without a name, has a
null `next` pointer. -/
theorem list_stays_circular {R : Type} [Inhabited R] (d : Reference_Dictionary R)
    (h : d.Reachable) :
    (d.aptr = none ↔ ∀ b, d.live b = false) ∧
    (∀ b, d.live b = true →
      ∃ n p, (d.bptr b).next = some n ∧ (d.bptr b).prev = some p ∧
        (d.bptr n).prev = some b ∧ (d.bptr p).next = some b ∧
        d.live n = true ∧ d.live p = true) ∧
    (∃ L : List Nat, L.Nodup ∧ (∀ b, b ∈ L ↔ d.live b = true) ∧ d.aptr = L.head? ∧
      d.size = L.length ∧
      ∀ fuel, L.length ≤ fuel → d.enumerate_variables fuel = some L) ∧
    (∀ b, d.live b = false → (d.bptr b).next = none) ∧
    (∀ b, (d.bptr b).kstor = none → (d.bptr b).next = none) ∧
    d.size = d.count_live :=
  h.linked.pointers

/-- Witness of C31: the dictionary made of an empty table of four buckets by
`do_attach` on bucket 1 and `do_detach` on it. -/
theorem list_stays_circular_witness :
    (((Reference_Dictionary.allocated Nat 4).do_attach 1 witness_name_a).do_detach 1).aptr
        = none ↔
      ∀ b, (((Reference_Dictionary.allocated Nat 4).do_attach 1 witness_name_a).do_detach
        1).live b = false :=
  (list_stays_circular _
    (Reference_Dictionary.Reachable.detach _ 1
      (Reference_Dictionary.Reachable.attach _ 1 witness_name_a
        (Reference_Dictionary.Reachable.empty 4) (by decide) rfl) rfl)).1

/-- C32: `do_attach` and `do_detach` change exactly one entry. In a dictionary
that satisfies the invariant of the list, so that `size` is the number of
buckets in use: `do_attach(q, name)` on an empty bucket `q` of the table adds 1
to `size` and adds the pair of `name` and the default reference, which is in
`q`; `do_detach(q)` on a bucket in use takes 1 off `size` and removes the pair
of `q`; in both cases the pairs of the other buckets are the same as before,
`size` is the number of buckets in use again and the invariant holds again.
Where no name is stored twice, the pairs after `do_detach(q)` are those whose
name is not the name in `q`. -/
theorem attach_detach_one_entry {R : Type} [Inhabited R] (d : Reference_Dictionary R)
    (h : d.Linked) :
    d.size = d.count_live ∧
    (∀ q name, q < d.eptr → d.live q = false →
      (d.do_attach q name).size = d.size + 1 ∧
      (d.do_attach q name).size = (d.do_attach q name).count_live ∧
      (d.do_attach q name).eptr = d.eptr ∧ (d.do_attach q name).Linked ∧
      (∀ nm rf, (d.do_attach q name).has_pair nm rf ↔
        (d.has_pair nm rf ∨ (nm = name ∧ rf = default)))) ∧
    (∀ q, d.live q = true →
      (d.do_detach q).size + 1 = d.size ∧
      (d.do_detach q).size = (d.do_detach q).count_live ∧
      (d.do_detach q).eptr = d.eptr ∧ (d.do_detach q).Linked ∧
      (∀ nm rf, (d.do_detach q).has_pair nm rf ↔
        ∃ i, i ≠ q ∧ d.live i = true ∧ (d.bptr i).kstor = some nm ∧
          (d.bptr i).vstor = some rf) ∧
      (d.Unique_Names → ∀ nm rf, (d.do_detach q).has_pair nm rf ↔
        (d.has_pair nm rf ∧ (d.bptr q).kstor ≠ some nm))) := by
  refine ⟨h.count_eq.symm, ?_, ?_⟩
  · intro q name hqn hq
    obtain ⟨a1, a2, a3, -, a5⟩ := Reference_Dictionary.Linked.linked_do_attach d q name h hqn hq
    exact ⟨a3, a1.count_eq.symm, a2, a1, a5⟩
  · intro q hq
    obtain ⟨a1, a2, a3, a4⟩ := Reference_Dictionary.Linked.linked_do_detach d q h hq
    refine ⟨a3, a1.count_eq.symm, a2, a1, a4, ?_⟩
    intro hu nm rf
    rw [a4]
    constructor
    · rintro ⟨i, h1, h2, h3, h4⟩
      refine ⟨⟨i, h2, h3, h4⟩, fun hk => h1 ?_⟩
      exact hu i q nm ⟨h2, h3⟩ ⟨hq, hk⟩
    · rintro ⟨⟨i, h2, h3, h4⟩, hk⟩
      refine ⟨i, ?_, h2, h3, h4⟩
      intro e
      rw [e] at h3
      exact hk h3

/-- Witness of C32: the table of four buckets with one name in bucket 0. -/
theorem attach_detach_one_entry_witness :
    witness_single.size = witness_single.count_live ∧
    (witness_single.do_detach 0).size + 1 = witness_single.size :=
  ⟨(attach_detach_one_entry witness_single witness_single_linked).1,
    ((attach_detach_one_entry witness_single witness_single_linked).2.2 0 rfl).1⟩

/-- C33: rehashing keeps every entry and keeps the load factor below 1. For
every dictionary that satisfies the invariant of the list and stores no name
twice, and every `nbkt` with `nbkt / 2 > size`: `do_rehash(nbkt)` returns, its
loop taking no more than `size` turns; after it the table has `nbkt` buckets,
the pairs of names and references and `size` are the same as before, the
number of buckets in use is `size` and is less than half of `nbkt`, and
`do_xprobe` finds every stored name in the bucket that holds it with its
reference. The new table satisfies the invariant of the list and the
probe-path invariant again and has an empty bucket. -/
theorem rehash_keeps_entries {R : Type} (d : Reference_Dictionary R) (nbkt fuel : Nat)
    (h : d.Linked) (hu : d.Unique_Names) (hn : nbkt / 2 > d.size) (hf : d.size ≤ fuel) :
    ∃ d1, d.do_rehash nbkt fuel = some d1 ∧ d1.eptr = nbkt ∧
      (∀ nm rf, d1.has_pair nm rf ↔ d.has_pair nm rf) ∧
      d1.size = d.size ∧ d1.count_live = d1.size ∧ d1.count_live < nbkt / 2 ∧
      (∀ name refr, d.has_pair name refr →
        ∃ q, d1.do_xprobe name = some q ∧ q < nbkt ∧ d1.live q = true ∧
          (d1.bptr q).kstor = some name ∧ (d1.bptr q).vstor = some refr) ∧
      d1.Linked ∧ d1.Unique_Names ∧ d1.Probe_Inv ∧ d1.Has_Empty := by
  obtain ⟨d1, r1, r2, r3, r4, r5, r6⟩ := d.do_rehash_spec nbkt fuel h hn hf
  obtain ⟨hu1, hp1⟩ := r6 hu
  have hcount := r2.count_eq
  obtain ⟨L1, hL1, hs1⟩ := r2
  have hempty : d1.Has_Empty := hL1.has_empty (by rw [← hs1, r4, r3]; omega)
  refine ⟨d1, r1, r3, r5, r4, hcount, by rw [hcount, r4]; exact hn, ?_, ⟨L1, hL1, hs1⟩, hu1,
    hp1, hempty⟩
  intro name refr hp
  obtain ⟨i, h1, h2, h3⟩ := (r5 name refr).mpr hp
  obtain ⟨q, g1, g2, g3, -⟩ := d1.do_xprobe_spec name hempty hp1
  have hq := g3 i (hL1.2.1 i h1) ⟨h1, h2⟩
  have e : q = i := hu1 q i name hq ⟨h1, h2⟩
  subst e
  exact ⟨q, g1, by rw [← r3]; exact g2, h1, h2, h3⟩

/-- Witness of C33: the table of four buckets with one name, rehashed to four
buckets. -/
theorem rehash_keeps_entries_witness :
    ∃ d1, witness_single.do_rehash 4 1 = some d1 ∧ d1.eptr = 4 ∧ d1.size = 1 ∧
      d1.count_live = 1 := by
  obtain ⟨d1, h1, h2, -, h4, h5, -⟩ :=
    rehash_keeps_entries witness_single 4 1 witness_single_linked witness_single_unique
      (by decide) (by decide)
  exact ⟨d1, h1, h2, h4, by rw [h5, h4]; rfl⟩

end Asteria
